import Mathlib

/-!
# Effective-state resolution of the awesome-copilot configuration tool

A shallow embedding of `config-manager.js` (resolution engine and configuration store),
of the delta reporter and the list and toggle commands of `awesome-copilot.js`, and of the
project URL parser of `scripts/test-project-url-parsing.js`.  The sync engine, whose module
`apply-config.js` is not among the sources, is modelled from the specification.

Modelling conventions.
* A JavaScript object is an association list of string keys (the keys of an object
  are distinct) in the order of `Object.keys`: array indices first, in ascending numeric
  order, then the other keys in order of creation.  The list holds the own properties.
  An object has `Object.prototype` as its prototype: an assignment with the key `__proto__`
  reaches the inherited setter and creates no own property (`objAssign`), and a read of a
  key that is not an own property finds the members of `Object.prototype`
  (`truthyMember`, `ReasonsObject.read`).  Object spread and object literals define own
  properties, also with that key (`objSet`).
* A JavaScript `Set` is a duplicate-free list in insertion order, a `Map` an
  association list in insertion order.
* The file system and the modules that are not part of the sources
  (`yaml-parser`, `generate-config`) are the fields of `Env`.
* `console.warn` output is returned as a list of lines.
* A number returned by `parseInt` is a double: a natural number is rounded to the nearest
  double, ties to the even mantissa.
* Where a claim is about what a function leaves unmodified, the function is given a second
  time on a store of arrays or objects with references (`extractConfigOptionInPlace`,
  `ensureConfigStructureRef`), and related to its embedding on values.
-/

namespace AwesomeCopilot

/-! ## JavaScript values and strings -/

/-- JavaScript values that a parsed configuration document can hold. -/
inductive JsVal where
  | undefined
  | null
  | bool (b : Bool)
  | num (n : Int)
  | nan
  | str (s : String)
  | obj (fields : List (String × JsVal))

/-- Truthiness of a value (`Boolean(v)`, `if (v)`). -/
def JsVal.truthy : JsVal → Bool
  | .undefined => false
  | .null => false
  | .bool b => b
  | .num n => n != 0
  | .nan => false
  | .str s => s != ""
  | .obj _ => true

/-- A plain object: string keys in insertion order. -/
abbrev JsObject := List (String × JsVal)

/-- Lookup in an association list: the value of the first entry with the key. -/
def assocGet {β : Type} : List (String × β) → String → Option β
  | [], _ => none
  | e :: m, key => if e.1 = key then some e.2 else assocGet m key

/-- Assignment in an association list (`obj[key] = v`, `map.set(key, v)`): an existing
key keeps its place, a new key goes last. -/
def assocSet {β : Type} : List (String × β) → String → β → List (String × β)
  | [], key, v => [(key, v)]
  | e :: m, key, v => if e.1 = key then (key, v) :: m else e :: assocSet m key v

/-- Property read `obj[key]` among the own properties; a missing key reads as `undefined`.
It is the read of JavaScript for a key that `Object.prototype` does not have (`version`,
`project`, a section name), and in `resolveItem`, where the key is any item name, the value
is only compared with `true` and `false`, which no inherited member equals. -/
def objGet (o : JsObject) (key : String) : JsVal :=
  (assocGet o key).getD JsVal.undefined

/-- UTF-16 code units of one character. -/
def charCodeUnits (c : Char) : List Nat :=
  if c.toNat < 0x10000 then [c.toNat]
  else [0xD800 + (c.toNat - 0x10000) / 0x400, 0xDC00 + (c.toNat - 0x10000) % 0x400]

/-- UTF-16 code units of a list of characters. -/
def codeUnits : List Char → List Nat
  | [] => []
  | c :: cs => charCodeUnits c ++ codeUnits cs

/-- The code units of a string, the sequence JavaScript compares strings by. -/
def toUtf16 (s : String) : List Nat := codeUnits s.data

/-- Lexicographic `≤` on code-unit sequences. -/
def codeUnitsLe : List Nat → List Nat → Bool
  | [], _ => true
  | _ :: _, [] => false
  | a :: as, b :: bs => decide (a < b) || (decide (a = b) && codeUnitsLe as bs)

/-- The order of `Array.prototype.sort()` without comparator: strings by code units. -/
def jsStringLe (a b : String) : Prop := codeUnitsLe (toUtf16 a) (toUtf16 b) = true

instance jsStringLeDecidable : DecidableRel jsStringLe :=
  fun a b => inferInstanceAs (Decidable (codeUnitsLe (toUtf16 a) (toUtf16 b) = true))

/-- `array.sort()` on an array of strings. -/
def jsSort (xs : List String) : List String := List.insertionSort jsStringLe xs

/-- `s.includes(sub)`. -/
def includes (s sub : String) : Bool := s.data.tails.any (fun t => sub.data.isPrefixOf t)

/-- `s.endsWith(suffix)`. -/
def endsWith (s suffix : String) : Bool := suffix.data.isSuffixOf s.data

/-- Removal of the last `n` characters. -/
def dropRight (s : String) (n : Nat) : String := String.mk (s.data.take (s.data.length - n))

/-- POSIX `path.basename(p)`: trailing slashes are ignored, the last segment is returned. -/
def basename (p : String) : String :=
  String.mk ((p.data.reverse.dropWhile (fun c => c == '/')).takeWhile (fun c => c != '/')).reverse

/-! ## Objects with the property order of JavaScript -/

/-- The array index denoted by a property key: a canonical decimal numeral below
`2^32 - 1`. -/
def arrayIndex (key : String) : Option Nat :=
  if key.data ≠ [] ∧ key.data.all Char.isDigit = true ∧
      (key.data.head? ≠ some '0' ∨ key.data.length = 1) then
    if key.data.foldl (fun acc c => acc * 10 + (c.toNat - 48)) 0 < 4294967295 then
      some (key.data.foldl (fun acc c => acc * 10 + (c.toNat - 48)) 0)
    else none
  else none

/-- Creation of an array-index property: it goes after the smaller array indices and
before every other property. -/
def insertIndexed {β : Type} (i : Nat) (key : String) (v : β) :
    List (String × β) → List (String × β)
  | [] => [(key, v)]
  | e :: m =>
    match arrayIndex e.1 with
    | some j => if j < i then e :: insertIndexed i key v m else (key, v) :: e :: m
    | none => (key, v) :: e :: m

/-- Definition of the own property `key` with value `v` on an object listed in the order of
`Object.keys`, as object spread, an object literal and an assignment with a key other than
`__proto__` do it: an own property keeps its place; a new array index is placed in
ascending numeric order before the other keys; any other new key goes last. -/
def objSet {β : Type} (o : List (String × β)) (key : String) (v : β) : List (String × β) :=
  if (assocGet o key).isSome then assocSet o key v
  else
    match arrayIndex key with
    | some i => insertIndexed i key v o
    | none => o ++ [(key, v)]

/-- Object spread: a fresh object that receives the entries in order. -/
def spread (fields : JsObject) : JsObject :=
  fields.foldl (fun acc e => objSet acc e.1 e.2) []

/-- Object spread of a value: of a non-object it is the empty object. -/
def spreadVal (v : JsVal) : JsObject :=
  match v with
  | JsVal.obj fields => spread fields
  | _ => []

/-- `Object.keys(obj)`. -/
def objKeys {β : Type} (o : List (String × β)) : List String := o.map Prod.fst

/-- Assignment `obj[key] = v` on an ordinary object, as far as its own properties go.  With
the key `__proto__` on an object that has no own property of that name the assignment
reaches the setter inherited from `Object.prototype`, which replaces the prototype when `v`
is an object or `null` and does nothing otherwise: no own property is created.  Every other
assignment defines or updates the own property. -/
def objAssign {β : Type} (o : List (String × β)) (key : String) (v : β) : List (String × β) :=
  if key = "__proto__" ∧ (assocGet o key).isNone then o else objSet o key v

/-- The names of the properties of `Object.prototype`, which every ordinary object inherits:
eleven functions and the accessor `__proto__`, whose value is the prototype itself. -/
def objectPrototypeKeys : List String :=
  ["constructor", "__defineGetter__", "__defineSetter__", "hasOwnProperty",
    "__lookupGetter__", "__lookupSetter__", "isPrototypeOf", "propertyIsEnumerable",
    "toString", "valueOf", "__proto__", "toLocaleString"]

/-- `Boolean(obj[key])` on an ordinary object: the truthiness of the own property if there
is one; otherwise the read goes to `Object.prototype`, whose members are functions and, for
`__proto__`, the prototype object, all truthy; any other key reads as `undefined`. -/
def truthyMember (o : JsObject) (key : String) : Bool :=
  match assocGet o key with
  | some v => v.truthy
  | none => decide (key ∈ objectPrototypeKeys)

/-! ## config-manager.js -/

/-- The three sections whose artifacts are resolved. -/
inductive ArtifactSection where
  | prompts
  | instructions
  | chatmodes
  deriving DecidableEq, Repr

/-- The key of a section in the configuration document. -/
def ArtifactSection.key : ArtifactSection → String
  | .prompts => "prompts"
  | .instructions => "instructions"
  | .chatmodes => "chatmodes"

/-- One value per artifact section (an object with the keys prompts, instructions, chatmodes). -/
structure PerSection (α : Type) where
  prompts : α
  instructions : α
  chatmodes : α
  deriving DecidableEq, Repr

/-- Read of `o[section]`. -/
def PerSection.get {α : Type} (o : PerSection α) : ArtifactSection → α
  | .prompts => o.prompts
  | .instructions => o.instructions
  | .chatmodes => o.chatmodes

/-- Write of `o[section]`. -/
def PerSection.set {α : Type} (o : PerSection α) (sec : ArtifactSection) (v : α) : PerSection α :=
  match sec with
  | .prompts => { o with prompts := v }
  | .instructions => { o with instructions := v }
  | .chatmodes => { o with chatmodes := v }

/-- One entry of `SECTION_METADATA`. -/
structure SectionMeta where
  dir : String
  ext : String
  label : String
  singular : String

/-- The table `SECTION_METADATA`, as a lookup by section name. -/
def SECTION_METADATA (type : String) : Option SectionMeta :=
  if type = "prompts" then
    some { dir := "prompts", ext := ".prompt.md", label := "Prompts", singular := "prompt" }
  else if type = "instructions" then
    some { dir := "instructions", ext := ".instructions.md", label := "Instructions",
           singular := "instruction" }
  else if type = "chatmodes" then
    some { dir := "chatmodes", ext := ".chatmode.md", label := "Chat Modes", singular := "chat mode" }
  else if type = "collections" then
    some { dir := "collections", ext := ".collection.yml", label := "Collections",
           singular := "collection" }
  else none

/-- `CONFIG_SECTIONS = Object.keys(SECTION_METADATA)`. -/
def CONFIG_SECTIONS : List String := ["prompts", "instructions", "chatmodes", "collections"]

/-- What `parseCollectionYaml` does on a collection file: it throws, or returns a value
without `items`, or returns a record whose items carry these paths (every item has a
string `path`, as the collection loader promises). -/
inductive ParseOutcome where
  | throws (message : String)
  | noItems
  | items (paths : List String)

/-- The collaborators outside the sources: the catalog enumerator of `generate-config`,
the file system, and the collection parser of `yaml-parser`.  Directories and files are
named relative to the installation directory. -/
structure Env where
  getAvailableItems : String → String → List String
  existsSync : String → Bool
  parseCollectionYaml : String → ParseOutcome

/-- The configuration document restricted to its four section maps; a section that is
absent is `none`. -/
structure Config where
  prompts : Option JsObject := none
  instructions : Option JsObject := none
  chatmodes : Option JsObject := none
  collections : Option JsObject := none

/-- Read of `config[section]` for an artifact section. -/
def Config.artifacts (config : Config) : ArtifactSection → Option JsObject
  | .prompts => config.prompts
  | .instructions => config.instructions
  | .chatmodes => config.chatmodes

/-- `getAllAvailableItems(type)`. -/
def getAllAvailableItems (env : Env) (type : String) : List String :=
  match SECTION_METADATA type with
  | none => []
  | some meta => env.getAvailableItems meta.dir meta.ext

/-- `extractItemName(itemPath)`: the base name without the artifact suffix. -/
def extractItemName (itemPath : String) : String :=
  let b := basename itemPath
  if endsWith b ".prompt.md" then dropRight b 10
  else if endsWith b ".instructions.md" then dropRight b 16
  else if endsWith b ".chatmode.md" then dropRight b 12
  else b

/-- `getSectionFromPath(itemPath)`; `none` is JavaScript `null`. -/
def getSectionFromPath (itemPath : String) : Option ArtifactSection :=
  if includes itemPath "prompts/" && endsWith itemPath ".prompt.md" then
    some ArtifactSection.prompts
  else if includes itemPath "instructions/" && endsWith itemPath ".instructions.md" then
    some ArtifactSection.instructions
  else if includes itemPath "chatmodes/" && endsWith itemPath ".chatmode.md" then
    some ArtifactSection.chatmodes
  else none

/-- `set.add(x)`. -/
def setAdd (s : List String) (x : String) : List String :=
  if x ∈ s then s else s ++ [x]

/-- A `Map` from item names to sets of collection names. -/
abbrev JsMap := List (String × List String)

/-- `map.get(key)`; `none` is `undefined`. -/
def mapGet (m : JsMap) (key : String) : Option (List String) := assocGet m key

/-- Path of the file of a collection, relative to the installation directory. -/
def collectionPath (collectionName : String) : String :=
  "collections/" ++ collectionName ++ ".collection.yml"

/-- Body of `collection.items.forEach` in `computeEffectiveItemStates`. -/
def addItem (collectionName : String) (cm : PerSection JsMap) (itemPath : String) :
    PerSection JsMap :=
  let itemName := extractItemName itemPath
  match getSectionFromPath itemPath with
  | none => cm
  | some sec =>
    let m := cm.get sec
    let m1 := if (mapGet m itemName).isNone then assocSet m itemName [] else m
    cm.set sec (assocSet m1 itemName (setAdd ((mapGet m1 itemName).getD []) collectionName))

/-- Body of the loop over `Object.entries(config.collections)`: the membership maps and
the warnings printed so far. -/
def visitCollection (env : Env) (st : PerSection JsMap × List String)
    (entry : String × JsVal) : PerSection JsMap × List String :=
  if entry.2.truthy then
    if env.existsSync (collectionPath entry.1) then
      match env.parseCollectionYaml (collectionPath entry.1) with
      | .throws message =>
        (st.1, st.2 ++ ["Warning: Failed to parse collection " ++ entry.1 ++ ": " ++ message])
      | .noItems => st
      | .items paths => (paths.foldl (addItem entry.1) st.1, st.2)
    else st
  else st

/-- First half of `computeEffectiveItemStates`: gather items from enabled collections. -/
def gatherMembership (env : Env) (config : Config) : PerSection JsMap × List String :=
  match config.collections with
  | none => ({ prompts := [], instructions := [], chatmodes := [] }, [])
  | some entries =>
    entries.foldl (visitCollection env) ({ prompts := [], instructions := [], chatmodes := [] }, [])

/-- The `reason` record; a field that the record does not have is `none`. -/
structure Reason where
  source : String
  value : Option Bool := none
  via : Option (List String) := none
  deriving DecidableEq, Repr

/-- Precedence rules for one item: `isEffectivelyEnabled` and `reason`.  The initial value
of `reason` is overwritten on every branch, so it does not appear. -/
def resolveItem (sectionConfig : JsObject) (membership : JsMap) (itemName : String) :
    Bool × Reason :=
  match objGet sectionConfig itemName with
  | .bool true => (true, { source := "explicit", value := some true })
  | .bool false => (false, { source := "explicit", value := some false })
  | _ =>
    match mapGet membership itemName with
    | some inCollections =>
      if inCollections.length > 0 then
        (true, { source := "collections", via := some (jsSort inCollections) })
      else (false, { source := "default" })
    | none => (false, { source := "default" })

/-- The object `result.reasons[section]`: its own properties in the order of `Object.keys`,
and the reason record that an assignment with the key `__proto__` has made its prototype
(`none` while the prototype is `Object.prototype`). -/
structure ReasonsObject where
  own : List (String × Reason)
  proto : Option Reason
  deriving DecidableEq, Repr

/-- The object literal `{}`. -/
def ReasonsObject.empty : ReasonsObject := { own := [], proto := none }

/-- `reasons[itemName] = reason`: with the key `__proto__` the inherited setter makes the
record the prototype of the object and no own property is created. -/
def ReasonsObject.assign (o : ReasonsObject) (itemName : String) (reason : Reason) :
    ReasonsObject :=
  { own := objAssign o.own itemName reason,
    proto := if itemName = "__proto__" ∧ (assocGet o.own itemName).isNone then some reason
      else o.proto }

/-- `reasons[itemName]` where the value is a reason record: an own property, or for the key
`__proto__` the record that was made the prototype; `none` is `undefined` or an inherited
member that is no reason record (it has no `source`). -/
def ReasonsObject.read (o : ReasonsObject) (itemName : String) : Option Reason :=
  match assocGet o.own itemName with
  | some reason => some reason
  | none => if itemName = "__proto__" then o.proto else none

/-- Body of `availableItems.forEach`: the enabled set and the reasons of one section. -/
def resolveStep (sectionConfig : JsObject) (membership : JsMap)
    (acc : List String × ReasonsObject) (itemName : String) :
    List String × ReasonsObject :=
  let r := resolveItem sectionConfig membership itemName
  (if r.1 then setAdd acc.1 itemName else acc.1, acc.2.assign itemName r.2)

/-- Body of `sections.forEach`. -/
def resolveSection (env : Env) (config : Config) (cm : PerSection JsMap)
    (sec : ArtifactSection) : List String × ReasonsObject :=
  (getAllAvailableItems env sec.key).foldl
    (resolveStep ((config.artifacts sec).getD []) (cm.get sec)) ([], ReasonsObject.empty)

/-- The object returned by `computeEffectiveItemStates`. -/
structure EffectiveStates where
  prompts : List String
  instructions : List String
  chatmodes : List String
  reasons : PerSection ReasonsObject
  deriving DecidableEq, Repr

/-- Read of `effective[section]`, the enabled set of a section. -/
def EffectiveStates.enabled (e : EffectiveStates) : ArtifactSection → List String
  | .prompts => e.prompts
  | .instructions => e.instructions
  | .chatmodes => e.chatmodes

/-- Read of `effective.reasons[section][itemName]`; `none` is a value that is no reason
record. -/
def EffectiveStates.reason (e : EffectiveStates) (sec : ArtifactSection) (itemName : String) :
    Option Reason :=
  (e.reasons.get sec).read itemName

/-- `computeEffectiveItemStates(config)` together with the lines it prints through
`console.warn`. -/
def computeEffectiveItemStates (env : Env) (config : Config) : EffectiveStates × List String :=
  let gathered := gatherMembership env config
  let p := resolveSection env config gathered.1 ArtifactSection.prompts
  let i := resolveSection env config gathered.1 ArtifactSection.instructions
  let c := resolveSection env config gathered.1 ArtifactSection.chatmodes
  ({ prompts := p.1, instructions := i.1, chatmodes := c.1,
     reasons := { prompts := p.2, instructions := i.2, chatmodes := c.2 } }, gathered.2)

/-! ## Vocabulary of the specification -/

/-- The item paths that the file of a collection contributes: those of a file that
exists and parses to a record with items, none otherwise. -/
def collectionItems (env : Env) (collectionName : String) : List String :=
  if env.existsSync (collectionPath collectionName) then
    match env.parseCollectionYaml (collectionPath collectionName) with
    | .items paths => paths
    | _ => []
  else []

/-- A list of item paths lists artifact `itemName` of section `sec`. -/
def pathsList (paths : List String) (sec : ArtifactSection) (itemName : String) : Bool :=
  paths.any (fun p => decide (getSectionFromPath p = some sec) && decide (extractItemName p = itemName))

/-- The collection lists artifact `itemName` of section `sec`. -/
def collectionLists (env : Env) (collectionName : String) (sec : ArtifactSection)
    (itemName : String) : Bool :=
  pathsList (collectionItems env collectionName) sec itemName

/-- The entry of `config.collections` is enabled and its collection lists the artifact. -/
def entryGrants (env : Env) (sec : ArtifactSection) (itemName : String)
    (entry : String × JsVal) : Bool :=
  entry.2.truthy && collectionLists env entry.1 sec itemName

/-- The entries of `config.collections`. -/
def Config.collectionEntries (config : Config) : JsObject := config.collections.getD []

/-- The explicit value `config[section][itemName]`. -/
def Config.explicitFlag (config : Config) (sec : ArtifactSection) (itemName : String) : JsVal :=
  objGet ((config.artifacts sec).getD []) itemName

/-- The Catalog of an artifact section. -/
def catalog (env : Env) (sec : ArtifactSection) : List String :=
  getAllAvailableItems env sec.key

/-- The set stored for an item in a membership map, empty when the item has no entry. -/
def memberOf (cm : PerSection JsMap) (sec : ArtifactSection) (itemName : String) : List String :=
  (mapGet (cm.get sec) itemName).getD []

/-- The configuration with the flag of one collection replaced. -/
def Config.setCollectionFlag (config : Config) (collectionName : String) (flag : Bool) : Config :=
  { config with
    collections := Option.map
      (fun entries => entries.map
        (fun e => if e.1 = collectionName then (e.1, JsVal.bool flag) else e))
      config.collections }

/-- `typeof v === "boolean"`. -/
def JsVal.isBoolean : JsVal → Bool
  | .bool _ => true
  | _ => false

/-- One step of the membership of a fixed artifact: an entry that grants it adds its name. -/
def grantStep (env : Env) (sec : ArtifactSection) (n : String) (acc : List String)
    (entry : String × JsVal) : List String :=
  if entryGrants env sec n entry = true then setAdd acc entry.1 else acc

/-- The collections that grant an artifact, each once, in the order of first visit. -/
def grantingCollections (env : Env) (config : Config) (sec : ArtifactSection) (n : String) :
    List String :=
  config.collectionEntries.foldl (grantStep env sec n) []

/-- The flag and reason that the precedence rules give an artifact under a configuration. -/
def resolved (env : Env) (config : Config) (sec : ArtifactSection) (n : String) : Bool × Reason :=
  resolveItem ((config.artifacts sec).getD []) ((gatherMembership env config).1.get sec) n

/-- The warning printed for a collection whose parse throws with `message`. -/
def parseWarning (collectionName message : String) : String :=
  "Warning: Failed to parse collection " ++ collectionName ++ ": " ++ message

/-! ## A small installation used for concrete checks -/

/-- An installation with prompts p, q, shared, instruction i and chat mode m; collection A
lists p, q, shared and i, collection B lists shared and m, the file of collection broken
does not parse, and collection ghost has no file. -/
def demoEnv : Env where
  getAvailableItems := fun dir _ =>
    if dir = "prompts" then ["p", "q", "shared"]
    else if dir = "instructions" then ["i"]
    else if dir = "chatmodes" then ["m"]
    else if dir = "collections" then ["A", "B", "broken"]
    else []
  existsSync := fun file =>
    decide (file ∈ ["collections/A.collection.yml", "collections/B.collection.yml",
      "collections/broken.collection.yml"])
  parseCollectionYaml := fun file =>
    if file = "collections/A.collection.yml" then
      ParseOutcome.items ["prompts/p.prompt.md", "prompts/q.prompt.md",
        "prompts/shared.prompt.md", "instructions/i.instructions.md"]
    else if file = "collections/B.collection.yml" then
      ParseOutcome.items ["prompts/shared.prompt.md", "chatmodes/m.chatmode.md"]
    else ParseOutcome.throws "bad yaml"

/-- A document that enables A, B, broken and ghost and sets prompt p to false. -/
def demoConfig : Config where
  prompts := some [("p", JsVal.bool false), ("stray", JsVal.bool true)]
  instructions := some []
  chatmodes := some []
  collections := some [("B", JsVal.bool true), ("A", JsVal.bool true),
    ("broken", JsVal.bool true), ("ghost", JsVal.bool true)]

/-- The document `demoConfig` with every collection disabled. -/
def demoConfigOff : Config where
  prompts := some [("p", JsVal.bool false), ("stray", JsVal.bool true)]
  instructions := some []
  chatmodes := some []
  collections := some [("B", JsVal.bool false), ("A", JsVal.bool false)]

/-- The installation `demoEnv` with the items of every collection file in reverse order. -/
def demoEnvReversed : Env where
  getAvailableItems := demoEnv.getAvailableItems
  existsSync := demoEnv.existsSync
  parseCollectionYaml := fun file =>
    match demoEnv.parseCollectionYaml file with
    | ParseOutcome.items paths => ParseOutcome.items paths.reverse
    | other => other

/-- The document `demoConfig` with the first two collection keys exchanged. -/
def demoConfigSwapped : Config where
  prompts := some [("p", JsVal.bool false), ("stray", JsVal.bool true)]
  instructions := some []
  chatmodes := some []
  collections := some [("A", JsVal.bool true), ("B", JsVal.bool true),
    ("broken", JsVal.bool true), ("ghost", JsVal.bool true)]

/-- The document `demoConfig` with instruction i set to true. -/
def demoConfigInstr : Config where
  prompts := some [("p", JsVal.bool false), ("stray", JsVal.bool true)]
  instructions := some [("i", JsVal.bool true)]
  chatmodes := some []
  collections := some [("B", JsVal.bool true), ("A", JsVal.bool true),
    ("broken", JsVal.bool true), ("ghost", JsVal.bool true)]

/-- The warning that visiting an entry of `config.collections` prints, if any. -/
def warningOf (env : Env) (entry : String × JsVal) : Option String :=
  if entry.2.truthy && env.existsSync (collectionPath entry.1) then
    match env.parseCollectionYaml (collectionPath entry.1) with
    | ParseOutcome.throws message => some (parseWarning entry.1 message)
    | _ => none
  else none

/-! ## awesome-copilot.js: the delta reporter -/

/-- The names that `module.exports` of config-manager.js provides. -/
def configManagerExports : List String :=
  ["DEFAULT_CONFIG_PATH", "CONFIG_SECTIONS", "SECTION_METADATA", "loadConfig", "saveConfig",
    "splitHeaderAndBody", "ensureConfigStructure", "sortObjectKeys", "countEnabledItems",
    "getAllAvailableItems", "computeEffectiveItemStates"]

/-- The value that destructuring `require("./config-manager")` binds to `name`: the value of
the module for an exported name, `undefined` (`none`) for any other name. -/
def requireBinding {α : Type} (name : String) (value : α) : Option α :=
  if name ∈ configManagerExports then some value else none

/-- The two path helpers as awesome-copilot.js may have them in scope. -/
structure PathHelpers where
  extractItemName : Option (String → String)
  getSectionFromPath : Option (String → Option ArtifactSection)

/-- The bindings `extractItemName` and `getSectionFromPath` of awesome-copilot.js, taken
from `require("./config-manager")`. -/
def importedHelpers : PathHelpers where
  extractItemName := requireBinding "extractItemName" extractItemName
  getSectionFromPath := requireBinding "getSectionFromPath" getSectionFromPath

/-- Test `reason.source === 'collections' && reason.via.includes(collectionName)`; reading
a property of `undefined` throws. -/
def viaIncludes (reason : Option Reason) (collectionName : String) : Except String Bool :=
  match reason with
  | none => Except.error "TypeError: Cannot read properties of undefined (reading 'source')"
  | some r =>
    if r.source = "collections" then
      match r.via with
      | none => Except.error "TypeError: Cannot read properties of undefined (reading 'includes')"
      | some via => Except.ok (decide (collectionName ∈ via))
    else Except.ok false

/-- Loop `set.forEach` that collects the items of `set` that are absent from `other` and
whose reason is a collections reason naming the toggled collection. -/
def collectChanged (other : List String) (reasons : ReasonsObject)
    (collectionName : String) : List String → List String → Except String (List String)
  | [], found => Except.ok found
  | item :: rest, found =>
    if item ∈ other then collectChanged other reasons collectionName rest found
    else
      match viaIncludes (reasons.read item) collectionName with
      | Except.error err => Except.error err
      | Except.ok true => collectChanged other reasons collectionName rest (found ++ [item])
      | Except.ok false => collectChanged other reasons collectionName rest found

/-- Loop `collection.items.forEach` inside the `try` block: calling a binding that is
`undefined` throws, and the `catch` block ignores the error, which ends the loop with the
items pushed so far. -/
def blockedLoop (helpers : PathHelpers) (afterEffective : EffectiveStates)
    (sec : ArtifactSection) : List String → List String → List String
  | [], blocked => blocked
  | itemPath :: rest, blocked =>
    match helpers.extractItemName with
    | none => blocked
    | some extractName =>
      match helpers.getSectionFromPath with
      | none => blocked
      | some sectionOf =>
        if sectionOf itemPath = some sec then
          match afterEffective.reason sec (extractName itemPath) with
          | some reason =>
            if reason.source = "explicit" ∧ reason.value = some false then
              blockedLoop helpers afterEffective sec rest (blocked ++ [extractName itemPath])
            else blockedLoop helpers afterEffective sec rest blocked
          | none => blockedLoop helpers afterEffective sec rest blocked
        else blockedLoop helpers afterEffective sec rest blocked

/-- The array `blocked` of one section when the collection was enabled. -/
def blockedItems (env : Env) (helpers : PathHelpers) (afterEffective : EffectiveStates)
    (collectionName : String) (sec : ArtifactSection) : List String :=
  if env.existsSync (collectionPath collectionName) then
    match env.parseCollectionYaml (collectionPath collectionName) with
    | ParseOutcome.throws _ => []
    | ParseOutcome.noItems => []
    | ParseOutcome.items paths => blockedLoop helpers afterEffective sec paths []
  else []

/-- The three arrays that `showCollectionDelta` computes for one section. -/
structure SectionDelta where
  newlyEnabled : List String
  newlyDisabled : List String
  blocked : List String
  deriving DecidableEq, Repr

/-- Body of `sections.forEach` in `showCollectionDelta`. -/
def sectionDelta (env : Env) (beforeEffective afterEffective : EffectiveStates)
    (collectionName : String) (collectionEnabled : Bool) (sec : ArtifactSection) :
    Except String SectionDelta :=
  match collectChanged (beforeEffective.enabled sec) (afterEffective.reasons.get sec)
      collectionName (afterEffective.enabled sec) [] with
  | Except.error err => Except.error err
  | Except.ok newlyEnabled =>
    match collectChanged (afterEffective.enabled sec) (beforeEffective.reasons.get sec)
        collectionName (beforeEffective.enabled sec) [] with
    | Except.error err => Except.error err
    | Except.ok newlyDisabled =>
      Except.ok { newlyEnabled := newlyEnabled, newlyDisabled := newlyDisabled,
                  blocked := if collectionEnabled then
                      blockedItems env importedHelpers afterEffective collectionName sec
                    else [] }

/-- The summary lines that `showCollectionDelta` prints. -/
def deltaLines (collectionEnabled : Bool) (totalNewlyEnabled totalNewlyDisabled totalBlocked : Nat) :
    List String :=
  if collectionEnabled then
    (if totalNewlyEnabled > 0 then
      ["📈 +" ++ toString totalNewlyEnabled ++ " items effectively enabled by this collection"]
    else []) ++
    (if totalBlocked > 0 then
      ["🚫 " ++ toString totalBlocked ++ " items remain disabled due to explicit overrides"]
    else [])
  else
    (if totalNewlyDisabled > 0 then
      ["📉 -" ++ toString totalNewlyDisabled ++
        " items effectively disabled by disabling this collection"]
    else [])

/-- What `showCollectionDelta` computes: the arrays per section, the totals, the lines. -/
structure DeltaReport where
  sections : PerSection SectionDelta
  totalNewlyEnabled : Nat
  totalNewlyDisabled : Nat
  totalBlocked : Nat
  output : List String
  deriving DecidableEq, Repr

/-- `showCollectionDelta(beforeEffective, afterEffective, collectionName, collectionEnabled)`;
`none` is the early return when a result is unavailable, an error an uncaught exception. -/
def showCollectionDelta (env : Env) (beforeEffective afterEffective : Option EffectiveStates)
    (collectionName : String) (collectionEnabled : Bool) : Except String (Option DeltaReport) :=
  match beforeEffective, afterEffective with
  | some before, some after =>
    match sectionDelta env before after collectionName collectionEnabled ArtifactSection.prompts with
    | Except.error err => Except.error err
    | Except.ok p =>
      match sectionDelta env before after collectionName collectionEnabled
          ArtifactSection.instructions with
      | Except.error err => Except.error err
      | Except.ok i =>
        match sectionDelta env before after collectionName collectionEnabled
            ArtifactSection.chatmodes with
        | Except.error err => Except.error err
        | Except.ok c =>
          let totalNewlyEnabled := p.newlyEnabled.length + i.newlyEnabled.length + c.newlyEnabled.length
          let totalNewlyDisabled :=
            p.newlyDisabled.length + i.newlyDisabled.length + c.newlyDisabled.length
          let totalBlocked := p.blocked.length + i.blocked.length + c.blocked.length
          Except.ok (some { sections := { prompts := p, instructions := i, chatmodes := c },
                            totalNewlyEnabled := totalNewlyEnabled,
                            totalNewlyDisabled := totalNewlyDisabled,
                            totalBlocked := totalBlocked,
                            output := deltaLines collectionEnabled totalNewlyEnabled
                              totalNewlyDisabled totalBlocked })
  | _, _ => Except.ok none

/-- An installation whose Catalog of prompts is x, y and whose collection C lists both. -/
def deltaEnv : Env where
  getAvailableItems := fun dir _ => if dir = "prompts" then ["x", "y"] else []
  existsSync := fun file => decide (file = "collections/C.collection.yml")
  parseCollectionYaml := fun _ => ParseOutcome.items ["prompts/x.prompt.md", "prompts/y.prompt.md"]

/-- The document before the toggle: C disabled, y explicitly false, x without a flag. -/
def deltaConfigBefore : Config where
  prompts := some [("y", JsVal.bool false)]
  instructions := some []
  chatmodes := some []
  collections := some [("C", JsVal.bool false)]

/-- The document after `toggle collections C on`. -/
def deltaConfigAfter : Config where
  prompts := some [("y", JsVal.bool false)]
  instructions := some []
  chatmodes := some []
  collections := some [("C", JsVal.bool true)]

/-- The path helpers as they would be in scope if config-manager.js exported them. -/
def exportedHelpers : PathHelpers where
  extractItemName := some extractItemName
  getSectionFromPath := some getSectionFromPath

/-! ## Vocabulary for the delta reporter -/

/-- A result is well formed when every enabled name has a reason and every reason with
source collections carries a via array and no value, as the results of
`computeEffectiveItemStates` do. -/
def EffectiveStates.WellFormed (e : EffectiveStates) : Prop :=
  ∀ sec n, n ∈ e.enabled sec →
    ∃ r, e.reason sec n = some r ∧ (r.source = "collections" → r.value = none ∧ r.via.isSome = true)

/-- The test that the loops of `showCollectionDelta` apply to an item of one enabled set:
it is absent from the other set and its reason is a collections reason whose via array
holds the collection. -/
def changedBy (other : List String) (reasons : ReasonsObject) (collectionName : String)
    (item : String) : Bool :=
  decide (item ∉ other) &&
    (match viaIncludes (reasons.read item) collectionName with
     | Except.ok true => true
     | _ => false)

/-! ## Strings of the configuration store -/

/-- The characters that `trim()` removes: WhiteSpace and LineTerminator of ECMAScript. -/
def isJsWhiteSpace (c : Char) : Bool :=
  c.toNat ∈ [0x09, 0x0A, 0x0B, 0x0C, 0x0D, 0x20, 0xA0, 0x1680, 0x2000, 0x2001, 0x2002, 0x2003,
    0x2004, 0x2005, 0x2006, 0x2007, 0x2008, 0x2009, 0x200A, 0x2028, 0x2029, 0x202F, 0x205F,
    0x3000, 0xFEFF]

/-- Characters of `s.trim()`. -/
def trimChars (cs : List Char) : List Char :=
  ((cs.dropWhile isJsWhiteSpace).reverse.dropWhile isJsWhiteSpace).reverse

/-- `s.trim()`. -/
def trim (s : String) : String := String.mk (trimChars s.data)

/-- `s.toLowerCase()` where the result is compared with a fixed ASCII word or the string is
a fixed ASCII label: ASCII letters are lower-cased, other characters are left as they are.
No other character lowercases to an ASCII letter that occurs in a word this program
compares with (only U+212A does, to k), so the comparisons with section names, with the
state tokens and with `true` and `false` are those of JavaScript.  `findClosestMatch`, which
lower-cases arbitrary item names, takes the case mapping of the runtime as a parameter
(`Host.toLowerCase`). -/
def toLowerCase (s : String) : String := String.mk (s.data.map Char.toLower)

/-- `s.startsWith(start)`. -/
def startsWith (s start : String) : Bool := start.data.isPrefixOf s.data

/-- Characters of the pieces of `s.split("\n")`; the result is never empty. -/
def splitLines : List Char → List (List Char)
  | [] => [[]]
  | c :: cs =>
    if c = '\n' then [] :: splitLines cs
    else
      match splitLines cs with
      | [] => [[c]]
      | l :: ls => (c :: l) :: ls

/-- Characters of `lines.join("\n")`. -/
def joinLines : List (List Char) → List Char
  | [] => []
  | [l] => l
  | l :: ls => l ++ '\n' :: joinLines ls

/-! ## config-manager.js: the configuration store -/

/-- The collaborators of the configuration store and of the command line that are outside
the sources: the collation of `String.prototype.localeCompare`, the Unicode case mapping of
`String.prototype.toLowerCase`, `generateConfigHeader` and `objectToYaml` of
`generate-config`, `parseConfigYamlContent` of `apply-config`, and the file system (content
and size of a file, `none` for a file that does not exist). -/
structure Host where
  localeCompare : String → String → Int
  toLowerCase : String → String
  generateConfigHeader : String
  objectToYaml : JsObject → String
  parseConfigYamlContent : String → Except String JsVal
  readFile : String → Option String
  fileSize : String → Option Nat

/-- `DEFAULT_CONFIG_PATH`. -/
def DEFAULT_CONFIG_PATH : String := "awesome-copilot.config.yml"

/-- `v === undefined`. -/
def JsVal.isUndefined : JsVal → Bool
  | .undefined => true
  | _ => false

/-- `toBoolean(value)`. -/
def toBoolean (value : JsVal) : Bool :=
  match value with
  | JsVal.bool b => b
  | JsVal.str s =>
    if toLowerCase (trim s) = "true" then true
    else if toLowerCase (trim s) = "false" then false
    else (JsVal.str s).truthy
  | v => v.truthy

/-- `sanitizeSection(section)`: the entries of `Object.entries(section)` are assigned to a
new object, so an entry with the key `__proto__` leaves no property. -/
def sanitizeSection (sectionValue : JsVal) : JsObject :=
  match sectionValue with
  | JsVal.obj entries =>
    entries.foldl (fun sanitized e => objAssign sanitized e.1 (JsVal.bool (toBoolean e.2))) []
  | _ => []

/-- Body of `CONFIG_SECTIONS.forEach` in `ensureConfigStructure`. -/
def sanitizeStep (sanitized : JsObject) (sectionName : String) : JsObject :=
  objSet sanitized sectionName (JsVal.obj (sanitizeSection (objGet sanitized sectionName)))

/-- The `project` object that `ensureConfigStructure` stores. -/
def ensureProject (projectValue : JsVal) : JsObject :=
  if (objGet (spreadVal projectValue) "output_directory").isUndefined then
    objSet (spreadVal projectValue) "output_directory" (JsVal.str ".awesome-copilot")
  else spreadVal projectValue

/-- The copy of the document with its `version` ensured. -/
def ensureVersion (config : JsVal) : JsObject :=
  if (objGet (spreadVal config) "version").truthy then spreadVal config
  else objSet (spreadVal config) "version" (JsVal.str "1.0")

/-- `ensureConfigStructure(config)`. -/
def ensureConfigStructure (config : JsVal) : JsObject :=
  CONFIG_SECTIONS.foldl sanitizeStep
    (objSet (ensureVersion config) "project"
      (JsVal.obj (ensureProject (objGet (ensureVersion config) "project"))))

/-- `array.sort(compare)`: a stable sort by the comparator. -/
def sortWith (compare : String → String → Int) (xs : List String) : List String :=
  List.insertionSort (fun a b => compare a b ≤ 0) xs

/-- `sortObjectKeys(obj)`. -/
def sortObjectKeys (host : Host) (obj : JsVal) : JsObject :=
  match obj with
  | JsVal.obj fields =>
    (sortWith host.localeCompare (objKeys fields)).foldl
      (fun acc key => objAssign acc key (objGet fields key)) []
  | _ => []

/-- Body of `CONFIG_SECTIONS.forEach` in `sortConfigSections`. -/
def sortStep (host : Host) (sorted : JsObject) (sectionName : String) : JsObject :=
  objSet sorted sectionName (JsVal.obj (sortObjectKeys host (objGet sorted sectionName)))

/-- `sortConfigSections(config)`. -/
def sortConfigSections (host : Host) (config : JsObject) : JsObject :=
  CONFIG_SECTIONS.foldl (sortStep host) (spread config)

/-- `formatHeader(existingHeader)`; `none` is an absent header. -/
def formatHeader (host : Host) (existingHeader : Option String) : String :=
  let header :=
    match existingHeader with
    | some h => if h ≠ "" ∧ trim h ≠ "" then h else host.generateConfigHeader
    | none => host.generateConfigHeader
  let normalized := if endsWith header "\n" then header else header ++ "\n"
  if endsWith normalized "\n\n" then normalized else normalized ++ "\n"

/-- Test of the loop of `splitHeaderAndBody`: the trimmed line is empty or starts with `#`. -/
def isHeaderLine (line : List Char) : Bool :=
  decide (trimChars line = []) || ['#'].isPrefixOf (trimChars line)

/-- The `for` loop of `splitHeaderAndBody` from index `i` on: the header lines and
`firstBodyIndex`. -/
def headerLoop : List (List Char) → Nat → List (List Char) → Nat → List (List Char) × Nat
  | [], _, headerLines, firstBodyIndex => (headerLines, firstBodyIndex)
  | line :: rest, i, headerLines, _ =>
    if isHeaderLine line then headerLoop rest (i + 1) (headerLines ++ [line]) (i + 1)
    else (headerLines, i)

/-- The record returned by `splitHeaderAndBody`. -/
structure HeaderAndBody where
  header : String
  body : String
  deriving DecidableEq, Repr

/-- `splitHeaderAndBody(content)`. -/
def splitHeaderAndBody (content : String) : HeaderAndBody :=
  { header := String.mk (joinLines (headerLoop (splitLines content.data) 0 [] 0).1),
    body := String.mk (joinLines
      ((splitLines content.data).drop (headerLoop (splitLines content.data) 0 [] 0).2)) }

/-- The section map `doc[sectionName]` of a document, empty when it is not an object. -/
def sectionMap (doc : JsObject) (sectionName : String) : JsObject :=
  match objGet doc sectionName with
  | JsVal.obj fields => fields
  | _ => []

/-- A comparator that orders strings by their code units. -/
def codeUnitCompare (a b : String) : Int :=
  if a = b then 0 else if codeUnitsLe (toUtf16 a) (toUtf16 b) then -1 else 1

/-- A host for concrete checks: code-unit collation, a one-line standard header, no files. -/
def demoHost : Host where
  localeCompare := codeUnitCompare
  toLowerCase := toLowerCase
  generateConfigHeader := "# generated"
  objectToYaml := fun _ => ""
  parseConfigYamlContent := fun _ => Except.ok JsVal.null
  readFile := fun _ => none
  fileSize := fun _ => none

/-- A document whose prompts map has the two array-index names 10 and 9. -/
def indexKeysDocument : JsVal :=
  JsVal.obj [("prompts", JsVal.obj [("10", JsVal.bool true), ("9", JsVal.bool false)])]

/-! ## awesome-copilot.js: the toggle command -/

/-- `CONFIG_FLAG_ALIASES`. -/
def CONFIG_FLAG_ALIASES : List String := ["--config", "-c"]

/-- `CONTEXT_WARNING_CHAR_LIMIT[section]`. -/
def CONTEXT_WARNING_CHAR_LIMIT (sectionName : String) : Option Nat :=
  if sectionName = "instructions" then some 90000
  else if sectionName = "prompts" then some 45000
  else if sectionName = "chatmodes" then some 30000
  else none

/-- `isConfigFilePath(value)`. -/
def isConfigFilePath (value : String) : Bool :=
  endsWith value ".yml" || endsWith value ".yaml" || includes value "/" || includes value "\\"

/-- The `for` loop of `extractConfigOption`: `kept` are the arguments before index `i`, the
second list the arguments from index `i` on. -/
def extractLoop : List String → List String → String → Except String (List String × String)
  | kept, [], configPath => Except.ok (kept, configPath)
  | kept, [arg], configPath =>
    if arg ∈ CONFIG_FLAG_ALIASES then
      Except.error "Missing configuration file after --config flag."
    else Except.ok (kept ++ [arg], configPath)
  | kept, arg :: value :: rest, configPath =>
    if arg ∈ CONFIG_FLAG_ALIASES then extractLoop kept rest value
    else extractLoop (kept ++ [arg]) (value :: rest) configPath

/-- The record returned by `extractConfigOption`. -/
structure ExtractedOptions where
  args : List String
  configPath : String
  deriving DecidableEq, Repr

/-- `extractConfigOption(rawArgs)`. -/
def extractConfigOption (rawArgs : List String) : Except String ExtractedOptions :=
  match extractLoop [] rawArgs DEFAULT_CONFIG_PATH with
  | Except.error err => Except.error err
  | Except.ok (args, configPath) =>
    match args.getLast? with
    | some potentialPath =>
      if isConfigFilePath potentialPath then
        Except.ok { args := args.dropLast, configPath := potentialPath }
      else Except.ok { args := args, configPath := configPath }
    | none => Except.ok { args := args, configPath := configPath }

/-- The keys that the object `SECTION_METADATA` inherits from `Object.prototype` and that
are their own lower-cased form; the lookup of such a key yields a truthy value that has
neither `dir` nor `label`. -/
def inheritedLowerCaseKeys : List String := ["constructor", "__proto__"]

/-- `validateSectionType(input)`. -/
def validateSectionType (input : String) : Except String String :=
  if (SECTION_METADATA (toLowerCase input)).isSome ∨
      toLowerCase input ∈ inheritedLowerCaseKeys then
    Except.ok (toLowerCase input)
  else
    Except.error ("Unknown section '" ++ input ++ "'. Expected one of: " ++
      ", ".intercalate CONFIG_SECTIONS ++ ".")

/-- `parseStateToken(token)`. -/
def parseStateToken (token : String) : Except String Bool :=
  if toLowerCase token ∈ ["on", "enable", "enabled", "true", "yes", "y"] then Except.ok true
  else if toLowerCase token ∈ ["off", "disable", "disabled", "false", "no", "n"] then
    Except.ok false
  else Except.error "State must be 'on' or 'off'."

/-- `stateArg ? parseStateToken(stateArg) : null`; `none` is `null`. -/
def desiredStateOf (stateArg : Option String) : Except String (Option Bool) :=
  match stateArg with
  | none => Except.ok none
  | some token =>
    if token = "" then Except.ok none
    else
      match parseStateToken token with
      | Except.error err => Except.error err
      | Except.ok b => Except.ok (some b)

/-- `findClosestMatch(target, candidates)`; `none` is `undefined`.  The first argument is
`String.prototype.toLowerCase`. -/
def findClosestMatch (lower : String → String) (target : String) (candidates : List String) :
    Option String :=
  candidates.find? (fun candidate => includes (lower candidate) (lower target))

/-- `countEnabledItems(section)`. -/
def countEnabledItems (sectionState : JsObject) : Nat :=
  (sectionState.filter (fun e => e.2.truthy)).length

/-- `calculateSectionFootprint(section, state).totalCharacters`. -/
def calculateSectionFootprint (host : Host) (sectionName : String) (state : JsObject) : Nat :=
  match SECTION_METADATA sectionName with
  | none => 0
  | some sectionMeta =>
    if sectionName = "collections" then 0
    else
      state.foldl (fun totalCharacters e =>
        if e.2.truthy then
          match host.fileSize (sectionMeta.dir ++ "/" ++ e.1 ++ sectionMeta.ext) with
          | some size => totalCharacters + size
          | none => totalCharacters
        else totalCharacters) 0

/-- Digits in reverse order with a comma after every group of three. -/
def commaGroups : List Char → List Char
  | a :: b :: c :: d :: rest => a :: b :: c :: ',' :: commaGroups (d :: rest)
  | digits => digits

/-- `formatNumber(value)` for a natural number: the `en-US` number format. -/
def formatNumber (value : Nat) : String :=
  String.mk (commaGroups (toString value).data.reverse).reverse

/-- The lines printed by `maybeWarnAboutContext(section, totalCharacters)`; the threshold
`limit * 0.8` is `4 * limit / 5` for the three limits. -/
def maybeWarnAboutContext (sectionName label : String) (totalCharacters : Nat) : List String :=
  match CONTEXT_WARNING_CHAR_LIMIT sectionName with
  | none => []
  | some limit =>
    if totalCharacters = 0 then []
    else if totalCharacters ≥ limit then
      ["⚠️  Warning: Estimated " ++ toLowerCase label ++ " size " ++ formatNumber totalCharacters ++
        " characters exceeds the recommended limit of " ++ formatNumber limit ++
        " characters. Copilot Agent may truncate or crash."]
    else if totalCharacters ≥ 4 * limit / 5 then
      ["⚠️  Heads up: Estimated " ++ toLowerCase label ++ " size " ++ formatNumber totalCharacters ++
        " characters is approaching the recommended limit (" ++ formatNumber limit ++
        " characters)."]
    else []

/-- The record returned by `loadConfig`. -/
structure LoadedConfig where
  config : JsObject
  header : String

/-- `loadConfig(configPath)`. -/
def loadConfig (host : Host) (configPath : String) : Except String LoadedConfig :=
  match host.readFile configPath with
  | none => Except.error ("Configuration file not found: " ++ configPath)
  | some rawContent =>
    match host.parseConfigYamlContent (splitHeaderAndBody rawContent).body with
    | Except.error err => Except.error err
    | Except.ok parsed =>
      Except.ok { config := ensureConfigStructure (if parsed.truthy then parsed else JsVal.obj []),
                  header := (splitHeaderAndBody rawContent).header }

/-- What a call of `saveConfig` writes: the path, the header block, the document handed to
`objectToYaml`, and the content of the file. -/
structure SavedDocument where
  path : String
  header : String
  document : JsObject
  content : String

/-- `saveConfig(configPath, config, header)`. -/
def saveConfig (host : Host) (configPath : String) (config : JsObject) (header : Option String) :
    SavedDocument :=
  { path := configPath,
    header := formatHeader host header,
    document := sortConfigSections host (ensureConfigStructure (JsVal.obj config)),
    content := formatHeader host header ++
      host.objectToYaml (sortConfigSections host (ensureConfigStructure (JsVal.obj config))) }

/-- The configuration as `computeEffectiveItemStates` reads it: a section that is an object
is its entries, any other value (absent, `undefined`, `null`, ...) is read as absent; a
sanitized document has only objects. -/
def Config.ofObject (o : JsObject) : Config :=
  let read := fun (key : String) =>
    match assocGet o key with
    | some (JsVal.obj fields) => some fields
    | _ => none
  { prompts := read "prompts", instructions := read "instructions",
    chatmodes := read "chatmodes", collections := read "collections" }

/-- One run of a command: the message of the exception that ended it, if any, the files
written by `saveConfig`, and the console lines in order. -/
structure ToggleRun where
  error : Option String
  writes : List SavedDocument
  output : List String

/-- A run that ends with an exception before anything is written. -/
def toggleFail (output : List String) (message : String) : ToggleRun :=
  { error := some message, writes := [], output := output }

/-- The part of `handleToggleCommand` after the section state was updated: sanitize, save,
report the counts and, for a collection, the delta. -/
def finishToggle (env : Env) (host : Host) (configPath sectionName itemName : String)
    (sectionMeta : SectionMeta) (availableItems : List String) (loaded : LoadedConfig)
    (beforeEffective : EffectiveStates) (sectionState : JsObject) (newState : Bool)
    (output : List String) : ToggleRun :=
  let sanitizedConfig := ensureConfigStructure
    (JsVal.obj (objSet (spread loaded.config) sectionName (JsVal.obj sectionState)))
  let saved := saveConfig host configPath sanitizedConfig (some loaded.header)
  let totalCharacters :=
    calculateSectionFootprint host sectionName (sectionMap sanitizedConfig sectionName)
  let output1 := output ++
    [sectionMeta.label ++ ": " ++ toString (countEnabledItems (sectionMap sanitizedConfig sectionName))
      ++ "/" ++ toString availableItems.length ++ " enabled."] ++
    (if totalCharacters > 0 ∧ sectionName ≠ "collections" then
      ["Estimated " ++ toLowerCase sectionMeta.label ++ " context size: " ++
        formatNumber totalCharacters ++ " characters."]
    else []) ++
    maybeWarnAboutContext sectionName sectionMeta.label totalCharacters
  let lastLine := "Run 'awesome-copilot apply' to copy updated selections into your project."
  if sectionName = "collections" ∧ itemName ≠ "all" then
    let after := computeEffectiveItemStates env (Config.ofObject sanitizedConfig)
    match showCollectionDelta env (some beforeEffective) (some after.1) itemName newState with
    | Except.error err =>
      { error := some err, writes := [saved], output := output1 ++ after.2 }
    | Except.ok report =>
      { error := none, writes := [saved],
        output := output1 ++ after.2 ++
          (match report with
           | some r => r.output
           | none => []) ++ [lastLine] }
  else { error := none, writes := [saved], output := output1 ++ [lastLine] }

/-- The part of `handleToggleCommand` after `loadConfig`. -/
def toggleLoaded (env : Env) (host : Host) (configPath sectionName itemName : String)
    (desiredState : Option Bool) (sectionMeta : SectionMeta) (availableItems : List String)
    (loaded : LoadedConfig) : ToggleRun :=
  let before := computeEffectiveItemStates env (Config.ofObject loaded.config)
  let sectionState := spreadVal (objGet loaded.config sectionName)
  if itemName = "all" then
    match desiredState with
    | none => toggleFail before.2 "Specify 'on' or 'off' when toggling all items."
    | some state =>
      finishToggle env host configPath sectionName itemName sectionMeta availableItems loaded
        before.1
        (availableItems.foldl (fun s item => objAssign s item (JsVal.bool state)) sectionState)
        state
        (before.2 ++
          [(if state then "Enabled" else "Disabled") ++ " all " ++
            toLowerCase sectionMeta.label ++ "."] ++
          (if sectionName = "instructions" ∧ state = true then
            ["⚠️  Enabling every instruction can exceed Copilot Agent's context window. Consider enabling only what you need."]
          else []))
  else if itemName ∉ availableItems then
    match findClosestMatch host.toLowerCase itemName availableItems with
    | some suggestion =>
      if suggestion ≠ "" then
        toggleFail before.2 ("Unknown " ++ sectionMeta.singular ++ " '" ++ itemName ++
          "'. Did you mean '" ++ suggestion ++ "'?")
      else toggleFail before.2 ("Unknown " ++ sectionMeta.singular ++ " '" ++ itemName ++ "'.")
    | none => toggleFail before.2 ("Unknown " ++ sectionMeta.singular ++ " '" ++ itemName ++ "'.")
  else
    let newState :=
      match desiredState with
      | some state => state
      | none => !(truthyMember sectionState itemName)
    finishToggle env host configPath sectionName itemName sectionMeta availableItems loaded
      before.1 (objAssign sectionState itemName (JsVal.bool newState)) newState
      (before.2 ++
        [(if newState then "Enabled" else "Disabled") ++ " " ++ sectionMeta.singular ++ " '" ++
          itemName ++ "'."])

/-- `handleToggleCommand(rawArgs)`. -/
def handleToggleCommand (env : Env) (host : Host) (rawArgs : List String) : ToggleRun :=
  match extractConfigOption rawArgs with
  | Except.error err => toggleFail [] err
  | Except.ok options =>
    match options.args with
    | sectionArg :: itemName :: more =>
      match validateSectionType sectionArg with
      | Except.error err => toggleFail [] err
      | Except.ok sectionName =>
        match desiredStateOf more.head? with
        | Except.error err => toggleFail [] err
        | Except.ok desiredState =>
          match SECTION_METADATA sectionName with
          | none =>
            toggleFail []
              "The \"path\" argument must be of type string. Received undefined"
          | some sectionMeta =>
            if getAllAvailableItems env sectionName = [] then
              toggleFail [] ("No " ++ toLowerCase sectionMeta.label ++ " available to toggle.")
            else
              match loadConfig host options.configPath with
              | Except.error err => toggleFail [] err
              | Except.ok loaded =>
                toggleLoaded env host options.configPath sectionName itemName desiredState
                  sectionMeta (getAllAvailableItems env sectionName) loaded
    | _ =>
      toggleFail []
        "Usage: awesome-copilot toggle <section> <name|all> [on|off] [--config <file>]"

/-- A host whose default configuration file holds a header and a document that sets
prompt p to false, the stray prompt name stray to the string yes, and enables collection A. -/
def toggleHost : Host where
  localeCompare := codeUnitCompare
  toLowerCase := toLowerCase
  generateConfigHeader := "# generated"
  objectToYaml := fun _ => ""
  parseConfigYamlContent := fun _ =>
    Except.ok (JsVal.obj [("version", JsVal.str "1.0"),
      ("project", JsVal.obj [("name", JsVal.str "demo")]),
      ("prompts", JsVal.obj [("p", JsVal.bool false), ("stray", JsVal.str "yes")]),
      ("collections", JsVal.obj [("A", JsVal.bool true)])])
  readFile := fun file =>
    if file = "awesome-copilot.config.yml" then some "# my header\n\nversion: 1\n" else none
  fileSize := fun _ => some 20000

/-- The installation `demoEnv` with an empty Catalog of prompts. -/
def emptyCatalogEnv : Env where
  getAvailableItems := fun _ _ => []
  existsSync := demoEnv.existsSync
  parseCollectionYaml := demoEnv.parseCollectionYaml

/-- The sanitized form of a value of a section map. -/
def boolOf (v : JsVal) : JsVal := JsVal.bool (toBoolean v)

/-- The shape of a document that `ensureConfigStructure` returns: distinct keys, a truthy
version, a project object with a defined output directory, and four section maps with
distinct keys and boolean values. -/
structure SanitizedDoc (doc : JsObject) : Prop where
  keys : (objKeys doc).Nodup
  version : (objGet doc "version").truthy = true
  project : ∃ p : JsObject, objGet doc "project" = JsVal.obj p ∧ (objKeys p).Nodup ∧
    (objGet p "output_directory").isUndefined = false
  sections : ∀ s ∈ CONFIG_SECTIONS, ∃ f : JsObject, objGet doc s = JsVal.obj f ∧
    (objKeys f).Nodup ∧ ∀ e ∈ f, ∃ b : Bool, e.2 = JsVal.bool b

/-- What `loadConfig` returns for the default configuration file of `toggleHost`. -/
def toggleLoadedDoc : LoadedConfig where
  config := ensureConfigStructure (JsVal.obj [("version", JsVal.str "1.0"),
    ("project", JsVal.obj [("name", JsVal.str "demo")]),
    ("prompts", JsVal.obj [("p", JsVal.bool false), ("stray", JsVal.str "yes")]),
    ("collections", JsVal.obj [("A", JsVal.bool true)])])
  header := "# my header\n"

/-! ## scripts/test-project-url-parsing.js: the project URL parser -/

/-- A number that `parseInt` returns in base ten: not-a-number, a finite double that is a
natural number, or positive infinity. -/
inductive JsDouble where
  | nan
  | finite (n : Nat)
  | infinity
  deriving DecidableEq, Repr

/-- Number of binary digits of a natural number, by repeated halving. -/
def bitLengthAux : Nat → Nat → Nat
  | 0, _ => 0
  | fuel + 1, n => if n = 0 then 0 else bitLengthAux fuel (n / 2) + 1

/-- Number of binary digits of `n`; `n` halvings are more than enough. -/
def bitLength (n : Nat) : Nat := bitLengthAux n n

/-- The double nearest to a natural number: numbers below `2 ^ 53` are doubles themselves,
larger ones keep 53 binary digits, rounded to nearest with ties to the even mantissa, and
what rounds to a number of more than 1024 binary digits, that is to `2 ^ 1024` or more, is
infinity. -/
def roundToDouble (n : Nat) : JsDouble :=
  if n < 2 ^ 53 then JsDouble.finite n
  else
    let e := bitLength n - 53
    let q := n / 2 ^ e
    let r := n % 2 ^ e
    let half := 2 ^ (e - 1)
    let q2 := if half < r ∨ (r = half ∧ q % 2 = 1) then q + 1 else q
    if 1024 < bitLength (q2 * 2 ^ e) then JsDouble.infinity else JsDouble.finite (q2 * 2 ^ e)

/-- Value of a run of decimal digits, most significant digit first. -/
def digitsValue (digits : List Char) : Nat :=
  digits.foldl (fun acc c => 10 * acc + (c.toNat - 48)) 0

/-- The call `parseInt(s, 10)` on a string that starts with its digits (no leading white
space and no sign, which is all the parser below passes): the longest prefix of decimal
digits is read; without one the result is NaN, otherwise the double nearest to its value. -/
def parseInt10 (s : String) : JsDouble :=
  let digits := s.data.takeWhile Char.isDigit
  if digits = [] then JsDouble.nan else roundToDouble (digitsValue digits)

/-- Match of a literal piece of a pattern at the start of the input: the rest of the input
after the literal. -/
def stripLiteral : List Char → List Char → Option (List Char)
  | [], s => some s
  | _ :: _, [] => none
  | c :: cs, d :: ds => if c = d then stripLiteral cs ds else none

/-- The three capture groups of the pattern
`github\.com\/(users|orgs)\/([^\/]+)\/projects\/(\d+)`. -/
structure UrlMatch where
  scope : String
  owner : String
  projectNumber : String
  deriving DecidableEq, Repr

/-- The alternation `(users|orgs)` at the start of the input: the alternative taken and the
rest of the input. An input that starts with the first alternative does not start with the
second, so that no later failure makes the matcher come back to this choice. -/
def matchScope (s : List Char) : Option (String × List Char) :=
  match stripLiteral "users".data s with
  | some rest => some ("users", rest)
  | none =>
    match stripLiteral "orgs".data s with
    | some rest => some ("orgs", rest)
    | none => none

/-- Match of the pattern with the match starting at the first character of the input. The
greedy `[^\/]+` takes the whole run of characters other than the slash: a shorter run is
followed by a character that is not a slash, where `\/projects\/` cannot match, so that
backtracking finds nothing more. The greedy `\d+` ends the pattern and takes the whole run
of digits. -/
def matchAt (s : List Char) : Option UrlMatch :=
  match stripLiteral "github.com/".data s with
  | none => none
  | some s1 =>
    match matchScope s1 with
    | none => none
    | some (scope, s2) =>
      match stripLiteral "/".data s2 with
      | none => none
      | some s3 =>
        let owner := s3.takeWhile (fun c => c != '/')
        if owner = [] then none
        else
          match stripLiteral "/projects/".data (s3.dropWhile (fun c => c != '/')) with
          | none => none
          | some s4 =>
            let digits := s4.takeWhile Char.isDigit
            if digits = [] then none
            else some { scope := scope, owner := String.mk owner,
                        projectNumber := String.mk digits }

/-- The call `projectUrl.match(pattern)` for the pattern without flags: the match at the
leftmost position of the input where there is one. -/
def regexSearch : List Char → Option UrlMatch
  | [] => matchAt []
  | c :: cs =>
    match matchAt (c :: cs) with
    | some m => some m
    | none => regexSearch cs

/-- The object `parsedInfo`. -/
structure ParsedInfo where
  kind : String
  login : String
  number : JsDouble
  deriving DecidableEq, Repr

/-- Result of `parseProjectUrl`: `{ success: false, error }` or
`{ success: true, parsedInfo, message }`. -/
inductive ParseResult where
  | invalid (error : String)
  | parsed (parsedInfo : ParsedInfo) (message : String)
  deriving DecidableEq, Repr

/-- The field `success` of a result. -/
def ParseResult.success : ParseResult → Bool
  | ParseResult.invalid _ => false
  | ParseResult.parsed _ _ => true

/-- The function `parseProjectUrl` of `scripts/test-project-url-parsing.js`; the same steps
are in `simulateWorkflowLogic` of `scripts/demo-project-sync-logic.js`. The rendering of a
number in the template literal of `message` is the parameter `numberToString`; the line
written to the console is left out. -/
def parseProjectUrl (numberToString : JsDouble → String) (projectUrl : String) : ParseResult :=
  match regexSearch projectUrl.data with
  | none =>
    ParseResult.invalid ("❌ Invalid project URL format: " ++ projectUrl ++
      ". Expected format: https://github.com/\x7busers|orgs\x7d/\x7bowner\x7d/projects/\x7bnumber\x7d")
  | some urlMatch =>
    let parsedInfo : ParsedInfo :=
      { kind := if urlMatch.scope = "users" then "user" else "org",
        login := urlMatch.owner,
        number := parseInt10 urlMatch.projectNumber }
    ParseResult.parsed parsedInfo
      ("✅ Parsed PROJECT_URL: kind=" ++ parsedInfo.kind ++ " login=" ++ parsedInfo.login ++
        " number=" ++ numberToString parsedInfo.number)

/-- Rendering of a number as JavaScript prints it, for numbers below `10 ^ 21`, which print
as their decimal digits; used for concrete checks. -/
def demoNumberToString : JsDouble → String
  | JsDouble.nan => "NaN"
  | JsDouble.finite n => toString n
  | JsDouble.infinity => "Infinity"

/-- Words of the specification: the input contains, after `pre`, the text `github.com/`, a
scope that is `users` or `orgs`, a slash, a non-empty owner without a slash, the text
`/projects/` and a non-empty run of decimal digits, followed by `post`. -/
def ProjectUrlOccurrence (u pre scope owner digits post : List Char) : Prop :=
  u = pre ++ ("github.com/".data ++ (scope ++ ("/".data ++ (owner ++
        ("/projects/".data ++ (digits ++ post)))))) ∧
    (scope = "users".data ∨ scope = "orgs".data) ∧
    owner ≠ [] ∧ '/' ∉ owner ∧ digits ≠ [] ∧ ∀ c ∈ digits, c.isDigit = true

/-! ## apply-config.js: the sync engine -/

/-- Modelled from the spec: an artifact of the sync engine, a name in one of the three
artifact sections (`apply-config.js`, which holds the sync engine, is not among the
sources). -/
structure Artifact where
  sec : ArtifactSection
  name : String
  deriving DecidableEq, Repr

/-- Modelled from the spec: the destination inventory, the files present in the managed
subdirectories of the destination, each one identified by the artifact it corresponds to,
with its content. -/
abbrev DestinationInventory := List (Artifact × String)

/-- Modelled from the spec: the content of the destination file of an artifact, if the file
is present. -/
def destRead : DestinationInventory → Artifact → Option String
  | [], _ => none
  | e :: m, a => if e.1 = a then some e.2 else destRead m a

/-- Modelled from the spec: copy of an artifact to the destination, "overwrite if present":
a file that is present gets the new content, a missing one is created. -/
def destWrite : DestinationInventory → Artifact → String → DestinationInventory
  | [], a, v => [(a, v)]
  | e :: m, a, v => if e.1 = a then (a, v) :: m else e :: destWrite m a v

/-- Modelled from the spec: deletion of the destination file of an artifact; a file that is
missing is "treated as already-satisfied (no-op)". -/
def destRemove (d : DestinationInventory) (a : Artifact) : DestinationInventory :=
  d.filter (fun e => decide (e.1 ≠ a))

/-- Modelled from the spec: the file listing of a managed subdirectory of the destination,
by artifact name. -/
def fileListing (d : DestinationInventory) (sec : ArtifactSection) : List String :=
  (d.filter (fun e => decide (e.1.sec = sec))).map (fun e => e.1.name)

/-- Modelled from the spec: the result `{toCopy, toDelete}` of `sync`. -/
structure SyncPlan where
  toCopy : List Artifact
  toDelete : List Artifact
  deriving DecidableEq, Repr

/-- Modelled from the spec: "the enabled set", whether the effective state of an artifact is
enabled. -/
def isEnabledArtifact (effectiveState : EffectiveStates) (a : Artifact) : Bool :=
  decide (a.name ∈ effectiveState.enabled a.sec)

/-- Modelled from the spec: `sync(effectiveState, destinationInventory)`. "`toCopy` = every
artifact whose effective state is enabled, for every section except collections";
"`toDelete` = every file currently present in the destination's managed subdirectories whose
corresponding artifact is not in the enabled set". -/
def sync (effectiveState : EffectiveStates) (destinationInventory : DestinationInventory) :
    SyncPlan :=
  { toCopy :=
      [ArtifactSection.prompts, ArtifactSection.instructions, ArtifactSection.chatmodes].flatMap
        (fun sec => (effectiveState.enabled sec).map (fun n => { sec := sec, name := n })),
    toDelete :=
      (destinationInventory.map (fun e => e.1)).filter
        (fun a => !isEnabledArtifact effectiveState a) }

/-- Modelled from the spec: "then apply: copy each artifact in `toCopy` from its source
location to the destination (overwrite if present ...), and delete each file in `toDelete`
from the destination". The parameter `source` is the content of each artifact at its source
location. -/
def applyPlan (source : Artifact → String) (plan : SyncPlan) (d : DestinationInventory) :
    DestinationInventory :=
  plan.toDelete.foldl destRemove (plan.toCopy.foldl (fun acc a => destWrite acc a (source a)) d)

/-- Modelled from the spec: the copies of a list that mutate the destination, that is, that
leave it different from what it was just before the copy. -/
def copyMutations (source : Artifact → String) :
    List Artifact → DestinationInventory → List Artifact
  | [], _ => []
  | a :: rest, d =>
    (if destWrite d a (source a) = d then [] else [a]) ++
      copyMutations source rest (destWrite d a (source a))

/-- Modelled from the spec: the deletions of a list that mutate the destination. -/
def deleteMutations : List Artifact → DestinationInventory → List Artifact
  | [], _ => []
  | a :: rest, d =>
    (if destRemove d a = d then [] else [a]) ++ deleteMutations rest (destRemove d a)

/-- Modelled from the spec: the file-system mutations of applying a plan, the copies and
then the deletions that change the destination. -/
def planMutations (source : Artifact → String) (plan : SyncPlan) (d : DestinationInventory) :
    List Artifact × List Artifact :=
  (copyMutations source plan.toCopy d,
   deleteMutations plan.toDelete
     (plan.toCopy.foldl (fun acc a => destWrite acc a (source a)) d))

/-- Modelled from the spec: one run of the sync engine on a configuration: resolve the
effective state, compute the plan against the destination as it is, and apply it. -/
def runSync (env : Env) (source : Artifact → String) (config : Config)
    (d : DestinationInventory) : DestinationInventory :=
  applyPlan source (sync (computeEffectiveItemStates env config).1 d) d

/-! ## awesome-copilot.js: the arguments as arrays with identity -/

/-- A store of arrays of strings; a reference to an array is its index in the store. -/
abbrev ArrayStore := List (List String)

/-- The elements of the array at a reference. -/
def ArrayStore.read (store : ArrayStore) (ref : Nat) : List String := store.getD ref []

/-- Creation of an array (`[...xs]`): the store with the new array, and its reference. -/
def ArrayStore.alloc (store : ArrayStore) (xs : List String) : ArrayStore × Nat :=
  (store ++ [xs], store.length)

/-- Update in place of the array at a reference, as `splice` and `pop` do. -/
def ArrayStore.write (store : ArrayStore) (ref : Nat) (xs : List String) : ArrayStore :=
  store.set ref xs

/-- The elements that `array.splice(i, 2)` leaves in the array. -/
def splice2 (xs : List String) (i : Nat) : List String := xs.take i ++ xs.drop (i + 2)

/-- The `for` loop of `extractConfigOption` as the source runs it, on the array that the
reference `args` points to, at index `i`. After `splice` the source decrements `i` and the
loop increments it, so the next round has the same index. Every round shortens what is left
of the array after index `i`, so the first argument, a bound on the number of rounds, is
never used up when it exceeds the length of the array. -/
def extractLoopInPlace :
    Nat → ArrayStore → Nat → Nat → String → Except String (ArrayStore × String)
  | 0, store, _, _, configPath => Except.ok (store, configPath)
  | fuel + 1, store, args, i, configPath =>
    if i < (store.read args).length then
      if (store.read args).getD i "" ∈ CONFIG_FLAG_ALIASES then
        if i = (store.read args).length - 1 then
          Except.error "Missing configuration file after --config flag."
        else
          extractLoopInPlace fuel (store.write args (splice2 (store.read args) i)) args i
            ((store.read args).getD (i + 1) "")
      else extractLoopInPlace fuel store args (i + 1) configPath
    else Except.ok (store, configPath)

/-- The record returned by `extractConfigOption`, with `args` as a reference. -/
structure ExtractedInPlace where
  args : Nat
  configPath : String
  deriving DecidableEq, Repr

/-- `extractConfigOption(rawArgs)` as the source runs it: `rawArgs` is a reference to an
array of the store, `const args = [...rawArgs]` creates a new array, and `splice` and `pop`
update the array of `args` in place. The result has the final store. -/
def extractConfigOptionInPlace (store : ArrayStore) (rawArgs : Nat) :
    Except String (ArrayStore × ExtractedInPlace) :=
  let created := store.alloc (store.read rawArgs)
  match extractLoopInPlace ((store.read rawArgs).length + 1) created.1 created.2 0
      DEFAULT_CONFIG_PATH with
  | Except.error err => Except.error err
  | Except.ok (store2, configPath) =>
    if 0 < (store2.read created.2).length then
      if isConfigFilePath
          ((store2.read created.2).getD ((store2.read created.2).length - 1) "") then
        Except.ok (store2.write created.2 (store2.read created.2).dropLast,
          { args := created.2,
            configPath :=
              (store2.read created.2).getD ((store2.read created.2).length - 1) "" })
      else Except.ok (store2, { args := created.2, configPath := configPath })
    else Except.ok (store2, { args := created.2, configPath := configPath })

/-- Words of the specification: a list of tokens that the loop of `extractConfigOption`
works through completely, in steps of one token that is not a config flag or of a config
flag together with the token after it. -/
inductive ConsumedByLoop : List String → Prop where
  | done : ConsumedByLoop []
  | token (a : String) (rest : List String) :
      a ∉ CONFIG_FLAG_ALIASES → ConsumedByLoop rest → ConsumedByLoop (a :: rest)
  | option (flag value : String) (rest : List String) :
      flag ∈ CONFIG_FLAG_ALIASES → ConsumedByLoop rest →
      ConsumedByLoop (flag :: value :: rest)

/-! ## awesome-copilot.js: the list command -/

/-- The artifact section with a given name; `none` for every other string. -/
def ArtifactSection.ofKey? (sectionName : String) : Option ArtifactSection :=
  if sectionName = "prompts" then some ArtifactSection.prompts
  else if sectionName = "instructions" then some ArtifactSection.instructions
  else if sectionName = "chatmodes" then some ArtifactSection.chatmodes
  else none

/-- Rendering of `reason.value` in a template literal. -/
def renderFlag : Option Bool → String
  | some true => "true"
  | some false => "false"
  | none => "undefined"

/-- The value of `enabledCount` in `handleListCommand`: the traditional count for
collections, the size of the effective set for the other sections. A section name without
an effective set ends the command with a type error. -/
def listEnabledCount (sanitizedConfig : JsObject) (effectiveStates : EffectiveStates)
    (sectionName : String) : Except String Nat :=
  if sectionName = "collections" then
    Except.ok (countEnabledItems (sectionMap sanitizedConfig sectionName))
  else
    match ArtifactSection.ofKey? sectionName with
    | some sec => Except.ok (effectiveStates.enabled sec).length
    | none => Except.error "Cannot read properties of undefined (reading 'size')"

/-- The value of `reasonText` for a reason. -/
def reasonTextOf (reason : Reason) : Except String String :=
  if reason.source = "explicit" then
    Except.ok (" (explicit:" ++ renderFlag reason.value ++ ")")
  else if reason.source = "collections" then
    match reason.via with
    | none => Except.error "Cannot read properties of undefined (reading 'length')"
    | some via =>
      if 0 < via.length then Except.ok (" (via: " ++ ", ".intercalate via ++ ")")
      else Except.ok ""
  else Except.ok ""

/-- The line that `handleListCommand` prints for one item of a section. -/
def listItemLine (sanitizedConfig : JsObject) (effectiveStates : EffectiveStates)
    (sectionName itemName : String) : Except String String :=
  if sectionName = "collections" then
    Except.ok ("  [" ++
      (if truthyMember (sectionMap sanitizedConfig sectionName) itemName then "✓" else " ")
      ++ "] " ++ itemName)
  else
    match ArtifactSection.ofKey? sectionName with
    | none => Except.error "Cannot read properties of undefined (reading 'has')"
    | some sec =>
      match effectiveStates.reason sec itemName with
      | none => Except.error "Cannot read properties of undefined (reading 'source')"
      | some reason =>
        match reasonTextOf reason with
        | Except.error err => Except.error err
        | Except.ok reasonText =>
          Except.ok ("  [" ++
            (if itemName ∈ effectiveStates.enabled sec then "✓" else " ") ++ "] " ++
            itemName ++ reasonText)

/-- The loop `availableItems.forEach` of `handleListCommand`: the lines printed, and the
message of the exception that ended the loop, if any. -/
def listItems (sanitizedConfig : JsObject) (effectiveStates : EffectiveStates)
    (sectionName : String) : List String → List String × Option String
  | [] => ([], none)
  | itemName :: rest =>
    match listItemLine sanitizedConfig effectiveStates sectionName itemName with
    | Except.error err => ([], some err)
    | Except.ok line =>
      (line :: (listItems sanitizedConfig effectiveStates sectionName rest).1,
        (listItems sanitizedConfig effectiveStates sectionName rest).2)

/-- The heading that `handleListCommand` prints for a section. -/
def listHeading (label : String) (enabledCount available totalCharacters : Nat)
    (sectionName : String) : String :=
  "\n" ++ ", ".intercalate
    ([label ++ " (" ++ toString enabledCount ++ "/" ++ toString available ++ " enabled)"] ++
      (if 0 < totalCharacters ∧ sectionName ≠ "collections" then
        ["~" ++ formatNumber totalCharacters ++ " chars"]
      else []))

/-- Body of `sectionsToShow.forEach` in `handleListCommand`: the lines printed for one
section, and the message of the exception that ended it, if any. For a name that
`SECTION_METADATA` has as an inherited key only, `getAllAvailableItems` throws. -/
def listSection (env : Env) (host : Host) (sanitizedConfig : JsObject)
    (effectiveStates : EffectiveStates) (sectionName : String) : List String × Option String :=
  match SECTION_METADATA sectionName with
  | none => ([], some "The \"path\" argument must be of type string. Received undefined")
  | some sectionMeta =>
    match listEnabledCount sanitizedConfig effectiveStates sectionName with
    | Except.error err => ([], some err)
    | Except.ok enabledCount =>
      let totalCharacters :=
        if sectionName = "collections" then 0
        else calculateSectionFootprint host sectionName (sectionMap sanitizedConfig sectionName)
      let heading := listHeading sectionMeta.label enabledCount
        (getAllAvailableItems env sectionName).length totalCharacters sectionName
      if getAllAvailableItems env sectionName = [] then
        ([heading, "  (no items available)"], none)
      else
        (heading :: (listItems sanitizedConfig effectiveStates sectionName
            (getAllAvailableItems env sectionName)).1,
          (listItems sanitizedConfig effectiveStates sectionName
            (getAllAvailableItems env sectionName)).2)

/-- The loop `sectionsToShow.forEach` of `handleListCommand`. -/
def listSections (env : Env) (host : Host) (sanitizedConfig : JsObject)
    (effectiveStates : EffectiveStates) : List String → List String × Option String
  | [] => ([], none)
  | sectionName :: rest =>
    match listSection env host sanitizedConfig effectiveStates sectionName with
    | (lines, some err) => (lines, some err)
    | (lines, none) =>
      (lines ++ (listSections env host sanitizedConfig effectiveStates rest).1,
        (listSections env host sanitizedConfig effectiveStates rest).2)

/-- The value of `sectionsToShow` in `handleListCommand`. -/
def sectionsToShowOf (args : List String) : Except String (List String) :=
  match args with
  | [] => Except.ok CONFIG_SECTIONS
  | first :: _ =>
    match validateSectionType first with
    | Except.error err => Except.error err
    | Except.ok requestedSection => Except.ok [requestedSection]

/-- `handleListCommand(rawArgs)`; the command writes no file. -/
def handleListCommand (env : Env) (host : Host) (rawArgs : List String) : ToggleRun :=
  match extractConfigOption rawArgs with
  | Except.error err => toggleFail [] err
  | Except.ok options =>
    match sectionsToShowOf options.args with
    | Except.error err => toggleFail [] err
    | Except.ok sectionsToShow =>
      match loadConfig host options.configPath with
      | Except.error err => toggleFail [] err
      | Except.ok loaded =>
        let sanitizedConfig := ensureConfigStructure (JsVal.obj loaded.config)
        let effective := computeEffectiveItemStates env (Config.ofObject sanitizedConfig)
        let shown := listSections env host sanitizedConfig effective.1 sectionsToShow
        let output := effective.2 ++ ["📄 Configuration: " ++ options.configPath] ++ shown.1
        match shown.2 with
        | some err => { error := some err, writes := [], output := output }
        | none =>
          { error := none, writes := [],
            output := output ++
              ["\nUse 'awesome-copilot toggle' to enable or disable specific items."] }

/-- A host whose default configuration file enables the collections A and B and the
collections old and older, which are not collections of the installation `demoEnv`, and sets
the prompts p and stray to true. -/
def strayHost : Host where
  localeCompare := codeUnitCompare
  toLowerCase := toLowerCase
  generateConfigHeader := "# generated"
  objectToYaml := fun _ => ""
  parseConfigYamlContent := fun _ =>
    Except.ok (JsVal.obj [("version", JsVal.str "1.0"),
      ("prompts", JsVal.obj [("p", JsVal.bool true), ("stray", JsVal.bool true)]),
      ("collections", JsVal.obj [("A", JsVal.bool true), ("B", JsVal.bool true),
        ("old", JsVal.bool true), ("older", JsVal.bool true)])])
  readFile := fun file =>
    if file = "awesome-copilot.config.yml" then some "version: 1\n" else none
  fileSize := fun _ => none

/-! ## The key order of an object -/

/-- The value of a run of decimal digits as `arrayIndex` reads it. -/
def numeralValue (digits : List Char) : Nat :=
  digits.foldl (fun acc c => acc * 10 + (c.toNat - 48)) 0

/-- A canonical decimal numeral: digits only, not empty, no leading zero except for the
numeral of zero. -/
def CanonicalNumeral (digits : List Char) : Prop :=
  digits ≠ [] ∧ (∀ c ∈ digits, c.isDigit = true) ∧
    (digits.head? ≠ some '0' ∨ digits.length = 1)

/-- The relation between an earlier and a later key in the order of `Object.keys`: array
indices ascend and come before the other keys, and keys are distinct. -/
def keyBefore (a b : String) : Prop :=
  match arrayIndex a, arrayIndex b with
  | some i, some j => i < j
  | some _, none => True
  | none, some _ => False
  | none, none => a ≠ b

/-- An association list whose keys are in an order that `Object.keys` can give. -/
def KeysOrdered {β : Type} (o : List (String × β)) : Prop :=
  List.Pairwise keyBefore (objKeys o)

/-! ## config-manager.js: sanitization on objects with identity -/

/-- A value in a store of objects: a primitive value, or a reference to an object of the
store. -/
inductive HeapVal where
  | undefined
  | null
  | bool (b : Bool)
  | num (n : Int)
  | nan
  | str (s : String)
  | ref (r : Nat)
  deriving DecidableEq, Repr

/-- The own properties of an object of the store, in the order of `Object.keys`. -/
abbrev HeapObject := List (String × HeapVal)

/-- A store of objects; a reference to an object is its index in the store. -/
abbrev ObjectStore := List HeapObject

/-- The properties of the object at a reference. -/
def ObjectStore.read (store : ObjectStore) (ref : Nat) : HeapObject := store.getD ref []

/-- Creation of an object: the store with the new object, and its reference. -/
def ObjectStore.alloc (store : ObjectStore) (o : HeapObject) : ObjectStore × Nat :=
  (store ++ [o], store.length)

/-- The assignment `obj[key] = v` on the object at a reference, in place, as far as own
properties go (`objAssign`). -/
def ObjectStore.setProp (store : ObjectStore) (ref : Nat) (key : String) (v : HeapVal) :
    ObjectStore :=
  store.set ref (objAssign (store.read ref) key v)

/-- The property read `obj[key]` on the object at a reference. -/
def ObjectStore.getProp (store : ObjectStore) (ref : Nat) (key : String) : HeapVal :=
  (assocGet (store.read ref) key).getD HeapVal.undefined

/-- Truthiness of a value of the store; an object is truthy. -/
def HeapVal.truthy : HeapVal → Bool
  | .undefined => false
  | .null => false
  | .bool b => b
  | .num n => n != 0
  | .nan => false
  | .str s => s != ""
  | .ref _ => true

/-- `v === undefined` for a value of the store. -/
def HeapVal.isUndefined : HeapVal → Bool
  | .undefined => true
  | _ => false

/-- `toBoolean(value)` for a value of the store. -/
def toBooleanRef (value : HeapVal) : Bool :=
  match value with
  | HeapVal.bool b => b
  | HeapVal.str s =>
    if toLowerCase (trim s) = "true" then true
    else if toLowerCase (trim s) = "false" then false
    else (HeapVal.str s).truthy
  | v => v.truthy

/-- The own properties of the object that a value refers to; none for a value that is not
an object. -/
def refEntries (store : ObjectStore) (v : HeapVal) : HeapObject :=
  match v with
  | HeapVal.ref r => store.read r
  | _ => []

/-- The properties that an object spread gives a fresh object: the entries in order. -/
def spreadEntries (entries : HeapObject) : HeapObject :=
  entries.foldl (fun acc e => objSet acc e.1 e.2) []

/-- The properties that the loop of `sanitizeSection` gives a fresh object. -/
def sanitizeEntries (entries : HeapObject) : HeapObject :=
  entries.foldl (fun acc e => objAssign acc e.1 (HeapVal.bool (toBooleanRef e.2))) []

/-- The expression `typeof v === "object" && v !== null ? { ...v } : {}`: a new object with
the own properties of `v`, or a new empty object. -/
def spreadRef (store : ObjectStore) (v : HeapVal) : ObjectStore × Nat :=
  store.alloc (spreadEntries (refEntries store v))

/-- `sanitizeSection(section)` on the store: a new object is created and filled in place
with the coerced entries that `Object.entries(section)` lists. -/
def sanitizeSectionRef (store : ObjectStore) (sectionValue : HeapVal) : ObjectStore × Nat :=
  ((refEntries store sectionValue).foldl
      (fun st e => st.setProp store.length e.1 (HeapVal.bool (toBooleanRef e.2)))
      (store.alloc []).1,
    store.length)

/-- Body of `CONFIG_SECTIONS.forEach` in `ensureConfigStructure`, on the store. -/
def sanitizeStepRef (sanitized : Nat) (store : ObjectStore) (sectionName : String) :
    ObjectStore :=
  (sanitizeSectionRef store (store.getProp sanitized sectionName)).1.setProp sanitized
    sectionName
    (HeapVal.ref (sanitizeSectionRef store (store.getProp sanitized sectionName)).2)

/-- `ensureConfigStructure(config)` as the source runs it, on a store of objects: the copy
`sanitized` and the copy `project` are new objects, every assignment is made in place on
an object, and the result is the reference `sanitized` with the final store. -/
def ensureConfigStructureRef (store : ObjectStore) (config : HeapVal) : ObjectStore × Nat :=
  let copied := spreadRef store config
  let sanitized := copied.2
  let store1 :=
    if (copied.1.getProp sanitized "version").truthy then copied.1
    else copied.1.setProp sanitized "version" (HeapVal.str "1.0")
  let projectCopy := spreadRef store1 (store1.getProp sanitized "project")
  let project := projectCopy.2
  let store2 :=
    if (projectCopy.1.getProp project "output_directory").isUndefined then
      projectCopy.1.setProp project "output_directory" (HeapVal.str ".awesome-copilot")
    else projectCopy.1
  let store3 := store2.setProp sanitized "project" (HeapVal.ref project)
  (CONFIG_SECTIONS.foldl (sanitizeStepRef sanitized) store3, sanitized)

/-- The value that a value of the store stands for, objects unfolded to the given depth;
below that depth an object is read as empty. -/
def decode (store : ObjectStore) : Nat → HeapVal → JsVal
  | _, HeapVal.undefined => JsVal.undefined
  | _, HeapVal.null => JsVal.null
  | _, HeapVal.bool b => JsVal.bool b
  | _, HeapVal.num n => JsVal.num n
  | _, HeapVal.nan => JsVal.nan
  | _, HeapVal.str s => JsVal.str s
  | 0, HeapVal.ref _ => JsVal.obj []
  | depth + 1, HeapVal.ref r =>
    JsVal.obj ((store.read r).map (fun e => (e.1, decode store depth e.2)))

/-- The entries of an object with a function applied to every value. -/
def mapVals {β γ : Type} (g : β → γ) (o : List (String × β)) : List (String × γ) :=
  o.map (fun e => (e.1, g e.2))

/-- A value that refers to nothing outside the first `n` objects of a store. -/
def HeapVal.Within (n : Nat) : HeapVal → Prop
  | HeapVal.ref r => r < n
  | _ => True

/-- A store in which every reference points to an object of the store. -/
def ObjectStore.Closed (store : ObjectStore) : Prop :=
  ∀ o ∈ store, ∀ e ∈ o, e.2.Within store.length

/-- A store with a document that holds a project object and a prompts map with a string
flag, for concrete checks. -/
def demoStore : ObjectStore :=
  [[("9", HeapVal.num 2), ("10", HeapVal.num 1), ("project", HeapVal.ref 1),
    ("prompts", HeapVal.ref 2)],
   [("name", HeapVal.str "demo")],
   [("p", HeapVal.str "TRUE"), ("q", HeapVal.null)]]

/-- A value that refers neither to the object `n` nor to anything outside the first `m`
objects of a store. -/
def HeapVal.Settled (n m : Nat) : HeapVal → Prop
  | HeapVal.ref r => r ≠ n ∧ r < m
  | _ => True

/-- The properties of `sanitized` after the statement that ensures `version`. -/
def ensureVersionEntries (entries : HeapObject) : HeapObject :=
  if ((assocGet entries "version").getD HeapVal.undefined).truthy then entries
  else objSet entries "version" (HeapVal.str "1.0")

/-- The properties of `project` after the statement that ensures `output_directory`. -/
def ensureProjectEntries (entries : HeapObject) : HeapObject :=
  if ((assocGet entries "output_directory").getD HeapVal.undefined).isUndefined then
    objSet entries "output_directory" (HeapVal.str ".awesome-copilot")
  else entries

/-! ## Inputs with names of members of `Object.prototype` -/

/-- An installation whose prompts directory holds the files `__proto__.prompt.md`,
`constructor.prompt.md` and `p.prompt.md`, without collections. -/
def protoEnv : Env where
  getAvailableItems := fun dir _ =>
    if dir = "prompts" then ["__proto__", "constructor", "p"] else []
  existsSync := fun _ => false
  parseCollectionYaml := fun _ => ParseOutcome.noItems

/-- A configuration with four empty section maps. -/
def emptyConfig : Config where
  prompts := some []
  instructions := some []
  chatmodes := some []
  collections := some []

/-- A document whose prompts map has an own property `__proto__` between the names `a` and
`b`, as `JSON.parse` gives it for a text with these three keys. -/
def protoSectionDocument : JsVal :=
  JsVal.obj [("prompts", JsVal.obj [("a", JsVal.str "yes"), ("__proto__", JsVal.bool true),
    ("b", JsVal.num 0)])]

/-- A host whose default configuration file holds a header and a document with an empty
prompts map. -/
def emptyPromptsHost : Host where
  localeCompare := codeUnitCompare
  toLowerCase := toLowerCase
  generateConfigHeader := "# generated"
  objectToYaml := fun _ => ""
  parseConfigYamlContent := fun _ =>
    Except.ok (JsVal.obj [("version", JsVal.str "1.0"), ("prompts", JsVal.obj [])])
  readFile := fun file =>
    if file = "awesome-copilot.config.yml" then some "# my header\n\nversion: 1\n" else none
  fileSize := fun _ => none

/-- What `loadConfig` returns for the default configuration file of `emptyPromptsHost`. -/
def emptyPromptsLoaded : LoadedConfig where
  config := ensureConfigStructure
    (JsVal.obj [("version", JsVal.str "1.0"), ("prompts", JsVal.obj [])])
  header := "# my header\n"

/-! # Theorems -/

/-! ## The order of `sort()` -/

theorem codeUnitsLe_total : ∀ a b : List Nat, codeUnitsLe a b = true ∨ codeUnitsLe b a = true
  | [], _ => Or.inl (by simp [codeUnitsLe])
  | _ :: _, [] => Or.inr (by simp [codeUnitsLe])
  | a :: as, b :: bs => by
    simp only [codeUnitsLe, Bool.or_eq_true, Bool.and_eq_true, decide_eq_true_eq]
    rcases Nat.lt_trichotomy a b with h | h | h
    · exact Or.inl (Or.inl h)
    · rcases codeUnitsLe_total as bs with h2 | h2
      · exact Or.inl (Or.inr ⟨h, h2⟩)
      · exact Or.inr (Or.inr ⟨h.symm, h2⟩)
    · exact Or.inr (Or.inl h)

theorem codeUnitsLe_trans : ∀ a b c : List Nat,
    codeUnitsLe a b = true → codeUnitsLe b c = true → codeUnitsLe a c = true
  | [], _, _ => by simp [codeUnitsLe]
  | _ :: _, [], _ => by simp [codeUnitsLe]
  | _ :: _, _ :: _, [] => by simp [codeUnitsLe]
  | a :: as, b :: bs, c :: cs => by
    simp only [codeUnitsLe, Bool.or_eq_true, Bool.and_eq_true, decide_eq_true_eq]
    rintro (h1 | ⟨h1, h1t⟩) (h2 | ⟨h2, h2t⟩)
    · exact Or.inl (by omega)
    · exact Or.inl (by omega)
    · exact Or.inl (by omega)
    · exact Or.inr ⟨by omega, codeUnitsLe_trans as bs cs h1t h2t⟩

theorem codeUnitsLe_antisymm : ∀ a b : List Nat,
    codeUnitsLe a b = true → codeUnitsLe b a = true → a = b
  | [], [] => by simp
  | [], _ :: _ => by simp [codeUnitsLe]
  | _ :: _, [] => by simp [codeUnitsLe]
  | a :: as, b :: bs => by
    simp only [codeUnitsLe, Bool.or_eq_true, Bool.and_eq_true, decide_eq_true_eq]
    rintro (h1 | ⟨h1, h1t⟩) (h2 | ⟨h2, h2t⟩)
    · omega
    · omega
    · omega
    · rw [h1, codeUnitsLe_antisymm as bs h1t h2t]

theorem charCodeUnits_ne_nil (c : Char) : charCodeUnits c ≠ [] := by
  unfold charCodeUnits; split <;> simp

theorem char_toNat_bounds (c : Char) :
    (c.toNat < 0xD800 ∨ 0xDFFF < c.toNat) ∧ c.toNat < 0x110000 := by
  have h := c.valid
  unfold Char.toNat
  rcases h with h | ⟨h1, h2⟩
  · have : c.val.toNat < 0xD800 := h
    omega
  · have a1 : 0xDFFF < c.val.toNat := h1
    have a2 : c.val.toNat < 0x110000 := h2
    omega

theorem codeUnits_injective : ∀ a b : List Char, codeUnits a = codeUnits b → a = b
  | [], [] => by simp
  | [], c :: cs => by
    intro h
    have := charCodeUnits_ne_nil c
    simp only [codeUnits] at h
    cases hc : charCodeUnits c with
    | nil => exact absurd hc this
    | cons x xs => rw [hc] at h; simp at h
  | c :: cs, [] => by
    intro h
    have := charCodeUnits_ne_nil c
    simp only [codeUnits] at h
    cases hc : charCodeUnits c with
    | nil => exact absurd hc this
    | cons x xs => rw [hc] at h; simp at h
  | c :: cs, d :: ds => by
    intro h
    have hc := char_toNat_bounds c
    have hd := char_toNat_bounds d
    simp only [codeUnits, charCodeUnits] at h
    have key : c.toNat = d.toNat ∧ codeUnits cs = codeUnits ds := by
      by_cases h1 : c.toNat < 0x10000 <;> by_cases h2 : d.toNat < 0x10000
      · simp only [h1, h2, if_true, List.singleton_append, List.cons.injEq] at h
        exact h
      · simp only [h1, h2, if_true, if_false, List.singleton_append, List.cons_append,
          List.nil_append, List.cons.injEq] at h
        omega
      · simp only [h1, h2, if_true, if_false, List.singleton_append, List.cons_append,
          List.nil_append, List.cons.injEq] at h
        omega
      · simp only [h1, h2, if_false, List.cons_append, List.nil_append, List.cons.injEq] at h
        exact ⟨by omega, h.2.2⟩
    have hcd : c = d := Char.ext (UInt32.ext key.1)
    rw [hcd, codeUnits_injective cs ds key.2]

theorem toUtf16_injective (a b : String) (h : toUtf16 a = toUtf16 b) : a = b := by
  unfold toUtf16 at h
  have := codeUnits_injective _ _ h
  exact String.ext this

theorem jsStringLe_isTotal : IsTotal String jsStringLe := ⟨fun _ _ => codeUnitsLe_total _ _⟩

theorem jsStringLe_isTrans : IsTrans String jsStringLe := ⟨fun _ _ _ => codeUnitsLe_trans _ _ _⟩

theorem jsStringLe_isAntisymm : IsAntisymm String jsStringLe :=
  ⟨fun _ _ h1 h2 => toUtf16_injective _ _ (codeUnitsLe_antisymm _ _ h1 h2)⟩

theorem jsSort_sorted (xs : List String) : List.Sorted jsStringLe (jsSort xs) :=
  haveI := jsStringLe_isTotal
  haveI := jsStringLe_isTrans
  List.sorted_insertionSort jsStringLe xs

theorem jsSort_perm (xs : List String) : List.Perm (jsSort xs) xs :=
  List.perm_insertionSort jsStringLe xs

theorem jsSort_eq_of_perm {xs ys : List String} (h : List.Perm xs ys) : jsSort xs = jsSort ys :=
  haveI := jsStringLe_isAntisymm
  List.eq_of_perm_of_sorted ((jsSort_perm xs).trans (h.trans (jsSort_perm ys).symm))
    (jsSort_sorted xs) (jsSort_sorted ys)

/-! ## Association lists -/

theorem assocGet_assocSet_self {β : Type} (m : List (String × β)) (k : String) (v : β) :
    assocGet (assocSet m k v) k = some v := by
  induction m with
  | nil => simp [assocSet, assocGet]
  | cons e m ih =>
    by_cases h : e.1 = k
    · simp [assocSet, assocGet, h]
    · simp [assocSet, assocGet, h, ih]

theorem assocGet_assocSet_other {β : Type} (m : List (String × β)) (k k2 : String) (v : β)
    (hne : k ≠ k2) : assocGet (assocSet m k v) k2 = assocGet m k2 := by
  induction m with
  | nil => simp [assocSet, assocGet, hne]
  | cons e m ih =>
    by_cases h : e.1 = k
    · have h2 : ¬ e.1 = k2 := fun h3 => hne (h ▸ h3)
      simp [assocSet, assocGet, h, h2, hne]
    · by_cases h2 : e.1 = k2
      · rw [assocSet, if_neg h, assocGet, if_pos h2, assocGet, if_pos h2]
      · simp [assocSet, assocGet, h, h2, ih]

theorem assocGet_isSome_iff {β : Type} (m : List (String × β)) (k : String) :
    (assocGet m k).isSome = true ↔ k ∈ m.map Prod.fst := by
  induction m with
  | nil => simp [assocGet]
  | cons e m ih =>
    by_cases h : e.1 = k
    · simp [assocGet, h]
    · have h2 : ¬ k = e.1 := fun h3 => h h3.symm
      simp [assocGet, h, h2, ih]

theorem assocGet_of_mem_nodup {β : Type} (m : List (String × β)) (k : String) (v : β)
    (hnd : (m.map Prod.fst).Nodup) (hmem : (k, v) ∈ m) : assocGet m k = some v := by
  induction m with
  | nil => simp at hmem
  | cons e m ih =>
    simp only [List.map_cons, List.nodup_cons] at hnd
    rcases List.mem_cons.1 hmem with h | h
    · subst h; simp [assocGet]
    · have hk : k ∈ m.map Prod.fst := List.mem_map.2 ⟨(k, v), h, rfl⟩
      have h2 : ¬ e.1 = k := fun h3 => hnd.1 (h3 ▸ hk)
      simp [assocGet, h2, ih hnd.2 h]

theorem mem_of_assocGet {β : Type} (m : List (String × β)) (k : String) (v : β)
    (h : assocGet m k = some v) : (k, v) ∈ m := by
  induction m with
  | nil => simp [assocGet] at h
  | cons e m ih =>
    by_cases h2 : e.1 = k
    · simp only [assocGet, h2, if_true, Option.some.injEq] at h
      exact List.mem_cons.2 (Or.inl (by rw [← h2, ← h]))
    · simp only [assocGet, h2, if_false] at h
      exact List.mem_cons_of_mem _ (ih h)

/-! ## Sets -/

theorem mem_setAdd (s : List String) (x y : String) : y ∈ setAdd s x ↔ y ∈ s ∨ y = x := by
  unfold setAdd
  split
  · rename_i h
    constructor
    · exact Or.inl
    · rintro (h2 | h2)
      · exact h2
      · exact h2 ▸ h
  · simp

theorem nodup_setAdd (s : List String) (x : String) (h : s.Nodup) : (setAdd s x).Nodup := by
  unfold setAdd
  split
  · exact h
  · rename_i hx
    exact List.Nodup.append h (List.nodup_singleton x) (by simpa using hx)

theorem setAdd_ne_nil (s : List String) (x : String) : setAdd s x ≠ [] := by
  intro h
  have : x ∈ setAdd s x := (mem_setAdd s x x).2 (Or.inr rfl)
  rw [h] at this
  simp at this

/-! ## Objects in property order -/

theorem assocGet_eq_none_of_not_mem {β : Type} (m : List (String × β)) (k : String)
    (h : k ∉ objKeys m) : assocGet m k = none := by
  cases hg : assocGet m k with
  | none => rfl
  | some v =>
    have : (assocGet m k).isSome = true := by rw [hg]; rfl
    exact absurd ((assocGet_isSome_iff m k).1 this) h

theorem assocGet_insertIndexed_self {β : Type} (i : Nat) (k : String) (v : β)
    (m : List (String × β)) (h : assocGet m k = none) :
    assocGet (insertIndexed i k v m) k = some v := by
  induction m with
  | nil => simp [insertIndexed, assocGet]
  | cons e m ih =>
    have hne : ¬ e.1 = k := by
      intro he
      simp [assocGet, he] at h
    have hm : assocGet m k = none := by
      simpa [assocGet, hne] using h
    unfold insertIndexed
    split
    · split
      · rw [assocGet, if_neg hne]; exact ih hm
      · simp [assocGet]
    · simp [assocGet]

theorem assocGet_insertIndexed_other {β : Type} (i : Nat) (k k2 : String) (v : β)
    (m : List (String × β)) (hne : k ≠ k2) :
    assocGet (insertIndexed i k v m) k2 = assocGet m k2 := by
  induction m with
  | nil => simp [insertIndexed, assocGet, hne]
  | cons e m ih =>
    unfold insertIndexed
    split
    · split
      · by_cases he : e.1 = k2
        · rw [assocGet, if_pos he, assocGet, if_pos he]
        · rw [assocGet, if_neg he, ih, assocGet, if_neg he]
      · rw [assocGet, if_neg hne]
    · rw [assocGet, if_neg hne]

theorem assocGet_append_single {β : Type} (m : List (String × β)) (k k2 : String) (v : β) :
    assocGet (m ++ [(k, v)]) k2 =
      match assocGet m k2 with
      | some w => some w
      | none => if k = k2 then some v else none := by
  induction m with
  | nil => simp [assocGet]
  | cons e m ih =>
    by_cases he : e.1 = k2
    · simp [assocGet, he]
    · simp only [List.cons_append, assocGet, he, if_false]
      exact ih

theorem assocGet_objSet_self {β : Type} (o : List (String × β)) (k : String) (v : β) :
    assocGet (objSet o k v) k = some v := by
  unfold objSet
  split
  · exact assocGet_assocSet_self o k v
  · rename_i h
    have hnone : assocGet o k = none := by
      cases hg : assocGet o k with
      | none => rfl
      | some w => rw [hg] at h; simp at h
    split
    · exact assocGet_insertIndexed_self _ _ _ _ hnone
    · rw [assocGet_append_single, hnone]; simp

theorem assocGet_objSet_other {β : Type} (o : List (String × β)) (k k2 : String) (v : β)
    (hne : k ≠ k2) : assocGet (objSet o k v) k2 = assocGet o k2 := by
  unfold objSet
  split
  · exact assocGet_assocSet_other o k k2 v hne
  · split
    · exact assocGet_insertIndexed_other _ _ _ _ _ hne
    · rw [assocGet_append_single]
      cases assocGet o k2 <;> simp [hne]

theorem assocGet_objSet {β : Type} (o : List (String × β)) (k k2 : String) (v : β) :
    assocGet (objSet o k v) k2 = if k = k2 then some v else assocGet o k2 := by
  by_cases h : k = k2
  · subst h; simp [assocGet_objSet_self]
  · simp [h, assocGet_objSet_other _ _ _ _ h]

theorem objGet_objSet (o : JsObject) (k k2 : String) (v : JsVal) :
    objGet (objSet o k v) k2 = if k = k2 then v else objGet o k2 := by
  unfold objGet
  rw [assocGet_objSet]
  split <;> rfl

theorem mem_objKeys_iff {β : Type} (o : List (String × β)) (k : String) :
    k ∈ objKeys o ↔ (assocGet o k).isSome = true :=
  (assocGet_isSome_iff o k).symm

theorem mem_objKeys_objSet {β : Type} (o : List (String × β)) (k x : String) (v : β) :
    x ∈ objKeys (objSet o k v) ↔ x = k ∨ x ∈ objKeys o := by
  rw [mem_objKeys_iff, mem_objKeys_iff, assocGet_objSet]
  by_cases h : k = x
  · subst h; simp
  · have h2 : ¬ x = k := fun h3 => h h3.symm
    simp [h, h2]

theorem objKeys_assocSet {β : Type} (o : List (String × β)) (k : String) (v : β)
    (h : (assocGet o k).isSome = true) : objKeys (assocSet o k v) = objKeys o := by
  induction o with
  | nil => simp [assocGet] at h
  | cons e m ih =>
    by_cases he : e.1 = k
    · simp [assocSet, he, objKeys]
    · have hm : (assocGet m k).isSome = true := by simpa [assocGet, he] using h
      have := ih hm
      simp only [objKeys] at this
      simp [assocSet, he, objKeys, this]

theorem insertIndexed_perm {β : Type} (i : Nat) (k : String) (v : β) (m : List (String × β)) :
    List.Perm (insertIndexed i k v m) ((k, v) :: m) := by
  induction m with
  | nil => simp [insertIndexed]
  | cons e m ih =>
    unfold insertIndexed
    split
    · split
      · exact (List.Perm.cons e ih).trans (List.Perm.swap _ _ _)
      · exact List.Perm.refl _
    · exact List.Perm.refl _

theorem objKeys_nodup_objSet {β : Type} (o : List (String × β)) (k : String) (v : β)
    (h : (objKeys o).Nodup) : (objKeys (objSet o k v)).Nodup := by
  unfold objSet
  split
  · rename_i hs
    rw [objKeys_assocSet o k v hs]; exact h
  · rename_i hs
    have hk : k ∉ objKeys o := fun hm => hs ((mem_objKeys_iff o k).1 hm)
    split
    · rename_i j _
      have hp := (insertIndexed_perm j k v o).map Prod.fst
      exact hp.nodup_iff.2 (List.nodup_cons.2 ⟨hk, h⟩)
    · simp only [objKeys, List.map_append, List.map_cons, List.map_nil]
      exact List.Nodup.append h (List.nodup_singleton k) (by simpa [objKeys] using hk)

theorem mem_objSet {β : Type} (o : List (String × β)) (k : String) (v : β) (e : String × β)
    (h : e ∈ objSet o k v) : e = (k, v) ∨ e ∈ o := by
  unfold objSet at h
  split at h
  · clear * - h
    induction o with
    | nil => simp [assocSet] at h; exact Or.inl h
    | cons a m ih =>
      by_cases ha : a.1 = k
      · simp only [assocSet, ha, if_true, List.mem_cons] at h
        rcases h with h | h
        · exact Or.inl h
        · exact Or.inr (List.mem_cons_of_mem _ h)
      · simp only [assocSet, ha, if_false, List.mem_cons] at h
        rcases h with h | h
        · exact Or.inr (h ▸ List.mem_cons_self _ _)
        · rcases ih h with h2 | h2
          · exact Or.inl h2
          · exact Or.inr (List.mem_cons_of_mem _ h2)
  · split at h
    · rename_i j _
      have := (insertIndexed_perm j k v o).mem_iff.1 h
      simpa using this
    · simpa [or_comm] using h

/-! ### Assignment with the key `__proto__` -/

theorem objAssign_of_ne {β : Type} (o : List (String × β)) (k : String) (v : β)
    (h : k ≠ "__proto__") : objAssign o k v = objSet o k v := by
  unfold objAssign
  rw [if_neg (fun hc => h hc.1)]

theorem objAssign_proto {β : Type} (o : List (String × β)) (v : β)
    (h : assocGet o "__proto__" = none) : objAssign o "__proto__" v = o := by
  unfold objAssign
  rw [if_pos ⟨rfl, by rw [h]; rfl⟩]

theorem objAssign_cases {β : Type} (o : List (String × β)) (k : String) (v : β) :
    (objAssign o k v = o ∧ k = "__proto__" ∧ assocGet o k = none) ∨
      objAssign o k v = objSet o k v := by
  unfold objAssign
  by_cases h : k = "__proto__" ∧ (assocGet o k).isNone = true
  · rw [if_pos h]
    exact Or.inl ⟨rfl, h.1, Option.isNone_iff_eq_none.1 h.2⟩
  · rw [if_neg h]
    exact Or.inr rfl

theorem mem_objAssign {β : Type} (o : List (String × β)) (k : String) (v : β) (e : String × β)
    (h : e ∈ objAssign o k v) : e = (k, v) ∨ e ∈ o := by
  rcases objAssign_cases o k v with h1 | h1
  · rw [h1.1] at h; exact Or.inr h
  · rw [h1] at h; exact mem_objSet o k v e h

theorem objKeys_nodup_objAssign {β : Type} (o : List (String × β)) (k : String) (v : β)
    (h : (objKeys o).Nodup) : (objKeys (objAssign o k v)).Nodup := by
  rcases objAssign_cases o k v with h1 | h1
  · rw [h1.1]; exact h
  · rw [h1]; exact objKeys_nodup_objSet o k v h

theorem assocGet_objAssign_other {β : Type} (o : List (String × β)) (k k2 : String) (v : β)
    (hne : k ≠ k2) : assocGet (objAssign o k v) k2 = assocGet o k2 := by
  rcases objAssign_cases o k v with h1 | h1
  · rw [h1.1]
  · rw [h1]; exact assocGet_objSet_other o k k2 v hne

theorem assocGet_objAssign_self {β : Type} (o : List (String × β)) (k : String) (v : β)
    (h : k ≠ "__proto__") : assocGet (objAssign o k v) k = some v := by
  rw [objAssign_of_ne o k v h]
  exact assocGet_objSet_self o k v

theorem assocGet_objAssign_proto {β : Type} (o : List (String × β)) (k : String) (v : β)
    (h : assocGet o "__proto__" = none) : assocGet (objAssign o k v) "__proto__" = none := by
  by_cases hk : k = "__proto__"
  · subst hk
    rw [objAssign_proto o v h]; exact h
  · rw [assocGet_objAssign_other o k _ v hk]; exact h

/-- A loop of assignments to an object without an own property `__proto__` is the loop of
property definitions over the items whose key is not `__proto__`. -/
theorem foldl_objAssign_filter {ι β : Type} (key : ι → String) (val : ι → β) (xs : List ι) :
    ∀ acc : List (String × β), assocGet acc "__proto__" = none →
      xs.foldl (fun a x => objAssign a (key x) (val x)) acc =
        (xs.filter (fun x => decide (key x ≠ "__proto__"))).foldl
          (fun a x => objSet a (key x) (val x)) acc := by
  induction xs with
  | nil => intro acc _; rfl
  | cons x t ih =>
    intro acc hacc
    rw [List.foldl_cons]
    by_cases hk : key x = "__proto__"
    · rw [hk, objAssign_proto acc _ hacc, ih acc hacc]
      rw [List.filter_cons_of_neg (by simp [hk])]
    · rw [ih _ (assocGet_objAssign_proto acc (key x) (val x) hacc), objAssign_of_ne _ _ _ hk]
      rw [List.filter_cons_of_pos (by simp [hk]), List.foldl_cons]

theorem foldl_objAssign_noProto {ι β : Type} (key : ι → String) (val : ι → β) (xs : List ι) :
    ∀ acc : List (String × β), assocGet acc "__proto__" = none →
      assocGet (xs.foldl (fun a x => objAssign a (key x) (val x)) acc) "__proto__" = none := by
  induction xs with
  | nil => intro acc h; exact h
  | cons x t ih =>
    intro acc hacc
    rw [List.foldl_cons]
    exact ih _ (assocGet_objAssign_proto acc (key x) (val x) hacc)

/-- The entries whose key is not `__proto__`. -/
theorem assocGet_filter_proto {β : Type} (o : List (String × β)) (k : String) :
    assocGet (o.filter (fun e => decide (e.1 ≠ "__proto__"))) k =
      if k = "__proto__" then none else assocGet o k := by
  induction o with
  | nil => simp [assocGet]
  | cons e m ih =>
    by_cases he : e.1 = "__proto__"
    · rw [List.filter_cons_of_neg (by simp [he]), ih]
      by_cases hk : k = "__proto__"
      · simp [hk]
      · have : e.1 ≠ k := fun h => hk (h ▸ he)
        simp [hk, assocGet, this]
    · rw [List.filter_cons_of_pos (by simp [he])]
      by_cases hek : e.1 = k
      · have hk : k ≠ "__proto__" := fun h => he (hek.trans h)
        simp [assocGet, hek, hk]
      · simp only [assocGet, hek, if_false]
        exact ih

theorem objKeys_filter_proto {β : Type} (o : List (String × β)) :
    objKeys (o.filter (fun e => decide (e.1 ≠ "__proto__"))) =
      (objKeys o).filter (fun k => decide (k ≠ "__proto__")) := by
  unfold objKeys
  rw [List.filter_map]
  rfl

theorem objKeys_nodup_filter_proto {β : Type} (o : List (String × β)) (h : (objKeys o).Nodup) :
    (objKeys (o.filter (fun e => decide (e.1 ≠ "__proto__")))).Nodup := by
  rw [objKeys_filter_proto]
  exact h.filter _

theorem filter_proto_of_noProto {β : Type} (o : List (String × β))
    (h : "__proto__" ∉ objKeys o) :
    o.filter (fun e => decide (e.1 ≠ "__proto__")) = o := by
  rw [List.filter_eq_self]
  intro e he
  have : e.1 ≠ "__proto__" := fun hc => h (by
    unfold objKeys
    exact List.mem_map.2 ⟨e, he, hc⟩)
  simpa using this

theorem read_assign (o : ReasonsObject) (k n : String) (r : Reason) :
    (o.assign k r).read n = if k = n then some r else o.read n := by
  unfold ReasonsObject.assign ReasonsObject.read
  simp only
  by_cases hkn : k = n
  · subst hkn
    rw [if_pos rfl]
    rcases objAssign_cases o.own k r with h1 | h1
    · rw [h1.1, h1.2.2]
      simp [h1.2.1, h1.2.2]
    · rw [h1, assocGet_objSet_self]
  · rw [if_neg hkn, assocGet_objAssign_other o.own k n r hkn]
    cases assocGet o.own n with
    | some x => rfl
    | none =>
      simp only
      by_cases hn : n = "__proto__"
      · have hk : k ≠ "__proto__" := fun h => hkn (h.trans hn.symm)
        simp [hn, hk]
      · simp [hn]

/-- The own keys of a reasons object after an assignment. -/
theorem mem_own_assign (o : ReasonsObject) (k n : String) (r : Reason)
    (ho : assocGet o.own "__proto__" = none) :
    n ∈ objKeys (o.assign k r).own ↔ (n = k ∧ k ≠ "__proto__") ∨ n ∈ objKeys o.own := by
  unfold ReasonsObject.assign
  simp only
  by_cases hk : k = "__proto__"
  · subst hk
    rw [objAssign_proto o.own r ho]
    simp
  · rw [objAssign_of_ne o.own k r hk, mem_objKeys_objSet]
    simp [hk]

/-- Fold of assignments `acc[e.key] = f(e.value)` over entries with distinct keys. -/
theorem assocGet_foldl_objSet (f : JsVal → JsVal) (entries : JsObject) :
    ∀ (acc : JsObject) (k : String), (objKeys entries).Nodup →
      assocGet (entries.foldl (fun a e => objSet a e.1 (f e.2)) acc) k =
        match assocGet entries k with
        | some v => some (f v)
        | none => assocGet acc k := by
  induction entries with
  | nil => intro acc k _; simp [assocGet]
  | cons e t ih =>
    intro acc k hnd
    simp only [objKeys, List.map_cons, List.nodup_cons] at hnd
    rw [List.foldl_cons, ih _ _ hnd.2]
    by_cases he : e.1 = k
    · have hk : assocGet t k = none :=
        assocGet_eq_none_of_not_mem t k (he ▸ hnd.1)
      rw [hk]
      simp [assocGet, he, assocGet_objSet_self]
    · simp only [assocGet, he, if_false]
      cases assocGet t k with
      | some v => rfl
      | none => simp only; exact assocGet_objSet_other _ _ _ _ he

theorem mem_objKeys_foldl_objSet (f : JsVal → JsVal) (entries : JsObject) :
    ∀ (acc : JsObject) (k : String),
      k ∈ objKeys (entries.foldl (fun a e => objSet a e.1 (f e.2)) acc) ↔
        k ∈ objKeys acc ∨ k ∈ objKeys entries := by
  induction entries with
  | nil => intro acc k; simp [objKeys]
  | cons e t ih =>
    intro acc k
    rw [List.foldl_cons, ih, mem_objKeys_objSet]
    simp only [objKeys, List.map_cons, List.mem_cons]
    constructor
    · rintro ((h | h) | h)
      · exact Or.inr (Or.inl h)
      · exact Or.inl h
      · exact Or.inr (Or.inr h)
    · rintro (h | h | h)
      · exact Or.inl (Or.inr h)
      · exact Or.inl (Or.inl h)
      · exact Or.inr h

theorem objKeys_nodup_foldl_objSet (f : JsVal → JsVal) (entries : JsObject) :
    ∀ acc : JsObject, (objKeys acc).Nodup →
      (objKeys (entries.foldl (fun a e => objSet a e.1 (f e.2)) acc)).Nodup := by
  induction entries with
  | nil => intro acc h; exact h
  | cons e t ih =>
    intro acc h
    rw [List.foldl_cons]
    exact ih _ (objKeys_nodup_objSet _ _ _ h)

theorem assocGet_spread (fields : JsObject) (k : String) (hnd : (objKeys fields).Nodup) :
    assocGet (spread fields) k = assocGet fields k := by
  have := assocGet_foldl_objSet id fields [] k hnd
  unfold spread
  simp only [id] at this
  rw [this]
  cases assocGet fields k <;> simp [assocGet]

theorem objKeys_nodup_spread (fields : JsObject) : (objKeys (spread fields)).Nodup :=
  objKeys_nodup_foldl_objSet id fields [] List.nodup_nil

theorem assocGet_foldl_keys (g : String → JsVal) (keys : List String) :
    ∀ (acc : JsObject) (k : String),
      assocGet (keys.foldl (fun a key => objSet a key (g key)) acc) k =
        if k ∈ keys then some (g k) else assocGet acc k := by
  induction keys with
  | nil => intro acc k; simp
  | cons a t ih =>
    intro acc k
    rw [List.foldl_cons, ih]
    by_cases hk : k ∈ t
    · simp [hk]
    · by_cases ha : a = k
      · subst ha; simp [hk, assocGet_objSet_self]
      · have : ¬ k = a := fun h => ha h.symm
        simp [hk, this, assocGet_objSet_other _ _ _ _ ha]

/-! ## The membership loop -/

theorem PerSection.get_set {α : Type} (o : PerSection α) (s t : ArtifactSection) (v : α) :
    (o.set s v).get t = if s = t then v else o.get t := by
  cases s <;> cases t <;> simp [PerSection.set, PerSection.get]

theorem setAdd_idem (s : List String) (x : String) : setAdd (setAdd s x) x = setAdd s x := by
  have h : x ∈ setAdd s x := (mem_setAdd s x x).2 (Or.inr rfl)
  generalize setAdd s x = t at h ⊢
  simp [setAdd, h]

theorem memberOf_addItem (c : String) (cm : PerSection JsMap) (p : String)
    (sec : ArtifactSection) (n : String) :
    memberOf (addItem c cm p) sec n =
      if getSectionFromPath p = some sec ∧ extractItemName p = n then setAdd (memberOf cm sec n) c
      else memberOf cm sec n := by
  unfold addItem memberOf
  cases hs : getSectionFromPath p with
  | none => simp
  | some s =>
    simp only [PerSection.get_set, Option.some.injEq]
    by_cases hst : s = sec
    · subst hst
      simp only [if_true, true_and]
      by_cases hn : extractItemName p = n
      · subst hn
        simp only [if_true, mapGet, assocGet_assocSet_self, Option.getD_some]
        by_cases hg : assocGet (cm.get s) (extractItemName p) = none
        · simp [hg, assocGet_assocSet_self]
        · obtain ⟨v, hv⟩ := Option.ne_none_iff_exists.1 hg
          simp [← hv]
      · simp only [hn, if_false, mapGet]
        rw [assocGet_assocSet_other _ _ _ _ hn]
        split
        · rw [assocGet_assocSet_other _ _ _ _ hn]
        · rfl
    · simp [hst]

theorem memberOf_foldl_addItem (c : String) (paths : List String) :
    ∀ (cm : PerSection JsMap) (sec : ArtifactSection) (n : String),
      memberOf (paths.foldl (addItem c) cm) sec n =
        if pathsList paths sec n = true then setAdd (memberOf cm sec n) c else memberOf cm sec n := by
  induction paths with
  | nil => intro cm sec n; simp [pathsList]
  | cons p ps ih =>
    intro cm sec n
    rw [List.foldl_cons, ih, memberOf_addItem]
    by_cases h1 : getSectionFromPath p = some sec ∧ extractItemName p = n
    · have h2 : pathsList (p :: ps) sec n = true := by simp [pathsList, h1.1, h1.2]
      simp only [h1, and_self, if_true, h2, setAdd_idem, ite_self]
    · have h2 : pathsList (p :: ps) sec n = pathsList ps sec n := by
        simp only [pathsList, List.any_cons]
        have : (decide (getSectionFromPath p = some sec) && decide (extractItemName p = n)) = false := by
          simpa using h1
        rw [this, Bool.false_or]
      simp only [h1, if_false, h2]

theorem memberOf_visitCollection (env : Env) (st : PerSection JsMap × List String)
    (e : String × JsVal) (sec : ArtifactSection) (n : String) :
    memberOf (visitCollection env st e).1 sec n = grantStep env sec n (memberOf st.1 sec n) e := by
  unfold visitCollection grantStep entryGrants collectionLists collectionItems
  by_cases ht : e.2.truthy = true
  · by_cases hx : env.existsSync (collectionPath e.1) = true
    · simp only [ht, hx, if_true, Bool.true_and]
      cases hp : env.parseCollectionYaml (collectionPath e.1) with
      | throws msg => simp [pathsList]
      | noItems => simp [pathsList]
      | items paths => simp only [memberOf_foldl_addItem]
    · simp [ht, hx, pathsList]
  · simp [ht]

theorem memberOf_foldl_visit (env : Env) (entries : List (String × JsVal)) :
    ∀ (st : PerSection JsMap × List String) (sec : ArtifactSection) (n : String),
      memberOf (entries.foldl (visitCollection env) st).1 sec n =
        entries.foldl (grantStep env sec n) (memberOf st.1 sec n) := by
  induction entries with
  | nil => intro st sec n; rfl
  | cons e es ih =>
    intro st sec n
    rw [List.foldl_cons, ih, memberOf_visitCollection, List.foldl_cons]

theorem mem_foldl_grantStep (env : Env) (sec : ArtifactSection) (n : String)
    (entries : List (String × JsVal)) :
    ∀ (acc : List String) (x : String),
      x ∈ entries.foldl (grantStep env sec n) acc ↔
        x ∈ acc ∨ ∃ e ∈ entries, entryGrants env sec n e = true ∧ e.1 = x := by
  induction entries with
  | nil => intro acc x; simp
  | cons e es ih =>
    intro acc x
    rw [List.foldl_cons, ih]
    unfold grantStep
    by_cases hg : entryGrants env sec n e = true
    · simp only [hg, if_true, mem_setAdd, List.mem_cons, exists_eq_or_imp, true_and]
      constructor
      · rintro ((h | h) | h)
        · exact Or.inl h
        · exact Or.inr (Or.inl h.symm)
        · exact Or.inr (Or.inr h)
      · rintro (h | h | h)
        · exact Or.inl (Or.inl h)
        · exact Or.inl (Or.inr h.symm)
        · exact Or.inr h
    · simp only [hg, if_false, List.mem_cons, exists_eq_or_imp, false_and, false_or,
        Bool.false_eq_true]

theorem nodup_foldl_grantStep (env : Env) (sec : ArtifactSection) (n : String)
    (entries : List (String × JsVal)) :
    ∀ acc : List String, acc.Nodup → (entries.foldl (grantStep env sec n) acc).Nodup := by
  induction entries with
  | nil => intro acc h; exact h
  | cons e es ih =>
    intro acc h
    rw [List.foldl_cons]
    apply ih
    unfold grantStep
    split
    · exact nodup_setAdd _ _ h
    · exact h

theorem memberOf_gatherMembership (env : Env) (config : Config) (sec : ArtifactSection)
    (n : String) :
    memberOf (gatherMembership env config).1 sec n = grantingCollections env config sec n := by
  unfold gatherMembership grantingCollections Config.collectionEntries
  cases hc : config.collections with
  | none => cases sec <;> rfl
  | some entries =>
    simp only [Option.getD_some]
    rw [memberOf_foldl_visit]
    cases sec <;> rfl

/-! ## The precedence rules and the loop over the Catalog -/

theorem resolveItem_explicit (sc : JsObject) (m : JsMap) (n : String) (b : Bool)
    (h : objGet sc n = JsVal.bool b) :
    resolveItem sc m n = (b, { source := "explicit", value := some b }) := by
  unfold resolveItem
  rw [h]
  cases b <;> rfl

theorem resolveItem_inherit (sc : JsObject) (m : JsMap) (n : String)
    (h : (objGet sc n).isBoolean = false) :
    resolveItem sc m n =
      if (mapGet m n).getD [] = [] then (false, { source := "default" })
      else (true, { source := "collections", via := some (jsSort ((mapGet m n).getD [])) }) := by
  unfold resolveItem
  have hin : (match mapGet m n with
      | some inCollections =>
        if inCollections.length > 0 then
          ((true, { source := "collections", via := some (jsSort inCollections) }) : Bool × Reason)
        else (false, { source := "default" })
      | none => (false, { source := "default" })) =
      if (mapGet m n).getD [] = [] then (false, { source := "default" })
      else (true, { source := "collections", via := some (jsSort ((mapGet m n).getD [])) }) := by
    cases hm : mapGet m n with
    | none => simp
    | some s =>
      cases s with
      | nil => simp
      | cons a t => simp
  cases hv : objGet sc n with
  | bool b => rw [hv] at h; simp [JsVal.isBoolean] at h
  | undefined => exact hin
  | null => exact hin
  | num k => exact hin
  | nan => exact hin
  | str t => exact hin
  | obj f => exact hin

theorem foldl_resolveStep_reason (sc : JsObject) (m : JsMap) (items : List String) :
    ∀ (acc : List String × ReasonsObject) (n : String),
      (items.foldl (resolveStep sc m) acc).2.read n =
        if n ∈ items then some (resolveItem sc m n).2 else acc.2.read n := by
  induction items with
  | nil => intro acc n; simp
  | cons a t ih =>
    intro acc n
    rw [List.foldl_cons, ih]
    by_cases hn : n ∈ t
    · simp [hn]
    · by_cases ha : a = n
      · subst ha
        simp [hn, resolveStep, read_assign]
      · have hna : ¬ n = a := fun h => ha h.symm
        simp [hn, hna, ha, resolveStep, read_assign]

theorem foldl_resolveStep_noProto (sc : JsObject) (m : JsMap) (items : List String) :
    ∀ (acc : List String × ReasonsObject), assocGet acc.2.own "__proto__" = none →
      assocGet (items.foldl (resolveStep sc m) acc).2.own "__proto__" = none := by
  induction items with
  | nil => intro acc h; exact h
  | cons a t ih =>
    intro acc h
    rw [List.foldl_cons]
    apply ih
    simp only [resolveStep, ReasonsObject.assign]
    exact assocGet_objAssign_proto _ _ _ h

theorem foldl_resolveStep_own (sc : JsObject) (m : JsMap) (items : List String) :
    ∀ (acc : List String × ReasonsObject) (n : String),
      assocGet acc.2.own "__proto__" = none →
      (n ∈ objKeys (items.foldl (resolveStep sc m) acc).2.own ↔
        (n ∈ items ∧ n ≠ "__proto__") ∨ n ∈ objKeys acc.2.own) := by
  induction items with
  | nil => intro acc n _; simp
  | cons a t ih =>
    intro acc n h
    have h2 : assocGet (resolveStep sc m acc a).2.own "__proto__" = none := by
      simp only [resolveStep, ReasonsObject.assign]
      exact assocGet_objAssign_proto _ _ _ h
    rw [List.foldl_cons, ih _ n h2]
    have h3 := mem_own_assign acc.2 a n (resolveItem sc m a).2 h
    simp only [resolveStep]
    rw [h3]
    simp only [List.mem_cons]
    constructor
    · rintro (⟨h4, h5⟩ | ⟨h4, h5⟩ | h4)
      · exact Or.inl ⟨Or.inr h4, h5⟩
      · exact Or.inl ⟨Or.inl h4, h4 ▸ h5⟩
      · exact Or.inr h4
    · rintro (⟨h4 | h4, h5⟩ | h4)
      · exact Or.inr (Or.inl ⟨h4, h4 ▸ h5⟩)
      · exact Or.inl ⟨h4, h5⟩
      · exact Or.inr (Or.inr h4)

theorem foldl_resolveStep_enabled (sc : JsObject) (m : JsMap) (items : List String) :
    ∀ (acc : List String × ReasonsObject) (n : String),
      n ∈ (items.foldl (resolveStep sc m) acc).1 ↔
        n ∈ acc.1 ∨ (n ∈ items ∧ (resolveItem sc m n).1 = true) := by
  induction items with
  | nil => intro acc n; simp
  | cons a t ih =>
    intro acc n
    rw [List.foldl_cons, ih]
    simp only [resolveStep, List.mem_cons]
    by_cases hr : (resolveItem sc m a).1 = true
    · simp only [hr, if_true, mem_setAdd]
      constructor
      · rintro ((h | h) | h)
        · exact Or.inl h
        · exact Or.inr ⟨Or.inl h, h ▸ hr⟩
        · exact Or.inr ⟨Or.inr h.1, h.2⟩
      · rintro (h | ⟨h | h, h2⟩)
        · exact Or.inl (Or.inl h)
        · exact Or.inl (Or.inr h)
        · exact Or.inr ⟨h, h2⟩
    · simp only [hr, if_false, Bool.false_eq_true]
      constructor
      · rintro (h | h)
        · exact Or.inl h
        · exact Or.inr ⟨Or.inr h.1, h.2⟩
      · rintro (h | ⟨h | h, h2⟩)
        · exact Or.inl h
        · exact absurd (h ▸ h2) hr
        · exact Or.inr ⟨h, h2⟩

theorem enabled_eq (env : Env) (config : Config) (sec : ArtifactSection) :
    (computeEffectiveItemStates env config).1.enabled sec =
      (resolveSection env config (gatherMembership env config).1 sec).1 := by
  cases sec <;> rfl

theorem reason_eq (env : Env) (config : Config) (sec : ArtifactSection) (n : String) :
    (computeEffectiveItemStates env config).1.reason sec n =
      (resolveSection env config (gatherMembership env config).1 sec).2.read n := by
  cases sec <;> rfl

theorem reasons_eq (env : Env) (config : Config) (sec : ArtifactSection) :
    (computeEffectiveItemStates env config).1.reasons.get sec =
      (resolveSection env config (gatherMembership env config).1 sec).2 := by
  cases sec <;> rfl

theorem own_reasons_iff (env : Env) (config : Config) (sec : ArtifactSection) (n : String) :
    n ∈ objKeys ((computeEffectiveItemStates env config).1.reasons.get sec).own ↔
      n ∈ catalog env sec ∧ n ≠ "__proto__" := by
  rw [reasons_eq]
  unfold resolveSection
  rw [foldl_resolveStep_own _ _ _ ([], ReasonsObject.empty) n (by rfl)]
  simp [catalog, ReasonsObject.empty, objKeys]

theorem read_empty (n : String) : ReasonsObject.empty.read n = none := by
  unfold ReasonsObject.read ReasonsObject.empty
  simp [assocGet]

theorem reason_iff (env : Env) (config : Config) (sec : ArtifactSection) (n : String) :
    (computeEffectiveItemStates env config).1.reason sec n =
      if n ∈ catalog env sec then some (resolved env config sec n).2 else none := by
  rw [reason_eq]
  unfold resolveSection
  rw [foldl_resolveStep_reason]
  simp only [read_empty]
  rfl

theorem enabled_iff (env : Env) (config : Config) (sec : ArtifactSection) (n : String) :
    n ∈ (computeEffectiveItemStates env config).1.enabled sec ↔
      n ∈ catalog env sec ∧ (resolved env config sec n).1 = true := by
  rw [enabled_eq]
  unfold resolveSection
  rw [foldl_resolveStep_enabled]
  simp [catalog, resolved]

theorem resolved_explicit (env : Env) (config : Config) (sec : ArtifactSection) (n : String)
    (b : Bool) (h : config.explicitFlag sec n = JsVal.bool b) :
    resolved env config sec n = (b, { source := "explicit", value := some b }) :=
  resolveItem_explicit _ _ _ _ h

theorem resolved_inherit (env : Env) (config : Config) (sec : ArtifactSection) (n : String)
    (h : (config.explicitFlag sec n).isBoolean = false) :
    resolved env config sec n =
      if grantingCollections env config sec n = [] then (false, { source := "default" })
      else (true, { source := "collections",
                    via := some (jsSort (grantingCollections env config sec n)) }) := by
  unfold resolved
  rw [resolveItem_inherit _ _ _ h]
  have := memberOf_gatherMembership env config sec n
  unfold memberOf at this
  rw [this]

/-! ## Claims about the resolution engine -/

theorem mem_grantingCollections (env : Env) (config : Config) (sec : ArtifactSection)
    (n x : String) :
    x ∈ grantingCollections env config sec n ↔
      ∃ e ∈ config.collectionEntries, entryGrants env sec n e = true ∧ e.1 = x := by
  unfold grantingCollections
  rw [mem_foldl_grantStep]
  simp

theorem nodup_grantingCollections (env : Env) (config : Config) (sec : ArtifactSection)
    (n : String) : (grantingCollections env config sec n).Nodup :=
  nodup_foldl_grantStep env sec n _ [] List.nodup_nil

theorem mem_grantingCollections_of_nodup (env : Env) (config : Config) (sec : ArtifactSection)
    (n x : String) (hkeys : (config.collectionEntries.map Prod.fst).Nodup) :
    x ∈ grantingCollections env config sec n ↔
      ((objGet config.collectionEntries x).truthy = true ∧
        collectionLists env x sec n = true) := by
  rw [mem_grantingCollections]
  constructor
  · rintro ⟨⟨k, v⟩, hmem, hg, hk⟩
    simp only at hk
    subst hk
    have := assocGet_of_mem_nodup _ _ _ hkeys hmem
    simp only [entryGrants, Bool.and_eq_true] at hg
    simp [objGet, this, hg.1, hg.2]
  · rintro ⟨ht, hl⟩
    unfold objGet at ht
    cases hget : assocGet config.collectionEntries x with
    | none => rw [hget] at ht; simp [JsVal.truthy] at ht
    | some v =>
      rw [hget] at ht
      exact ⟨(x, v), mem_of_assocGet _ _ _ hget, by simpa [entryGrants, hl] using ht, rfl⟩

/-- C1. An explicit boolean is a hard override in both directions: for every configuration
(sanitized or not), artifact section and Catalog name whose explicit flag is the boolean
`b`, the name is in the enabled set of the section exactly when `b` is true, and its reason
is exactly the record with source explicit and value `b`, whatever the collections are. -/
theorem explicit_flag_is_hard_override (env : Env) (config : Config) (sec : ArtifactSection)
    (n : String) (b : Bool) (hcat : n ∈ catalog env sec)
    (hflag : config.explicitFlag sec n = JsVal.bool b) :
    (n ∈ (computeEffectiveItemStates env config).1.enabled sec ↔ b = true) ∧
      (computeEffectiveItemStates env config).1.reason sec n =
        some { source := "explicit", value := some b, via := none } := by
  rw [enabled_iff, reason_iff, resolved_explicit env config sec n b hflag]
  simp [hcat]

theorem explicit_flag_is_hard_override_witness :
    ("p" ∈ (computeEffectiveItemStates demoEnv demoConfig).1.enabled ArtifactSection.prompts ↔
        false = true) ∧
      (computeEffectiveItemStates demoEnv demoConfig).1.reason ArtifactSection.prompts "p" =
        some { source := "explicit", value := some false, via := none } :=
  explicit_flag_is_hard_override demoEnv demoConfig ArtifactSection.prompts "p" false
    (by decide) (by rfl)

/-- C2. Inheritance with union semantics: for a Catalog name without an explicit boolean
that at least one enabled collection lists, the name is enabled and its reason has source
collections with a via array that is sorted ascending, has no repetition, and holds exactly
the names of the collections whose flag is enabled and that list the artifact; a collection
whose flag is false is not in it. -/
theorem inherits_from_enabled_collections (env : Env) (config : Config)
    (sec : ArtifactSection) (n : String) (hcat : n ∈ catalog env sec)
    (hkeys : (config.collectionEntries.map Prod.fst).Nodup)
    (hflag : (config.explicitFlag sec n).isBoolean = false)
    (hsome : ∃ c, (objGet config.collectionEntries c).truthy = true ∧
      collectionLists env c sec n = true) :
    n ∈ (computeEffectiveItemStates env config).1.enabled sec ∧
      ∃ via : List String,
        (computeEffectiveItemStates env config).1.reason sec n =
          some { source := "collections", value := none, via := some via } ∧
        List.Sorted jsStringLe via ∧ via.Nodup ∧
        (∀ c, c ∈ via ↔ ((objGet config.collectionEntries c).truthy = true ∧
          collectionLists env c sec n = true)) ∧
        (∀ c, objGet config.collectionEntries c = JsVal.bool false → c ∉ via) := by
  obtain ⟨c0, hc0⟩ := hsome
  have hmem0 : c0 ∈ grantingCollections env config sec n :=
    (mem_grantingCollections_of_nodup env config sec n c0 hkeys).2 hc0
  have hne : grantingCollections env config sec n ≠ [] := fun h => by
    rw [h] at hmem0; simp at hmem0
  have hres := resolved_inherit env config sec n hflag
  rw [if_neg hne] at hres
  have hvia : ∀ c, c ∈ jsSort (grantingCollections env config sec n) ↔
      ((objGet config.collectionEntries c).truthy = true ∧ collectionLists env c sec n = true) :=
    fun c => ((jsSort_perm _).mem_iff).trans
      (mem_grantingCollections_of_nodup env config sec n c hkeys)
  refine ⟨?_, jsSort (grantingCollections env config sec n), ?_, jsSort_sorted _, ?_, hvia, ?_⟩
  · rw [enabled_iff, hres]; exact ⟨hcat, rfl⟩
  · rw [reason_iff, hres, if_pos hcat]
  · exact (jsSort_perm _).nodup_iff.2 (nodup_grantingCollections env config sec n)
  · intro c hc hin
    have := ((hvia c).1 hin).1
    rw [hc] at this
    simp [JsVal.truthy] at this

theorem inherits_from_enabled_collections_witness :
    "shared" ∈ (computeEffectiveItemStates demoEnv demoConfig).1.enabled ArtifactSection.prompts ∧
      ∃ via : List String,
        (computeEffectiveItemStates demoEnv demoConfig).1.reason ArtifactSection.prompts "shared" =
          some { source := "collections", value := none, via := some via } ∧
        List.Sorted jsStringLe via ∧ via.Nodup ∧
        (∀ c, c ∈ via ↔ ((objGet demoConfig.collectionEntries c).truthy = true ∧
          collectionLists demoEnv c ArtifactSection.prompts "shared" = true)) ∧
        (∀ c, objGet demoConfig.collectionEntries c = JsVal.bool false → c ∉ via) :=
  inherits_from_enabled_collections demoEnv demoConfig ArtifactSection.prompts "shared"
    (by decide) (by decide) (by rfl) ⟨"A", by decide⟩

/-- C3. Default: a Catalog name without an explicit boolean that no enabled collection lists
is not in the enabled set of its section, and its reason is exactly the record with source
default and no other field. -/
theorem default_when_nothing_grants (env : Env) (config : Config) (sec : ArtifactSection)
    (n : String) (hcat : n ∈ catalog env sec)
    (hflag : (config.explicitFlag sec n).isBoolean = false)
    (hnone : ∀ e ∈ config.collectionEntries, e.2.truthy = true →
      collectionLists env e.1 sec n = false) :
    n ∉ (computeEffectiveItemStates env config).1.enabled sec ∧
      (computeEffectiveItemStates env config).1.reason sec n =
        some { source := "default", value := none, via := none } := by
  have hnil : grantingCollections env config sec n = [] := by
    apply List.eq_nil_iff_forall_not_mem.2
    intro x hx
    obtain ⟨e, he, hg, _⟩ := (mem_grantingCollections env config sec n x).1 hx
    simp only [entryGrants, Bool.and_eq_true] at hg
    have := hnone e he hg.1
    rw [hg.2] at this
    exact Bool.noConfusion this
  have hres := resolved_inherit env config sec n hflag
  rw [if_pos hnil] at hres
  refine ⟨?_, ?_⟩
  · rw [enabled_iff, hres]; simp
  · rw [reason_iff, hres, if_pos hcat]

theorem default_when_nothing_grants_witness :
    "q" ∉ (computeEffectiveItemStates demoEnv demoConfigOff).1.enabled ArtifactSection.prompts ∧
      (computeEffectiveItemStates demoEnv demoConfigOff).1.reason ArtifactSection.prompts "q" =
        some { source := "default", value := none, via := none } :=
  default_when_nothing_grants demoEnv demoConfigOff ArtifactSection.prompts "q"
    (by decide) (by rfl) (by decide)

/-- Claim C4, evaluated at a failing input, with what holds for every Catalog.  With the
prompt files `__proto__`, `constructor` and `p` the reasons object of prompts has the own
keys `constructor` and `p` only: the assignment `result.reasons[section][itemName] = reason`
with the name `__proto__` makes the record the prototype of the object instead of a
property (a read of that name still returns the record).  For every installation and
configuration the keys of the reasons of a section are the Catalog names other than
`__proto__`, every enabled name is a Catalog name, and a name outside the Catalog is
neither enabled nor given a reason. -/
theorem reasons_lack_catalog_name_proto :
    catalog protoEnv ArtifactSection.prompts = ["__proto__", "constructor", "p"] ∧
      objKeys ((computeEffectiveItemStates protoEnv emptyConfig).1.reasons.get
        ArtifactSection.prompts).own = ["constructor", "p"] ∧
      (computeEffectiveItemStates protoEnv emptyConfig).1.reason ArtifactSection.prompts
        "__proto__" = some { source := "default", value := none, via := none } ∧
      (∀ (env : Env) (config : Config) (sec : ArtifactSection),
        (∀ n, n ∈ objKeys ((computeEffectiveItemStates env config).1.reasons.get sec).own ↔
          n ∈ catalog env sec ∧ n ≠ "__proto__") ∧
        (∀ n, n ∈ (computeEffectiveItemStates env config).1.enabled sec → n ∈ catalog env sec) ∧
        (∀ n, n ∉ catalog env sec →
          n ∉ (computeEffectiveItemStates env config).1.enabled sec ∧
            (computeEffectiveItemStates env config).1.reason sec n = none)) := by
  refine ⟨by rfl, by rfl, by rfl, fun env config sec =>
    ⟨own_reasons_iff env config sec, fun n h => ((enabled_iff env config sec n).1 h).1,
      fun n hn => ⟨?_, ?_⟩⟩⟩
  · exact fun h => hn ((enabled_iff env config sec n).1 h).1
  · rw [reason_iff, if_neg hn]

/-- C5. Safe removal of shared artifacts: when collection D is enabled and lists an artifact
that is effectively enabled, the artifact stays effectively enabled after the flag of any
other collection C is set to false, in particular of a C that was enabled and lists the
artifact too. -/
theorem shared_artifact_survives_disable (env : Env) (config : Config) (sec : ArtifactSection)
    (n C D : String) (hCD : C ≠ D)
    (hD : (objGet config.collectionEntries D).truthy = true)
    (hDl : collectionLists env D sec n = true)
    (hen : n ∈ (computeEffectiveItemStates env config).1.enabled sec) :
    n ∈ (computeEffectiveItemStates env (config.setCollectionFlag C false)).1.enabled sec := by
  rw [enabled_iff] at hen ⊢
  refine ⟨hen.1, ?_⟩
  have hart : (config.setCollectionFlag C false).artifacts sec = config.artifacts sec := by
    cases sec <;> rfl
  cases hb : (config.explicitFlag sec n).isBoolean with
  | true =>
    cases hv : config.explicitFlag sec n with
    | bool b =>
      have h1 := resolved_explicit env config sec n b hv
      have hv2 : (config.setCollectionFlag C false).explicitFlag sec n = JsVal.bool b := by
        unfold Config.explicitFlag at hv ⊢
        rw [hart]; exact hv
      rw [resolved_explicit env _ sec n b hv2]
      rw [h1] at hen
      exact hen.2
    | undefined => rw [hv] at hb; simp [JsVal.isBoolean] at hb
    | null => rw [hv] at hb; simp [JsVal.isBoolean] at hb
    | num k => rw [hv] at hb; simp [JsVal.isBoolean] at hb
    | nan => rw [hv] at hb; simp [JsVal.isBoolean] at hb
    | str t => rw [hv] at hb; simp [JsVal.isBoolean] at hb
    | obj f => rw [hv] at hb; simp [JsVal.isBoolean] at hb
  | false =>
    have hb2 : ((config.setCollectionFlag C false).explicitFlag sec n).isBoolean = false := by
      unfold Config.explicitFlag at hb ⊢
      rw [hart]; exact hb
    rw [resolved_inherit env _ sec n hb2]
    have hmem : D ∈ grantingCollections env (config.setCollectionFlag C false) sec n := by
      rw [mem_grantingCollections]
      unfold objGet at hD
      cases hget : assocGet config.collectionEntries D with
      | none => rw [hget] at hD; simp [JsVal.truthy] at hD
      | some v =>
        rw [hget] at hD
        have hin := mem_of_assocGet _ _ _ hget
        refine ⟨(D, v), ?_, by simpa [entryGrants, hDl] using hD, rfl⟩
        unfold Config.collectionEntries Config.setCollectionFlag at *
        cases hcol : config.collections with
        | none => rw [hcol] at hin; simp at hin
        | some entries =>
          rw [hcol] at hin
          simp only [Option.map_some', Option.getD_some, List.mem_map] at hin ⊢
          exact ⟨(D, v), hin, by simp [Ne.symm hCD]⟩
    have hne : grantingCollections env (config.setCollectionFlag C false) sec n ≠ [] :=
      fun h => by rw [h] at hmem; simp at hmem
    rw [if_neg hne]

theorem shared_artifact_survives_disable_witness :
    "shared" ∈ (computeEffectiveItemStates demoEnv
      (demoConfig.setCollectionFlag "A" false)).1.enabled ArtifactSection.prompts :=
  shared_artifact_survives_disable demoEnv demoConfig ArtifactSection.prompts "shared" "A" "B"
    (by decide) (by decide) (by decide) (by decide)

theorem pathsList_perm {ps qs : List String} (h : List.Perm ps qs) (sec : ArtifactSection)
    (n : String) : pathsList ps sec n = pathsList qs sec n := by
  unfold pathsList
  rw [Bool.eq_iff_iff, List.any_eq_true, List.any_eq_true]
  exact ⟨fun ⟨p, hp, hq⟩ => ⟨p, h.mem_iff.1 hp, hq⟩, fun ⟨p, hp, hq⟩ => ⟨p, h.mem_iff.2 hp, hq⟩⟩

theorem resolveItem_congr (sc : JsObject) (m m2 : JsMap) (n : String)
    (h : List.Perm ((mapGet m n).getD []) ((mapGet m2 n).getD [])) :
    resolveItem sc m n = resolveItem sc m2 n := by
  cases hb : (objGet sc n).isBoolean with
  | false =>
    rw [resolveItem_inherit sc m n hb, resolveItem_inherit sc m2 n hb, jsSort_eq_of_perm h]
    by_cases h1 : (mapGet m n).getD [] = []
    · have h2 : (mapGet m2 n).getD [] = [] := by
        rw [h1] at h; exact List.nil_perm.1 h
      rw [if_pos h1, if_pos h2]
    · have h2 : ¬ (mapGet m2 n).getD [] = [] := fun h3 => by
        rw [h3] at h; exact h1 (List.perm_nil.1 h)
      rw [if_neg h1, if_neg h2]
  | true =>
    cases hv : objGet sc n with
    | bool b => rw [resolveItem_explicit sc m n b hv, resolveItem_explicit sc m2 n b hv]
    | undefined => rw [hv] at hb; simp [JsVal.isBoolean] at hb
    | null => rw [hv] at hb; simp [JsVal.isBoolean] at hb
    | num k => rw [hv] at hb; simp [JsVal.isBoolean] at hb
    | nan => rw [hv] at hb; simp [JsVal.isBoolean] at hb
    | str t => rw [hv] at hb; simp [JsVal.isBoolean] at hb
    | obj f => rw [hv] at hb; simp [JsVal.isBoolean] at hb

theorem resolveSection_congr (env env2 : Env) (c c2 : Config) (cm cm2 : PerSection JsMap)
    (sec : ArtifactSection) (hcat : env.getAvailableItems = env2.getAvailableItems)
    (hsec : c.artifacts sec = c2.artifacts sec)
    (hm : ∀ n, List.Perm (memberOf cm sec n) (memberOf cm2 sec n)) :
    resolveSection env c cm sec = resolveSection env2 c2 cm2 sec := by
  unfold resolveSection getAllAvailableItems
  rw [hcat, hsec]
  have hstep : resolveStep ((c2.artifacts sec).getD []) (cm.get sec) =
      resolveStep ((c2.artifacts sec).getD []) (cm2.get sec) := by
    funext acc n
    unfold resolveStep
    rw [resolveItem_congr _ (cm.get sec) (cm2.get sec) n (hm n)]
  rw [hstep]

/-- C6. Order independence: two configurations with the same section maps whose collection
entries are a permutation of one another, read against collection files that list the same
items in a possibly different order, resolve to equal results: the same enabled sets and the
same reasons, via arrays included. -/
theorem resolution_is_order_independent (env env2 : Env) (c c2 : Config)
    (hcat : env.getAvailableItems = env2.getAvailableItems)
    (hfiles : ∀ name, List.Perm (collectionItems env name) (collectionItems env2 name))
    (hsec : ∀ sec, c.artifacts sec = c2.artifacts sec)
    (hcol : List.Perm c.collectionEntries c2.collectionEntries) :
    (computeEffectiveItemStates env c).1 = (computeEffectiveItemStates env2 c2).1 := by
  have hm : ∀ sec n, List.Perm (memberOf (gatherMembership env c).1 sec n)
      (memberOf (gatherMembership env2 c2).1 sec n) := by
    intro sec n
    rw [memberOf_gatherMembership, memberOf_gatherMembership]
    rw [List.perm_ext_iff_of_nodup (nodup_grantingCollections _ _ _ _)
      (nodup_grantingCollections _ _ _ _)]
    intro x
    rw [mem_grantingCollections, mem_grantingCollections]
    have hg : ∀ e, entryGrants env sec n e = entryGrants env2 sec n e := by
      intro e
      unfold entryGrants collectionLists
      rw [pathsList_perm (hfiles e.1)]
    constructor
    · rintro ⟨e, he, h1, h2⟩
      exact ⟨e, hcol.mem_iff.1 he, by rw [← hg]; exact h1, h2⟩
    · rintro ⟨e, he, h1, h2⟩
      exact ⟨e, hcol.mem_iff.2 he, by rw [hg]; exact h1, h2⟩
  unfold computeEffectiveItemStates
  simp only
  rw [resolveSection_congr env env2 c c2 _ _ ArtifactSection.prompts hcat (hsec _) (hm _),
    resolveSection_congr env env2 c c2 _ _ ArtifactSection.instructions hcat (hsec _) (hm _),
    resolveSection_congr env env2 c c2 _ _ ArtifactSection.chatmodes hcat (hsec _) (hm _)]

theorem collectionItems_demoEnvReversed (name : String) :
    collectionItems demoEnvReversed name = (collectionItems demoEnv name).reverse := by
  unfold collectionItems demoEnvReversed
  simp only
  cases demoEnv.existsSync (collectionPath name) with
  | false => simp
  | true =>
    simp only [if_true]
    cases demoEnv.parseCollectionYaml (collectionPath name) <;> simp

theorem resolution_is_order_independent_witness :
    (computeEffectiveItemStates demoEnv demoConfig).1 =
      (computeEffectiveItemStates demoEnvReversed demoConfigSwapped).1 :=
  resolution_is_order_independent demoEnv demoEnvReversed demoConfig demoConfigSwapped rfl
    (fun name => by
      rw [collectionItems_demoEnvReversed]; exact (List.reverse_perm _).symm)
    (fun sec => by cases sec <;> rfl)
    (List.Perm.swap _ _ _)

theorem visitCollection_skip (env : Env) (C : String)
    (hbad : env.existsSync (collectionPath C) = false ∨
      ∃ msg, env.parseCollectionYaml (collectionPath C) = ParseOutcome.throws msg)
    (st st2 : PerSection JsMap × List String) (h : st.1 = st2.1) (e : String × JsVal) :
    (visitCollection env st e).1 =
      (visitCollection env st2 (if e.1 = C then (e.1, JsVal.bool false) else e)).1 := by
  by_cases hC : e.1 = C
  · rw [if_pos hC]
    unfold visitCollection
    simp only [JsVal.truthy, Bool.false_eq_true, if_false]
    rw [hC]
    rcases hbad with hx | ⟨msg, hp⟩
    · simp [hx, h]
    · rw [hp]
      split <;> [split; skip] <;> exact h
  · rw [if_neg hC]
    unfold visitCollection
    split
    · split
      · split
        · exact h
        · exact h
        · simp only [h]
      · exact h
    · exact h

theorem foldl_visitCollection_skip (env : Env) (C : String)
    (hbad : env.existsSync (collectionPath C) = false ∨
      ∃ msg, env.parseCollectionYaml (collectionPath C) = ParseOutcome.throws msg)
    (entries : List (String × JsVal)) :
    ∀ st st2 : PerSection JsMap × List String, st.1 = st2.1 →
      (entries.foldl (visitCollection env) st).1 =
        ((entries.map (fun e => if e.1 = C then (e.1, JsVal.bool false) else e)).foldl
          (visitCollection env) st2).1 := by
  induction entries with
  | nil => intro st st2 h; exact h
  | cons e es ih =>
    intro st st2 h
    rw [List.map_cons, List.foldl_cons, List.foldl_cons]
    exact ih _ _ (visitCollection_skip env C hbad st st2 h e)

/-- C7. A bad collection is not fatal and contributes nothing: when the file of a collection
is missing or its parse throws, resolution returns a result, and that result has the same
enabled sets and reasons as for the configuration in which the flag of that collection is
false, so what the other collections contribute is unchanged. -/
theorem bad_collection_contributes_nothing (env : Env) (config : Config) (C : String)
    (hbad : env.existsSync (collectionPath C) = false ∨
      ∃ msg, env.parseCollectionYaml (collectionPath C) = ParseOutcome.throws msg) :
    (computeEffectiveItemStates env config).1 =
      (computeEffectiveItemStates env (config.setCollectionFlag C false)).1 := by
  have hg : (gatherMembership env config).1 =
      (gatherMembership env (config.setCollectionFlag C false)).1 := by
    unfold gatherMembership Config.setCollectionFlag
    cases hc : config.collections with
    | none => rfl
    | some entries => exact foldl_visitCollection_skip env C hbad entries _ _ rfl
  unfold computeEffectiveItemStates
  simp only
  rw [← hg]
  rfl

theorem bad_collection_contributes_nothing_witness :
    (computeEffectiveItemStates demoEnv demoConfig).1 =
      (computeEffectiveItemStates demoEnv (demoConfig.setCollectionFlag "broken" false)).1 :=
  bad_collection_contributes_nothing demoEnv demoConfig "broken" (Or.inr ⟨"bad yaml", by rfl⟩)

theorem warnings_foldl (env : Env) (entries : List (String × JsVal)) :
    ∀ st : PerSection JsMap × List String,
      (entries.foldl (visitCollection env) st).2 = st.2 ++ entries.filterMap (warningOf env) := by
  induction entries with
  | nil => intro st; simp
  | cons e es ih =>
    intro st
    rw [List.foldl_cons, ih]
    unfold visitCollection warningOf
    by_cases ht : e.2.truthy = true
    · by_cases hx : env.existsSync (collectionPath e.1) = true
      · simp only [ht, hx, if_true, Bool.and_self]
        cases hp : env.parseCollectionYaml (collectionPath e.1) with
        | throws msg => simp [List.filterMap_cons, ht, hx, hp, parseWarning]
        | noItems => simp [List.filterMap_cons, ht, hx, hp]
        | items paths => simp [List.filterMap_cons, ht, hx, hp]
      · simp [List.filterMap_cons, ht, hx]
    · simp [List.filterMap_cons, ht]

theorem warnings_eq (env : Env) (config : Config) :
    (computeEffectiveItemStates env config).2 =
      config.collectionEntries.filterMap (warningOf env) := by
  unfold computeEffectiveItemStates gatherMembership Config.collectionEntries
  simp only
  cases hc : config.collections with
  | none => rfl
  | some entries => simp [warnings_foldl]

theorem includes_append_mid (a b c : String) : includes (a ++ b ++ c) b = true := by
  unfold includes
  rw [List.any_eq_true]
  refine ⟨b.data ++ c.data, ?_, ?_⟩
  · rw [List.mem_tails]
    simp only [String.data_append, List.append_assoc]
    exact List.suffix_append _ _
  · rw [List.isPrefixOf_iff_prefix]
    exact List.prefix_append _ _

theorem parseWarning_names (collectionName message : String) :
    includes (parseWarning collectionName message) collectionName = true := by
  unfold parseWarning
  have h : "Warning: Failed to parse collection " ++ collectionName ++ ": " ++ message =
      "Warning: Failed to parse collection " ++ collectionName ++ (": " ++ message) := by
    rw [String.append_assoc]
  rw [h]
  exact includes_append_mid _ _ _

/-- C8, counterexample. In `demoConfig` the collection ghost is enabled and its file is
missing, so it is skipped, yet no printed warning names it. -/
theorem missing_collection_is_not_reported :
    (objGet demoConfig.collectionEntries "ghost").truthy = true ∧
      demoEnv.existsSync (collectionPath "ghost") = false ∧
      ∀ w ∈ (computeEffectiveItemStates demoEnv demoConfig).2, includes w "ghost" = false := by
  decide

/-- C8, amended. Every enabled collection whose file exists and whose parse throws is
reported by a warning that names it; and every warning printed during resolution is such a
report, so a collection whose file is missing is skipped without a diagnostic. -/
theorem unparseable_collection_is_reported (env : Env) (config : Config) (e : String × JsVal)
    (msg : String) (he : e ∈ config.collectionEntries) (ht : e.2.truthy = true)
    (hx : env.existsSync (collectionPath e.1) = true)
    (hp : env.parseCollectionYaml (collectionPath e.1) = ParseOutcome.throws msg) :
    parseWarning e.1 msg ∈ (computeEffectiveItemStates env config).2 ∧
      includes (parseWarning e.1 msg) e.1 = true ∧
      ∀ w ∈ (computeEffectiveItemStates env config).2,
        ∃ e2 ∈ config.collectionEntries, e2.2.truthy = true ∧
          env.existsSync (collectionPath e2.1) = true ∧
          ∃ m, env.parseCollectionYaml (collectionPath e2.1) = ParseOutcome.throws m ∧
            w = parseWarning e2.1 m := by
  rw [warnings_eq]
  refine ⟨?_, parseWarning_names _ _, ?_⟩
  · rw [List.mem_filterMap]
    exact ⟨e, he, by simp [warningOf, ht, hx, hp]⟩
  · intro w hw
    rw [List.mem_filterMap] at hw
    obtain ⟨e2, he2, hw2⟩ := hw
    unfold warningOf at hw2
    by_cases hc : (e2.2.truthy && env.existsSync (collectionPath e2.1)) = true
    · rw [if_pos hc] at hw2
      rw [Bool.and_eq_true] at hc
      cases hp2 : env.parseCollectionYaml (collectionPath e2.1) with
      | throws m =>
        rw [hp2] at hw2
        simp only [Option.some.injEq] at hw2
        exact ⟨e2, he2, hc.1, hc.2, m, hp2, hw2.symm⟩
      | noItems => rw [hp2] at hw2; simp at hw2
      | items paths => rw [hp2] at hw2; simp at hw2
    · rw [if_neg hc] at hw2
      simp at hw2

theorem unparseable_collection_is_reported_witness :
    parseWarning "broken" "bad yaml" ∈ (computeEffectiveItemStates demoEnv demoConfig).2 ∧
      includes (parseWarning "broken" "bad yaml") "broken" = true ∧
      ∀ w ∈ (computeEffectiveItemStates demoEnv demoConfig).2,
        ∃ e2 ∈ demoConfig.collectionEntries, e2.2.truthy = true ∧
          demoEnv.existsSync (collectionPath e2.1) = true ∧
          ∃ m, demoEnv.parseCollectionYaml (collectionPath e2.1) = ParseOutcome.throws m ∧
            w = parseWarning e2.1 m :=
  unparseable_collection_is_reported demoEnv demoConfig ("broken", JsVal.bool true) "bad yaml"
    (by simp [demoConfig, Config.collectionEntries]) (by rfl) (by decide) (by rfl)

/-- C9. Sections resolve independently: two configurations with the same collections map
that agree on every artifact section other than `sec` resolve every other section to the
same enabled set and the same reasons. -/
theorem sections_resolve_independently (env : Env) (c c2 : Config) (sec t : ArtifactSection)
    (hcol : c.collections = c2.collections)
    (hother : ∀ s, s ≠ sec → c.artifacts s = c2.artifacts s) (ht : t ≠ sec) :
    (computeEffectiveItemStates env c).1.enabled t =
        (computeEffectiveItemStates env c2).1.enabled t ∧
      (computeEffectiveItemStates env c).1.reasons.get t =
        (computeEffectiveItemStates env c2).1.reasons.get t := by
  have hg : gatherMembership env c = gatherMembership env c2 := by
    unfold gatherMembership; rw [hcol]
  have hr : resolveSection env c (gatherMembership env c).1 t =
      resolveSection env c2 (gatherMembership env c2).1 t := by
    unfold resolveSection
    rw [hg, hother t ht]
  constructor
  · rw [enabled_eq, enabled_eq, hr]
  · have h1 : ∀ cfg : Config, (computeEffectiveItemStates env cfg).1.reasons.get t =
        (resolveSection env cfg (gatherMembership env cfg).1 t).2 := by
      intro cfg; cases t <;> rfl
    rw [h1, h1, hr]

theorem sections_resolve_independently_witness :
    (computeEffectiveItemStates demoEnv demoConfig).1.enabled ArtifactSection.prompts =
        (computeEffectiveItemStates demoEnv demoConfigInstr).1.enabled ArtifactSection.prompts ∧
      (computeEffectiveItemStates demoEnv demoConfig).1.reasons.get ArtifactSection.prompts =
        (computeEffectiveItemStates demoEnv demoConfigInstr).1.reasons.get
          ArtifactSection.prompts :=
  sections_resolve_independently demoEnv demoConfig demoConfigInstr ArtifactSection.instructions
    ArtifactSection.prompts rfl (fun s hs => by cases s <;> first | rfl | exact absurd rfl hs)
    (by decide)

/-! ## The delta reporter -/

theorem blockedItems_importedHelpers (env : Env) (afterEffective : EffectiveStates)
    (collectionName : String) (sec : ArtifactSection) :
    blockedItems env importedHelpers afterEffective collectionName sec = [] := by
  unfold blockedItems
  split
  · split
    · rfl
    · rfl
    · rename_i paths _
      cases paths with
      | nil => rfl
      | cons p ps => rfl
  · rfl

/-- Claim C10, evaluated at its scenario: collection C lists x and y, y is explicitly false,
x has no flag, and C is toggled from disabled to enabled.  `showCollectionDelta` computes
newlyEnabled = [x] for prompts but blocked = [] and the totals 1 and 0, although y is listed
by C with reason explicit false; with the two path helpers in scope the same loop gives
blocked = [y]. -/
theorem delta_scenario_blocked_is_empty :
    ((showCollectionDelta deltaEnv (some (computeEffectiveItemStates deltaEnv deltaConfigBefore).1)
        (some (computeEffectiveItemStates deltaEnv deltaConfigAfter).1) "C" true).toOption.join.map
        (fun r => (r.sections.prompts.newlyEnabled, r.sections.prompts.blocked,
          r.totalNewlyEnabled, r.totalBlocked))) = some (["x"], [], 1, 0) ∧
      (computeEffectiveItemStates deltaEnv deltaConfigAfter).1.reason ArtifactSection.prompts "y" =
        some { source := "explicit", value := some false, via := none } ∧
      collectionLists deltaEnv "C" ArtifactSection.prompts "y" = true ∧
      importedHelpers.extractItemName.isNone = true ∧
      blockedItems deltaEnv exportedHelpers (computeEffectiveItemStates deltaEnv deltaConfigAfter).1
        "C" ArtifactSection.prompts = ["y"] := by
  decide

/-! ## Claims about the delta reporter -/

theorem collectChanged_eq (other : List String) (reasons : ReasonsObject) (C : String)
    (items : List String) :
    ∀ found : List String,
      (∀ n ∈ items, n ∉ other → ∃ b, viaIncludes (reasons.read n) C = Except.ok b) →
      collectChanged other reasons C items found =
        Except.ok (found ++ items.filter (changedBy other reasons C)) := by
  induction items with
  | nil => intro found _; simp [collectChanged]
  | cons a t ih =>
    intro found h
    have ht : ∀ n ∈ t, n ∉ other → ∃ b, viaIncludes (reasons.read n) C = Except.ok b :=
      fun n hn => h n (List.mem_cons_of_mem _ hn)
    unfold collectChanged
    by_cases ha : a ∈ other
    · rw [if_pos ha, ih found ht]
      simp [List.filter_cons, changedBy, ha]
    · rw [if_neg ha]
      obtain ⟨b, hb⟩ := h a (List.mem_cons_self _ _) ha
      rw [hb]
      cases b with
      | true =>
        simp only
        rw [ih _ ht]
        simp [List.filter_cons, changedBy, ha, hb]
      | false =>
        simp only
        rw [ih _ ht]
        simp [List.filter_cons, changedBy, ha, hb]

theorem viaIncludes_ok_of_wellFormed (e : EffectiveStates) (h : e.WellFormed)
    (sec : ArtifactSection) (C n : String) (hn : n ∈ e.enabled sec) :
    ∃ b, viaIncludes ((e.reasons.get sec).read n) C = Except.ok b := by
  obtain ⟨r, hr, hc⟩ := h sec n hn
  unfold EffectiveStates.reason at hr
  rw [hr]
  unfold viaIncludes
  by_cases hs : r.source = "collections"
  · obtain ⟨_, hv⟩ := hc hs
    obtain ⟨via, hvia⟩ := Option.isSome_iff_exists.1 hv
    exact ⟨decide (C ∈ via), by simp [hs, hvia]⟩
  · exact ⟨false, by simp [hs]⟩

theorem changedBy_iff (e : EffectiveStates) (h : e.WellFormed) (other : List String)
    (sec : ArtifactSection) (C n : String) (hn : n ∈ e.enabled sec) :
    changedBy other (e.reasons.get sec) C n = true ↔
      (n ∉ other ∧ ∃ via, e.reason sec n =
        some { source := "collections", value := none, via := some via } ∧ C ∈ via) := by
  obtain ⟨r, hr, hc⟩ := h sec n hn
  have hr2 : (e.reasons.get sec).read n = some r := hr
  unfold changedBy
  rw [hr, hr2]
  unfold viaIncludes
  by_cases hs : r.source = "collections"
  · obtain ⟨hval, hv⟩ := hc hs
    obtain ⟨via, hvia⟩ := Option.isSome_iff_exists.1 hv
    have hrec : r = { source := "collections", value := none, via := some via } := by
      cases r
      simp only [Reason.mk.injEq]
      exact ⟨hs, hval, hvia⟩
    simp only [hs, hvia, if_true, Bool.and_eq_true, decide_eq_true_eq]
    constructor
    · rintro ⟨h1, h2⟩
      refine ⟨h1, via, by rw [hrec], ?_⟩
      by_cases hC : C ∈ via
      · exact hC
      · simp [hC] at h2
    · rintro ⟨h1, via2, h2, h3⟩
      refine ⟨h1, ?_⟩
      rw [hrec] at h2
      simp only [Option.some.injEq, Reason.mk.injEq, true_and] at h2
      rw [← h2] at h3
      simp [h3]
  · simp only [hs, if_false, Bool.and_eq_true, decide_eq_true_eq]
    constructor
    · rintro ⟨_, h2⟩
      exact absurd h2 (by simp)
    · rintro ⟨_, via2, h2, _⟩
      simp only [Option.some.injEq] at h2
      rw [h2] at hs
      exact absurd rfl hs

theorem sectionDelta_eq (env : Env) (before after : EffectiveStates) (hb : before.WellFormed)
    (ha : after.WellFormed) (C : String) (b : Bool) (sec : ArtifactSection) :
    sectionDelta env before after C b sec =
      Except.ok
        { newlyEnabled :=
            (after.enabled sec).filter (changedBy (before.enabled sec) (after.reasons.get sec) C),
          newlyDisabled :=
            (before.enabled sec).filter (changedBy (after.enabled sec) (before.reasons.get sec) C),
          blocked := if b = true then blockedItems env importedHelpers after C sec else [] } := by
  unfold sectionDelta
  rw [collectChanged_eq _ _ _ _ [] (fun n hn _ => viaIncludes_ok_of_wellFormed after ha sec C n hn),
    collectChanged_eq _ _ _ _ [] (fun n hn _ => viaIncludes_ok_of_wellFormed before hb sec C n hn)]
  simp

theorem computeEffectiveItemStates_wellFormed (env : Env) (config : Config) :
    (computeEffectiveItemStates env config).1.WellFormed := by
  intro sec n hn
  have hcat := ((enabled_iff env config sec n).1 hn).1
  refine ⟨(resolved env config sec n).2, ?_, ?_⟩
  · rw [reason_iff, if_pos hcat]
  · cases hb : (config.explicitFlag sec n).isBoolean with
    | false =>
      rw [resolved_inherit env config sec n hb]
      split <;> simp
    | true =>
      cases hv : config.explicitFlag sec n with
      | bool v => rw [resolved_explicit env config sec n v hv]; simp
      | undefined => rw [hv] at hb; simp [JsVal.isBoolean] at hb
      | null => rw [hv] at hb; simp [JsVal.isBoolean] at hb
      | num k => rw [hv] at hb; simp [JsVal.isBoolean] at hb
      | nan => rw [hv] at hb; simp [JsVal.isBoolean] at hb
      | str t => rw [hv] at hb; simp [JsVal.isBoolean] at hb
      | obj f => rw [hv] at hb; simp [JsVal.isBoolean] at hb

theorem showCollectionDelta_eq (env : Env) (before after : EffectiveStates) (C : String)
    (b : Bool) (hb : before.WellFormed) (ha : after.WellFormed) :
    ∃ report, showCollectionDelta env (some before) (some after) C b = Except.ok (some report) ∧
      ∀ sec, report.sections.get sec =
        { newlyEnabled :=
            (after.enabled sec).filter (changedBy (before.enabled sec) (after.reasons.get sec) C),
          newlyDisabled :=
            (before.enabled sec).filter (changedBy (after.enabled sec) (before.reasons.get sec) C),
          blocked := if b = true then blockedItems env importedHelpers after C sec else [] } := by
  unfold showCollectionDelta
  simp only [sectionDelta_eq env before after hb ha]
  refine ⟨_, rfl, ?_⟩
  intro sec
  cases sec <;> rfl

/-- Claim C11. Delta sets: for well-formed results before and after (the results of
`computeEffectiveItemStates` are), `showCollectionDelta` returns a report in which, for
every artifact section, the newly enabled names are exactly the names absent from the
enabled set of before, present in that of after, whose reason in after is a collections
reason with the toggled collection in via; symmetrically for the newly disabled names; each
list is a sublist of the enabled set it was taken from, and the totals are the sums of the
lengths over the three sections. -/
theorem delta_sets_are_exact (env : Env) (before after : EffectiveStates) (C : String)
    (b : Bool) (hb : before.WellFormed) (ha : after.WellFormed) :
    ∃ report, showCollectionDelta env (some before) (some after) C b = Except.ok (some report) ∧
      (∀ sec n, n ∈ (report.sections.get sec).newlyEnabled ↔
        (n ∉ before.enabled sec ∧ n ∈ after.enabled sec ∧
          ∃ via, after.reason sec n =
            some { source := "collections", value := none, via := some via } ∧ C ∈ via)) ∧
      (∀ sec n, n ∈ (report.sections.get sec).newlyDisabled ↔
        (n ∈ before.enabled sec ∧ n ∉ after.enabled sec ∧
          ∃ via, before.reason sec n =
            some { source := "collections", value := none, via := some via } ∧ C ∈ via)) ∧
      (∀ sec, List.Sublist (report.sections.get sec).newlyEnabled (after.enabled sec) ∧
        List.Sublist (report.sections.get sec).newlyDisabled (before.enabled sec)) ∧
      report.totalNewlyEnabled =
        report.sections.prompts.newlyEnabled.length +
          report.sections.instructions.newlyEnabled.length +
          report.sections.chatmodes.newlyEnabled.length ∧
      report.totalNewlyDisabled =
        report.sections.prompts.newlyDisabled.length +
          report.sections.instructions.newlyDisabled.length +
          report.sections.chatmodes.newlyDisabled.length := by
  unfold showCollectionDelta
  simp only [sectionDelta_eq env before after hb ha]
  refine ⟨_, rfl, ?_, ?_, ?_, rfl, rfl⟩
  · intro sec n
    cases sec <;>
    · simp only [PerSection.get, List.mem_filter]
      constructor
      · rintro ⟨h1, h2⟩
        have := (changedBy_iff after ha _ _ C n h1).1 h2
        exact ⟨this.1, h1, this.2⟩
      · rintro ⟨h1, h2, h3⟩
        exact ⟨h2, (changedBy_iff after ha _ _ C n h2).2 ⟨h1, h3⟩⟩
  · intro sec n
    cases sec <;>
    · simp only [PerSection.get, List.mem_filter]
      constructor
      · rintro ⟨h1, h2⟩
        have := (changedBy_iff before hb _ _ C n h1).1 h2
        exact ⟨h1, this.1, this.2⟩
      · rintro ⟨h1, h2, h3⟩
        exact ⟨h1, (changedBy_iff before hb _ _ C n h1).2 ⟨h2, h3⟩⟩
  · intro sec
    cases sec <;> exact ⟨List.filter_sublist _, List.filter_sublist _⟩

theorem delta_sets_are_exact_witness :
    ∃ report, showCollectionDelta deltaEnv
        (some (computeEffectiveItemStates deltaEnv deltaConfigBefore).1)
        (some (computeEffectiveItemStates deltaEnv deltaConfigAfter).1) "C" true =
          Except.ok (some report) ∧
      (∀ sec n, n ∈ (report.sections.get sec).newlyEnabled ↔
        (n ∉ (computeEffectiveItemStates deltaEnv deltaConfigBefore).1.enabled sec ∧
          n ∈ (computeEffectiveItemStates deltaEnv deltaConfigAfter).1.enabled sec ∧
          ∃ via, (computeEffectiveItemStates deltaEnv deltaConfigAfter).1.reason sec n =
            some { source := "collections", value := none, via := some via } ∧ "C" ∈ via)) ∧
      (∀ sec n, n ∈ (report.sections.get sec).newlyDisabled ↔
        (n ∈ (computeEffectiveItemStates deltaEnv deltaConfigBefore).1.enabled sec ∧
          n ∉ (computeEffectiveItemStates deltaEnv deltaConfigAfter).1.enabled sec ∧
          ∃ via, (computeEffectiveItemStates deltaEnv deltaConfigBefore).1.reason sec n =
            some { source := "collections", value := none, via := some via } ∧ "C" ∈ via)) ∧
      (∀ sec, List.Sublist (report.sections.get sec).newlyEnabled
          ((computeEffectiveItemStates deltaEnv deltaConfigAfter).1.enabled sec) ∧
        List.Sublist (report.sections.get sec).newlyDisabled
          ((computeEffectiveItemStates deltaEnv deltaConfigBefore).1.enabled sec)) ∧
      report.totalNewlyEnabled =
        report.sections.prompts.newlyEnabled.length +
          report.sections.instructions.newlyEnabled.length +
          report.sections.chatmodes.newlyEnabled.length ∧
      report.totalNewlyDisabled =
        report.sections.prompts.newlyDisabled.length +
          report.sections.instructions.newlyDisabled.length +
          report.sections.chatmodes.newlyDisabled.length :=
  delta_sets_are_exact deltaEnv _ _ "C" true
    (computeEffectiveItemStates_wellFormed deltaEnv deltaConfigBefore)
    (computeEffectiveItemStates_wellFormed deltaEnv deltaConfigAfter)

/-! ## Claims about the configuration store -/

theorem objGet_ensureVersion (config : JsVal) (k : String) (hk : k ≠ "version") :
    objGet (ensureVersion config) k = objGet (spreadVal config) k := by
  unfold ensureVersion
  split
  · rfl
  · rw [objGet_objSet, if_neg (Ne.symm hk)]

theorem assocGet_ensureVersion (config : JsVal) (k : String) (hk : k ≠ "version") :
    assocGet (ensureVersion config) k = assocGet (spreadVal config) k := by
  unfold ensureVersion
  split
  · rfl
  · rw [assocGet_objSet, if_neg (Ne.symm hk)]

theorem objGet_ensure_section (config : JsVal) (s : String) (hs : s ∈ CONFIG_SECTIONS) :
    objGet (ensureConfigStructure config) s =
      JsVal.obj (sanitizeSection (objGet (spreadVal config) s)) := by
  simp only [CONFIG_SECTIONS, List.mem_cons, List.mem_singleton, List.not_mem_nil, or_false] at hs
  rcases hs with h | h | h | h <;> subst h <;>
    simp [ensureConfigStructure, CONFIG_SECTIONS, sanitizeStep, objGet_objSet,
      objGet_ensureVersion]

theorem assocGet_ensure_other (config : JsVal) (k : String) (hs : k ∉ CONFIG_SECTIONS)
    (hv : k ≠ "version") (hp : k ≠ "project") :
    assocGet (ensureConfigStructure config) k = assocGet (spreadVal config) k := by
  simp only [CONFIG_SECTIONS, List.mem_cons, List.mem_singleton, List.not_mem_nil, or_false,
    not_or] at hs
  obtain ⟨h1, h2, h3, h4⟩ := hs
  simp only [ensureConfigStructure, CONFIG_SECTIONS, List.foldl_cons, List.foldl_nil,
    sanitizeStep, assocGet_objSet, if_neg (Ne.symm h1), if_neg (Ne.symm h2), if_neg (Ne.symm h3),
    if_neg (Ne.symm h4), if_neg (Ne.symm hp)]
  exact assocGet_ensureVersion config k hv

/-- The section map that sanitization builds: the entries whose key is not `__proto__`,
coerced and defined in order. -/
theorem sanitizeSection_obj (f : JsObject) :
    sanitizeSection (JsVal.obj f) =
      (f.filter (fun e => decide (e.1 ≠ "__proto__"))).foldl
        (fun a e => objSet a e.1 (JsVal.bool (toBoolean e.2))) [] :=
  foldl_objAssign_filter (fun e : String × JsVal => e.1)
    (fun e => JsVal.bool (toBoolean e.2)) f [] rfl

theorem sanitizeSection_noProto (v : JsVal) :
    assocGet (sanitizeSection v) "__proto__" = none := by
  cases v with
  | obj f =>
    exact foldl_objAssign_noProto (fun e : String × JsVal => e.1)
      (fun e => JsVal.bool (toBoolean e.2)) f [] rfl
  | undefined => rfl
  | null => rfl
  | bool b => rfl
  | num n => rfl
  | nan => rfl
  | str s => rfl

theorem sanitizeSection_boolean (v : JsVal) :
    ∀ e ∈ sanitizeSection v, ∃ b : Bool, e.2 = JsVal.bool b := by
  have key : ∀ (entries acc : JsObject), (∀ e ∈ acc, ∃ b : Bool, e.2 = JsVal.bool b) →
      ∀ e ∈ entries.foldl (fun s x => objAssign s x.1 (JsVal.bool (toBoolean x.2))) acc,
        ∃ b : Bool, e.2 = JsVal.bool b := by
    intro entries
    induction entries with
    | nil => intro acc h; exact h
    | cons a t ih =>
      intro acc h
      rw [List.foldl_cons]
      apply ih
      intro e he
      rcases mem_objAssign _ _ _ _ he with h2 | h2
      · exact ⟨toBoolean a.2, by rw [h2]⟩
      · exact h e h2
  cases v with
  | obj entries => exact key entries [] (by simp)
  | undefined => simp [sanitizeSection]
  | null => simp [sanitizeSection]
  | bool b => simp [sanitizeSection]
  | num n => simp [sanitizeSection]
  | nan => simp [sanitizeSection]
  | str s => simp [sanitizeSection]

/-- Claim C12. Sanitization invariant: for every input value (an object of any shape,
`null`, or a non-object) each of the four section maps of `ensureConfigStructure(config)`
exists, is an object, and holds only boolean values. -/
theorem sanitized_sections_are_boolean_maps (config : JsVal) (s : String)
    (hs : s ∈ CONFIG_SECTIONS) :
    ∃ fields : JsObject, objGet (ensureConfigStructure config) s = JsVal.obj fields ∧
      ∀ e ∈ fields, ∃ b : Bool, e.2 = JsVal.bool b :=
  ⟨_, objGet_ensure_section config s hs, sanitizeSection_boolean _⟩

theorem sanitized_sections_are_boolean_maps_witness :
    ∃ fields : JsObject,
      objGet (ensureConfigStructure
        (JsVal.obj [("prompts", JsVal.obj [("a", JsVal.str " TRUE "), ("b", JsVal.num 0)]),
          ("collections", JsVal.str "oops")])) "prompts" = JsVal.obj fields ∧
      ∀ e ∈ fields, ∃ b : Bool, e.2 = JsVal.bool b :=
  sanitized_sections_are_boolean_maps _ "prompts" (by decide)

/-- Claim C13, evaluated at a failing input, with what holds for every document.  A prompts
map with the own keys `a`, `__proto__` and `b` is sanitized to a map with the keys `a` and
`b`: the assignment `sanitized[key] = toBoolean(value)` with the key `__proto__` creates no
property, so the name is dropped.  For every object `config` and section whose value is a
mapping, the section map of `ensureConfigStructure(config)` has exactly the keys of that
mapping other than `__proto__`, whatever the Catalog lists (no Catalog is consulted); and
every top-level key other than the four sections, version and project is carried over with
its value. -/
theorem sanitization_drops_proto_key :
    sectionMap (ensureConfigStructure protoSectionDocument) "prompts" =
        [("a", JsVal.bool true), ("b", JsVal.bool false)] ∧
      (∀ (fields m : JsObject) (s : String), (objKeys fields).Nodup → s ∈ CONFIG_SECTIONS →
        objGet fields s = JsVal.obj m →
        (∀ k, k ∈ objKeys (sectionMap (ensureConfigStructure (JsVal.obj fields)) s) ↔
          k ∈ objKeys m ∧ k ≠ "__proto__") ∧
        (∀ k, k ∉ CONFIG_SECTIONS → k ≠ "version" → k ≠ "project" →
          assocGet (ensureConfigStructure (JsVal.obj fields)) k = assocGet fields k)) := by
  refine ⟨by rfl, fun fields m s hnd hs hm => ⟨fun k => ?_, fun k h1 h2 h3 => ?_⟩⟩
  · have h1 : objGet (spreadVal (JsVal.obj fields)) s = JsVal.obj m := by
      unfold objGet spreadVal
      simp only
      rw [assocGet_spread fields s hnd]
      exact hm
    unfold sectionMap
    rw [objGet_ensure_section _ s hs, h1]
    simp only
    rw [sanitizeSection_obj,
      mem_objKeys_foldl_objSet (fun v => JsVal.bool (toBoolean v)) _ [] k, objKeys_filter_proto]
    simp [objKeys]
  · rw [assocGet_ensure_other _ k h1 h2 h3]
    exact assocGet_spread fields k hnd

theorem sanitization_drops_proto_key_witness :
    (∀ k, k ∈ objKeys (sectionMap (ensureConfigStructure
        (JsVal.obj [("prompts", JsVal.obj [("stray", JsVal.str "yes"), ("9", JsVal.bool false)]),
          ("theme", JsVal.str "dark")])) "prompts") ↔
        k ∈ objKeys [("stray", JsVal.str "yes"), ("9", JsVal.bool false)] ∧ k ≠ "__proto__") ∧
      (∀ k, k ∉ CONFIG_SECTIONS → k ≠ "version" → k ≠ "project" →
        assocGet (ensureConfigStructure
          (JsVal.obj [("prompts", JsVal.obj [("stray", JsVal.str "yes"), ("9", JsVal.bool false)]),
            ("theme", JsVal.str "dark")])) k =
          assocGet [("prompts", JsVal.obj [("stray", JsVal.str "yes"), ("9", JsVal.bool false)]),
            ("theme", JsVal.str "dark")] k) :=
  sanitization_drops_proto_key.2 _ _ "prompts" (by decide) (by decide) (by rfl)

/-- Claim C14. Boolean coercion: `toBoolean` returns a boolean unchanged; a string whose
trimmed, lower-cased form is the word true gives true and one whose form is the word false
gives false (so the strings `TRUE` and ` False ` are coerced by meaning); every other value,
other strings included, is mapped to its truthiness. -/
theorem toBoolean_coerces_by_meaning :
    (∀ b : Bool, toBoolean (JsVal.bool b) = b) ∧
      (∀ s : String, toLowerCase (trim s) = "true" → toBoolean (JsVal.str s) = true) ∧
      (∀ s : String, toLowerCase (trim s) = "false" → toBoolean (JsVal.str s) = false) ∧
      (∀ s : String, toLowerCase (trim s) ≠ "true" → toLowerCase (trim s) ≠ "false" →
        toBoolean (JsVal.str s) = (JsVal.str s).truthy) ∧
      (∀ v : JsVal, v.isBoolean = false → (∀ s, v ≠ JsVal.str s) → toBoolean v = v.truthy) ∧
      toBoolean (JsVal.str "TRUE") = true ∧ toBoolean (JsVal.str " False ") = false ∧
      toBoolean (JsVal.str "no") = true ∧ toBoolean (JsVal.str "") = false := by
  refine ⟨fun b => rfl, ?_, ?_, ?_, ?_, by decide, by decide, by decide, by decide⟩
  · intro s h; simp [toBoolean, h]
  · intro s h
    have : toLowerCase (trim s) ≠ "true" := by rw [h]; decide
    simp [toBoolean, h]
  · intro s h1 h2; simp [toBoolean, h1, h2]
  · intro v hb hs
    cases v with
    | bool b => simp [JsVal.isBoolean] at hb
    | str s => exact absurd rfl (hs s)
    | undefined => rfl
    | null => rfl
    | num n => rfl
    | nan => rfl
    | obj f => rfl

theorem mem_sortWith (compare : String → String → Int) (xs : List String) (x : String) :
    x ∈ sortWith compare xs ↔ x ∈ xs :=
  (List.perm_insertionSort _ xs).mem_iff

theorem sortObjectKeys_obj (host : Host) (fields : JsObject) :
    sortObjectKeys host (JsVal.obj fields) =
      ((sortWith host.localeCompare (objKeys fields)).filter
          (fun key => decide (key ≠ "__proto__"))).foldl
        (fun acc key => objSet acc key (objGet fields key)) [] :=
  foldl_objAssign_filter (fun key : String => key) (fun key => objGet fields key)
    (sortWith host.localeCompare (objKeys fields)) [] rfl

theorem assocGet_sortObjectKeys (host : Host) (fields : JsObject) (k : String) :
    assocGet (sortObjectKeys host (JsVal.obj fields)) k =
      if k = "__proto__" then none else assocGet fields k := by
  rw [sortObjectKeys_obj, assocGet_foldl_keys (fun key => objGet fields key)]
  by_cases hp : k = "__proto__"
  · rw [if_pos hp, if_neg (by simp [hp])]
    rfl
  · rw [if_neg hp]
    by_cases hk : k ∈ objKeys fields
    · rw [if_pos (List.mem_filter.2 ⟨(mem_sortWith _ _ _).2 hk, by simpa using hp⟩)]
      have := (mem_objKeys_iff fields k).1 hk
      obtain ⟨v, hv⟩ := Option.isSome_iff_exists.1 this
      simp [objGet, hv]
    · rw [if_neg (fun h => hk ((mem_sortWith _ _ _).1 (List.mem_filter.1 h).1)),
        assocGet_eq_none_of_not_mem fields k hk]
      rfl

theorem objGet_sortConfigSections_section (host : Host) (doc : JsObject) (s : String)
    (hs : s ∈ CONFIG_SECTIONS) :
    objGet (sortConfigSections host doc) s =
      JsVal.obj (sortObjectKeys host (objGet (spread doc) s)) := by
  simp only [CONFIG_SECTIONS, List.mem_cons, List.mem_singleton, List.not_mem_nil, or_false] at hs
  rcases hs with h | h | h | h <;> subst h <;>
    simp [sortConfigSections, CONFIG_SECTIONS, sortStep, objGet_objSet]

theorem assocGet_sortConfigSections_other (host : Host) (doc : JsObject) (k : String)
    (hs : k ∉ CONFIG_SECTIONS) :
    assocGet (sortConfigSections host doc) k = assocGet (spread doc) k := by
  simp only [CONFIG_SECTIONS, List.mem_cons, List.mem_singleton, List.not_mem_nil, or_false,
    not_or] at hs
  obtain ⟨h1, h2, h3, h4⟩ := hs
  simp only [sortConfigSections, CONFIG_SECTIONS, List.foldl_cons, List.foldl_nil,
    sortStep, assocGet_objSet, if_neg (Ne.symm h1), if_neg (Ne.symm h2), if_neg (Ne.symm h3),
    if_neg (Ne.symm h4)]

/-- Claim C15, evaluated at a failing input: a prompts map with the names 10 and 9.  The
document that `saveConfig` serializes keeps both entries, and `sort` puts the keys in the
order 10, 9 (10 is smaller than 9 both by code units and by the comparator), but the object
built from them lists its keys as 9, 10: array-index keys are enumerated in numeric order,
so the keys of the saved section map are not in ascending lexicographic order. -/
theorem canonical_save_misorders_index_keys :
    objKeys (sectionMap (sortConfigSections demoHost (ensureConfigStructure indexKeysDocument))
        "prompts") = ["9", "10"] ∧
      sortWith demoHost.localeCompare
        (objKeys (sectionMap (ensureConfigStructure indexKeysDocument) "prompts")) = ["10", "9"] ∧
      jsStringLe "10" "9" ∧ ¬ jsStringLe "9" "10" ∧ demoHost.localeCompare "10" "9" < 0 ∧
      objGet (sectionMap (sortConfigSections demoHost (ensureConfigStructure indexKeysDocument))
        "prompts") "10" = JsVal.bool true ∧
      objGet (sectionMap (sortConfigSections demoHost (ensureConfigStructure indexKeysDocument))
        "prompts") "9" = JsVal.bool false := by
  refine ⟨by decide, by decide, by decide, by decide, by decide, by rfl, by rfl⟩

theorem trimChars_eq_nil_iff (cs : List Char) :
    trimChars cs = [] ↔ ∀ c ∈ cs, isJsWhiteSpace c = true := by
  unfold trimChars
  rw [List.reverse_eq_nil_iff, List.dropWhile_eq_nil_iff]
  constructor
  · intro h
    have hd : List.dropWhile isJsWhiteSpace cs = [] := by
      cases hc : List.dropWhile isJsWhiteSpace cs with
      | nil => rfl
      | cons a t =>
        have h1 := List.head?_dropWhile_not isJsWhiteSpace cs
        rw [hc] at h1 h
        have h2 := h a (by simp)
        simp [h2] at h1
    exact List.dropWhile_eq_nil_iff.1 hd
  · intro h x hx
    rw [List.dropWhile_eq_nil_iff.2 h] at hx
    simp at hx

theorem endsWith_iff (s t : String) : endsWith s t = true ↔ t.data <:+ s.data := by
  unfold endsWith
  exact List.isSuffixOf_iff_suffix

theorem string_mk_ne_empty (cs : List Char) (h : cs ≠ []) : String.mk cs ≠ "" := by
  intro he
  have := congrArg String.data he
  exact h this

/-- Claim C16. Header preservation: for a header with at least one non-whitespace character
the block that `saveConfig` writes is the header followed by zero, one or two newline
characters and nothing else, and it ends with two newlines; a header that is absent, empty
or made of whitespace only gives the block of the synthesized standard header. -/
theorem header_is_preserved (host : Host) (h : String)
    (hne : ∃ c ∈ h.data, isJsWhiteSpace c = false) :
    (∃ k, k ≤ 2 ∧ formatHeader host (some h) = h ++ String.mk (List.replicate k '\n')) ∧
      endsWith (formatHeader host (some h)) "\n\n" = true ∧
      (∀ w : String, (∀ c ∈ w.data, isJsWhiteSpace c = true) →
        formatHeader host (some w) = formatHeader host none) := by
  obtain ⟨c, hc, hws⟩ := hne
  have h1 : h ≠ "" := by
    intro he; rw [he] at hc; simp at hc
  have h2 : trim h ≠ "" := by
    apply string_mk_ne_empty
    intro ht
    have := (trimChars_eq_nil_iff h.data).1 ht c hc
    rw [hws] at this
    exact Bool.noConfusion this
  refine ⟨?_, ?_, ?_⟩
  · unfold formatHeader
    simp only [h1, h2, ne_eq, not_false_eq_true, and_self, if_true]
    by_cases ha : endsWith h "\n" = true
    · simp only [ha, if_true]
      by_cases hb : endsWith h "\n\n" = true
      · exact ⟨0, by decide, by simp [hb]⟩
      · exact ⟨1, by decide, by simp [hb]⟩
    · simp only [ha, if_false, Bool.false_eq_true]
      by_cases hb : endsWith (h ++ "\n") "\n\n" = true
      · exact ⟨1, by decide, by simp [hb]⟩
      · refine ⟨2, by decide, ?_⟩
        simp only [hb, if_false, Bool.false_eq_true]
        rw [String.append_assoc]
        rfl
  · unfold formatHeader
    simp only [h1, h2, ne_eq, not_false_eq_true, and_self, if_true]
    by_cases ha : endsWith h "\n" = true
    · simp only [ha, if_true]
      by_cases hb : endsWith h "\n\n" = true
      · simp [hb]
      · simp only [hb, if_false, Bool.false_eq_true]
        rw [endsWith_iff] at ha ⊢
        obtain ⟨t, ht⟩ := ha
        refine ⟨t, ?_⟩
        simp only [String.data_append, ← ht]
        simp
    · simp only [ha, if_false, Bool.false_eq_true]
      by_cases hb : endsWith (h ++ "\n") "\n\n" = true
      · simp [hb]
      · simp only [hb, if_false, Bool.false_eq_true]
        rw [endsWith_iff]
        refine ⟨h.data, ?_⟩
        simp [String.data_append]
  · intro w hw
    unfold formatHeader
    have : trim w = "" := by
      unfold trim
      rw [(trimChars_eq_nil_iff w.data).2 hw]
    simp [this]

theorem header_is_preserved_witness :
    (∃ k, k ≤ 2 ∧ formatHeader demoHost (some "# my header\n") =
        "# my header\n" ++ String.mk (List.replicate k '\n')) ∧
      endsWith (formatHeader demoHost (some "# my header\n")) "\n\n" = true ∧
      (∀ w : String, (∀ c ∈ w.data, isJsWhiteSpace c = true) →
        formatHeader demoHost (some w) = formatHeader demoHost none) :=
  header_is_preserved demoHost "# my header\n" ⟨'#', by decide, by decide⟩

theorem splitLines_ne_nil (cs : List Char) : splitLines cs ≠ [] := by
  cases cs with
  | nil => simp [splitLines]
  | cons c t =>
    unfold splitLines
    split
    · simp
    · split <;> simp

theorem joinLines_cons_of_ne_nil (l : List Char) (ls : List (List Char)) (h : ls ≠ []) :
    joinLines (l :: ls) = l ++ '\n' :: joinLines ls := by
  cases ls with
  | nil => exact absurd rfl h
  | cons a t => rfl

theorem joinLines_cons_char (c : Char) (l : List Char) (ls : List (List Char)) :
    joinLines ((c :: l) :: ls) = c :: joinLines (l :: ls) := by
  cases ls with
  | nil => rfl
  | cons a t => rfl

theorem joinLines_splitLines (cs : List Char) : joinLines (splitLines cs) = cs := by
  induction cs with
  | nil => rfl
  | cons c t ih =>
    unfold splitLines
    split
    · rename_i hc
      rw [joinLines_cons_of_ne_nil _ _ (splitLines_ne_nil t), ih, hc]
      rfl
    · cases hs : splitLines t with
      | nil => exact absurd hs (splitLines_ne_nil t)
      | cons l ls =>
        simp only
        rw [joinLines_cons_char, ← hs, ih]

theorem headerLoop_eq (lines : List (List Char)) :
    ∀ (i : Nat) (headerLines : List (List Char)),
      headerLoop lines i headerLines i =
        (headerLines ++ lines.takeWhile isHeaderLine,
          i + (lines.takeWhile isHeaderLine).length) := by
  induction lines with
  | nil => intro i acc; simp [headerLoop]
  | cons l t ih =>
    intro i acc
    unfold headerLoop
    by_cases hl : isHeaderLine l = true
    · rw [if_pos hl, ih]
      simp [List.takeWhile_cons, hl]
      omega
    · rw [if_neg hl]
      simp [List.takeWhile_cons, hl]

theorem drop_length_takeWhile_eq {α : Type} (p : α → Bool) (l : List α) :
    l.drop (l.takeWhile p).length = l.dropWhile p := by
  induction l with
  | nil => rfl
  | cons a t ih =>
    by_cases ha : p a = true
    · simp [List.takeWhile_cons, List.dropWhile_cons, ha, ih]
    · simp [List.takeWhile_cons, List.dropWhile_cons, ha]

theorem isPrefix_takeWhile_of_all {α : Type} (p : α → Bool) :
    ∀ (q l : List α), List.IsPrefix q l → (∀ x ∈ q, p x = true) →
      List.IsPrefix q (l.takeWhile p) := by
  intro q
  induction q with
  | nil => intro l _ _; exact List.nil_prefix
  | cons a t ih =>
    intro l hq hall
    cases l with
    | nil => simp at hq
    | cons b u =>
      rw [List.cons_prefix_cons] at hq
      obtain ⟨hab, htu⟩ := hq
      subst hab
      have ha : p a = true := hall a (List.mem_cons_self _ _)
      rw [List.takeWhile_cons, if_pos ha, List.cons_prefix_cons]
      exact ⟨rfl, ih u htu (fun x hx => hall x (List.mem_cons_of_mem _ hx))⟩

/-- Claim C17. Header/body split: with the lines of the content split on the newline
character (joining them gives the content back), the header is the join of the longest
leading run of lines that are blank or start with `#` after trimming, the body is the join
of the remaining lines, header lines followed by body lines are the lines in order, and the
first body line, when there is one, is neither blank nor a comment. -/
theorem header_body_split (content : String) :
    joinLines (splitLines content.data) = content.data ∧
      (splitHeaderAndBody content).header =
        String.mk (joinLines ((splitLines content.data).takeWhile isHeaderLine)) ∧
      (splitHeaderAndBody content).body =
        String.mk (joinLines ((splitLines content.data).dropWhile isHeaderLine)) ∧
      (splitLines content.data).takeWhile isHeaderLine ++
        (splitLines content.data).dropWhile isHeaderLine = splitLines content.data ∧
      (∀ l ∈ (splitLines content.data).takeWhile isHeaderLine, isHeaderLine l = true) ∧
      (∀ q, List.IsPrefix q (splitLines content.data) → (∀ l ∈ q, isHeaderLine l = true) →
        List.IsPrefix q ((splitLines content.data).takeWhile isHeaderLine)) ∧
      (∀ l, ((splitLines content.data).dropWhile isHeaderLine).head? = some l →
        isHeaderLine l = false) := by
  refine ⟨joinLines_splitLines _, ?_, ?_, List.takeWhile_append_dropWhile _ _,
    fun l hl => List.mem_takeWhile_imp hl, fun q hq hall => isPrefix_takeWhile_of_all _ q _ hq hall,
    ?_⟩
  · simp [splitHeaderAndBody, headerLoop_eq]
  · simp [splitHeaderAndBody, headerLoop_eq, drop_length_takeWhile_eq]
  · intro l hl
    have := List.head?_dropWhile_not isHeaderLine (splitLines content.data)
    rw [hl] at this
    simpa using this

/-! ## The shape of sanitized documents -/

theorem objGet_spread (fields : JsObject) (k : String) (hnd : (objKeys fields).Nodup) :
    objGet (spread fields) k = objGet fields k := by
  unfold objGet
  rw [assocGet_spread fields k hnd]

theorem objKeys_nodup_spreadVal (v : JsVal) : (objKeys (spreadVal v)).Nodup := by
  cases v <;> first | exact objKeys_nodup_spread _ | exact List.nodup_nil

theorem objKeys_nodup_sanitizeSection (v : JsVal) : (objKeys (sanitizeSection v)).Nodup := by
  cases v with
  | obj f =>
    rw [sanitizeSection_obj]
    exact objKeys_nodup_foldl_objSet (fun x => JsVal.bool (toBoolean x)) _ [] List.nodup_nil
  | undefined => exact List.nodup_nil
  | null => exact List.nodup_nil
  | bool b => exact List.nodup_nil
  | num n => exact List.nodup_nil
  | nan => exact List.nodup_nil
  | str s => exact List.nodup_nil

theorem objKeys_nodup_ensureVersion (config : JsVal) : (objKeys (ensureVersion config)).Nodup := by
  unfold ensureVersion
  split
  · exact objKeys_nodup_spreadVal _
  · exact objKeys_nodup_objSet _ _ _ (objKeys_nodup_spreadVal _)

theorem objKeys_nodup_ensureProject (v : JsVal) : (objKeys (ensureProject v)).Nodup := by
  unfold ensureProject
  split
  · exact objKeys_nodup_objSet _ _ _ (objKeys_nodup_spreadVal _)
  · exact objKeys_nodup_spreadVal _

theorem objKeys_nodup_ensure (config : JsVal) :
    (objKeys (ensureConfigStructure config)).Nodup := by
  simp only [ensureConfigStructure, CONFIG_SECTIONS, List.foldl_cons, List.foldl_nil, sanitizeStep]
  exact objKeys_nodup_objSet _ _ _ (objKeys_nodup_objSet _ _ _ (objKeys_nodup_objSet _ _ _
    (objKeys_nodup_objSet _ _ _ (objKeys_nodup_objSet _ _ _ (objKeys_nodup_ensureVersion _)))))

theorem objGet_ensure_version (config : JsVal) :
    objGet (ensureConfigStructure config) "version" =
      if (objGet (spreadVal config) "version").truthy then objGet (spreadVal config) "version"
      else JsVal.str "1.0" := by
  have h : objGet (ensureConfigStructure config) "version" =
      objGet (ensureVersion config) "version" := by
    simp [ensureConfigStructure, CONFIG_SECTIONS, sanitizeStep, objGet_objSet]
  rw [h]
  unfold ensureVersion
  by_cases ht : (objGet (spreadVal config) "version").truthy = true
  · rw [if_pos ht, if_pos ht]
  · rw [if_neg ht, if_neg ht, objGet_objSet, if_pos rfl]

theorem objGet_ensure_project (config : JsVal) :
    objGet (ensureConfigStructure config) "project" =
      JsVal.obj (ensureProject (objGet (spreadVal config) "project")) := by
  simp [ensureConfigStructure, CONFIG_SECTIONS, sanitizeStep, objGet_objSet,
    objGet_ensureVersion]

theorem ensureProject_defined (v : JsVal) :
    (objGet (ensureProject v) "output_directory").isUndefined = false := by
  unfold ensureProject
  split
  · rw [objGet_objSet, if_pos rfl]; rfl
  · rename_i h
    simpa using h

theorem sanitizedDoc_ensure (config : JsVal) : SanitizedDoc (ensureConfigStructure config) where
  keys := objKeys_nodup_ensure config
  version := by
    rw [objGet_ensure_version]
    split
    · assumption
    · rfl
  project := ⟨_, objGet_ensure_project config, objKeys_nodup_ensureProject _,
    ensureProject_defined _⟩
  sections := fun s hs => ⟨_, objGet_ensure_section config s hs,
    objKeys_nodup_sanitizeSection _, sanitizeSection_boolean _⟩

theorem assocGet_sanitizeSection (f : JsObject) (k : String) (hnd : (objKeys f).Nodup) :
    assocGet (sanitizeSection (JsVal.obj f)) k =
      if k = "__proto__" then none else (assocGet f k).map boolOf := by
  have := assocGet_foldl_objSet boolOf (f.filter (fun e => decide (e.1 ≠ "__proto__"))) [] k
    (objKeys_nodup_filter_proto f hnd)
  unfold boolOf at this
  rw [sanitizeSection_obj, this, assocGet_filter_proto]
  by_cases hk : k = "__proto__"
  · simp [hk, assocGet]
  · simp only [hk, if_false]
    cases assocGet f k <;> simp [assocGet, boolOf]

theorem assocGet_sanitizeSection_of_ne (f : JsObject) (k : String) (hnd : (objKeys f).Nodup)
    (hk : k ≠ "__proto__") :
    assocGet (sanitizeSection (JsVal.obj f)) k = (assocGet f k).map boolOf := by
  rw [assocGet_sanitizeSection f k hnd, if_neg hk]

/-- A section map without the key `__proto__` and with boolean values is sanitized to a
map with the same entries, by lookup. -/
theorem assocGet_sanitizeSection_of_sanitized (f : JsObject) (k : String)
    (hnd : (objKeys f).Nodup) (hb : ∀ e ∈ f, ∃ b : Bool, e.2 = JsVal.bool b)
    (hp : assocGet f "__proto__" = none) :
    assocGet (sanitizeSection (JsVal.obj f)) k = assocGet f k := by
  rw [assocGet_sanitizeSection f k hnd]
  by_cases hk : k = "__proto__"
  · rw [if_pos hk, hk, hp]
  · rw [if_neg hk]
    cases hg : assocGet f k with
    | none => rfl
    | some v =>
      obtain ⟨b, hb2⟩ := hb (k, v) (mem_of_assocGet f k v hg)
      simp only at hb2
      rw [hb2]
      rfl

theorem boolOf_of_boolean (f : JsObject) (k : String)
    (hb : ∀ e ∈ f, ∃ b : Bool, e.2 = JsVal.bool b) :
    (assocGet f k).map boolOf = assocGet f k := by
  cases hg : assocGet f k with
  | none => rfl
  | some v =>
    obtain ⟨b, hb2⟩ := hb (k, v) (mem_of_assocGet f k v hg)
    simp only at hb2
    rw [hb2]
    rfl

theorem sectionMap_ensure (X : JsObject) (s : String) (hX : (objKeys X).Nodup)
    (hs : s ∈ CONFIG_SECTIONS) :
    sectionMap (ensureConfigStructure (JsVal.obj X)) s = sanitizeSection (objGet X s) := by
  unfold sectionMap
  rw [objGet_ensure_section _ s hs]
  simp only [spreadVal]
  rw [objGet_spread X s hX]

theorem sectionMap_sort (host : Host) (Y : JsObject) (s : String) (hY : (objKeys Y).Nodup)
    (hs : s ∈ CONFIG_SECTIONS) :
    sectionMap (sortConfigSections host Y) s = sortObjectKeys host (objGet Y s) := by
  unfold sectionMap
  rw [objGet_sortConfigSections_section host Y s hs, objGet_spread Y s hY]

theorem assocGet_sortObjectKeys_sectionMap (host : Host) (Y : JsObject) (s k : String)
    (hp : assocGet (sectionMap Y s) "__proto__" = none) :
    assocGet (sortObjectKeys host (objGet Y s)) k = assocGet (sectionMap Y s) k := by
  unfold sectionMap at hp ⊢
  cases hv : objGet Y s with
  | obj f =>
    rw [hv] at hp
    simp only at hp ⊢
    rw [assocGet_sortObjectKeys host f k]
    by_cases hk : k = "__proto__"
    · rw [if_pos hk, hk, hp]
    · rw [if_neg hk]
  | undefined => rfl
  | null => rfl
  | bool b => rfl
  | num n => rfl
  | nan => rfl
  | str t => rfl

/-- The section maps of the document that `saveConfig` serializes, by lookup. -/
theorem saved_section_lookup (host : Host) (path : String) (header : Option String)
    (X : JsObject) (hX : (objKeys X).Nodup) (s k : String) (hs : s ∈ CONFIG_SECTIONS) :
    assocGet (sectionMap (saveConfig host path X header).document s) k =
      assocGet (sanitizeSection (objGet X s)) k := by
  unfold saveConfig
  simp only
  have hp : assocGet (sectionMap (ensureConfigStructure (JsVal.obj X)) s) "__proto__" = none := by
    rw [sectionMap_ensure X s hX hs]
    exact sanitizeSection_noProto _
  rw [sectionMap_sort host _ s (objKeys_nodup_ensure _) hs,
    assocGet_sortObjectKeys_sectionMap host _ s k hp, sectionMap_ensure X s hX hs]

/-! ## Claims about the toggle command -/

theorem section_meta_of_mem (s : String) (hs : s ∈ CONFIG_SECTIONS) :
    ∃ sectionMeta, SECTION_METADATA s = some sectionMeta := by
  simp only [CONFIG_SECTIONS, List.mem_cons, List.mem_singleton, List.not_mem_nil, or_false] at hs
  rcases hs with h | h | h | h <;> subst h <;> exact ⟨_, rfl⟩

theorem handleToggleCommand_loaded (env : Env) (host : Host) (rawArgs : List String)
    (options : ExtractedOptions) (sectionArg itemName s : String) (more : List String)
    (desired : Option Bool) (loaded : LoadedConfig)
    (hopt : extractConfigOption rawArgs = Except.ok options)
    (hargs : options.args = sectionArg :: itemName :: more)
    (hsec : validateSectionType sectionArg = Except.ok s) (hs : s ∈ CONFIG_SECTIONS)
    (hstate : desiredStateOf more.head? = Except.ok desired)
    (hcat : getAllAvailableItems env s ≠ [])
    (hload : loadConfig host options.configPath = Except.ok loaded) :
    ∃ sectionMeta, SECTION_METADATA s = some sectionMeta ∧
      handleToggleCommand env host rawArgs =
        toggleLoaded env host options.configPath s itemName desired sectionMeta
          (getAllAvailableItems env s) loaded := by
  obtain ⟨sectionMeta, hmeta⟩ := section_meta_of_mem s hs
  refine ⟨sectionMeta, hmeta, ?_⟩
  unfold handleToggleCommand
  rw [hopt]
  simp only
  rw [hargs]
  simp only
  rw [hsec]
  simp only
  rw [hstate]
  simp only
  rw [hmeta]
  simp only
  rw [if_neg hcat, hload]

theorem loadConfig_sanitized (host : Host) (path : String) (loaded : LoadedConfig)
    (h : loadConfig host path = Except.ok loaded) : SanitizedDoc loaded.config := by
  unfold loadConfig at h
  split at h
  · exact absurd h (by simp)
  · split at h
    · exact absurd h (by simp)
    · simp only [Except.ok.injEq] at h
      rw [← h]
      exact sanitizedDoc_ensure _

theorem finishToggle_run (env : Env) (host : Host) (path s itemName : String)
    (sectionMeta : SectionMeta) (items : List String) (loaded : LoadedConfig)
    (config : Config) (st : JsObject) (newState : Bool) (output : List String) :
    (finishToggle env host path s itemName sectionMeta items loaded
        (computeEffectiveItemStates env config).1 st newState output).writes =
      [saveConfig host path
        (ensureConfigStructure (JsVal.obj (objSet (spread loaded.config) s (JsVal.obj st))))
        (some loaded.header)] ∧
    (finishToggle env host path s itemName sectionMeta items loaded
        (computeEffectiveItemStates env config).1 st newState output).error = none := by
  unfold finishToggle
  simp only
  split
  · obtain ⟨report, hr, _⟩ := showCollectionDelta_eq env _ _ itemName newState
      (computeEffectiveItemStates_wellFormed env config)
      (computeEffectiveItemStates_wellFormed env (Config.ofObject (ensureConfigStructure
        (JsVal.obj (objSet (spread loaded.config) s (JsVal.obj st))))))
    rw [hr]
    exact ⟨rfl, rfl⟩
  · exact ⟨rfl, rfl⟩

/-- The section maps of the document saved by a toggle, by lookup: the map of the toggled
section is the sanitized new section state, every other section map is that of the loaded
document. -/
theorem toggle_saved_section (host : Host) (path : String) (header : Option String)
    (L st : JsObject) (hL : SanitizedDoc L) (hst : (objKeys st).Nodup) (s t k : String)
    (ht : t ∈ CONFIG_SECTIONS) :
    assocGet (sectionMap (saveConfig host path
        (ensureConfigStructure (JsVal.obj (objSet (spread L) s (JsVal.obj st)))) header).document
        t) k =
      if k = "__proto__" then none
      else if s = t then (assocGet st k).map boolOf else assocGet (sectionMap L t) k := by
  have hcopy : (objKeys (objSet (spread L) s (JsVal.obj st))).Nodup :=
    objKeys_nodup_objSet _ _ _ (objKeys_nodup_spread L)
  rw [saved_section_lookup host path header _ (objKeys_nodup_ensure _) t k ht]
  have h1 : objGet (ensureConfigStructure (JsVal.obj (objSet (spread L) s (JsVal.obj st)))) t =
      JsVal.obj (sanitizeSection (objGet (objSet (spread L) s (JsVal.obj st)) t)) := by
    rw [objGet_ensure_section _ t ht]
    simp only [spreadVal]
    rw [objGet_spread _ t hcopy]
  rw [h1, assocGet_sanitizeSection_of_sanitized _ k (objKeys_nodup_sanitizeSection _)
    (sanitizeSection_boolean _) (sanitizeSection_noProto _), objGet_objSet]
  by_cases hst2 : s = t
  · rw [if_pos hst2, if_pos hst2, assocGet_sanitizeSection st k hst]
  · rw [if_neg hst2, if_neg hst2, objGet_spread L t hL.keys]
    obtain ⟨f, hf, hfn, hfb⟩ := hL.sections t ht
    unfold sectionMap
    rw [hf, assocGet_sanitizeSection f k hfn]
    by_cases hk : k = "__proto__"
    · rw [if_pos hk, if_pos hk]
    · rw [if_neg hk, if_neg hk, boolOf_of_boolean f k hfb]

theorem objKeys_nodup_foldl_keys (g : String → JsVal) (keys : List String) :
    ∀ acc : JsObject, (objKeys acc).Nodup →
      (objKeys (keys.foldl (fun a key => objSet a key (g key)) acc)).Nodup := by
  induction keys with
  | nil => intro acc h; exact h
  | cons a t ih =>
    intro acc h
    rw [List.foldl_cons]
    exact ih _ (objKeys_nodup_objSet _ _ _ h)

theorem objGet_eq_of_assocGet (o : JsObject) (k : String) (v : JsVal)
    (h : assocGet o k = some v) : objGet o k = v := by
  unfold objGet; rw [h]; rfl

theorem objKeys_nodup_foldl_assign_keys (g : String → JsVal) (keys : List String) :
    ∀ acc : JsObject, (objKeys acc).Nodup →
      (objKeys (keys.foldl (fun a key => objAssign a key (g key)) acc)).Nodup := by
  induction keys with
  | nil => intro acc h; exact h
  | cons a t ih =>
    intro acc h
    rw [List.foldl_cons]
    exact ih _ (objKeys_nodup_objAssign _ _ _ h)

theorem assocGet_foldl_assign_keys (g : String → JsVal) (keys : List String) :
    ∀ (acc : JsObject) (k : String), k ≠ "__proto__" →
      assocGet (keys.foldl (fun a key => objAssign a key (g key)) acc) k =
        if k ∈ keys then some (g k) else assocGet acc k := by
  induction keys with
  | nil => intro acc k _; simp
  | cons a t ih =>
    intro acc k hp
    rw [List.foldl_cons, ih _ k hp]
    by_cases hk : k ∈ t
    · simp [hk]
    · by_cases ha : a = k
      · subst ha; simp [hk, assocGet_objAssign_self _ _ _ hp]
      · have : ¬ k = a := fun h => ha h.symm
        simp [hk, this, assocGet_objAssign_other _ _ _ _ ha]

theorem loadConfig_noProto (host : Host) (path : String) (loaded : LoadedConfig)
    (h : loadConfig host path = Except.ok loaded) (s : String) (hs : s ∈ CONFIG_SECTIONS) :
    assocGet (sectionMap loaded.config s) "__proto__" = none := by
  unfold loadConfig at h
  split at h
  · exact absurd h (by simp)
  · split at h
    · exact absurd h (by simp)
    · simp only [Except.ok.injEq] at h
      rw [← h]
      unfold sectionMap
      simp only
      rw [objGet_ensure_section _ s hs]
      exact sanitizeSection_noProto _

/-- The run of `toggle <section> all <state>` for a section with a non-empty Catalog: one
document is saved, in which every Catalog name other than `__proto__` has the state and
the name `__proto__` has no entry. -/
theorem toggle_all_saved (env : Env) (host : Host) (rawArgs : List String)
    (options : ExtractedOptions) (sectionArg s : String) (more : List String) (b : Bool)
    (loaded : LoadedConfig)
    (hopt : extractConfigOption rawArgs = Except.ok options)
    (hargs : options.args = sectionArg :: "all" :: more)
    (hsec : validateSectionType sectionArg = Except.ok s) (hs : s ∈ CONFIG_SECTIONS)
    (hstate : desiredStateOf more.head? = Except.ok (some b))
    (hcat : getAllAvailableItems env s ≠ [])
    (hload : loadConfig host options.configPath = Except.ok loaded) :
    ∃ saved, (handleToggleCommand env host rawArgs).writes = [saved] ∧
      (handleToggleCommand env host rawArgs).error = none ∧
      saved.path = options.configPath ∧
      (∀ n ∈ getAllAvailableItems env s, n ≠ "__proto__" →
        objGet (sectionMap saved.document s) n = JsVal.bool b) ∧
      assocGet (sectionMap saved.document s) "__proto__" = none := by
  obtain ⟨sectionMeta, _, hrun⟩ := handleToggleCommand_loaded env host rawArgs options
    sectionArg "all" s more (some b) loaded hopt hargs hsec hs hstate hcat hload
  rw [hrun]
  unfold toggleLoaded
  simp only [if_true]
  obtain ⟨hw, he⟩ := finishToggle_run env host options.configPath s "all" sectionMeta
    (getAllAvailableItems env s) loaded (Config.ofObject loaded.config)
    ((getAllAvailableItems env s).foldl (fun st item => objAssign st item (JsVal.bool b))
      (spreadVal (objGet loaded.config s))) b
    ((computeEffectiveItemStates env (Config.ofObject loaded.config)).2 ++
      [(if b = true then "Enabled" else "Disabled") ++ " all " ++
        toLowerCase sectionMeta.label ++ "."] ++
      (if s = "instructions" ∧ b = true then
        ["⚠️  Enabling every instruction can exceed Copilot Agent's context window. Consider enabling only what you need."]
      else []))
  have hnd : (objKeys ((getAllAvailableItems env s).foldl
      (fun st item => objAssign st item (JsVal.bool b))
      (spreadVal (objGet loaded.config s)))).Nodup :=
    objKeys_nodup_foldl_assign_keys (fun _ => JsVal.bool b)
      (getAllAvailableItems env s) _ (objKeys_nodup_spreadVal (objGet loaded.config s))
  refine ⟨_, hw, he, rfl, ?_, ?_⟩
  · intro n hn hp
    apply objGet_eq_of_assocGet
    rw [toggle_saved_section host _ _ _ _ (loadConfig_sanitized host _ loaded hload) hnd s s n hs,
      if_neg hp, if_pos rfl, assocGet_foldl_assign_keys (fun _ => JsVal.bool b) _ _ n hp,
      if_pos hn]
    rfl
  · rw [toggle_saved_section host _ _ _ _ (loadConfig_sanitized host _ loaded hload) hnd s s _ hs,
      if_pos rfl]

/-- Claim C18, evaluated at a failing input, with what holds for every Catalog.  With the
prompt files `__proto__`, `constructor` and `p` and a document with an empty prompts map,
`toggle prompts all on` saves the prompts map with the names `constructor` and `p` only and
reports two of three prompts enabled: the assignment `sectionState[item] = desiredState`
with the name `__proto__` creates no property.  For every section with a non-empty
Catalog and every valid state, when the configuration loads, the command ends without
error and calls `saveConfig` once, at the configuration path, with a document whose map of
that section assigns the state to every Catalog name other than `__proto__`, whatever the
loaded document said about the name, and has no entry for the name `__proto__`. -/
theorem toggle_all_skips_catalog_name_proto :
    "__proto__" ∈ getAllAvailableItems protoEnv "prompts" ∧
      (∃ saved,
        (handleToggleCommand protoEnv emptyPromptsHost ["prompts", "all", "on"]).writes =
          [saved] ∧
        sectionMap saved.document "prompts" =
          [("constructor", JsVal.bool true), ("p", JsVal.bool true)]) ∧
      (handleToggleCommand protoEnv emptyPromptsHost ["prompts", "all", "on"]).error = none ∧
      "Prompts: 2/3 enabled." ∈
        (handleToggleCommand protoEnv emptyPromptsHost ["prompts", "all", "on"]).output ∧
      (∀ (env : Env) (host : Host) (rawArgs : List String) (options : ExtractedOptions)
        (sectionArg s : String) (more : List String) (b : Bool) (loaded : LoadedConfig),
        extractConfigOption rawArgs = Except.ok options →
        options.args = sectionArg :: "all" :: more →
        validateSectionType sectionArg = Except.ok s → s ∈ CONFIG_SECTIONS →
        desiredStateOf more.head? = Except.ok (some b) →
        getAllAvailableItems env s ≠ [] →
        loadConfig host options.configPath = Except.ok loaded →
        ∃ saved, (handleToggleCommand env host rawArgs).writes = [saved] ∧
          (handleToggleCommand env host rawArgs).error = none ∧
          saved.path = options.configPath ∧
          (∀ n ∈ getAllAvailableItems env s, n ≠ "__proto__" →
            objGet (sectionMap saved.document s) n = JsVal.bool b) ∧
          assocGet (sectionMap saved.document s) "__proto__" = none) :=
  ⟨by decide, ⟨_, rfl, rfl⟩, rfl, by decide,
    fun env host rawArgs options sectionArg s more b loaded hopt hargs hsec hs hstate hcat hload =>
      toggle_all_saved env host rawArgs options sectionArg s more b loaded hopt hargs hsec hs
        hstate hcat hload⟩

theorem toggle_all_skips_catalog_name_proto_witness :
    ∃ saved, (handleToggleCommand demoEnv toggleHost ["Prompts", "all", "on"]).writes = [saved] ∧
      (handleToggleCommand demoEnv toggleHost ["Prompts", "all", "on"]).error = none ∧
      saved.path = "awesome-copilot.config.yml" ∧
      (∀ n ∈ getAllAvailableItems demoEnv "prompts", n ≠ "__proto__" →
        objGet (sectionMap saved.document "prompts") n = JsVal.bool true) ∧
      assocGet (sectionMap saved.document "prompts") "__proto__" = none :=
  toggle_all_skips_catalog_name_proto.2.2.2.2 demoEnv toggleHost ["Prompts", "all", "on"]
    { args := ["Prompts", "all", "on"], configPath := "awesome-copilot.config.yml" }
    "Prompts" "prompts" ["on"] true
    toggleLoadedDoc
    (by rfl) rfl (by rfl) (by decide) (by rfl) (by decide) (by rfl)

theorem objGet_sort_other (host : Host) (Y : JsObject) (k : String) (hY : (objKeys Y).Nodup)
    (hk : k ∉ CONFIG_SECTIONS) : objGet (sortConfigSections host Y) k = objGet Y k := by
  unfold objGet
  rw [assocGet_sortConfigSections_other host Y k hk, assocGet_spread Y k hY]

theorem objGet_ensure_version_of_truthy (X : JsObject) (hX : (objKeys X).Nodup)
    (hv : (objGet X "version").truthy = true) :
    objGet (ensureConfigStructure (JsVal.obj X)) "version" = objGet X "version" := by
  rw [objGet_ensure_version]
  simp only [spreadVal]
  rw [objGet_spread X _ hX, if_pos hv]

theorem ensureProject_of_defined (p : JsObject) (hp : (objKeys p).Nodup)
    (hd : (objGet p "output_directory").isUndefined = false) :
    ensureProject (JsVal.obj p) = spread p := by
  unfold ensureProject
  simp only [spreadVal]
  rw [objGet_spread p _ hp, hd]
  simp

theorem objGet_ensure_project_of_sanitized (X p : JsObject) (hX : (objKeys X).Nodup)
    (hp : objGet X "project" = JsVal.obj p) (hpn : (objKeys p).Nodup)
    (hd : (objGet p "output_directory").isUndefined = false) :
    objGet (ensureConfigStructure (JsVal.obj X)) "project" = JsVal.obj (spread p) := by
  rw [objGet_ensure_project]
  simp only [spreadVal]
  rw [objGet_spread X _ hX, hp, ensureProject_of_defined p hpn hd]

/-- Version and project of the document saved by a toggle of a section. -/
theorem toggle_saved_frame (host : Host) (path : String) (header : Option String)
    (L : JsObject) (hL : SanitizedDoc L) (s : String) (v : JsVal) (hs : s ∈ CONFIG_SECTIONS) :
    objGet (saveConfig host path
        (ensureConfigStructure (JsVal.obj (objSet (spread L) s v))) header).document "version" =
      objGet L "version" ∧
    ∀ k, assocGet (sectionMap (saveConfig host path
        (ensureConfigStructure (JsVal.obj (objSet (spread L) s v))) header).document "project") k =
      assocGet (sectionMap L "project") k := by
  have hsv : s ≠ "version" := by
    intro h; rw [h] at hs; exact absurd hs (by decide)
  have hsp : s ≠ "project" := by
    intro h; rw [h] at hs; exact absurd hs (by decide)
  have hcopy : (objKeys (objSet (spread L) s v)).Nodup :=
    objKeys_nodup_objSet _ _ _ (objKeys_nodup_spread L)
  have hcv : objGet (objSet (spread L) s v) "version" = objGet L "version" := by
    rw [objGet_objSet, if_neg hsv, objGet_spread L _ hL.keys]
  have hcp : objGet (objSet (spread L) s v) "project" = objGet L "project" := by
    rw [objGet_objSet, if_neg hsp, objGet_spread L _ hL.keys]
  obtain ⟨p, hp, hpn, hpd⟩ := hL.project
  have h1v : objGet (ensureConfigStructure (JsVal.obj (objSet (spread L) s v))) "version" =
      objGet L "version" := by
    rw [objGet_ensure_version_of_truthy _ hcopy (by rw [hcv]; exact hL.version), hcv]
  have h1p : objGet (ensureConfigStructure (JsVal.obj (objSet (spread L) s v))) "project" =
      JsVal.obj (spread p) :=
    objGet_ensure_project_of_sanitized _ p hcopy (by rw [hcp, hp]) hpn hpd
  have hsd : (objGet (spread p) "output_directory").isUndefined = false := by
    rw [objGet_spread p _ hpn]; exact hpd
  unfold saveConfig
  simp only
  constructor
  · rw [objGet_sort_other host _ _ (objKeys_nodup_ensure _) (by decide),
      objGet_ensure_version_of_truthy _ (objKeys_nodup_ensure _) (by rw [h1v]; exact hL.version),
      h1v]
  · intro k
    unfold sectionMap
    rw [objGet_sort_other host _ _ (objKeys_nodup_ensure _) (by decide),
      objGet_ensure_project_of_sanitized _ (spread p) (objKeys_nodup_ensure _) h1p
        (objKeys_nodup_spread p) hsd, hp]
    simp only
    rw [assocGet_spread _ k (objKeys_nodup_spread p), assocGet_spread p k hpn]

theorem truthyMember_spread (f : JsObject) (k : String) (hnd : (objKeys f).Nodup) :
    truthyMember (spread f) k = truthyMember f k := by
  unfold truthyMember
  rw [assocGet_spread f k hnd]

theorem truthyMember_of_own (f : JsObject) (k : String) (h : k ∉ objectPrototypeKeys) :
    truthyMember f k = (objGet f k).truthy := by
  unfold truthyMember objGet
  cases assocGet f k with
  | some v => rfl
  | none => simp [h, JsVal.truthy]

/-- The run of `toggle <section> <name> [state]` for a Catalog name other than the word all
and other than `__proto__`: one document is saved, in which the item has the requested
state, or the negation of `Boolean(sectionState[name])`, and nothing else differs from the
loaded document. -/
theorem toggle_one_saved (env : Env) (host : Host) (rawArgs : List String)
    (options : ExtractedOptions) (sectionArg itemName s : String) (more : List String)
    (desired : Option Bool) (loaded : LoadedConfig)
    (hopt : extractConfigOption rawArgs = Except.ok options)
    (hargs : options.args = sectionArg :: itemName :: more)
    (hname : itemName ≠ "all") (hproto : itemName ≠ "__proto__")
    (hsec : validateSectionType sectionArg = Except.ok s) (hs : s ∈ CONFIG_SECTIONS)
    (hstate : desiredStateOf more.head? = Except.ok desired)
    (hitem : itemName ∈ getAllAvailableItems env s)
    (hload : loadConfig host options.configPath = Except.ok loaded) :
    ∃ saved, (handleToggleCommand env host rawArgs).writes = [saved] ∧
      (handleToggleCommand env host rawArgs).error = none ∧
      saved.path = options.configPath ∧
      objGet (sectionMap saved.document s) itemName =
        JsVal.bool (desired.getD (!(truthyMember (sectionMap loaded.config s) itemName))) ∧
      (∀ k, k ≠ itemName →
        assocGet (sectionMap saved.document s) k = assocGet (sectionMap loaded.config s) k) ∧
      (∀ t ∈ CONFIG_SECTIONS, t ≠ s → ∀ k,
        assocGet (sectionMap saved.document t) k = assocGet (sectionMap loaded.config t) k) ∧
      objGet saved.document "version" = objGet loaded.config "version" ∧
      (∀ k, assocGet (sectionMap saved.document "project") k =
        assocGet (sectionMap loaded.config "project") k) := by
  have hcat : getAllAvailableItems env s ≠ [] := fun h => by rw [h] at hitem; simp at hitem
  obtain ⟨sectionMeta, _, hrun⟩ := handleToggleCommand_loaded env host rawArgs options
    sectionArg itemName s more desired loaded hopt hargs hsec hs hstate hcat hload
  have hL := loadConfig_sanitized host _ loaded hload
  obtain ⟨f, hf, hfn, hfb⟩ := hL.sections s hs
  have hmap : sectionMap loaded.config s = f := by unfold sectionMap; rw [hf]
  have hst0 : spreadVal (objGet loaded.config s) = spread f := by rw [hf]; rfl
  rw [hrun]
  unfold toggleLoaded
  simp only [if_neg hname, hitem, not_true_eq_false, if_false]
  generalize hns : (match desired with
    | some state => state
    | none => !(truthyMember (spreadVal (objGet loaded.config s)) itemName)) = newState
  rw [objAssign_of_ne _ itemName _ hproto]
  obtain ⟨hw, he⟩ := finishToggle_run env host options.configPath s itemName sectionMeta
    (getAllAvailableItems env s) loaded (Config.ofObject loaded.config)
    (objSet (spreadVal (objGet loaded.config s)) itemName (JsVal.bool newState)) newState
    ((computeEffectiveItemStates env (Config.ofObject loaded.config)).2 ++
      [(if newState = true then "Enabled" else "Disabled") ++ " " ++ sectionMeta.singular ++ " '" ++
        itemName ++ "'."])
  have hstn : (objKeys (objSet (spreadVal (objGet loaded.config s)) itemName
      (JsVal.bool newState))).Nodup :=
    objKeys_nodup_objSet _ _ _ (objKeys_nodup_spreadVal _)
  obtain ⟨hver, hproj⟩ := toggle_saved_frame host options.configPath (some loaded.header)
    loaded.config hL s
    (JsVal.obj (objSet (spreadVal (objGet loaded.config s)) itemName (JsVal.bool newState))) hs
  refine ⟨_, hw, he, rfl, ?_, ?_, ?_, hver, hproj⟩
  · apply objGet_eq_of_assocGet
    rw [toggle_saved_section host _ _ _ _ hL hstn s s itemName hs, if_neg hproto, if_pos rfl,
      assocGet_objSet_self]
    simp only [Option.map_some', boolOf, toBoolean]
    rw [← hns, hmap, hst0]
    cases desired with
    | some state => rfl
    | none =>
      simp only
      rw [truthyMember_spread f _ hfn]
      rfl
  · intro k hk
    rw [toggle_saved_section host _ _ _ _ hL hstn s s k hs]
    by_cases hp : k = "__proto__"
    · rw [if_pos hp, hp, loadConfig_noProto host _ loaded hload s hs]
    · rw [if_neg hp, if_pos rfl, assocGet_objSet_other _ _ _ _ (Ne.symm hk), hst0,
        assocGet_spread f k hfn, boolOf_of_boolean f k hfb, hmap]
  · intro t ht hts k
    rw [toggle_saved_section host _ _ _ _ hL hstn s t k ht]
    by_cases hp : k = "__proto__"
    · rw [if_pos hp, hp, loadConfig_noProto host _ loaded hload t ht]
    · rw [if_neg hp, if_neg (Ne.symm hts)]

/-- Claim C19, evaluated at a failing input, with what holds for every other Catalog name.
With the prompt files `__proto__`, `constructor` and `p` and a document with an empty
prompts map, `toggle prompts __proto__ on` reports the prompt as enabled and saves a
prompts map without any entry, with no prompt counted as enabled: the assignment
`sectionState[itemName] = newState` with the name `__proto__` creates no property.  On the
same document `toggle prompts constructor` without a state saves the flag false, the
negation of `Boolean(sectionState[itemName])`, which reads the member `constructor` that
the object inherits.  For every Catalog name other than the word all and other than
`__proto__`, with an optional valid state and a configuration that loads, the command ends
without error and saves one document in which the item has the requested state (or the
negation of `Boolean` of its previous value, read as JavaScript reads the property, when no
state is given), every other key of the section has its previous value, the other three
section maps have their previous entries, and version and project are as loaded. -/
theorem toggle_of_catalog_name_proto_sets_nothing :
    "__proto__" ∈ getAllAvailableItems protoEnv "prompts" ∧
      (∃ saved,
        (handleToggleCommand protoEnv emptyPromptsHost ["prompts", "__proto__", "on"]).writes =
          [saved] ∧
        sectionMap saved.document "prompts" = []) ∧
      (handleToggleCommand protoEnv emptyPromptsHost ["prompts", "__proto__", "on"]).error =
        none ∧
      "Enabled prompt '__proto__'." ∈
        (handleToggleCommand protoEnv emptyPromptsHost ["prompts", "__proto__", "on"]).output ∧
      "Prompts: 0/3 enabled." ∈
        (handleToggleCommand protoEnv emptyPromptsHost ["prompts", "__proto__", "on"]).output ∧
      (∃ saved,
        (handleToggleCommand protoEnv emptyPromptsHost ["prompts", "constructor"]).writes =
          [saved] ∧
        sectionMap saved.document "prompts" = [("constructor", JsVal.bool false)]) ∧
      (∀ (env : Env) (host : Host) (rawArgs : List String) (options : ExtractedOptions)
        (sectionArg itemName s : String) (more : List String) (desired : Option Bool)
        (loaded : LoadedConfig),
        extractConfigOption rawArgs = Except.ok options →
        options.args = sectionArg :: itemName :: more →
        itemName ≠ "all" → itemName ≠ "__proto__" →
        validateSectionType sectionArg = Except.ok s → s ∈ CONFIG_SECTIONS →
        desiredStateOf more.head? = Except.ok desired →
        itemName ∈ getAllAvailableItems env s →
        loadConfig host options.configPath = Except.ok loaded →
        ∃ saved, (handleToggleCommand env host rawArgs).writes = [saved] ∧
          (handleToggleCommand env host rawArgs).error = none ∧
          saved.path = options.configPath ∧
          objGet (sectionMap saved.document s) itemName =
            JsVal.bool (desired.getD (!(truthyMember (sectionMap loaded.config s) itemName))) ∧
          (∀ k, k ≠ itemName →
            assocGet (sectionMap saved.document s) k =
              assocGet (sectionMap loaded.config s) k) ∧
          (∀ t ∈ CONFIG_SECTIONS, t ≠ s → ∀ k,
            assocGet (sectionMap saved.document t) k =
              assocGet (sectionMap loaded.config t) k) ∧
          objGet saved.document "version" = objGet loaded.config "version" ∧
          (∀ k, assocGet (sectionMap saved.document "project") k =
            assocGet (sectionMap loaded.config "project") k)) :=
  ⟨by decide, ⟨_, rfl, rfl⟩, rfl, by decide, by decide, ⟨_, rfl, rfl⟩,
    fun env host rawArgs options sectionArg itemName s more desired loaded hopt hargs hname
        hproto hsec hs hstate hitem hload =>
      toggle_one_saved env host rawArgs options sectionArg itemName s more desired loaded hopt
        hargs hname hproto hsec hs hstate hitem hload⟩

theorem toggle_of_catalog_name_proto_sets_nothing_witness :
    ∃ saved, (handleToggleCommand demoEnv toggleHost ["prompts", "q"]).writes = [saved] ∧
      (handleToggleCommand demoEnv toggleHost ["prompts", "q"]).error = none ∧
      saved.path = "awesome-copilot.config.yml" ∧
      objGet (sectionMap saved.document "prompts") "q" =
        JsVal.bool ((none : Option Bool).getD
          (!(truthyMember (sectionMap toggleLoadedDoc.config "prompts") "q"))) ∧
      (∀ k, k ≠ "q" →
        assocGet (sectionMap saved.document "prompts") k =
          assocGet (sectionMap toggleLoadedDoc.config "prompts") k) ∧
      (∀ t ∈ CONFIG_SECTIONS, t ≠ "prompts" → ∀ k,
        assocGet (sectionMap saved.document t) k =
          assocGet (sectionMap toggleLoadedDoc.config t) k) ∧
      objGet saved.document "version" = objGet toggleLoadedDoc.config "version" ∧
      (∀ k, assocGet (sectionMap saved.document "project") k =
        assocGet (sectionMap toggleLoadedDoc.config "project") k) :=
  toggle_of_catalog_name_proto_sets_nothing.2.2.2.2.2.2 demoEnv toggleHost ["prompts", "q"]
    { args := ["prompts", "q"], configPath := "awesome-copilot.config.yml" }
    "prompts" "q" "prompts" [] none toggleLoadedDoc
    (by rfl) rfl (by decide) (by decide) (by rfl) (by decide) (by rfl) (by decide) (by rfl)

theorem toggleLoaded_error_writes (env : Env) (host : Host) (path s itemName : String)
    (desired : Option Bool) (sectionMeta : SectionMeta) (items : List String)
    (loaded : LoadedConfig)
    (h : (toggleLoaded env host path s itemName desired sectionMeta items loaded).error ≠ none) :
    (toggleLoaded env host path s itemName desired sectionMeta items loaded).writes = [] := by
  unfold toggleLoaded at h ⊢
  simp only at h ⊢
  split
  · rename_i hall
    rw [if_pos hall] at h
    cases desired with
    | none => rfl
    | some state =>
      simp only at h
      exact absurd (finishToggle_run env host path s itemName sectionMeta items loaded
        (Config.ofObject loaded.config) _ state _).2 h
  · rename_i hall
    rw [if_neg hall] at h
    split
    · split
      · split <;> rfl
      · rfl
    · rename_i hin
      rw [if_neg hin] at h
      exact absurd (finishToggle_run env host path s itemName sectionMeta items loaded
        (Config.ofObject loaded.config) _ _ _).2 h

theorem handleToggleCommand_error_writes (env : Env) (host : Host) (rawArgs : List String)
    (h : (handleToggleCommand env host rawArgs).error ≠ none) :
    (handleToggleCommand env host rawArgs).writes = [] := by
  unfold handleToggleCommand at h ⊢
  split
  · rfl
  · rename_i options hopt
    rw [hopt] at h
    simp only at h
    split
    · rename_i sectionArg itemName more hargs
      rw [hargs] at h
      simp only at h
      split
      · rfl
      · rename_i sectionName hsec
        rw [hsec] at h
        simp only at h
        split
        · rfl
        · rename_i desired hstate
          rw [hstate] at h
          simp only at h
          split
          · rfl
          · rename_i sectionMeta hmeta
            rw [hmeta] at h
            simp only at h
            split
            · rfl
            · rename_i hcat
              rw [if_neg hcat] at h
              split
              · rfl
              · rename_i loaded hload
                rw [hload] at h
                simp only at h
                exact toggleLoaded_error_writes _ _ _ _ _ _ _ _ _ h
    · rfl

/-- Claim C20, counterexample. With an empty Catalog of prompts the name foo is not the
word all and not in the Catalog, yet the error of `toggle prompts foo` is not an Unknown
error: the command stops at the earlier check that the Catalog is not empty. -/
theorem unknown_item_with_empty_catalog :
    "foo" ≠ "all" ∧ "foo" ∉ getAllAvailableItems emptyCatalogEnv "prompts" ∧
      (handleToggleCommand emptyCatalogEnv toggleHost ["prompts", "foo"]).error =
        some "No prompts available to toggle." ∧
      (handleToggleCommand emptyCatalogEnv toggleHost ["prompts", "foo"]).writes.length = 0 := by
  refine ⟨by decide, by decide, by rfl, by rfl⟩

/-- Claim C20, amended. For a section with a non-empty Catalog, an absent or valid state
argument and a configuration that loads, an item name that is not the word all and not in
the Catalog makes `handleToggleCommand` throw an Unknown error that names the singular of
the section and the item (with a suggestion from the Catalog or without), and `saveConfig`
is not called.  With the item `all` and no state the command throws as well, with fewer than
two arguments it throws the usage error, and whenever the command ends with an error
nothing is written. -/
theorem unknown_item_is_rejected (env : Env) (host : Host) (rawArgs : List String)
    (options : ExtractedOptions) (hopt : extractConfigOption rawArgs = Except.ok options) :
    (∀ (sectionArg itemName s : String) (more : List String) (desired : Option Bool)
        (loaded : LoadedConfig) (sectionMeta : SectionMeta),
        options.args = sectionArg :: itemName :: more →
        validateSectionType sectionArg = Except.ok s → s ∈ CONFIG_SECTIONS →
        SECTION_METADATA s = some sectionMeta →
        desiredStateOf more.head? = Except.ok desired →
        getAllAvailableItems env s ≠ [] →
        loadConfig host options.configPath = Except.ok loaded →
        (itemName ≠ "all" → itemName ∉ getAllAvailableItems env s →
          ((handleToggleCommand env host rawArgs).error =
              some ("Unknown " ++ sectionMeta.singular ++ " '" ++ itemName ++ "'.") ∨
            ∃ suggestion ∈ getAllAvailableItems env s,
              (handleToggleCommand env host rawArgs).error =
                some ("Unknown " ++ sectionMeta.singular ++ " '" ++ itemName ++
                  "'. Did you mean '" ++ suggestion ++ "'?")) ∧
          (handleToggleCommand env host rawArgs).writes = []) ∧
        (itemName = "all" → desired = none →
          (handleToggleCommand env host rawArgs).error =
              some "Specify 'on' or 'off' when toggling all items." ∧
            (handleToggleCommand env host rawArgs).writes = [])) ∧
      (options.args.length < 2 →
        (handleToggleCommand env host rawArgs).error =
            some "Usage: awesome-copilot toggle <section> <name|all> [on|off] [--config <file>]" ∧
          (handleToggleCommand env host rawArgs).writes = []) ∧
      ((handleToggleCommand env host rawArgs).error ≠ none →
        (handleToggleCommand env host rawArgs).writes = []) := by
  refine ⟨?_, ?_, handleToggleCommand_error_writes env host rawArgs⟩
  · intro sectionArg itemName s more desired loaded sectionMeta hargs hsec hs hmeta hstate hcat
      hload
    obtain ⟨sectionMeta2, hmeta2, hrun⟩ := handleToggleCommand_loaded env host rawArgs options
      sectionArg itemName s more desired loaded hopt hargs hsec hs hstate hcat hload
    have hm : sectionMeta2 = sectionMeta := by
      rw [hmeta] at hmeta2; exact (Option.some.inj hmeta2).symm
    subst hm
    rw [hrun]
    constructor
    · intro hall hunknown
      unfold toggleLoaded
      simp only [if_neg hall, hunknown, not_false_eq_true, if_true]
      cases hfind : findClosestMatch host.toLowerCase itemName (getAllAvailableItems env s) with
      | none => exact ⟨Or.inl rfl, rfl⟩
      | some suggestion =>
        simp only
        by_cases hne : suggestion = ""
        · simp only [hne, ne_eq, not_true_eq_false, if_false]
          exact ⟨Or.inl rfl, rfl⟩
        · simp only [hne, ne_eq, not_false_eq_true, if_true]
          exact ⟨Or.inr ⟨suggestion, List.mem_of_find?_eq_some hfind, rfl⟩, rfl⟩
    · intro hall hnone
      subst hall hnone
      unfold toggleLoaded
      simp only [if_true]
      exact ⟨rfl, rfl⟩
  · intro hlen
    unfold handleToggleCommand
    rw [hopt]
    simp only
    split
    · rename_i hargs
      rw [hargs] at hlen
      simp only [List.length_cons] at hlen
      omega
    · exact ⟨rfl, rfl⟩

theorem unknown_item_is_rejected_witness :
    ((handleToggleCommand demoEnv toggleHost ["prompts", "Sha"]).error =
        some ("Unknown " ++ "prompt" ++ " '" ++ "Sha" ++ "'.") ∨
      ∃ suggestion ∈ getAllAvailableItems demoEnv "prompts",
        (handleToggleCommand demoEnv toggleHost ["prompts", "Sha"]).error =
          some ("Unknown " ++ "prompt" ++ " '" ++ "Sha" ++
            "'. Did you mean '" ++ suggestion ++ "'?")) ∧
      (handleToggleCommand demoEnv toggleHost ["prompts", "Sha"]).writes = [] :=
  ((unknown_item_is_rejected demoEnv toggleHost ["prompts", "Sha"]
    { args := ["prompts", "Sha"], configPath := "awesome-copilot.config.yml" } (by rfl)).1
    "prompts" "Sha" "prompts" [] none toggleLoadedDoc
    { dir := "prompts", ext := ".prompt.md", label := "Prompts", singular := "prompt" }
    rfl (by rfl) (by decide) (by rfl) (by rfl) (by decide) (by rfl)).1 (by decide) (by decide)

/-! ## Further claims about the resolution engine -/

theorem isBoolean_cases (v : JsVal) : (∃ b, v = JsVal.bool b) ∨ v.isBoolean = false := by
  cases v with
  | bool b => exact Or.inl ⟨b, rfl⟩
  | undefined => exact Or.inr rfl
  | null => exact Or.inr rfl
  | num k => exact Or.inr rfl
  | nan => exact Or.inr rfl
  | str t => exact Or.inr rfl
  | obj f => exact Or.inr rfl

theorem resolved_enabled_iff (env : Env) (config : Config) (sec : ArtifactSection) (n : String) :
    (resolved env config sec n).1 = true ↔
      (config.explicitFlag sec n = JsVal.bool true ∨
        ((config.explicitFlag sec n).isBoolean = false ∧
          grantingCollections env config sec n ≠ [])) := by
  rcases isBoolean_cases (config.explicitFlag sec n) with ⟨b, hb⟩ | hb
  · rw [resolved_explicit env config sec n b hb, hb]
    cases b <;> simp [JsVal.isBoolean]
  · rw [resolved_inherit env config sec n hb]
    have hne : config.explicitFlag sec n ≠ JsVal.bool true := by
      intro h; rw [h] at hb; simp [JsVal.isBoolean] at hb
    by_cases hg : grantingCollections env config sec n = []
    · simp [hg, hne]
    · simp [hg, hb]

theorem explicitFlag_congr (c c2 : Config) (sec : ArtifactSection) (n : String)
    (h : c.artifacts sec = c2.artifacts sec) : c.explicitFlag sec n = c2.explicitFlag sec n := by
  unfold Config.explicitFlag
  rw [h]

theorem enabled_of_more_collections (env : Env) (c c2 : Config) (sec : ArtifactSection)
    (n : String) (hsec : ∀ s, c.artifacts s = c2.artifacts s)
    (hcol : ∀ e ∈ c.collectionEntries, e.2.truthy = true →
      ∃ e2 ∈ c2.collectionEntries, e2.1 = e.1 ∧ e2.2.truthy = true)
    (hn : n ∈ (computeEffectiveItemStates env c).1.enabled sec) :
    n ∈ (computeEffectiveItemStates env c2).1.enabled sec := by
  rw [enabled_iff, resolved_enabled_iff] at hn ⊢
  refine ⟨hn.1, ?_⟩
  rw [← explicitFlag_congr c c2 sec n (hsec sec)]
  rcases hn.2 with h | ⟨h1, h2⟩
  · exact Or.inl h
  · refine Or.inr ⟨h1, ?_⟩
    obtain ⟨x, hx⟩ := List.exists_mem_of_ne_nil _ h2
    obtain ⟨e, he, hg, hname⟩ := (mem_grantingCollections env c sec n x).1 hx
    simp only [entryGrants, Bool.and_eq_true] at hg
    obtain ⟨e2, he2, hname2, ht2⟩ := hcol e he hg.1
    have hmem : x ∈ grantingCollections env c2 sec n := by
      rw [mem_grantingCollections]
      refine ⟨e2, he2, ?_, hname2.trans hname⟩
      simp only [entryGrants, Bool.and_eq_true]
      exact ⟨ht2, by rw [hname2]; exact hg.2⟩
    intro hnil
    rw [hnil] at hmem
    simp at hmem

/-- Claim C28. Monotonicity in collections: for two configurations with the same artifact
section maps where every collection enabled in the first is enabled in the second, every
artifact that is effectively enabled under the first is effectively enabled under the
second. -/
theorem enabling_collections_is_monotone (env : Env) (c c2 : Config) (sec : ArtifactSection)
    (n : String) (hsec : ∀ s, c.artifacts s = c2.artifacts s)
    (hcol : ∀ e ∈ c.collectionEntries, e.2.truthy = true →
      ∃ e2 ∈ c2.collectionEntries, e2.1 = e.1 ∧ e2.2.truthy = true)
    (hn : n ∈ (computeEffectiveItemStates env c).1.enabled sec) :
    n ∈ (computeEffectiveItemStates env c2).1.enabled sec :=
  enabled_of_more_collections env c c2 sec n hsec hcol hn

theorem enabling_collections_is_monotone_witness :
    "q" ∈ (computeEffectiveItemStates demoEnv demoConfig).1.enabled ArtifactSection.prompts :=
  enabling_collections_is_monotone demoEnv (demoConfig.setCollectionFlag "B" false) demoConfig
    ArtifactSection.prompts "q" (fun s => by cases s <;> rfl) (by decide) (by decide)

/-- Claim C30. Enabled set and reasons agree: a name is in the enabled set of a section
exactly when its reason is the explicit reason with value true or a collections reason with
a non-empty via; a reason with source collections always has a non-empty via; and every
reason is one of the three shapes explicit, collections, default. -/
theorem enabled_set_agrees_with_reasons (env : Env) (config : Config) (sec : ArtifactSection)
    (n : String) :
    (n ∈ (computeEffectiveItemStates env config).1.enabled sec ↔
      ((computeEffectiveItemStates env config).1.reason sec n =
          some { source := "explicit", value := some true, via := none } ∨
        ∃ via, via ≠ [] ∧ (computeEffectiveItemStates env config).1.reason sec n =
          some { source := "collections", value := none, via := some via })) ∧
      (∀ r, (computeEffectiveItemStates env config).1.reason sec n = some r →
        r.source = "collections" → ∃ via, r.via = some via ∧ via ≠ []) ∧
      (∀ r, (computeEffectiveItemStates env config).1.reason sec n = some r →
        ((∃ b, r = { source := "explicit", value := some b, via := none }) ∨
          (∃ via, r = { source := "collections", value := none, via := some via }) ∨
          r = { source := "default", value := none, via := none })) := by
  have hsort : ∀ l : List String, l ≠ [] → jsSort l ≠ [] := by
    intro l hl h
    have := (jsSort_perm l).length_eq
    rw [h] at this
    exact hl (List.length_eq_zero.1 this.symm)
  rw [enabled_iff, reason_iff]
  by_cases hcat : n ∈ catalog env sec
  · simp only [hcat, true_and, if_true, Option.some.injEq]
    rcases isBoolean_cases (config.explicitFlag sec n) with ⟨b, hb⟩ | hb
    · rw [resolved_explicit env config sec n b hb]
      refine ⟨?_, ?_, ?_⟩
      · cases b <;> simp
      · intro r hr hs; rw [← hr] at hs; simp at hs
      · intro r hr; exact Or.inl ⟨b, hr.symm⟩
    · rw [resolved_inherit env config sec n hb]
      by_cases hg : grantingCollections env config sec n = []
      · simp only [hg, if_true]
        refine ⟨?_, ?_, ?_⟩
        · simp
        · intro r hr hs; rw [← hr] at hs; simp at hs
        · intro r hr; exact Or.inr (Or.inr hr.symm)
      · simp only [hg, if_false]
        refine ⟨?_, ?_, ?_⟩
        · simp only [true_iff]
          exact Or.inr ⟨_, hsort _ hg, rfl⟩
        · intro r hr _
          rw [← hr]
          exact ⟨_, rfl, hsort _ hg⟩
        · intro r hr; exact Or.inr (Or.inl ⟨_, hr.symm⟩)
  · simp [hcat]

theorem setCollectionFlag_entries (c : Config) (C : String) (b : Bool) :
    (c.setCollectionFlag C b).collectionEntries =
      c.collectionEntries.map (fun e => if e.1 = C then (e.1, JsVal.bool b) else e) := by
  unfold Config.setCollectionFlag Config.collectionEntries
  cases c.collections <;> simp

theorem setCollectionFlag_artifacts (c : Config) (C : String) (b : Bool) (s : ArtifactSection) :
    (c.setCollectionFlag C b).artifacts s = c.artifacts s := by
  cases s <;> rfl

theorem enabled_off_subset_on (env : Env) (c : Config) (C : String) (sec : ArtifactSection)
    (n : String)
    (hn : n ∈ (computeEffectiveItemStates env (c.setCollectionFlag C false)).1.enabled sec) :
    n ∈ (computeEffectiveItemStates env (c.setCollectionFlag C true)).1.enabled sec := by
  refine enabled_of_more_collections env _ _ sec n
    (fun s => by rw [setCollectionFlag_artifacts, setCollectionFlag_artifacts]) ?_ hn
  intro e he ht
  rw [setCollectionFlag_entries, List.mem_map] at he
  obtain ⟨e0, he0, hmap⟩ := he
  by_cases hC : e0.1 = C
  · rw [if_pos hC] at hmap
    rw [← hmap] at ht
    simp [JsVal.truthy] at ht
  · rw [if_neg hC] at hmap
    subst hmap
    refine ⟨e0, ?_, rfl, ht⟩
    rw [setCollectionFlag_entries, List.mem_map]
    exact ⟨e0, he0, by rw [if_neg hC]⟩

theorem reason_names_toggled_collection (env : Env) (c : Config) (C : String)
    (sec : ArtifactSection) (n : String)
    (hon : n ∈ (computeEffectiveItemStates env (c.setCollectionFlag C true)).1.enabled sec)
    (hoff : n ∉ (computeEffectiveItemStates env (c.setCollectionFlag C false)).1.enabled sec) :
    ∃ via, (computeEffectiveItemStates env (c.setCollectionFlag C true)).1.reason sec n =
        some { source := "collections", value := none, via := some via } ∧ C ∈ via := by
  rw [enabled_iff, resolved_enabled_iff] at hon hoff
  have hflag : (c.setCollectionFlag C true).explicitFlag sec n =
      (c.setCollectionFlag C false).explicitFlag sec n :=
    explicitFlag_congr _ _ sec n
      (by rw [setCollectionFlag_artifacts, setCollectionFlag_artifacts])
  obtain ⟨hcat, hres⟩ := hon
  rcases hres with h | ⟨hb, hg⟩
  · exact absurd ⟨hcat, Or.inl (hflag ▸ h)⟩ hoff
  · have hoffnil : grantingCollections env (c.setCollectionFlag C false) sec n = [] := by
      by_contra hne
      exact hoff ⟨hcat, Or.inr ⟨hflag ▸ hb, hne⟩⟩
    refine ⟨jsSort (grantingCollections env (c.setCollectionFlag C true) sec n), ?_, ?_⟩
    · rw [reason_iff, if_pos hcat, resolved_inherit env _ sec n hb, if_neg hg]
    · rw [(jsSort_perm _).mem_iff]
      obtain ⟨x, hx⟩ := List.exists_mem_of_ne_nil _ hg
      obtain ⟨e, he, hgr, hname⟩ := (mem_grantingCollections env _ sec n x).1 hx
      rw [setCollectionFlag_entries, List.mem_map] at he
      obtain ⟨e0, he0, hmap⟩ := he
      by_cases hC : e0.1 = C
      · rw [if_pos hC] at hmap
        have hxC : x = C := by rw [← hname, ← hmap]; exact hC
        exact hxC ▸ hx
      · rw [if_neg hC] at hmap
        subst hmap
        have hmem : x ∈ grantingCollections env (c.setCollectionFlag C false) sec n := by
          rw [mem_grantingCollections]
          refine ⟨e0, ?_, hgr, hname⟩
          rw [setCollectionFlag_entries, List.mem_map]
          exact ⟨e0, he0, by rw [if_neg hC]⟩
        rw [hoffnil] at hmem
        simp at hmem

theorem filter_eq_nil_of_forall {α : Type} (p : α → Bool) (l : List α)
    (h : ∀ x ∈ l, p x = false) : l.filter p = [] := by
  rw [List.filter_eq_nil_iff]
  intro x hx
  rw [h x hx]
  simp

/-- Claim C29. Delta completeness for a single toggle: for the two configurations that
differ only in the flag of collection C, the delta of enabling C reports as newly enabled
the whole difference of the enabled sets, in the order of the enabled set, and nothing as
newly disabled; the delta of disabling C reports as newly disabled that same difference and
nothing as newly enabled. -/
theorem single_toggle_delta_is_complete (env : Env) (c : Config) (C : String) :
    (∃ report, showCollectionDelta env
        (some (computeEffectiveItemStates env (c.setCollectionFlag C false)).1)
        (some (computeEffectiveItemStates env (c.setCollectionFlag C true)).1) C true =
          Except.ok (some report) ∧
      ∀ sec, (report.sections.get sec).newlyEnabled =
          ((computeEffectiveItemStates env (c.setCollectionFlag C true)).1.enabled sec).filter
            (fun n => decide (n ∉
              (computeEffectiveItemStates env (c.setCollectionFlag C false)).1.enabled sec)) ∧
        (report.sections.get sec).newlyDisabled = []) ∧
    (∃ report, showCollectionDelta env
        (some (computeEffectiveItemStates env (c.setCollectionFlag C true)).1)
        (some (computeEffectiveItemStates env (c.setCollectionFlag C false)).1) C false =
          Except.ok (some report) ∧
      ∀ sec, (report.sections.get sec).newlyDisabled =
          ((computeEffectiveItemStates env (c.setCollectionFlag C true)).1.enabled sec).filter
            (fun n => decide (n ∉
              (computeEffectiveItemStates env (c.setCollectionFlag C false)).1.enabled sec)) ∧
        (report.sections.get sec).newlyEnabled = []) := by
  have hon := computeEffectiveItemStates_wellFormed env (c.setCollectionFlag C true)
  have hoff := computeEffectiveItemStates_wellFormed env (c.setCollectionFlag C false)
  have hdiff : ∀ sec,
      ((computeEffectiveItemStates env (c.setCollectionFlag C true)).1.enabled sec).filter
        (changedBy ((computeEffectiveItemStates env (c.setCollectionFlag C false)).1.enabled sec)
          ((computeEffectiveItemStates env (c.setCollectionFlag C true)).1.reasons.get sec) C) =
      ((computeEffectiveItemStates env (c.setCollectionFlag C true)).1.enabled sec).filter
        (fun n => decide (n ∉
          (computeEffectiveItemStates env (c.setCollectionFlag C false)).1.enabled sec)) := by
    intro sec
    apply List.filter_congr
    intro n hn
    rw [Bool.eq_iff_iff, changedBy_iff _ hon _ sec C n hn, decide_eq_true_eq]
    exact ⟨fun h => h.1, fun h => ⟨h, reason_names_toggled_collection env c C sec n hn h⟩⟩
  have hnil : ∀ sec,
      ((computeEffectiveItemStates env (c.setCollectionFlag C false)).1.enabled sec).filter
        (changedBy ((computeEffectiveItemStates env (c.setCollectionFlag C true)).1.enabled sec)
          ((computeEffectiveItemStates env (c.setCollectionFlag C false)).1.reasons.get sec) C) =
      [] := by
    intro sec
    apply filter_eq_nil_of_forall
    intro n hn
    have := enabled_off_subset_on env c C sec n hn
    simp [changedBy, this]
  constructor
  · obtain ⟨report, hr, hsec⟩ := showCollectionDelta_eq env _ _ C true hoff hon
    refine ⟨report, hr, fun sec => ?_⟩
    rw [hsec sec]
    exact ⟨hdiff sec, hnil sec⟩
  · obtain ⟨report, hr, hsec⟩ := showCollectionDelta_eq env _ _ C false hon hoff
    refine ⟨report, hr, fun sec => ?_⟩
    rw [hsec sec]
    exact ⟨hdiff sec, hnil sec⟩

/-! ## Claims about the command line -/

theorem extractLoop_cons (kept : List String) (arg : String) (rest : List String)
    (configPath : String) :
    extractLoop kept (arg :: rest) configPath =
      if arg ∈ CONFIG_FLAG_ALIASES then
        (match rest with
         | [] => Except.error "Missing configuration file after --config flag."
         | value :: rest2 => extractLoop kept rest2 value)
      else extractLoop (kept ++ [arg]) rest configPath := by
  cases rest with
  | nil =>
    by_cases h : arg ∈ CONFIG_FLAG_ALIASES
    · simp [extractLoop, h]
    · simp [extractLoop, h]
  | cons value rest2 =>
    by_cases h : arg ∈ CONFIG_FLAG_ALIASES
    · simp [extractLoop, h]
    · simp [extractLoop, h]

theorem extractLoop_no_flag (rest : List String) :
    ∀ (kept : List String) (configPath : String), (∀ a ∈ rest, a ∉ CONFIG_FLAG_ALIASES) →
      extractLoop kept rest configPath = Except.ok (kept ++ rest, configPath) := by
  induction rest with
  | nil => intro kept cp _; simp [extractLoop]
  | cons a t ih =>
    intro kept cp h
    rw [extractLoop_cons, if_neg (h a (List.mem_cons_self _ _)),
      ih _ _ (fun x hx => h x (List.mem_cons_of_mem _ hx))]
    simp

theorem extractLoop_one_flag (pre : List String) :
    ∀ (kept post : List String) (flag p configPath : String), flag ∈ CONFIG_FLAG_ALIASES →
      (∀ a ∈ pre, a ∉ CONFIG_FLAG_ALIASES) →
      extractLoop kept (pre ++ flag :: p :: post) configPath =
        extractLoop (kept ++ pre) post p := by
  induction pre with
  | nil =>
    intro kept post flag p cp hflag _
    rw [List.nil_append, extractLoop_cons, if_pos hflag]
    simp
  | cons a t ih =>
    intro kept post flag p cp hflag h
    rw [List.cons_append, extractLoop_cons, if_neg (h a (List.mem_cons_self _ _)),
      ih _ _ _ _ _ hflag (fun x hx => h x (List.mem_cons_of_mem _ hx))]
    simp

theorem extractConfigOption_of_loop (rawArgs args : List String) (configPath : String)
    (hloop : extractLoop [] rawArgs DEFAULT_CONFIG_PATH = Except.ok (args, configPath))
    (hlast : ∀ a, args.getLast? = some a → isConfigFilePath a = false) :
    extractConfigOption rawArgs = Except.ok { args := args, configPath := configPath } := by
  unfold extractConfigOption
  rw [hloop]
  simp only
  cases hl : args.getLast? with
  | none => rfl
  | some a =>
    simp only
    rw [hlast a hl]
    simp

/-- Claim C21, counterexample. The list has exactly one config flag, followed by the value
`a.yml`, yet the returned configPath is `b.yml` and the arguments are empty: the last
remaining argument looks like a path and replaces the value of the flag. -/
theorem config_flag_overridden_by_path_argument :
    extractConfigOption ["--config", "a.yml", "b.yml"] =
      Except.ok { args := [], configPath := "b.yml" } := by
  rfl

/-- Claim C21, amended. For a raw argument list with one config flag followed by a value
`p`, no flag among the other arguments, and other arguments that do not end with a
path-like argument, `extractConfigOption` returns configPath `p` and the raw list without
those two tokens; a list with no flag and no path-like last argument gives the default path
and the raw list. -/
theorem config_option_decides_location (pre post : List String) (flag p : String)
    (hflag : flag ∈ CONFIG_FLAG_ALIASES)
    (hpre : ∀ a ∈ pre, a ∉ CONFIG_FLAG_ALIASES) (hpost : ∀ a ∈ post, a ∉ CONFIG_FLAG_ALIASES)
    (hlast : ∀ a, (pre ++ post).getLast? = some a → isConfigFilePath a = false) :
    extractConfigOption (pre ++ flag :: p :: post) =
        Except.ok { args := pre ++ post, configPath := p } ∧
      (∀ raw : List String, (∀ a ∈ raw, a ∉ CONFIG_FLAG_ALIASES) →
        (∀ a, raw.getLast? = some a → isConfigFilePath a = false) →
        extractConfigOption raw = Except.ok { args := raw, configPath := DEFAULT_CONFIG_PATH }) := by
  constructor
  · apply extractConfigOption_of_loop _ _ _ _ hlast
    rw [extractLoop_one_flag pre [] post flag p _ hflag hpre, extractLoop_no_flag post _ _ hpost]
    simp
  · intro raw hraw hl
    apply extractConfigOption_of_loop _ _ _ _ hl
    rw [extractLoop_no_flag raw _ _ hraw]
    simp

theorem config_option_decides_location_witness :
    extractConfigOption (["toggle", "prompts"] ++ "--config" :: "team.yml" :: ["on"]) =
        Except.ok { args := ["toggle", "prompts"] ++ ["on"], configPath := "team.yml" } ∧
      (∀ raw : List String, (∀ a ∈ raw, a ∉ CONFIG_FLAG_ALIASES) →
        (∀ a, raw.getLast? = some a → isConfigFilePath a = false) →
        extractConfigOption raw = Except.ok { args := raw, configPath := DEFAULT_CONFIG_PATH }) :=
  config_option_decides_location ["toggle", "prompts"] ["on"] "--config" "team.yml"
    (by decide) (by decide) (by decide) (by decide)

theorem section_meta_isSome_iff (s : String) :
    (SECTION_METADATA s).isSome = true ↔ s ∈ CONFIG_SECTIONS := by
  unfold SECTION_METADATA CONFIG_SECTIONS
  by_cases h1 : s = "prompts"
  · simp [h1]
  · by_cases h2 : s = "instructions"
    · simp [h2]
    · by_cases h3 : s = "chatmodes"
      · simp [h3]
      · by_cases h4 : s = "collections"
        · simp [h4]
        · simp [h1, h2, h3, h4]

/-- Claim C22, evaluated at a failing input.  `validateSectionType` returns the name
`constructor`, which is not one of the four sections: the lookup in `SECTION_METADATA`
finds the property inherited from `Object.prototype`, which is truthy, so no error is
thrown (the same holds for `__proto__`).  For every input whose lower-cased form is not
such an inherited key the function returns the lower-cased input when it is a section name
and throws an Unknown section error otherwise. -/
theorem validateSectionType_accepts_inherited_key :
    validateSectionType "constructor" = Except.ok "constructor" ∧
      validateSectionType "Constructor" = Except.ok "constructor" ∧
      validateSectionType "__proto__" = Except.ok "__proto__" ∧
      "constructor" ∉ CONFIG_SECTIONS ∧ "__proto__" ∉ CONFIG_SECTIONS ∧
      (∀ input : String, toLowerCase input ∉ inheritedLowerCaseKeys →
        (toLowerCase input ∈ CONFIG_SECTIONS →
          validateSectionType input = Except.ok (toLowerCase input)) ∧
        (toLowerCase input ∉ CONFIG_SECTIONS →
          validateSectionType input =
            Except.error ("Unknown section '" ++ input ++ "'. Expected one of: " ++
              ", ".intercalate CONFIG_SECTIONS ++ "."))) := by
  refine ⟨by rfl, by rfl, by rfl, by decide, by decide, ?_⟩
  intro input hin
  constructor
  · intro hs
    unfold validateSectionType
    rw [if_pos (Or.inl ((section_meta_isSome_iff _).2 hs))]
  · intro hs
    unfold validateSectionType
    rw [if_neg]
    rintro (h | h)
    · exact hs ((section_meta_isSome_iff _).1 h)
    · exact hin h

theorem includes_empty_left (t : String) (h : includes "" t = true) : t = "" := by
  unfold includes at h
  have h2 : t.data = [] := by
    simpa [List.tails] using h
  exact String.ext h2

theorem toLowerCase_eq_empty (s : String) (h : toLowerCase s = "") : s = "" := by
  unfold toLowerCase at h
  have h2 := congrArg String.data h
  simp only at h2
  have h3 : s.data = [] := by simpa using h2
  exact String.ext h3

/-- Claim C24. Suggestion for an unknown name: whatever the case mapping `lower` of
`String.prototype.toLowerCase` is, `findClosestMatch` returns the first candidate, in list
order, whose lower-cased form contains the lower-cased target, and returns nothing exactly
when no candidate does; and the Unknown error that `handleToggleCommand` throws for an item
that is not in a non-empty Catalog carries the question with that candidate when there is
one and no question when there is none, on a host whose case mapping gives the empty string
for the empty string only. -/
theorem suggestion_is_first_match (lower : String → String) (target : String)
    (candidates : List String) :
    (∀ s, findClosestMatch lower target candidates = some s →
        s ∈ candidates ∧ includes (lower s) (lower target) = true ∧
        ∃ front back, candidates = front ++ s :: back ∧
          ∀ c ∈ front, includes (lower c) (lower target) = false) ∧
      (findClosestMatch lower target candidates = none ↔
        ∀ c ∈ candidates, includes (lower c) (lower target) = false) ∧
      (∀ (env : Env) (host : Host) (rawArgs : List String) (options : ExtractedOptions)
        (sectionArg s : String) (more : List String) (desired : Option Bool)
        (loaded : LoadedConfig) (sectionMeta : SectionMeta),
        host.toLowerCase = lower → (∀ x : String, lower x = "" ↔ x = "") →
        candidates = getAllAvailableItems env s →
        extractConfigOption rawArgs = Except.ok options →
        options.args = sectionArg :: target :: more →
        validateSectionType sectionArg = Except.ok s → s ∈ CONFIG_SECTIONS →
        SECTION_METADATA s = some sectionMeta →
        desiredStateOf more.head? = Except.ok desired →
        loadConfig host options.configPath = Except.ok loaded →
        target ≠ "all" → target ∉ candidates → candidates ≠ [] →
        (∀ suggestion, findClosestMatch lower target candidates = some suggestion →
          (handleToggleCommand env host rawArgs).error =
            some ("Unknown " ++ sectionMeta.singular ++ " '" ++ target ++
              "'. Did you mean '" ++ suggestion ++ "'?")) ∧
        (findClosestMatch lower target candidates = none →
          (handleToggleCommand env host rawArgs).error =
            some ("Unknown " ++ sectionMeta.singular ++ " '" ++ target ++ "'."))) := by
  refine ⟨?_, ?_, ?_⟩
  · intro s hs
    unfold findClosestMatch at hs
    refine ⟨List.mem_of_find?_eq_some hs,
      List.find?_some (p := fun c => includes (lower c) (lower target)) hs, ?_⟩
    obtain ⟨_, front, back, hsplit, hfront⟩ := List.find?_eq_some.1 hs
    refine ⟨front, back, hsplit, ?_⟩
    intro c hc
    have := hfront c hc
    simpa using this
  · unfold findClosestMatch
    rw [List.find?_eq_none]
    constructor
    · intro h c hc; simpa using h c hc
    · intro h c hc; simpa using h c hc
  · intro env host rawArgs options sectionArg s more desired loaded sectionMeta hlower hempty
      hcand hopt hargs hsec hs hmeta hstate hload hall hunknown hne
    subst hcand
    subst hlower
    obtain ⟨sectionMeta2, hmeta2, hrun⟩ := handleToggleCommand_loaded env host rawArgs options
      sectionArg target s more desired loaded hopt hargs hsec hs hstate hne hload
    have hm : sectionMeta2 = sectionMeta := by
      rw [hmeta] at hmeta2; exact (Option.some.inj hmeta2).symm
    subst hm
    rw [hrun]
    unfold toggleLoaded
    simp only [if_neg hall, hunknown, not_false_eq_true, if_true]
    constructor
    · intro suggestion hfind
      rw [hfind]
      simp only
      have hsne : suggestion ≠ "" := by
        intro he
        subst he
        have hin : "" ∈ getAllAvailableItems env s := List.mem_of_find?_eq_some hfind
        have hp : includes (host.toLowerCase "") (host.toLowerCase target) = true := by
          unfold findClosestMatch at hfind
          exact List.find?_some
            (p := fun c => includes (host.toLowerCase c) (host.toLowerCase target)) hfind
        rw [(hempty "").2 rfl] at hp
        have ht : target = "" := (hempty target).1 (includes_empty_left _ hp)
        exact hunknown (ht ▸ hin)
      simp only [hsne, ne_eq, not_false_eq_true, if_true]
      rfl
    · intro hfind
      rw [hfind]
      rfl

theorem suggestion_is_first_match_witness :
    findClosestMatch toLowerCase "Sha" (getAllAvailableItems demoEnv "prompts") =
        some "shared" ∧
      (handleToggleCommand demoEnv toggleHost ["prompts", "Sha"]).error =
        some ("Unknown " ++ "prompt" ++ " '" ++ "Sha" ++ "'. Did you mean '" ++ "shared" ++ "'?") :=
  ⟨by rfl,
    ((suggestion_is_first_match toLowerCase "Sha" (getAllAvailableItems demoEnv "prompts")).2.2
      demoEnv toggleHost ["prompts", "Sha"]
      { args := ["prompts", "Sha"], configPath := "awesome-copilot.config.yml" }
      "prompts" "prompts" [] none toggleLoadedDoc
      { dir := "prompts", ext := ".prompt.md", label := "Prompts", singular := "prompt" }
      rfl (fun x => ⟨toLowerCase_eq_empty x, fun h => by rw [h]; rfl⟩) rfl (by rfl) rfl (by rfl)
      (by decide) (by rfl) (by rfl) (by rfl) (by decide) (by decide) (by decide)).1
      "shared" (by rfl)⟩

/-! ## Claims about reference paths -/

theorem includes_append_left (a b : String) : includes (a ++ b) a = true := by
  unfold includes
  rw [List.any_eq_true]
  refine ⟨(a ++ b).data, ?_, ?_⟩
  · exact (List.mem_tails _ _).2 (List.suffix_refl _)
  · rw [List.isPrefixOf_iff_prefix, String.data_append]
    exact List.prefix_append _ _

theorem includes_of_includes_append (a b c : String) (h : includes a c = true) :
    includes (a ++ b) c = true := by
  unfold includes at h ⊢
  rw [List.any_eq_true] at h ⊢
  obtain ⟨t, ht, hp⟩ := h
  rw [List.mem_tails] at ht
  rw [List.isPrefixOf_iff_prefix] at hp
  obtain ⟨u, hu⟩ := ht
  refine ⟨t ++ b.data, ?_, ?_⟩
  · rw [List.mem_tails, String.data_append, ← hu, List.append_assoc]
    exact List.suffix_append _ _
  · rw [List.isPrefixOf_iff_prefix]
    exact hp.trans (List.prefix_append _ _)

theorem endsWith_append_self (a b : String) : endsWith (a ++ b) b = true := by
  rw [endsWith_iff, String.data_append]
  exact List.suffix_append _ _

theorem endsWith_append_false (a e f : String) (hlen : f.data.length ≤ e.data.length)
    (hne : ¬ f.data <:+ e.data) : endsWith (a ++ e) f = false := by
  cases h : endsWith (a ++ e) f with
  | false => rfl
  | true =>
    rw [endsWith_iff, String.data_append] at h
    exact absurd (List.suffix_of_suffix_length_le h (List.suffix_append _ _) hlen) hne

theorem takeWhile_append_cons_of_all {α : Type} (p : α → Bool) (a : List α) (x : α)
    (b : List α) (ha : ∀ y ∈ a, p y = true) (hx : p x = false) :
    List.takeWhile p (a ++ x :: b) = a := by
  induction a with
  | nil => simp [List.takeWhile_cons, hx]
  | cons y t ih =>
    rw [List.cons_append, List.takeWhile_cons, if_pos (ha y (List.mem_cons_self _ _)),
      ih (fun z hz => ha z (List.mem_cons_of_mem _ hz))]

theorem basename_of_path (d n e : String) (hn : '/' ∉ n.data) (he : '/' ∉ e.data)
    (hne : e.data ≠ []) : basename (d ++ "/" ++ n ++ e) = n ++ e := by
  unfold basename
  have hdata : (d ++ "/" ++ n ++ e).data.reverse =
      (n.data ++ e.data).reverse ++ '/' :: d.data.reverse := by
    simp [String.data_append]
  rw [hdata]
  have hall : ∀ y ∈ (n.data ++ e.data).reverse, (fun c : Char => c != '/') y = true := by
    intro y hy
    rw [List.mem_reverse, List.mem_append] at hy
    have : y ≠ '/' := by
      rintro rfl
      rcases hy with h | h
      · exact hn h
      · exact he h
    simpa using this
  have hdrop : List.dropWhile (fun c : Char => c == '/')
      ((n.data ++ e.data).reverse ++ '/' :: d.data.reverse) =
      (n.data ++ e.data).reverse ++ '/' :: d.data.reverse := by
    cases hr : (n.data ++ e.data).reverse with
    | nil =>
      have : e.data = [] ∧ n.data = [] := by simpa using hr
      exact absurd this.1 hne
    | cons y t =>
      have hy : (y != '/') = true := hall y (by rw [hr]; exact List.mem_cons_self _ _)
      have hy2 : (y == '/') = false := by simpa using hy
      simp [List.dropWhile_cons, hy2]
  rw [hdrop, takeWhile_append_cons_of_all _ _ _ _ hall (by simp), List.reverse_reverse]
  exact String.ext (by simp [String.data_append])

theorem dropRight_append (n e : String) (k : Nat) (hk : e.data.length = k) :
    dropRight (n ++ e) k = n := by
  unfold dropRight
  apply String.ext
  simp only [String.data_append, List.length_append, hk]
  simp

/-- Claim C23. Reference paths round-trip: for each artifact section with its directory and
suffix from `SECTION_METADATA` and each name without a slash, the path made of directory,
slash, name and suffix is mapped to that section by `getSectionFromPath` and to that name by
`extractItemName`; and a path that, for no section, both contains the directory followed by
a slash and ends with the suffix is mapped to null, so that resolution ignores it. -/
theorem reference_paths_round_trip :
    (∀ (sec : ArtifactSection) (sectionMeta : SectionMeta) (n : String),
        SECTION_METADATA sec.key = some sectionMeta → '/' ∉ n.data →
        getSectionFromPath (sectionMeta.dir ++ "/" ++ n ++ sectionMeta.ext) = some sec ∧
          extractItemName (sectionMeta.dir ++ "/" ++ n ++ sectionMeta.ext) = n) ∧
      (∀ p : String,
        (∀ (sec : ArtifactSection) (sectionMeta : SectionMeta),
          SECTION_METADATA sec.key = some sectionMeta →
          ¬ (includes p (sectionMeta.dir ++ "/") = true ∧ endsWith p sectionMeta.ext = true)) →
        getSectionFromPath p = none ∧
          ∀ (collectionName : String) (cm : PerSection JsMap), addItem collectionName cm p = cm) := by
  constructor
  · intro sec sectionMeta n hmeta hn
    cases sec with
    | prompts =>
      simp [ArtifactSection.key, SECTION_METADATA] at hmeta
      subst hmeta
      simp only
      have hinc : includes ("prompts" ++ "/" ++ n ++ ".prompt.md") "prompts/" = true := by
        rw [String.append_assoc ("prompts" ++ "/")]
        exact includes_append_left ("prompts" ++ "/") (n ++ ".prompt.md")
      have hinc2 : includes ("prompts/" ++ n ++ ".prompt.md") "prompts/" = true := by
        rw [String.append_assoc]
        exact includes_append_left _ _
      refine ⟨?_, ?_⟩
      · simp [getSectionFromPath, hinc2, endsWith_append_self]
      · unfold extractItemName
        rw [basename_of_path "prompts" n ".prompt.md" hn (by decide) (by decide)]
        simp only [endsWith_append_self, if_true]
        exact dropRight_append n ".prompt.md" 10 (by decide)
    | instructions =>
      simp [ArtifactSection.key, SECTION_METADATA] at hmeta
      subst hmeta
      simp only
      have hinc : includes ("instructions" ++ "/" ++ n ++ ".instructions.md") "instructions/"
          = true := by
        rw [String.append_assoc ("instructions" ++ "/")]
        exact includes_append_left ("instructions" ++ "/") (n ++ ".instructions.md")
      have hinc2 : includes ("instructions/" ++ n ++ ".instructions.md") "instructions/" = true := by
        rw [String.append_assoc]
        exact includes_append_left _ _
      have hno : ∀ a : String, endsWith (a ++ ".instructions.md") ".prompt.md" = false :=
        fun a => endsWith_append_false a _ _ (by decide) (by decide)
      refine ⟨?_, ?_⟩
      · simp [getSectionFromPath, hinc2, endsWith_append_self, hno]
      · unfold extractItemName
        rw [basename_of_path "instructions" n ".instructions.md" hn (by decide) (by decide)]
        simp only [endsWith_append_self, hno, if_true, if_false, Bool.false_eq_true]
        exact dropRight_append n ".instructions.md" 16 (by decide)
    | chatmodes =>
      simp [ArtifactSection.key, SECTION_METADATA] at hmeta
      subst hmeta
      simp only
      have hinc : includes ("chatmodes" ++ "/" ++ n ++ ".chatmode.md") "chatmodes/" = true := by
        rw [String.append_assoc ("chatmodes" ++ "/")]
        exact includes_append_left ("chatmodes" ++ "/") (n ++ ".chatmode.md")
      have hinc2 : includes ("chatmodes/" ++ n ++ ".chatmode.md") "chatmodes/" = true := by
        rw [String.append_assoc]
        exact includes_append_left _ _
      have hno1 : ∀ a : String, endsWith (a ++ ".chatmode.md") ".prompt.md" = false :=
        fun a => endsWith_append_false a _ _ (by decide) (by decide)
      have hno2 : ∀ a : String, endsWith (a ++ ".chatmode.md") ".instructions.md" = false := by
        intro a
        cases h : endsWith (a ++ ".chatmode.md") ".instructions.md" with
        | false => rfl
        | true =>
          rw [endsWith_iff, String.data_append] at h
          have h2 : ".md".data <:+ a.data ++ ".chatmode.md".data :=
            (List.suffix_append "e".data ".md".data |>.trans
              (List.suffix_append ".chatmod".data ("e".data ++ ".md".data))).trans
              (List.suffix_append a.data _)
          have h3 : "e.md".data <:+ a.data ++ ".chatmode.md".data :=
            (List.suffix_append ".chatmod".data "e.md".data).trans (List.suffix_append a.data _)
          have h4 : "s.md".data <:+ a.data ++ ".chatmode.md".data :=
            (List.suffix_append ".instruction".data "s.md".data).trans h
          have h5 := List.suffix_of_suffix_length_le h3 h4 (by decide)
          exact absurd h5 (by decide)
      refine ⟨?_, ?_⟩
      · simp [getSectionFromPath, hinc2, endsWith_append_self, hno1, hno2]
      · unfold extractItemName
        rw [basename_of_path "chatmodes" n ".chatmode.md" hn (by decide) (by decide)]
        simp only [endsWith_append_self, hno1, hno2, if_true, if_false, Bool.false_eq_true]
        exact dropRight_append n ".chatmode.md" 12 (by decide)
  · intro p hp
    have h1 := hp ArtifactSection.prompts _ rfl
    have h2 := hp ArtifactSection.instructions _ rfl
    have h3 := hp ArtifactSection.chatmodes _ rfl
    have hnone : getSectionFromPath p = none := by
      unfold getSectionFromPath
      have e1 : (includes p "prompts/" && endsWith p ".prompt.md") = false := by
        cases hv : (includes p "prompts/" && endsWith p ".prompt.md") with
        | false => rfl
        | true => exact absurd (Bool.and_eq_true _ _ ▸ hv) h1
      have e2 : (includes p "instructions/" && endsWith p ".instructions.md") = false := by
        cases hv : (includes p "instructions/" && endsWith p ".instructions.md") with
        | false => rfl
        | true => exact absurd (Bool.and_eq_true _ _ ▸ hv) h2
      have e3 : (includes p "chatmodes/" && endsWith p ".chatmode.md") = false := by
        cases hv : (includes p "chatmodes/" && endsWith p ".chatmode.md") with
        | false => rfl
        | true => exact absurd (Bool.and_eq_true _ _ ▸ hv) h3
      simp [e1, e2, e3]
    refine ⟨hnone, fun c cm => ?_⟩
    unfold addItem
    rw [hnone]

/-! ## Claims about the project URL parser -/

theorem stripLiteral_append (lit r : List Char) : stripLiteral lit (lit ++ r) = some r := by
  induction lit with
  | nil => cases r <;> rfl
  | cons c cs ih => simp [stripLiteral, ih]

theorem stripLiteral_eq_some (lit s r : List Char) (h : stripLiteral lit s = some r) :
    s = lit ++ r := by
  induction lit generalizing s with
  | nil =>
    cases s <;> simp [stripLiteral] at h <;> simp [h]
  | cons c cs ih =>
    cases s with
    | nil => simp [stripLiteral] at h
    | cons d ds =>
      simp only [stripLiteral] at h
      by_cases hcd : c = d
      · rw [if_pos hcd] at h
        rw [hcd, ih ds h]
        rfl
      · rw [if_neg hcd] at h
        exact absurd h (by simp)

theorem head_dropWhile_not {α : Type} (p : α → Bool) (l : List α) (c : α)
    (h : (l.dropWhile p).head? = some c) : p c = false := by
  induction l with
  | nil => simp at h
  | cons a t ih =>
    rw [List.dropWhile_cons] at h
    by_cases ha : p a = true
    · rw [if_pos ha] at h
      exact ih h
    · rw [if_neg ha] at h
      simp only [List.head?_cons, Option.some.injEq] at h
      rw [← h]
      simpa using ha

theorem dropWhile_append_cons_of_all {α : Type} (p : α → Bool) (a : List α) (x : α)
    (b : List α) (ha : ∀ y ∈ a, p y = true) (hx : p x = false) :
    List.dropWhile p (a ++ x :: b) = x :: b := by
  induction a with
  | nil => simp [List.dropWhile_cons, hx]
  | cons y t ih =>
    rw [List.cons_append, List.dropWhile_cons, if_pos (ha y (List.mem_cons_self _ _)),
      ih (fun z hz => ha z (List.mem_cons_of_mem _ hz))]

theorem takeWhile_append_of_all {α : Type} (p : α → Bool) (a b : List α)
    (ha : ∀ y ∈ a, p y = true) : List.takeWhile p (a ++ b) = a ++ List.takeWhile p b := by
  induction a with
  | nil => rfl
  | cons y t ih =>
    rw [List.cons_append, List.takeWhile_cons, if_pos (ha y (List.mem_cons_self _ _)),
      ih (fun z hz => ha z (List.mem_cons_of_mem _ hz)), List.cons_append]

theorem matchScope_sound (s1 s2 : List Char) (scope : String)
    (h : matchScope s1 = some (scope, s2)) :
    s1 = scope.data ++ s2 ∧ (scope.data = "users".data ∨ scope.data = "orgs".data) := by
  unfold matchScope at h
  cases h1 : stripLiteral "users".data s1 with
  | some rest =>
    simp only [h1, Option.some.injEq, Prod.mk.injEq] at h
    obtain ⟨rfl, rfl⟩ := h
    exact ⟨stripLiteral_eq_some _ _ _ h1, Or.inl rfl⟩
  | none =>
    simp only [h1] at h
    cases h2 : stripLiteral "orgs".data s1 with
    | some rest =>
      simp only [h2, Option.some.injEq, Prod.mk.injEq] at h
      obtain ⟨rfl, rfl⟩ := h
      exact ⟨stripLiteral_eq_some _ _ _ h2, Or.inr rfl⟩
    | none =>
      simp only [h2] at h
      exact absurd h (by simp)

theorem matchScope_complete (scope r : List Char)
    (h : scope = "users".data ∨ scope = "orgs".data) :
    matchScope (scope ++ r) = some (String.mk scope, r) := by
  rcases h with rfl | rfl
  · unfold matchScope
    rw [stripLiteral_append]
  · unfold matchScope
    have h1 : stripLiteral "users".data ("orgs".data ++ r) = none := rfl
    rw [h1, stripLiteral_append]

theorem matchAt_sound (s : List Char) (m : UrlMatch) (h : matchAt s = some m) :
    ∃ scope owner digits post,
      s = "github.com/".data ++ (scope ++ ("/".data ++ (owner ++
            ("/projects/".data ++ (digits ++ post))))) ∧
        (scope = "users".data ∨ scope = "orgs".data) ∧
        owner ≠ [] ∧ '/' ∉ owner ∧ digits ≠ [] ∧ (∀ c ∈ digits, c.isDigit = true) ∧
        (∀ c, post.head? = some c → c.isDigit = false) ∧
        m = { scope := String.mk scope, owner := String.mk owner,
              projectNumber := String.mk digits } := by
  unfold matchAt at h
  cases h1 : stripLiteral "github.com/".data s with
  | none => simp [h1] at h
  | some s1 =>
    simp only [h1] at h
    cases h2 : matchScope s1 with
    | none => simp [h2] at h
    | some pr =>
      obtain ⟨scope, s2⟩ := pr
      simp only [h2] at h
      cases h3 : stripLiteral "/".data s2 with
      | none => simp [h3] at h
      | some s3 =>
        simp only [h3] at h
        by_cases ho : List.takeWhile (fun c => c != '/') s3 = []
        · simp [ho] at h
        · simp only [ho, if_false] at h
          cases h4 : stripLiteral "/projects/".data
              (List.dropWhile (fun c => c != '/') s3) with
          | none => simp [h4] at h
          | some s4 =>
            simp only [h4] at h
            by_cases hd : List.takeWhile Char.isDigit s4 = []
            · simp [hd] at h
            · simp only [hd, if_false, Option.some.injEq] at h
              obtain ⟨hs1, hscope⟩ := matchScope_sound _ _ _ h2
              refine ⟨scope.data, List.takeWhile (fun c => c != '/') s3,
                List.takeWhile Char.isDigit s4, List.dropWhile Char.isDigit s4,
                ?_, hscope, ho, ?_, hd, ?_, ?_, h.symm⟩
              · rw [List.takeWhile_append_dropWhile, ← stripLiteral_eq_some _ _ _ h4,
                  List.takeWhile_append_dropWhile, ← stripLiteral_eq_some _ _ _ h3, ← hs1]
                exact stripLiteral_eq_some _ _ _ h1
              · intro hmem
                have := List.mem_takeWhile_imp hmem
                simp at this
              · intro c hc
                exact List.mem_takeWhile_imp hc
              · intro c hc
                exact head_dropWhile_not _ _ _ hc

theorem matchAt_complete (scope owner digits post : List Char)
    (hscope : scope = "users".data ∨ scope = "orgs".data)
    (ho : owner ≠ []) (hslash : '/' ∉ owner) (hd : digits ≠ [])
    (hdig : ∀ c ∈ digits, c.isDigit = true) :
    matchAt ("github.com/".data ++ (scope ++ ("/".data ++ (owner ++
        ("/projects/".data ++ (digits ++ post)))))) =
      some { scope := String.mk scope, owner := String.mk owner,
             projectNumber := String.mk (digits ++ List.takeWhile Char.isDigit post) } := by
  have hall : ∀ y ∈ owner, (fun c : Char => c != '/') y = true := by
    intro y hy
    have : y ≠ '/' := by
      rintro rfl
      exact hslash hy
    simpa using this
  have hcons : ∀ x : List Char, "/projects/".data ++ x = '/' :: ("projects/".data ++ x) :=
    fun _ => rfl
  have htake : List.takeWhile (fun c : Char => c != '/')
      (owner ++ ("/projects/".data ++ (digits ++ post))) = owner := by
    rw [hcons]
    exact takeWhile_append_cons_of_all _ _ _ _ hall (by simp)
  have hdrop : List.dropWhile (fun c : Char => c != '/')
      (owner ++ ("/projects/".data ++ (digits ++ post))) =
      "/projects/".data ++ (digits ++ post) := by
    rw [hcons]
    exact dropWhile_append_cons_of_all _ _ _ _ hall (by simp)
  have hdt : List.takeWhile Char.isDigit (digits ++ post) =
      digits ++ List.takeWhile Char.isDigit post := takeWhile_append_of_all _ _ _ hdig
  have hne : digits ++ List.takeWhile Char.isDigit post ≠ [] := by
    intro hnil
    exact hd (List.append_eq_nil.1 hnil).1
  unfold matchAt
  simp only [stripLiteral_append, matchScope_complete _ _ hscope, htake, hdrop, hdt,
    if_neg ho, if_neg hne]

theorem regexSearch_none (s : List Char) (h : regexSearch s = none) :
    ∀ pre t, s = pre ++ t → matchAt t = none := by
  induction s with
  | nil =>
    intro pre t hs
    have ht : t = [] := (List.append_eq_nil.1 hs.symm).2
    rw [ht]
    exact h
  | cons c cs ih =>
    intro pre t hs
    unfold regexSearch at h
    cases hm : matchAt (c :: cs) with
    | some m => simp [hm] at h
    | none =>
      simp only [hm] at h
      cases pre with
      | nil =>
        rw [List.nil_append] at hs
        rw [← hs]
        exact hm
      | cons d pre2 =>
        rw [List.cons_append, List.cons.injEq] at hs
        exact ih h pre2 t hs.2

theorem regexSearch_some (s : List Char) (m : UrlMatch) (h : regexSearch s = some m) :
    ∃ pre t, s = pre ++ t ∧ matchAt t = some m ∧
      ∀ pre2 t2, s = pre2 ++ t2 → pre2.length < pre.length → matchAt t2 = none := by
  induction s with
  | nil =>
    refine ⟨[], [], rfl, h, ?_⟩
    intro pre2 t2 _ hlt
    exact absurd hlt (Nat.not_lt_zero _)
  | cons c cs ih =>
    unfold regexSearch at h
    cases hm : matchAt (c :: cs) with
    | some m2 =>
      simp only [hm, Option.some.injEq] at h
      refine ⟨[], c :: cs, rfl, h ▸ hm, ?_⟩
      intro pre2 t2 _ hlt
      exact absurd hlt (Nat.not_lt_zero _)
    | none =>
      simp only [hm] at h
      obtain ⟨pre, t, hs, hmt, hleft⟩ := ih h
      refine ⟨c :: pre, t, by rw [hs]; rfl, hmt, ?_⟩
      intro pre2 t2 hs2 hlt
      cases pre2 with
      | nil =>
        rw [List.nil_append] at hs2
        rw [← hs2]
        exact hm
      | cons d pre3 =>
        rw [List.cons_append, List.cons.injEq] at hs2
        exact hleft pre3 t2 hs2.2 (by simpa using hlt)

theorem parseInt10_digits (digits : List Char) (hd : digits ≠ [])
    (hdig : ∀ c ∈ digits, c.isDigit = true) :
    parseInt10 (String.mk digits) = roundToDouble (digitsValue digits) := by
  have htake : List.takeWhile Char.isDigit digits = digits := by
    have := takeWhile_append_of_all Char.isDigit digits [] hdig
    simpa using this
  unfold parseInt10
  simp only [htake, if_neg hd]

theorem roundToDouble_small (n : Nat) (h : n < 2 ^ 53) : roundToDouble n = JsDouble.finite n := by
  unfold roundToDouble
  rw [if_pos h]

theorem regexSearch_of_occurrence (u pre scope owner digits post : List Char)
    (h : ProjectUrlOccurrence u pre scope owner digits post) : regexSearch u ≠ none := by
  intro hnone
  obtain ⟨hu, hscope, ho, hslash, hd, hdig⟩ := h
  have := regexSearch_none u hnone pre _ hu
  rw [matchAt_complete scope owner digits post hscope ho hslash hd hdig] at this
  exact absurd this (by simp)

/-- Claim C26, as stated, fails: on `https://github.com/users/x/projects/9007199254740993`
the parser succeeds, the digit run is `9007199254740993` up to the end of the input and its
value is 9007199254740993, but `parsedInfo.number` is 9007199254740992, the nearest
double. -/
theorem parseProjectUrl_number_is_rounded :
    (∃ message,
        parseProjectUrl demoNumberToString
            "https://github.com/users/x/projects/9007199254740993" =
          ParseResult.parsed
            { kind := "user", login := "x", number := JsDouble.finite 9007199254740992 }
            message) ∧
      ProjectUrlOccurrence "https://github.com/users/x/projects/9007199254740993".data
        "https://".data "users".data "x".data "9007199254740993".data [] ∧
      digitsValue "9007199254740993".data = 9007199254740993 ∧
      JsDouble.finite (digitsValue "9007199254740993".data) ≠
        JsDouble.finite 9007199254740992 :=
  ⟨⟨_, rfl⟩, ⟨rfl, Or.inl rfl, by decide, by decide, by decide, by decide⟩, by decide,
    by decide⟩

/-- Claim C26, amended. For every string `u`, `parseProjectUrl(u)` returns `success: true`
if and only if `u` contains `github.com/` followed by `users` or `orgs`, a slash, a
non-empty owner without a slash, `/projects/` and at least one decimal digit. On success
there is such an occurrence, the leftmost one in `u` with its digit run taken as long as
possible, for which `kind` is `user` when the scope is `users` and `org` when it is `orgs`,
`login` is the owner, and `number` is the double nearest to the value of the digit run,
which is that value when it is below `2 ^ 53`. Otherwise the result is `success: false`
with the error message. -/
theorem project_url_parsing (numberToString : JsDouble → String) (u : String) :
    ((parseProjectUrl numberToString u).success = true ↔
        ∃ pre scope owner digits post,
          ProjectUrlOccurrence u.data pre scope owner digits post) ∧
      (∀ info message, parseProjectUrl numberToString u = ParseResult.parsed info message →
        ∃ pre scope owner digits post,
          ProjectUrlOccurrence u.data pre scope owner digits post ∧
            (∀ c, post.head? = some c → c.isDigit = false) ∧
            (∀ pre2 scope2 owner2 digits2 post2,
              ProjectUrlOccurrence u.data pre2 scope2 owner2 digits2 post2 →
              pre.length ≤ pre2.length) ∧
            info.kind = (if scope = "users".data then "user" else "org") ∧
            info.login = String.mk owner ∧
            info.number = roundToDouble (digitsValue digits) ∧
            (digitsValue digits < 2 ^ 53 → info.number = JsDouble.finite (digitsValue digits)) ∧
            message = "✅ Parsed PROJECT_URL: kind=" ++ info.kind ++ " login=" ++ info.login ++
              " number=" ++ numberToString info.number) ∧
      ((parseProjectUrl numberToString u).success = false →
        parseProjectUrl numberToString u =
          ParseResult.invalid ("❌ Invalid project URL format: " ++ u ++
            ". Expected format: https://github.com/\x7busers|orgs\x7d/\x7bowner\x7d/projects/\x7bnumber\x7d")) := by
  have hparsed : ∀ info message,
      parseProjectUrl numberToString u = ParseResult.parsed info message →
      ∃ pre scope owner digits post,
        ProjectUrlOccurrence u.data pre scope owner digits post ∧
          (∀ c, post.head? = some c → c.isDigit = false) ∧
          (∀ pre2 scope2 owner2 digits2 post2,
            ProjectUrlOccurrence u.data pre2 scope2 owner2 digits2 post2 →
            pre.length ≤ pre2.length) ∧
          info.kind = (if scope = "users".data then "user" else "org") ∧
          info.login = String.mk owner ∧
          info.number = roundToDouble (digitsValue digits) ∧
          (digitsValue digits < 2 ^ 53 → info.number = JsDouble.finite (digitsValue digits)) ∧
          message = "✅ Parsed PROJECT_URL: kind=" ++ info.kind ++ " login=" ++ info.login ++
            " number=" ++ numberToString info.number := by
    intro info message h
    unfold parseProjectUrl at h
    cases hs : regexSearch u.data with
    | none => simp [hs] at h
    | some m =>
      simp only [hs, ParseResult.parsed.injEq] at h
      obtain ⟨hinfo, hmsg⟩ := h
      obtain ⟨pre, t, hu, hmt, hleft⟩ := regexSearch_some _ _ hs
      obtain ⟨scope, owner, digits, post, ht, hscope, ho, hslash, hd, hdig, hpost, hm⟩ :=
        matchAt_sound _ _ hmt
      have hnum : info.number = roundToDouble (digitsValue digits) := by
        rw [← hinfo, hm]
        exact parseInt10_digits digits hd hdig
      refine ⟨pre, scope, owner, digits, post, ⟨by rw [hu, ht], hscope, ho, hslash, hd, hdig⟩,
        hpost, ?_, ?_, ?_, hnum, ?_, ?_⟩
      · intro pre2 scope2 owner2 digits2 post2 hocc
        obtain ⟨hu2, hscope2, ho2, hslash2, hd2, hdig2⟩ := hocc
        by_contra hlt
        have hnone := hleft pre2 _ hu2 (Nat.lt_of_not_le hlt)
        rw [matchAt_complete scope2 owner2 digits2 post2 hscope2 ho2 hslash2 hd2 hdig2]
          at hnone
        exact absurd hnone (by simp)
      · rw [← hinfo, hm]
        rcases hscope with rfl | rfl
        · rfl
        · rfl
      · rw [← hinfo, hm]
      · intro hlt
        rw [hnum]
        exact roundToDouble_small _ hlt
      · rw [← hmsg, ← hinfo]
  refine ⟨⟨?_, ?_⟩, hparsed, ?_⟩
  · intro hsucc
    cases hres : parseProjectUrl numberToString u with
    | invalid e =>
      rw [hres] at hsucc
      exact absurd hsucc (by simp [ParseResult.success])
    | parsed info message =>
      obtain ⟨pre, scope, owner, digits, post, hocc, _⟩ := hparsed info message hres
      exact ⟨pre, scope, owner, digits, post, hocc⟩
  · rintro ⟨pre, scope, owner, digits, post, hocc⟩
    have hne := regexSearch_of_occurrence _ _ _ _ _ _ hocc
    unfold parseProjectUrl
    cases hs : regexSearch u.data with
    | none => exact absurd hs hne
    | some m => rfl
  · intro hfail
    unfold parseProjectUrl at hfail ⊢
    cases hs : regexSearch u.data with
    | none => rfl
    | some m =>
      rw [hs] at hfail
      exact absurd hfail (by simp [ParseResult.success])

/-- Claim C27 fails on the code: the pattern is not anchored, so the parser accepts inputs
that are not of the form `https://github.com/{users|orgs}/{owner}/projects/{number}`. The
URL `https://notgithub.com/users/x/projects/1`, whose domain is not github.com, is parsed
with `success: true`, and so is every string that has `github.com/users/x/projects/1`
anywhere inside it. -/
theorem parseProjectUrl_accepts_other_domain :
    parseProjectUrl demoNumberToString "https://notgithub.com/users/x/projects/1" =
        ParseResult.parsed { kind := "user", login := "x", number := JsDouble.finite 1 }
          "✅ Parsed PROJECT_URL: kind=user login=x number=1" ∧
      (parseProjectUrl demoNumberToString
          "https://example.com/github.com/orgs/o/projects/7").success = true ∧
      ∀ (numberToString : JsDouble → String) (before after : String),
        (parseProjectUrl numberToString
          (before ++ "github.com/users/x/projects/1" ++ after)).success = true := by
  refine ⟨by rfl, by decide, ?_⟩
  intro numberToString before after
  have hocc : ProjectUrlOccurrence (before ++ "github.com/users/x/projects/1" ++ after).data
      before.data "users".data "x".data "1".data after.data := by
    refine ⟨?_, Or.inl rfl, by decide, by decide, by decide, by decide⟩
    rw [String.data_append, String.data_append, List.append_assoc]
    rfl
  have hne := regexSearch_of_occurrence _ _ _ _ _ _ hocc
  unfold parseProjectUrl
  cases hs : regexSearch (before ++ "github.com/users/x/projects/1" ++ after).data with
  | none => exact absurd hs hne
  | some m => rfl

/-! ## Claims about the sync engine -/

theorem destRead_destWrite (d : DestinationInventory) (a b : Artifact) (v : String) :
    destRead (destWrite d a v) b = if a = b then some v else destRead d b := by
  induction d with
  | nil => simp [destWrite, destRead]
  | cons e m ih =>
    unfold destWrite
    by_cases hea : e.1 = a
    · rw [if_pos hea]
      by_cases hab : a = b
      · simp [destRead, hab]
      · have heb : ¬ e.1 = b := fun h => hab (hea.symm.trans h)
        simp [destRead, hab, heb]
    · rw [if_neg hea]
      by_cases heb : e.1 = b
      · have hab : ¬ a = b := fun h => hea (heb.trans h.symm)
        simp [destRead, heb, hab]
      · simp only [destRead, if_neg heb, ih]

theorem destWrite_of_destRead (d : DestinationInventory) (a : Artifact) (v : String)
    (h : destRead d a = some v) : destWrite d a v = d := by
  induction d with
  | nil => simp [destRead] at h
  | cons e m ih =>
    unfold destWrite
    unfold destRead at h
    by_cases hea : e.1 = a
    · rw [if_pos hea] at h
      rw [if_pos hea]
      have hv : e.2 = v := by simpa using h
      rw [← hea, ← hv]
    · rw [if_neg hea] at h
      rw [if_neg hea, ih h]

theorem mem_destWrite (d : DestinationInventory) (a : Artifact) (v : String)
    (e : Artifact × String) (he : e ∈ destWrite d a v) : e.1 = a ∨ e ∈ d := by
  induction d with
  | nil =>
    simp only [destWrite, List.mem_singleton] at he
    exact Or.inl (by rw [he])
  | cons x m ih =>
    unfold destWrite at he
    by_cases hxa : x.1 = a
    · rw [if_pos hxa] at he
      rcases List.mem_cons.1 he with h | h
      · exact Or.inl (by rw [h])
      · exact Or.inr (List.mem_cons_of_mem _ h)
    · rw [if_neg hxa] at he
      rcases List.mem_cons.1 he with h | h
      · exact Or.inr (h ▸ List.mem_cons_self _ _)
      · rcases ih h with h2 | h2
        · exact Or.inl h2
        · exact Or.inr (List.mem_cons_of_mem _ h2)

theorem destRead_copies (source : Artifact → String) (l : List Artifact)
    (d : DestinationInventory) (a : Artifact)
    (h : a ∈ l ∨ destRead d a = some (source a)) :
    destRead (l.foldl (fun acc x => destWrite acc x (source x)) d) a = some (source a) := by
  induction l generalizing d with
  | nil =>
    rcases h with h | h
    · exact absurd h (List.not_mem_nil _)
    · exact h
  | cons x rest ih =>
    rw [List.foldl_cons]
    apply ih
    by_cases hxa : x = a
    · right
      rw [destRead_destWrite, if_pos hxa, hxa]
    · rcases h with h | h
      · rcases List.mem_cons.1 h with h2 | h2
        · exact absurd h2.symm hxa
        · exact Or.inl h2
      · right
        rw [destRead_destWrite, if_neg hxa]
        exact h

theorem mem_copies (source : Artifact → String) (l : List Artifact)
    (d : DestinationInventory) (e : Artifact × String)
    (he : e ∈ l.foldl (fun acc x => destWrite acc x (source x)) d) : e.1 ∈ l ∨ e ∈ d := by
  induction l generalizing d with
  | nil => exact Or.inr he
  | cons x rest ih =>
    rw [List.foldl_cons] at he
    rcases ih _ he with h | h
    · exact Or.inl (List.mem_cons_of_mem _ h)
    · rcases mem_destWrite _ _ _ _ h with h2 | h2
      · exact Or.inl (h2 ▸ List.mem_cons_self _ _)
      · exact Or.inr h2

theorem foldl_destRemove (l : List Artifact) (d : DestinationInventory) :
    l.foldl destRemove d = d.filter (fun e => decide (e.1 ∉ l)) := by
  induction l generalizing d with
  | nil => simp
  | cons x rest ih =>
    rw [List.foldl_cons, ih]
    unfold destRemove
    rw [List.filter_filter]
    apply List.filter_congr
    intro e _
    by_cases h1 : e.1 = x <;> by_cases h2 : e.1 ∈ rest <;> simp [h1, h2]

theorem destRead_filter (d : DestinationInventory) (l : List Artifact) (a : Artifact)
    (ha : a ∉ l) : destRead (d.filter (fun e => decide (e.1 ∉ l))) a = destRead d a := by
  induction d with
  | nil => rfl
  | cons e m ih =>
    by_cases hel : e.1 ∈ l
    · have hea : ¬ e.1 = a := fun h => ha (h ▸ hel)
      rw [List.filter_cons_of_neg (by simpa using hel), ih]
      simp only [destRead, if_neg hea]
    · rw [List.filter_cons_of_pos (by simpa using hel)]
      simp only [destRead, ih]

theorem copies_unchanged (source : Artifact → String) (l : List Artifact)
    (d : DestinationInventory) (h : ∀ a ∈ l, destRead d a = some (source a)) :
    l.foldl (fun acc x => destWrite acc x (source x)) d = d ∧
      copyMutations source l d = [] := by
  induction l with
  | nil => exact ⟨rfl, rfl⟩
  | cons x rest ih =>
    have hx := destWrite_of_destRead d x (source x) (h x (List.mem_cons_self _ _))
    have hrest := ih (fun a ha => h a (List.mem_cons_of_mem _ ha))
    constructor
    · rw [List.foldl_cons, hx]
      exact hrest.1
    · unfold copyMutations
      rw [hx, if_pos rfl]
      exact hrest.2

theorem mem_toCopy (st : EffectiveStates) (d : DestinationInventory) (a : Artifact) :
    a ∈ (sync st d).toCopy ↔ isEnabledArtifact st a = true := by
  obtain ⟨sec, n⟩ := a
  unfold sync isEnabledArtifact
  cases sec <;> simp

theorem mem_toDelete (st : EffectiveStates) (d : DestinationInventory) (a : Artifact) :
    a ∈ (sync st d).toDelete ↔ (∃ v, (a, v) ∈ d) ∧ isEnabledArtifact st a = false := by
  unfold sync
  simp only [List.mem_filter, List.mem_map, Bool.not_eq_true_eq_eq_false]
  constructor
  · rintro ⟨⟨e, he, rfl⟩, hen⟩
    exact ⟨⟨e.2, he⟩, hen⟩
  · rintro ⟨⟨v, hv⟩, hen⟩
    exact ⟨⟨(a, v), hv, rfl⟩, hen⟩

theorem applyPlan_sync_enabled (source : Artifact → String) (st : EffectiveStates)
    (d : DestinationInventory) :
    (∀ e ∈ applyPlan source (sync st d) d, isEnabledArtifact st e.1 = true) ∧
      ∀ a, isEnabledArtifact st a = true →
        destRead (applyPlan source (sync st d) d) a = some (source a) := by
  unfold applyPlan
  rw [foldl_destRemove]
  constructor
  · intro e he
    rw [List.mem_filter] at he
    obtain ⟨hmem, hnot⟩ := he
    have hnot2 : e.1 ∉ (sync st d).toDelete := by simpa using hnot
    rcases mem_copies _ _ _ _ hmem with h | h
    · exact (mem_toCopy st d e.1).1 h
    · cases hen : isEnabledArtifact st e.1 with
      | true => rfl
      | false => exact absurd ((mem_toDelete st d e.1).2 ⟨⟨e.2, h⟩, hen⟩) hnot2
  · intro a ha
    have hnot : a ∉ (sync st d).toDelete := by
      intro hmem
      have := ((mem_toDelete st d a).1 hmem).2
      rw [ha] at this
      exact absurd this (by simp)
    rw [destRead_filter _ _ _ hnot]
    exact destRead_copies source _ d a (Or.inl ((mem_toCopy st d a).2 ha))

theorem sync_second_run (source : Artifact → String) (st : EffectiveStates)
    (d : DestinationInventory) :
    (sync st (applyPlan source (sync st d) d)).toDelete = [] ∧
      applyPlan source (sync st (applyPlan source (sync st d) d))
          (applyPlan source (sync st d) d) = applyPlan source (sync st d) d ∧
      planMutations source (sync st (applyPlan source (sync st d) d))
          (applyPlan source (sync st d) d) = ([], []) := by
  obtain ⟨hkeys, hread⟩ := applyPlan_sync_enabled source st d
  generalize hd1 : applyPlan source (sync st d) d = d1 at hkeys hread ⊢
  have hdel : (sync st d1).toDelete = [] := by
    unfold sync
    apply filter_eq_nil_of_forall
    intro a ha
    obtain ⟨e, he, rfl⟩ := List.mem_map.1 ha
    rw [hkeys e he]
    rfl
  have hcopy := copies_unchanged source (sync st d1).toCopy d1
    (fun a ha => hread a ((mem_toCopy st d1 a).1 ha))
  refine ⟨hdel, ?_, ?_⟩
  · unfold applyPlan
    rw [hdel, hcopy.1]
    rfl
  · unfold planMutations
    rw [hdel, hcopy.1, hcopy.2]
    rfl

/-- Claim C25. Sync idempotence: for every configuration and destination, applying the
configuration twice in succession leaves the destination after the second run identical to
the destination after the first run (the same files with the same content, hence the same
file listing of each managed subdirectory), and the second run performs no file-system
mutation: its `toDelete` is empty and none of its copies changes the destination. -/
theorem sync_twice_changes_nothing (env : Env) (source : Artifact → String) (config : Config)
    (d : DestinationInventory) :
    runSync env source config (runSync env source config d) = runSync env source config d ∧
      (∀ sec, fileListing (runSync env source config (runSync env source config d)) sec =
        fileListing (runSync env source config d) sec) ∧
      planMutations source
          (sync (computeEffectiveItemStates env config).1 (runSync env source config d))
          (runSync env source config d) = ([], []) ∧
      (sync (computeEffectiveItemStates env config).1 (runSync env source config d)).toDelete
        = [] := by
  have h := sync_second_run source (computeEffectiveItemStates env config).1 d
  have h1 : runSync env source config (runSync env source config d) =
      runSync env source config d := h.2.1
  refine ⟨h1, ?_, h.2.2, h.1⟩
  intro sec
  rw [h1]

/-! ## Claims about argument extraction -/

theorem read_alloc_new (store : ArrayStore) (xs : List String) :
    ArrayStore.read (store ++ [xs]) store.length = xs := by
  simp [ArrayStore.read, List.getD_eq_getElem?_getD]

theorem read_alloc_old (store : ArrayStore) (xs : List String) (r : Nat) (hr : r < store.length) :
    ArrayStore.read (store ++ [xs]) r = ArrayStore.read store r := by
  simp [ArrayStore.read, List.getD_eq_getElem?_getD, List.getElem?_append_left hr]

theorem write_alloc_new (store : ArrayStore) (xs ys : List String) :
    ArrayStore.write (store ++ [xs]) store.length ys = store ++ [ys] := by
  simp [ArrayStore.write]

theorem getD_append_length (kept rest : List String) (i : Nat) (d : String) :
    (kept ++ rest).getD (kept.length + i) d = rest.getD i d := by
  induction kept with
  | nil => simp
  | cons a t ih =>
    have h : (a :: t).length + i = (t.length + i) + 1 := by simp; omega
    rw [h, List.cons_append, List.getD_cons_succ, ih]

theorem splice2_append (kept : List String) (a v : String) (rest : List String) :
    splice2 (kept ++ a :: v :: rest) kept.length = kept ++ rest := by
  unfold splice2
  rw [List.take_left, List.drop_append]
  rfl

theorem extractLoopInPlace_eq (fuel : Nat) :
    ∀ (store : ArrayStore) (kept rest : List String) (configPath : String),
      rest.length < fuel →
      extractLoopInPlace fuel (store ++ [kept ++ rest]) store.length kept.length configPath =
        (match extractLoop kept rest configPath with
         | Except.error err => Except.error err
         | Except.ok (args, path) => Except.ok (store ++ [args], path)) := by
  induction fuel with
  | zero => intro _ _ rest _ h; exact absurd h (Nat.not_lt_zero _)
  | succ fuel ih =>
    intro store kept rest configPath hlen
    unfold extractLoopInPlace
    rw [read_alloc_new]
    cases rest with
    | nil =>
      simp [extractLoop]
    | cons arg rest1 =>
      have hi : kept.length < (kept ++ arg :: rest1).length := by simp
      have hget : (kept ++ arg :: rest1).getD kept.length "" = arg :=
        getD_append_length kept (arg :: rest1) 0 ""
      rw [if_pos hi, hget, extractLoop_cons]
      by_cases hflag : arg ∈ CONFIG_FLAG_ALIASES
      · rw [if_pos hflag, if_pos hflag]
        cases rest1 with
        | nil => simp
        | cons value rest2 =>
          have hne : ¬ kept.length = (kept ++ arg :: value :: rest2).length - 1 := by
            simp
          have hget1 : (kept ++ arg :: value :: rest2).getD (kept.length + 1) "" = value :=
            getD_append_length kept (arg :: value :: rest2) 1 ""
          rw [if_neg hne, hget1, splice2_append, write_alloc_new]
          exact ih store kept rest2 value (by simp at hlen; omega)
      · rw [if_neg hflag, if_neg hflag]
        have hstore : store ++ [kept ++ arg :: rest1] = store ++ [(kept ++ [arg]) ++ rest1] := by
          simp
        have hlen1 : kept.length + 1 = (kept ++ [arg]).length := by simp
        rw [hstore, hlen1]
        exact ih store (kept ++ [arg]) rest1 configPath (by simp at hlen; omega)

theorem extractLoop_error_message (n : Nat) :
    ∀ (rest kept : List String) (configPath err : String), rest.length ≤ n →
      extractLoop kept rest configPath = Except.error err →
      err = "Missing configuration file after --config flag." ∧
        ∃ pre flag, rest = pre ++ [flag] ∧ flag ∈ CONFIG_FLAG_ALIASES ∧ ConsumedByLoop pre := by
  induction n with
  | zero =>
    intro rest kept configPath err hlen h
    have : rest = [] := List.length_eq_zero.1 (Nat.le_zero.1 hlen)
    subst this
    simp [extractLoop] at h
  | succ n ih =>
    intro rest kept configPath err hlen h
    cases rest with
    | nil => simp [extractLoop] at h
    | cons arg rest1 =>
      rw [extractLoop_cons] at h
      by_cases hflag : arg ∈ CONFIG_FLAG_ALIASES
      · rw [if_pos hflag] at h
        cases rest1 with
        | nil =>
          simp only [Except.error.injEq] at h
          exact ⟨h.symm, [], arg, rfl, hflag, ConsumedByLoop.done⟩
        | cons value rest2 =>
          simp only at h
          obtain ⟨hm, pre, flag, hrest, hf, hc⟩ :=
            ih rest2 kept value err (by simp at hlen; omega) h
          exact ⟨hm, arg :: value :: pre, flag, by rw [hrest]; rfl, hf,
            ConsumedByLoop.option arg value pre hflag hc⟩
      · rw [if_neg hflag] at h
        obtain ⟨hm, pre, flag, hrest, hf, hc⟩ :=
          ih rest1 (kept ++ [arg]) configPath err (by simp at hlen; omega) h
        exact ⟨hm, arg :: pre, flag, by rw [hrest]; rfl, hf,
          ConsumedByLoop.token arg pre hflag hc⟩

theorem extractLoop_error_of_consumed (pre : List String) (hc : ConsumedByLoop pre) :
    ∀ (kept : List String) (flag configPath : String), flag ∈ CONFIG_FLAG_ALIASES →
      extractLoop kept (pre ++ [flag]) configPath =
        Except.error "Missing configuration file after --config flag." := by
  induction hc with
  | done =>
    intro kept flag configPath hf
    rw [List.nil_append, extractLoop_cons, if_pos hf]
  | token a rest ha _ ih =>
    intro kept flag configPath hf
    rw [List.cons_append, extractLoop_cons, if_neg ha]
    exact ih _ flag configPath hf
  | option f value rest hfl _ ih =>
    intro kept flag configPath hf
    rw [List.cons_append, List.cons_append, extractLoop_cons, if_pos hfl]
    exact ih _ flag value hf

theorem extractLoop_ok_sublist (n : Nat) :
    ∀ (rest kept args : List String) (configPath path : String), rest.length ≤ n →
      extractLoop kept rest configPath = Except.ok (args, path) →
      ∃ s, args = kept ++ s ∧ List.Sublist s rest ∧ ∀ x ∈ s, x ∉ CONFIG_FLAG_ALIASES := by
  induction n with
  | zero =>
    intro rest kept args configPath path hlen h
    have : rest = [] := List.length_eq_zero.1 (Nat.le_zero.1 hlen)
    subst this
    simp only [extractLoop, Except.ok.injEq, Prod.mk.injEq] at h
    exact ⟨[], by rw [← h.1]; simp, List.Sublist.refl _, fun x hx => absurd hx (List.not_mem_nil _)⟩
  | succ n ih =>
    intro rest kept args configPath path hlen h
    cases rest with
    | nil =>
      simp only [extractLoop, Except.ok.injEq, Prod.mk.injEq] at h
      exact ⟨[], by rw [← h.1]; simp, List.Sublist.refl _,
        fun x hx => absurd hx (List.not_mem_nil _)⟩
    | cons arg rest1 =>
      rw [extractLoop_cons] at h
      by_cases hflag : arg ∈ CONFIG_FLAG_ALIASES
      · rw [if_pos hflag] at h
        cases rest1 with
        | nil => simp at h
        | cons value rest2 =>
          simp only at h
          obtain ⟨s, hs, hsub, hno⟩ :=
            ih rest2 kept args value path (by simp at hlen; omega) h
          exact ⟨s, hs, (hsub.cons value).cons arg, hno⟩
      · rw [if_neg hflag] at h
        obtain ⟨s, hs, hsub, hno⟩ :=
          ih rest1 (kept ++ [arg]) args configPath path (by simp at hlen; omega) h
        refine ⟨arg :: s, by rw [hs]; simp, hsub.cons₂ arg, ?_⟩
        intro x hx
        rcases List.mem_cons.1 hx with rfl | hx2
        · exact hflag
        · exact hno x hx2

theorem getD_last_eq (a : List String) :
    a.getD (a.length - 1) "" = a.getLast?.getD "" := by
  rw [List.getD_eq_getElem?_getD, List.getLast?_eq_getElem?]

theorem extractConfigOption_loop_cases (rawArgs : List String) :
    (∃ err, extractLoop [] rawArgs DEFAULT_CONFIG_PATH = Except.error err ∧
        extractConfigOption rawArgs = Except.error err) ∨
      (∃ args path options, extractLoop [] rawArgs DEFAULT_CONFIG_PATH = Except.ok (args, path) ∧
        extractConfigOption rawArgs = Except.ok options ∧
        (options.args = args ∨ options.args = args.dropLast)) := by
  unfold extractConfigOption
  cases h : extractLoop [] rawArgs DEFAULT_CONFIG_PATH with
  | error err => exact Or.inl ⟨err, rfl, rfl⟩
  | ok pr =>
    obtain ⟨args, path⟩ := pr
    right
    simp only
    cases hl : args.getLast? with
    | none => exact ⟨args, path, _, rfl, rfl, Or.inl rfl⟩
    | some p =>
      simp only
      by_cases hp : isConfigFilePath p = true
      · rw [if_pos hp]
        exact ⟨args, path, _, rfl, rfl, Or.inr rfl⟩
      · rw [if_neg hp]
        exact ⟨args, path, _, rfl, rfl, Or.inl rfl⟩

theorem extractConfigOptionInPlace_eq (store : ArrayStore) (ref : Nat) :
    extractConfigOptionInPlace store ref =
      (match extractConfigOption (store.read ref) with
       | Except.error err => Except.error err
       | Except.ok options =>
         Except.ok (store ++ [options.args],
           { args := store.length, configPath := options.configPath })) := by
  unfold extractConfigOptionInPlace extractConfigOption ArrayStore.alloc
  simp only
  have hloop := extractLoopInPlace_eq ((store.read ref).length + 1) store [] (store.read ref)
    DEFAULT_CONFIG_PATH (Nat.lt_succ_self _)
  rw [List.nil_append, List.length_nil] at hloop
  rw [hloop]
  cases h : extractLoop [] (store.read ref) DEFAULT_CONFIG_PATH with
  | error err => rfl
  | ok pr =>
    obtain ⟨args, path⟩ := pr
    simp only [read_alloc_new, getD_last_eq]
    cases hl : args.getLast? with
    | none =>
      have hnil : args = [] := List.getLast?_eq_none_iff.1 hl
      subst hnil
      simp
    | some p =>
      have hne : args ≠ [] := by
        intro hnil
        rw [hnil] at hl
        simp at hl
      have hpos : 0 < args.length := List.length_pos.2 hne
      simp only [if_pos hpos, Option.getD_some]
      by_cases hp : isConfigFilePath p = true
      · rw [if_pos hp, if_pos hp, write_alloc_new]
      · rw [if_neg hp, if_neg hp]

/-- Claim C34. Argument extraction is clean: `extractConfigOption` throws, with the message
about the missing file, exactly when the raw list is a run of tokens that the loop works
through followed by a config flag as last token; otherwise it returns arguments that are a
subsequence of the raw list without `--config` and `-c`. Run on arrays with identity, the
function leaves the array of `rawArgs`, and every other array that existed before the call,
as it was: the returned `args` is a new array. -/
theorem argument_extraction_is_clean (rawArgs : List String) :
    (∀ err, extractConfigOption rawArgs = Except.error err →
        err = "Missing configuration file after --config flag.") ∧
      ((∃ err, extractConfigOption rawArgs = Except.error err) ↔
        ∃ pre flag, rawArgs = pre ++ [flag] ∧ flag ∈ CONFIG_FLAG_ALIASES ∧
          ConsumedByLoop pre) ∧
      (∀ options, extractConfigOption rawArgs = Except.ok options →
        List.Sublist options.args rawArgs ∧ "--config" ∉ options.args ∧
          "-c" ∉ options.args) ∧
      (∀ (store : ArrayStore) (ref : Nat), ref < store.length → store.read ref = rawArgs →
        match extractConfigOptionInPlace store ref with
        | Except.error err => extractConfigOption rawArgs = Except.error err
        | Except.ok (store2, result) =>
          store2.read ref = rawArgs ∧
            (∀ r, r < store.length → store2.read r = store.read r) ∧
            store.length ≤ result.args ∧
            extractConfigOption rawArgs =
              Except.ok { args := store2.read result.args,
                          configPath := result.configPath }) := by
  refine ⟨?_, ⟨?_, ?_⟩, ?_, ?_⟩
  · intro err h
    rcases extractConfigOption_loop_cases rawArgs with ⟨e, hl, he⟩ | ⟨a, p, o, _, ho, _⟩
    · rw [he] at h
      simp only [Except.error.injEq] at h
      rw [← h]
      exact (extractLoop_error_message _ rawArgs [] _ e (Nat.le_refl _) hl).1
    · rw [ho] at h
      exact absurd h (by simp)
  · rintro ⟨err, h⟩
    rcases extractConfigOption_loop_cases rawArgs with ⟨e, hl, _⟩ | ⟨a, p, o, _, ho, _⟩
    · exact (extractLoop_error_message _ rawArgs [] _ e (Nat.le_refl _) hl).2
    · rw [ho] at h
      exact absurd h (by simp)
  · rintro ⟨pre, flag, hraw, hflag, hc⟩
    have hl := extractLoop_error_of_consumed pre hc [] flag DEFAULT_CONFIG_PATH hflag
    rw [← hraw] at hl
    rcases extractConfigOption_loop_cases rawArgs with ⟨e, _, he⟩ | ⟨a, p, o, hok, _, _⟩
    · exact ⟨e, he⟩
    · rw [hl] at hok
      exact absurd hok (by simp)
  · intro options h
    rcases extractConfigOption_loop_cases rawArgs with ⟨e, _, he⟩ | ⟨a, p, o, hok, ho, hargs⟩
    · rw [he] at h
      exact absurd h (by simp)
    · rw [ho] at h
      simp only [Except.ok.injEq] at h
      subst h
      obtain ⟨s, hs, hsub, hno⟩ :=
        extractLoop_ok_sublist _ rawArgs [] a _ p (Nat.le_refl _) hok
      rw [List.nil_append] at hs
      subst hs
      have hsub2 : List.Sublist o.args a := by
        rcases hargs with h1 | h1
        · rw [h1]
        · rw [h1]
          exact List.dropLast_sublist a
      refine ⟨hsub2.trans hsub, ?_, ?_⟩
      · intro hmem
        exact hno _ (hsub2.subset hmem) (by decide)
      · intro hmem
        exact hno _ (hsub2.subset hmem) (by decide)
  · intro store ref hlt hread
    rw [extractConfigOptionInPlace_eq, hread]
    cases h : extractConfigOption rawArgs with
    | error err => rfl
    | ok options =>
      simp only
      refine ⟨?_, ?_, Nat.le_refl _, ?_⟩
      · rw [read_alloc_old store _ ref hlt, hread]
      · intro r hr
        exact read_alloc_old store _ r hr
      · rw [read_alloc_new]

/-! ## Claims about the reported counts -/

theorem foldl_resolveStep_nodup (sc : JsObject) (m : JsMap) (items : List String) :
    ∀ (acc : List String × ReasonsObject), acc.1.Nodup →
      (items.foldl (resolveStep sc m) acc).1.Nodup := by
  induction items with
  | nil => intro acc h; exact h
  | cons x rest ih =>
    intro acc h
    rw [List.foldl_cons]
    apply ih
    unfold resolveStep
    simp only
    split
    · exact nodup_setAdd _ _ h
    · exact h

theorem enabled_length_le (env : Env) (config : Config) (sec : ArtifactSection) :
    ((computeEffectiveItemStates env config).1.enabled sec).length ≤
      (getAllAvailableItems env sec.key).length := by
  have hnd : ((computeEffectiveItemStates env config).1.enabled sec).Nodup := by
    rw [enabled_eq]
    exact foldl_resolveStep_nodup _ _ _ _ List.nodup_nil
  have hsub : (computeEffectiveItemStates env config).1.enabled sec ⊆
      getAllAvailableItems env sec.key := by
    intro n hn
    exact ((enabled_iff env config sec n).1 hn).1
  exact (List.subperm_of_subset hnd hsub).length_le

theorem countEnabledItems_le (f : JsObject) (items : List String) (hnd : (objKeys f).Nodup)
    (hsub : ∀ e ∈ f, e.2.truthy = true → e.1 ∈ items) :
    countEnabledItems f ≤ items.length := by
  unfold countEnabledItems
  have hlen : (f.filter (fun e => e.2.truthy)).length =
      ((f.filter (fun e => e.2.truthy)).map Prod.fst).length := by simp
  rw [hlen]
  have hnd2 : ((f.filter (fun e => e.2.truthy)).map Prod.fst).Nodup :=
    List.Nodup.sublist (List.Sublist.map _ (List.filter_sublist f)) hnd
  have hsub2 : (f.filter (fun e => e.2.truthy)).map Prod.fst ⊆ items := by
    intro k hk
    obtain ⟨e, he, rfl⟩ := List.mem_map.1 hk
    rw [List.mem_filter] at he
    exact hsub e he.1 he.2
  exact (List.subperm_of_subset hnd2 hsub2).length_le

theorem ofKey_key (sec : ArtifactSection) :
    ArtifactSection.ofKey? sec.key = some sec ∧ sec.key ≠ "collections" ∧
      sec.key ∈ CONFIG_SECTIONS := by
  cases sec <;> exact ⟨rfl, by decide, by decide⟩

theorem mem_config_sections (t : String) (h : t ∈ CONFIG_SECTIONS) :
    t = "collections" ∨ ∃ sec : ArtifactSection, t = sec.key := by
  simp only [CONFIG_SECTIONS, List.mem_cons, List.mem_singleton, List.not_mem_nil, or_false]
    at h
  rcases h with h | h | h | h
  · exact Or.inr ⟨ArtifactSection.prompts, h⟩
  · exact Or.inr ⟨ArtifactSection.instructions, h⟩
  · exact Or.inr ⟨ArtifactSection.chatmodes, h⟩
  · exact Or.inl h

theorem reasonTextOf_resolved (env : Env) (config : Config) (sec : ArtifactSection)
    (n : String) : ∃ text, reasonTextOf (resolved env config sec n).2 = Except.ok text := by
  rcases isBoolean_cases (config.explicitFlag sec n) with ⟨b, hb⟩ | hnb
  · rw [resolved_explicit env config sec n b hb]
    exact ⟨_, rfl⟩
  · rw [resolved_inherit env config sec n hnb]
    split
    · exact ⟨_, rfl⟩
    · by_cases hlen : 0 < (jsSort (grantingCollections env config sec n)).length
      · exact ⟨" (via: " ++ ", ".intercalate (jsSort (grantingCollections env config sec n)) ++
          ")", by simp [reasonTextOf, hlen]⟩
      · exact ⟨"", by simp [reasonTextOf, hlen]⟩

theorem listItems_artifact (env : Env) (config : Config) (doc : JsObject)
    (sec : ArtifactSection) (items : List String)
    (h : ∀ n ∈ items, n ∈ getAllAvailableItems env sec.key) :
    (listItems doc (computeEffectiveItemStates env config).1 sec.key items).2 = none := by
  induction items with
  | nil => rfl
  | cons n rest ih =>
    unfold listItems
    have hn : n ∈ catalog env sec := h n (List.mem_cons_self _ _)
    obtain ⟨text, htext⟩ := reasonTextOf_resolved env config sec n
    have hline : ∃ line, listItemLine doc (computeEffectiveItemStates env config).1 sec.key n =
        Except.ok line := by
      unfold listItemLine
      rw [if_neg (ofKey_key sec).2.1, (ofKey_key sec).1]
      simp only
      rw [reason_iff, if_pos hn]
      simp only [htext]
      exact ⟨_, rfl⟩
    obtain ⟨line, hl⟩ := hline
    rw [hl]
    exact ih (fun m hm => h m (List.mem_cons_of_mem _ hm))

theorem listItems_collections (doc : JsObject) (st : EffectiveStates) (items : List String) :
    (listItems doc st "collections" items).2 = none := by
  induction items with
  | nil => rfl
  | cons n rest ih =>
    unfold listItems
    simp only [listItemLine, if_true]
    exact ih

theorem listSection_artifact (env : Env) (host : Host) (config : Config) (doc : JsObject)
    (sec : ArtifactSection) (sectionMeta : SectionMeta)
    (hmeta : SECTION_METADATA sec.key = some sectionMeta) :
    (listSection env host doc (computeEffectiveItemStates env config).1 sec.key).2 = none ∧
      listHeading sectionMeta.label
          ((computeEffectiveItemStates env config).1.enabled sec).length
          (getAllAvailableItems env sec.key).length
          (calculateSectionFootprint host sec.key (sectionMap doc sec.key)) sec.key ∈
        (listSection env host doc (computeEffectiveItemStates env config).1 sec.key).1 := by
  unfold listSection
  rw [hmeta]
  simp only [listEnabledCount, if_neg (ofKey_key sec).2.1, (ofKey_key sec).1]
  split
  · exact ⟨rfl, List.mem_cons_self _ _⟩
  · exact ⟨listItems_artifact env config doc sec _ (fun n hn => hn), List.mem_cons_self _ _⟩

theorem listSection_collections (env : Env) (host : Host) (st : EffectiveStates)
    (doc : JsObject) :
    (listSection env host doc st "collections").2 = none ∧
      listHeading "Collections" (countEnabledItems (sectionMap doc "collections"))
          (getAllAvailableItems env "collections").length 0 "collections" ∈
        (listSection env host doc st "collections").1 := by
  unfold listSection
  have hmeta : SECTION_METADATA "collections" =
      some ⟨"collections", ".collection.yml", "Collections", "collection"⟩ := rfl
  rw [hmeta]
  simp only [listEnabledCount, if_true]
  split
  · exact ⟨rfl, List.mem_cons_self _ _⟩
  · exact ⟨listItems_collections doc st _, List.mem_cons_self _ _⟩

theorem listSections_ok (env : Env) (host : Host) (config : Config) (doc : JsObject)
    (sections : List String) (h : ∀ t ∈ sections, t ∈ CONFIG_SECTIONS) :
    (listSections env host doc (computeEffectiveItemStates env config).1 sections).2 = none ∧
      ∀ t ∈ sections, ∀ line ∈
          (listSection env host doc (computeEffectiveItemStates env config).1 t).1,
        line ∈ (listSections env host doc (computeEffectiveItemStates env config).1
          sections).1 := by
  induction sections with
  | nil => exact ⟨rfl, fun t ht => absurd ht (List.not_mem_nil _)⟩
  | cons s rest ih =>
    have hs : (listSection env host doc (computeEffectiveItemStates env config).1 s).2 =
        none := by
      rcases mem_config_sections s (h s (List.mem_cons_self _ _)) with hc | ⟨sec, hsec⟩
      · rw [hc]
        exact (listSection_collections env host _ doc).1
      · rw [hsec]
        obtain ⟨sectionMeta, hmeta⟩ := section_meta_of_mem sec.key (ofKey_key sec).2.2
        exact (listSection_artifact env host config doc sec sectionMeta hmeta).1
    obtain ⟨ih1, ih2⟩ := ih (fun t ht => h t (List.mem_cons_of_mem _ ht))
    unfold listSections
    cases hls : listSection env host doc (computeEffectiveItemStates env config).1 s with
    | mk lines err =>
      rw [hls] at hs
      simp only at hs
      subst hs
      simp only
      refine ⟨ih1, ?_⟩
      intro t ht line hline
      rcases List.mem_cons.1 ht with rfl | ht2
      · rw [hls] at hline
        exact List.mem_append_left _ hline
      · exact List.mem_append_right _ (ih2 t ht2 line hline)

theorem sectionsToShowOf_cases (args sections : List String)
    (h : sectionsToShowOf args = Except.ok sections) :
    sections = CONFIG_SECTIONS ∨ ∃ s, sections = [s] := by
  unfold sectionsToShowOf at h
  cases args with
  | nil =>
    simp only [Except.ok.injEq] at h
    exact Or.inl h.symm
  | cons a rest =>
    simp only at h
    cases hv : validateSectionType a with
    | error err => rw [hv] at h; simp at h
    | ok s =>
      rw [hv] at h
      simp only [Except.ok.injEq] at h
      exact Or.inr ⟨s, h.symm⟩

theorem finishToggle_count_line (env : Env) (host : Host) (path s itemName : String)
    (sectionMeta : SectionMeta) (items : List String) (loaded : LoadedConfig)
    (before : EffectiveStates) (st : JsObject) (newState : Bool) (output : List String) :
    (sectionMeta.label ++ ": " ++
        toString (countEnabledItems (sectionMap (ensureConfigStructure
          (JsVal.obj (objSet (spread loaded.config) s (JsVal.obj st)))) s)) ++
        "/" ++ toString items.length ++ " enabled.") ∈
      (finishToggle env host path s itemName sectionMeta items loaded before st newState
        output).output := by
  unfold finishToggle
  simp only
  split
  · split <;> simp
  · simp

theorem sectionMap_nodup_ensure (config : JsVal) (s : String) (hs : s ∈ CONFIG_SECTIONS) :
    (objKeys (sectionMap (ensureConfigStructure config) s)).Nodup := by
  obtain ⟨f, hf, hnd, _⟩ := (sanitizedDoc_ensure config).sections s hs
  unfold sectionMap
  rw [hf]
  exact hnd

theorem handleListCommand_output (env : Env) (host : Host) (rawArgs : List String)
    (options : ExtractedOptions) (sections : List String) (loaded : LoadedConfig)
    (hopt : extractConfigOption rawArgs = Except.ok options)
    (hsec : sectionsToShowOf options.args = Except.ok sections)
    (hload : loadConfig host options.configPath = Except.ok loaded)
    (hall : ∀ t ∈ sections, t ∈ CONFIG_SECTIONS) :
    (handleListCommand env host rawArgs).error = none ∧
      ∀ t ∈ sections, ∀ line ∈ (listSection env host
          (ensureConfigStructure (JsVal.obj loaded.config))
          (computeEffectiveItemStates env
            (Config.ofObject (ensureConfigStructure (JsVal.obj loaded.config)))).1 t).1,
        line ∈ (handleListCommand env host rawArgs).output := by
  obtain ⟨hnone, hlines⟩ := listSections_ok env host
    (Config.ofObject (ensureConfigStructure (JsVal.obj loaded.config)))
    (ensureConfigStructure (JsVal.obj loaded.config)) sections hall
  unfold handleListCommand
  simp only [hopt, hsec, hload, hnone]
  refine ⟨trivial, ?_⟩
  intro t ht line hline
  have := hlines t ht line hline
  simp only [List.mem_append, List.mem_singleton]
  exact Or.inl (Or.inr this)

theorem toggleLoaded_count_line (env : Env) (host : Host) (path s itemName : String)
    (desired : Option Bool) (sectionMeta : SectionMeta) (items : List String)
    (loaded : LoadedConfig)
    (h : (toggleLoaded env host path s itemName desired sectionMeta items loaded).writes ≠ []) :
    ∃ X : JsObject,
      (toggleLoaded env host path s itemName desired sectionMeta items loaded).writes =
          [saveConfig host path (ensureConfigStructure (JsVal.obj X)) (some loaded.header)] ∧
        (sectionMeta.label ++ ": " ++
            toString (countEnabledItems (sectionMap (ensureConfigStructure (JsVal.obj X)) s)) ++
            "/" ++ toString items.length ++ " enabled.") ∈
          (toggleLoaded env host path s itemName desired sectionMeta items loaded).output := by
  unfold toggleLoaded at h ⊢
  simp only at h ⊢
  split
  · rename_i hall
    rw [if_pos hall] at h
    cases desired with
    | none => exact absurd rfl h
    | some state =>
      simp only
      exact ⟨_, (finishToggle_run env host path s itemName sectionMeta items loaded
        (Config.ofObject loaded.config) _ state _).1,
        finishToggle_count_line env host path s itemName sectionMeta items loaded _ _ state _⟩
  · rename_i hall
    rw [if_neg hall] at h
    split
    · rename_i hin
      rw [if_pos hin] at h
      exfalso
      apply h
      split
      · split <;> rfl
      · rfl
    · exact ⟨_, (finishToggle_run env host path s itemName sectionMeta items loaded
        (Config.ofObject loaded.config) _ _ _).1,
        finishToggle_count_line env host path s itemName sectionMeta items loaded _ _ _ _⟩

theorem handleToggleCommand_count_line (env : Env) (host : Host) (rawArgs : List String)
    (h : (handleToggleCommand env host rawArgs).writes ≠ []) :
    ∃ (options : ExtractedOptions) (s : String) (sectionMeta : SectionMeta)
        (loaded : LoadedConfig) (X : JsObject),
      extractConfigOption rawArgs = Except.ok options ∧
        SECTION_METADATA s = some sectionMeta ∧
        loadConfig host options.configPath = Except.ok loaded ∧
        (handleToggleCommand env host rawArgs).writes =
          [saveConfig host options.configPath (ensureConfigStructure (JsVal.obj X))
            (some loaded.header)] ∧
        (sectionMeta.label ++ ": " ++
            toString (countEnabledItems (sectionMap (ensureConfigStructure (JsVal.obj X)) s)) ++
            "/" ++ toString (getAllAvailableItems env s).length ++ " enabled.") ∈
          (handleToggleCommand env host rawArgs).output := by
  unfold handleToggleCommand at h ⊢
  split
  · rename_i err hopt
    rw [hopt] at h
    exact absurd rfl h
  · rename_i options hopt
    rw [hopt] at h
    simp only at h
    split
    · rename_i sectionArg itemName more hargs
      rw [hargs] at h
      simp only at h
      split
      · rename_i err hsec
        rw [hsec] at h
        exact absurd rfl h
      · rename_i sectionName hsec
        rw [hsec] at h
        simp only at h
        split
        · rename_i err hstate
          rw [hstate] at h
          exact absurd rfl h
        · rename_i desired hstate
          rw [hstate] at h
          simp only at h
          split
          · rename_i hmeta
            rw [hmeta] at h
            exact absurd rfl h
          · rename_i sectionMeta hmeta
            rw [hmeta] at h
            simp only at h
            split
            · rename_i hcat
              rw [if_pos hcat] at h
              exact absurd rfl h
            · rename_i hcat
              rw [if_neg hcat] at h
              split
              · rename_i err hload
                rw [hload] at h
                exact absurd rfl h
              · rename_i loaded hload
                rw [hload] at h
                simp only at h
                obtain ⟨X, hw, hl⟩ := toggleLoaded_count_line _ _ _ _ _ _ _ _ _ h
                exact ⟨options, sectionName, sectionMeta, loaded, X, hopt, hmeta, hload, hw, hl⟩
    · rename_i hargs
      exfalso
      apply h
      split at *
      · rename_i a b c h2
        exact absurd h2 (by
          intro hh
          exact hargs a b c hh)
      · rfl

/-- Claim C35, as stated, fails. In the installation `demoEnv`, which has three prompts and
three collections, `toggle prompts all on` on a document with a stray prompt name prints
`Prompts: 4/3 enabled.`, and `list collections` on a document that enables two stray
collection names prints `Collections (4/3 enabled)`. -/
theorem printed_count_exceeds_available :
    "Prompts: 4/3 enabled." ∈
        (handleToggleCommand demoEnv toggleHost ["prompts", "all", "on"]).output ∧
      (getAllAvailableItems demoEnv "prompts").length = 3 ∧
      "\nCollections (4/3 enabled)" ∈
        (handleListCommand demoEnv strayHost ["collections"]).output ∧
      (getAllAvailableItems demoEnv "collections").length = 3 := by
  refine ⟨by decide, by decide, by decide, by decide⟩

/-- Claim C35, amended. For every document and artifact section S that the list command
shows, the heading printed for S carries the size of the effective enabled set of S and the
number of available Catalog items of S, and the first is at most the second. The count that
the list command prints for collections, and the count that the toggle command prints for
any section, is the number of true flags in the section map of the sanitized document,
stray names included; it is at most the number of available items when every name with a
true flag in that section map is a Catalog name. -/
theorem reported_counts (env : Env) (host : Host) (rawArgs : List String) :
    (∀ (options : ExtractedOptions) (sections : List String) (loaded : LoadedConfig),
        extractConfigOption rawArgs = Except.ok options →
        sectionsToShowOf options.args = Except.ok sections →
        loadConfig host options.configPath = Except.ok loaded →
        (∀ (sec : ArtifactSection) (sectionMeta : SectionMeta), sec.key ∈ sections →
          SECTION_METADATA sec.key = some sectionMeta →
          listHeading sectionMeta.label
              ((computeEffectiveItemStates env (Config.ofObject
                (ensureConfigStructure (JsVal.obj loaded.config)))).1.enabled sec).length
              (getAllAvailableItems env sec.key).length
              (calculateSectionFootprint host sec.key
                (sectionMap (ensureConfigStructure (JsVal.obj loaded.config)) sec.key))
              sec.key ∈ (handleListCommand env host rawArgs).output ∧
            ((computeEffectiveItemStates env (Config.ofObject
                (ensureConfigStructure (JsVal.obj loaded.config)))).1.enabled sec).length ≤
              (getAllAvailableItems env sec.key).length) ∧
          ("collections" ∈ sections →
            listHeading "Collections"
                (countEnabledItems
                  (sectionMap (ensureConfigStructure (JsVal.obj loaded.config)) "collections"))
                (getAllAvailableItems env "collections").length 0 "collections" ∈
              (handleListCommand env host rawArgs).output ∧
            ((∀ e ∈ sectionMap (ensureConfigStructure (JsVal.obj loaded.config)) "collections",
                e.2.truthy = true → e.1 ∈ getAllAvailableItems env "collections") →
              countEnabledItems
                  (sectionMap (ensureConfigStructure (JsVal.obj loaded.config)) "collections") ≤
                (getAllAvailableItems env "collections").length))) ∧
      ((handleToggleCommand env host rawArgs).writes ≠ [] →
        ∃ (options : ExtractedOptions) (s : String) (sectionMeta : SectionMeta)
            (loaded : LoadedConfig) (X : JsObject),
          extractConfigOption rawArgs = Except.ok options ∧
            SECTION_METADATA s = some sectionMeta ∧
            loadConfig host options.configPath = Except.ok loaded ∧
            (handleToggleCommand env host rawArgs).writes =
              [saveConfig host options.configPath (ensureConfigStructure (JsVal.obj X))
                (some loaded.header)] ∧
            (sectionMeta.label ++ ": " ++
                toString (countEnabledItems
                  (sectionMap (ensureConfigStructure (JsVal.obj X)) s)) ++
                "/" ++ toString (getAllAvailableItems env s).length ++ " enabled.") ∈
              (handleToggleCommand env host rawArgs).output ∧
            ((∀ e ∈ sectionMap (ensureConfigStructure (JsVal.obj X)) s,
                e.2.truthy = true → e.1 ∈ getAllAvailableItems env s) →
              countEnabledItems (sectionMap (ensureConfigStructure (JsVal.obj X)) s) ≤
                (getAllAvailableItems env s).length)) := by
  constructor
  · intro options sections loaded hopt hsec hload
    have hall : ∀ t, t ∈ sections → t ∈ CONFIG_SECTIONS → ∀ u ∈ sections, u ∈ CONFIG_SECTIONS := by
      intro t ht htc u hu
      rcases sectionsToShowOf_cases _ _ hsec with h | ⟨s, h⟩
      · rw [h] at hu
        exact hu
      · rw [h] at ht hu
        rw [List.mem_singleton] at ht hu
        rw [hu, ← ht]
        exact htc
    constructor
    · intro sec sectionMeta hmem hmeta
      have hcfg := hall sec.key hmem (ofKey_key sec).2.2
      obtain ⟨_, hlines⟩ := handleListCommand_output env host rawArgs options sections loaded
        hopt hsec hload hcfg
      exact ⟨hlines sec.key hmem _ (listSection_artifact env host _ _ sec sectionMeta hmeta).2,
        enabled_length_le env _ sec⟩
    · intro hmem
      have hcfg := hall "collections" hmem (by decide)
      obtain ⟨_, hlines⟩ := handleListCommand_output env host rawArgs options sections loaded
        hopt hsec hload hcfg
      refine ⟨hlines "collections" hmem _ (listSection_collections env host _ _).2, ?_⟩
      intro hsub
      exact countEnabledItems_le _ _ (sectionMap_nodup_ensure _ _ (by decide)) hsub
  · intro hw
    obtain ⟨options, s, sectionMeta, loaded, X, hopt, hmeta, hload, hwrites, hline⟩ :=
      handleToggleCommand_count_line env host rawArgs hw
    refine ⟨options, s, sectionMeta, loaded, X, hopt, hmeta, hload, hwrites, hline, ?_⟩
    intro hsub
    have hs : s ∈ CONFIG_SECTIONS := (section_meta_isSome_iff s).1 (by rw [hmeta]; rfl)
    exact countEnabledItems_le _ _ (sectionMap_nodup_ensure _ _ hs) hsub

/-! ## Claims about toggling without a state -/

theorem ofObject_read (doc : JsObject) (key : String) :
    (match assocGet doc key with
      | some (JsVal.obj fields) => some fields
      | _ => none : Option JsObject).getD [] = sectionMap doc key := by
  unfold sectionMap objGet
  cases h : assocGet doc key with
  | none => rfl
  | some v => cases v <;> rfl

theorem explicitFlag_ofObject (doc : JsObject) (sec : ArtifactSection) (n : String) :
    (Config.ofObject doc).explicitFlag sec n = objGet (sectionMap doc sec.key) n := by
  cases sec
  · exact congrArg (fun f => objGet f n) (ofObject_read doc "prompts")
  · exact congrArg (fun f => objGet f n) (ofObject_read doc "instructions")
  · exact congrArg (fun f => objGet f n) (ofObject_read doc "chatmodes")

theorem sanitized_flag_cases (f : JsObject) (n : String)
    (hfb : ∀ e ∈ f, ∃ b : Bool, e.2 = JsVal.bool b) :
    objGet f n = JsVal.undefined ∨ ∃ b, objGet f n = JsVal.bool b := by
  unfold objGet
  cases h : assocGet f n with
  | none => exact Or.inl rfl
  | some v =>
    obtain ⟨b, hb⟩ := hfb (n, v) (mem_of_assocGet f n v h)
    exact Or.inr ⟨b, hb⟩

/-- Claim C31, as stated, fails. In the installation `demoEnv` the prompt q has no flag in
the document and is enabled through collection A; after `toggle prompts q` without a state
the document has the flag true for q, and q is enabled as it was before. -/
theorem toggle_without_state_keeps_inherited_item :
    ∃ loaded saved,
      loadConfig toggleHost "awesome-copilot.config.yml" = Except.ok loaded ∧
        (handleToggleCommand demoEnv toggleHost ["prompts", "q"]).writes = [saved] ∧
        "q" ∈ getAllAvailableItems demoEnv "prompts" ∧
        "q" ∈ (computeEffectiveItemStates demoEnv
          (Config.ofObject loaded.config)).1.enabled ArtifactSection.prompts ∧
        "q" ∈ (computeEffectiveItemStates demoEnv
          (Config.ofObject saved.document)).1.enabled ArtifactSection.prompts :=
  ⟨_, _, rfl, rfl, by decide, by decide, by decide⟩

/-- Claim C31, amended. For a loaded document, an artifact section S and a Catalog name n
other than the word all and other than the names of the members of `Object.prototype`,
`toggle S n` without a state saves a document under which n is effectively enabled exactly
when its flag in the loaded document was not true: the command negates the flag, not the
effective state. That is the negation of the effective state before the command when n had
a flag or no enabled collection lists n; a name without a flag that an enabled collection
lists is enabled before and after. -/
theorem toggle_without_state_flips_flag (env : Env) (host : Host) (rawArgs : List String)
    (options : ExtractedOptions) (sectionArg itemName : String) (more : List String)
    (loaded : LoadedConfig) (sec : ArtifactSection)
    (hopt : extractConfigOption rawArgs = Except.ok options)
    (hargs : options.args = sectionArg :: itemName :: more)
    (hname : itemName ≠ "all") (hown : itemName ∉ objectPrototypeKeys)
    (hsec : validateSectionType sectionArg = Except.ok sec.key)
    (hstate : desiredStateOf more.head? = Except.ok none)
    (hitem : itemName ∈ getAllAvailableItems env sec.key)
    (hload : loadConfig host options.configPath = Except.ok loaded) :
    ∃ saved, (handleToggleCommand env host rawArgs).writes = [saved] ∧
      (handleToggleCommand env host rawArgs).error = none ∧
      (itemName ∈ (computeEffectiveItemStates env
            (Config.ofObject saved.document)).1.enabled sec ↔
          ((Config.ofObject loaded.config).explicitFlag sec itemName).truthy = false) ∧
      ((((Config.ofObject loaded.config).explicitFlag sec itemName).isBoolean = true ∨
          grantingCollections env (Config.ofObject loaded.config) sec itemName = []) →
        (itemName ∈ (computeEffectiveItemStates env
              (Config.ofObject saved.document)).1.enabled sec ↔
            itemName ∉ (computeEffectiveItemStates env
              (Config.ofObject loaded.config)).1.enabled sec)) ∧
      (((Config.ofObject loaded.config).explicitFlag sec itemName).isBoolean = false →
        grantingCollections env (Config.ofObject loaded.config) sec itemName ≠ [] →
        itemName ∈ (computeEffectiveItemStates env
            (Config.ofObject loaded.config)).1.enabled sec ∧
          itemName ∈ (computeEffectiveItemStates env
            (Config.ofObject saved.document)).1.enabled sec) := by
  have hproto : itemName ≠ "__proto__" := fun h => hown (by rw [h]; decide)
  obtain ⟨saved, hw, he, _, hflag, _⟩ := toggle_one_saved env host rawArgs options sectionArg
    itemName sec.key more none loaded hopt hargs hname hproto hsec (ofKey_key sec).2.2 hstate
    hitem hload
  simp only [Option.getD] at hflag
  rw [truthyMember_of_own _ _ hown] at hflag
  have hL := loadConfig_sanitized host _ loaded hload
  obtain ⟨f, hf, _, hfb⟩ := hL.sections sec.key (ofKey_key sec).2.2
  have hmap : sectionMap loaded.config sec.key = f := by unfold sectionMap; rw [hf]
  have hcat : itemName ∈ catalog env sec := hitem
  have hbefore : (Config.ofObject loaded.config).explicitFlag sec itemName =
      objGet f itemName := by rw [explicitFlag_ofObject, hmap]
  have hafter : (Config.ofObject saved.document).explicitFlag sec itemName =
      JsVal.bool (!(objGet f itemName).truthy) := by
    rw [explicitFlag_ofObject, hflag, hmap]
  have hA : itemName ∈ (computeEffectiveItemStates env
      (Config.ofObject saved.document)).1.enabled sec ↔ (objGet f itemName).truthy = false := by
    rw [enabled_iff, resolved_explicit env _ sec itemName _ hafter]
    simp [hcat]
  have hB : itemName ∈ (computeEffectiveItemStates env
      (Config.ofObject loaded.config)).1.enabled sec ↔
      (objGet f itemName = JsVal.bool true ∨ ((objGet f itemName).isBoolean = false ∧
        grantingCollections env (Config.ofObject loaded.config) sec itemName ≠ [])) := by
    rw [enabled_iff, resolved_enabled_iff, hbefore]
    simp [hcat]
  refine ⟨saved, hw, he, ?_, ?_, ?_⟩
  · rw [hbefore]
    exact hA
  · rw [hbefore]
    intro hcase
    rw [hA, hB]
    rcases sanitized_flag_cases f itemName hfb with hu | ⟨b, hb⟩
    · rw [hu] at hcase ⊢
      rcases hcase with hc | hc
      · exact absurd hc (by simp [JsVal.isBoolean])
      · simp [JsVal.truthy, JsVal.isBoolean, hc]
    · rw [hb]
      cases b <;> simp [JsVal.truthy, JsVal.isBoolean]
  · rw [hbefore]
    intro hnb hgr
    rw [hA, hB]
    rcases sanitized_flag_cases f itemName hfb with hu | ⟨b, hb⟩
    · rw [hu]
      exact ⟨Or.inr ⟨rfl, hgr⟩, rfl⟩
    · rw [hb] at hnb
      exact absurd hnb (by simp [JsVal.isBoolean])

theorem toggle_without_state_flips_flag_witness :
    ∃ saved, (handleToggleCommand demoEnv toggleHost ["prompts", "p"]).writes = [saved] ∧
      (handleToggleCommand demoEnv toggleHost ["prompts", "p"]).error = none ∧
      ("p" ∈ (computeEffectiveItemStates demoEnv
            (Config.ofObject saved.document)).1.enabled ArtifactSection.prompts ↔
          ((Config.ofObject toggleLoadedDoc.config).explicitFlag ArtifactSection.prompts
            "p").truthy = false) ∧
      ((((Config.ofObject toggleLoadedDoc.config).explicitFlag ArtifactSection.prompts
            "p").isBoolean = true ∨
          grantingCollections demoEnv (Config.ofObject toggleLoadedDoc.config)
            ArtifactSection.prompts "p" = []) →
        ("p" ∈ (computeEffectiveItemStates demoEnv
              (Config.ofObject saved.document)).1.enabled ArtifactSection.prompts ↔
            "p" ∉ (computeEffectiveItemStates demoEnv
              (Config.ofObject toggleLoadedDoc.config)).1.enabled ArtifactSection.prompts)) ∧
      (((Config.ofObject toggleLoadedDoc.config).explicitFlag ArtifactSection.prompts
            "p").isBoolean = false →
        grantingCollections demoEnv (Config.ofObject toggleLoadedDoc.config)
            ArtifactSection.prompts "p" ≠ [] →
        "p" ∈ (computeEffectiveItemStates demoEnv
            (Config.ofObject toggleLoadedDoc.config)).1.enabled ArtifactSection.prompts ∧
          "p" ∈ (computeEffectiveItemStates demoEnv
            (Config.ofObject saved.document)).1.enabled ArtifactSection.prompts) :=
  toggle_without_state_flips_flag demoEnv toggleHost ["prompts", "p"]
    { args := ["prompts", "p"], configPath := "awesome-copilot.config.yml" }
    "prompts" "p" [] toggleLoadedDoc ArtifactSection.prompts
    (by rfl) rfl (by decide) (by decide) (by rfl) (by rfl) (by decide) (by rfl)

/-! ## Claims about the header across load and save -/

theorem splitLines_cons_newline (cs : List Char) :
    splitLines ('\n' :: cs) = [] :: splitLines cs := by
  simp [splitLines]

theorem splitLines_cons_other (c : Char) (cs l : List Char) (ls : List (List Char))
    (hc : c ≠ '\n') (h : splitLines cs = l :: ls) : splitLines (c :: cs) = (c :: l) :: ls := by
  simp [splitLines, hc, h]

theorem splitLines_append_newline (a b : List Char) :
    splitLines (a ++ '\n' :: b) = splitLines a ++ splitLines b := by
  induction a with
  | nil =>
    rw [List.nil_append, splitLines_cons_newline]
    rfl
  | cons c t ih =>
    rw [List.cons_append]
    by_cases hc : c = '\n'
    · rw [hc, splitLines_cons_newline, splitLines_cons_newline, ih]
      rfl
    · cases hs : splitLines t with
      | nil => exact absurd hs (splitLines_ne_nil t)
      | cons l ls =>
        rw [splitLines_cons_other c t l ls hc hs,
          splitLines_cons_other c (t ++ '\n' :: b) l (ls ++ splitLines b) hc
            (by rw [ih, hs]; rfl)]
        rfl

theorem splitLines_no_newline (l : List Char) (h : '\n' ∉ l) : splitLines l = [l] := by
  induction l with
  | nil => rfl
  | cons c t ih =>
    have hc : c ≠ '\n' := fun hc => h (hc ▸ List.mem_cons_self _ _)
    have ht : '\n' ∉ t := fun ht => h (List.mem_cons_of_mem _ ht)
    exact splitLines_cons_other c t t [] hc (ih ht)

theorem splitLines_lines_no_newline (cs : List Char) : ∀ l ∈ splitLines cs, '\n' ∉ l := by
  induction cs with
  | nil =>
    intro l hl
    simp only [splitLines, List.mem_singleton] at hl
    rw [hl]
    exact List.not_mem_nil _
  | cons c t ih =>
    intro l hl
    by_cases hc : c = '\n'
    · rw [hc, splitLines_cons_newline] at hl
      rcases List.mem_cons.1 hl with h | h
      · rw [h]
        exact List.not_mem_nil _
      · exact ih l h
    · cases hs : splitLines t with
      | nil => exact absurd hs (splitLines_ne_nil t)
      | cons l0 ls =>
        rw [splitLines_cons_other c t l0 ls hc hs] at hl
        rcases List.mem_cons.1 hl with h | h
        · rw [h]
          intro hmem
          rcases List.mem_cons.1 hmem with h2 | h2
          · exact hc h2.symm
          · exact ih l0 (by rw [hs]; exact List.mem_cons_self _ _) h2
        · exact ih l (by rw [hs]; exact List.mem_cons_of_mem _ h)

theorem splitLines_joinLines (ls : List (List Char)) (hne : ls ≠ [])
    (h : ∀ l ∈ ls, '\n' ∉ l) : splitLines (joinLines ls) = ls := by
  induction ls with
  | nil => exact absurd rfl hne
  | cons l rest ih =>
    cases rest with
    | nil => exact splitLines_no_newline l (h l (List.mem_cons_self _ _))
    | cons l2 rest2 =>
      rw [joinLines_cons_of_ne_nil l (l2 :: rest2) (by simp), splitLines_append_newline,
        splitLines_no_newline l (h l (List.mem_cons_self _ _)),
        ih (by simp) (fun x hx => h x (List.mem_cons_of_mem _ hx))]
      rfl

theorem header_eq_takeWhile (content : String) :
    (splitHeaderAndBody content).header =
      String.mk (joinLines ((splitLines content.data).takeWhile isHeaderLine)) := by
  unfold splitHeaderAndBody
  simp only [headerLoop_eq, List.nil_append]

theorem header_lines (content : String)
    (hne : ∃ c ∈ (splitHeaderAndBody content).header.data, isJsWhiteSpace c = false) :
    ∀ l ∈ splitLines (splitHeaderAndBody content).header.data, isHeaderLine l = true := by
  rw [header_eq_takeWhile] at hne ⊢
  simp only at hne ⊢
  have hnil : (splitLines content.data).takeWhile isHeaderLine ≠ [] := by
    intro hnil
    rw [hnil] at hne
    obtain ⟨c, hc, _⟩ := hne
    exact absurd hc (List.not_mem_nil _)
  rw [splitLines_joinLines _ hnil
    (fun l hl => splitLines_lines_no_newline content.data l
      ((List.takeWhile_sublist isHeaderLine).subset hl))]
  intro l hl
  exact List.mem_takeWhile_imp hl

theorem header_of_block (P B : List Char)
    (hP : ∀ l ∈ splitLines P, isHeaderLine l = true)
    (hB : ∀ l, (splitLines B).head? = some l → isHeaderLine l = false) :
    (splitHeaderAndBody (String.mk (P ++ '\n' :: B))).header = String.mk P := by
  rw [header_eq_takeWhile]
  simp only
  rw [splitLines_append_newline, takeWhile_append_of_all _ _ _ hP]
  cases hs : splitLines B with
  | nil => exact absurd hs (splitLines_ne_nil B)
  | cons l ls =>
    have hl : isHeaderLine l = false := hB l (by rw [hs]; rfl)
    rw [List.takeWhile_cons, hl]
    simp only [Bool.false_eq_true, if_false, List.append_nil]
    rw [joinLines_splitLines]

theorem suffix_snoc {α : Type} (s l : List α) (c : α) : s ++ [c] <:+ l ++ [c] ↔ s <:+ l := by
  constructor
  · rintro ⟨t, ht⟩
    rw [← List.append_assoc] at ht
    exact ⟨t, List.append_cancel_right ht⟩
  · rintro ⟨t, ht⟩
    exact ⟨t, by rw [← List.append_assoc, ht]⟩

theorem formatHeader_of_nonblank (host : Host) (h : String)
    (hne : ∃ c ∈ h.data, isJsWhiteSpace c = false) :
    formatHeader host (some h) =
      if endsWith (if endsWith h "\n" then h else h ++ "\n") "\n\n" then
        (if endsWith h "\n" then h else h ++ "\n")
      else (if endsWith h "\n" then h else h ++ "\n") ++ "\n" := by
  obtain ⟨c, hc, hws⟩ := hne
  have h1 : h ≠ "" := by
    intro he; rw [he] at hc; simp at hc
  have h2 : trim h ≠ "" := by
    apply string_mk_ne_empty
    intro ht
    have := (trimChars_eq_nil_iff h.data).1 ht c hc
    rw [hws] at this
    exact Bool.noConfusion this
  unfold formatHeader
  simp only [h1, h2, ne_eq, not_false_eq_true, and_self, if_true]

theorem endsWith_newline_iff (s : String) :
    endsWith s "\n" = true ↔ ∃ t, s.data = t ++ ['\n'] := by
  rw [endsWith_iff]
  constructor
  · rintro ⟨t, ht⟩
    exact ⟨t, ht.symm⟩
  · rintro ⟨t, ht⟩
    exact ⟨t, ht.symm⟩

theorem endsWith_snoc_newline (P : List Char) (s : String) :
    endsWith (String.mk (P ++ ['\n'])) (s ++ "\n") = endsWith (String.mk P) s := by
  have hiff : endsWith (String.mk (P ++ ['\n'])) (s ++ "\n") = true ↔
      endsWith (String.mk P) s = true := by
    rw [endsWith_iff, endsWith_iff]
    exact suffix_snoc s.data P '\n'
  cases h1 : endsWith (String.mk (P ++ ['\n'])) (s ++ "\n") <;>
    cases h2 : endsWith (String.mk P) s <;> simp_all

theorem header_cycle (host : Host) (h B : String)
    (hne : ∃ c ∈ h.data, isJsWhiteSpace c = false)
    (hlines : ∀ l ∈ splitLines h.data, isHeaderLine l = true)
    (hB : ∀ l, (splitLines B.data).head? = some l → isHeaderLine l = false) :
    (endsWith h "\n\n\n" = false →
        formatHeader host (some (splitHeaderAndBody (formatHeader host (some h) ++ B)).header) =
          formatHeader host (some h)) ∧
      (endsWith h "\n\n\n" = true →
        formatHeader host (some h) = h ∧
          formatHeader host (some (splitHeaderAndBody (formatHeader host (some h) ++ B)).header)
            ++ "\n" = h) := by
  obtain ⟨c, hc, hws⟩ := hne
  have hcn : c ≠ '\n' := by
    rintro rfl
    exact absurd hws (by decide)
  by_cases hA : endsWith h "\n" = true
  · by_cases hAA : endsWith h "\n\n" = true
    · -- the header ends with two newlines: the block is the header itself
      have hH : formatHeader host (some h) = h := by
        rw [formatHeader_of_nonblank host h ⟨c, hc, hws⟩]
        simp [hA, hAA]
      obtain ⟨t, ht⟩ := (endsWith_iff h "\n\n").1 hAA
      have hdata : h.data = (t ++ ['\n']) ++ ['\n'] := by
        rw [← ht, List.append_assoc]
        rfl
      have hP : ∀ l ∈ splitLines (t ++ ['\n']), isHeaderLine l = true := by
        intro l hl
        apply hlines
        rw [hdata, splitLines_append_newline]
        exact List.mem_append_left _ hl
      have hblock : h ++ B = String.mk ((t ++ ['\n']) ++ '\n' :: B.data) := by
        apply String.ext
        simp [String.data_append, hdata]
      have hcP : c ∈ t ++ ['\n'] := by
        rw [hdata] at hc
        rcases List.mem_append.1 hc with h1 | h1
        · exact h1
        · exact absurd (List.mem_singleton.1 h1) hcn
      have hrt : formatHeader host (some (String.mk (t ++ ['\n']))) =
          if endsWith (String.mk (t ++ ['\n'])) "\n\n" then String.mk (t ++ ['\n'])
          else String.mk (t ++ ['\n']) ++ "\n" := by
        rw [formatHeader_of_nonblank host _ ⟨c, hcP, hws⟩]
        have : endsWith (String.mk (t ++ ['\n'])) "\n" = true :=
          (endsWith_newline_iff _).2 ⟨t, rfl⟩
        simp [this]
      have h3 : endsWith h "\n\n\n" = endsWith (String.mk (t ++ ['\n'])) "\n\n" := by
        have := endsWith_snoc_newline (t ++ ['\n']) "\n\n"
        have e3 : ("\n\n" ++ "\n" : String) = "\n\n\n" := by decide
        have e4 : String.mk ((t ++ ['\n']) ++ ['\n']) = h := String.ext hdata.symm
        rw [e3, e4] at this
        exact this
      have hback : String.mk (t ++ ['\n']) ++ "\n" = h := by
        apply String.ext
        rw [String.data_append, hdata]
      rw [hH, hblock, header_of_block _ _ hP hB, hrt, ← h3]
      constructor
      · intro h4
        rw [h4]
        simp only [Bool.false_eq_true, if_false]
        exact hback
      · intro h4
        rw [h4]
        simp only [if_true]
        exact ⟨trivial, hback⟩
    · -- the header ends with one newline: one newline is added
      have hAA2 : endsWith h "\n\n" = false := by
        cases hv : endsWith h "\n\n" with
        | false => rfl
        | true => exact absurd hv hAA
      have hH : formatHeader host (some h) = h ++ "\n" := by
        rw [formatHeader_of_nonblank host h ⟨c, hc, hws⟩]
        simp [hA, hAA2]
      have hblock : h ++ "\n" ++ B = String.mk (h.data ++ '\n' :: B.data) := by
        apply String.ext
        simp [String.data_append]
      have h3 : endsWith h "\n\n\n" = false := by
        cases hv : endsWith h "\n\n\n" with
        | false => rfl
        | true =>
          exfalso
          apply hAA
          rw [endsWith_iff] at hv ⊢
          exact (List.suffix_cons '\n' "\n\n".data).trans hv
      rw [hH, hblock, header_of_block _ _ hlines hB, h3]
      constructor
      · intro _
        exact hH
      · intro h4
        exact absurd h4 (by simp)
  · -- the header does not end with a newline: two newlines are added
    have hA2 : endsWith h "\n" = false := by
      cases hv : endsWith h "\n" with
      | false => rfl
      | true => exact absurd hv hA
    have hnn : endsWith (h ++ "\n") "\n\n" = false := by
      have := endsWith_snoc_newline h.data "\n"
      have e1 : String.mk (h.data ++ ['\n']) = h ++ "\n" := String.ext (by simp [String.data_append])
      have e2 : String.mk h.data = h := rfl
      have e3 : ("\n" ++ "\n" : String) = "\n\n" := by decide
      rw [e1, e2, e3] at this
      rw [this]
      exact hA2
    have hH : formatHeader host (some h) = h ++ "\n" ++ "\n" := by
      rw [formatHeader_of_nonblank host h ⟨c, hc, hws⟩]
      simp [hA2, hnn]
    have hP : ∀ l ∈ splitLines (h.data ++ ['\n']), isHeaderLine l = true := by
      intro l hl
      rw [splitLines_append_newline] at hl
      rcases List.mem_append.1 hl with h1 | h1
      · exact hlines l h1
      · simp only [splitLines, List.mem_singleton] at h1
        rw [h1]
        rfl
    have hblock : h ++ "\n" ++ "\n" ++ B = String.mk ((h.data ++ ['\n']) ++ '\n' :: B.data) := by
      apply String.ext
      simp [String.data_append]
    have hhead : String.mk (h.data ++ ['\n']) = h ++ "\n" :=
      String.ext (by simp [String.data_append])
    have hrt : formatHeader host (some (h ++ "\n")) = h ++ "\n" ++ "\n" := by
      rw [formatHeader_of_nonblank host _
        ⟨c, by rw [String.data_append]; exact List.mem_append_left _ hc, hws⟩]
      have : endsWith (h ++ "\n") "\n" = true :=
        (endsWith_newline_iff _).2 ⟨h.data, by rw [String.data_append]⟩
      simp [this, hnn]
    have h3 : endsWith h "\n\n\n" = false := by
      cases hv : endsWith h "\n\n\n" with
      | false => rfl
      | true =>
        exfalso
        apply hA
        rw [endsWith_iff] at hv ⊢
        exact ((List.suffix_cons '\n' "\n".data).trans
          (List.suffix_cons '\n' "\n\n".data)).trans hv
    rw [hH, hblock, header_of_block _ _ hP hB, hhead, hrt, h3]
    constructor
    · intro _
      rfl
    · intro h4
      exact absurd h4 (by simp)

/-- Claim C33 fails on the code for a header that ends with three newlines. For the content
`# a`, three blank lines and a body, the header is `# a` with three newlines and a save
writes it as it is; loaded back in front of a body, the header has lost its last newline,
and the next save writes `# a` with two newlines: the block is not stable. In general, for
a header with a non-whitespace character and a body that begins with a line that is neither
blank nor a comment, the second load and save writes the same header block exactly when the
header does not end with three newlines. -/
theorem header_block_loses_blank_line :
    (splitHeaderAndBody "# a\n\n\n\nversion: 1\n").header = "# a\n\n\n" ∧
      formatHeader demoHost (some "# a\n\n\n") = "# a\n\n\n" ∧
      formatHeader demoHost
          (some (splitHeaderAndBody ("# a\n\n\n" ++ "version: \"1.0\"\n")).header) =
        "# a\n\n" ∧
      (∀ (host : Host) (content B : String),
        (∃ c ∈ (splitHeaderAndBody content).header.data, isJsWhiteSpace c = false) →
        (∀ l, (splitLines B.data).head? = some l → isHeaderLine l = false) →
        (formatHeader host
            (some (splitHeaderAndBody
              (formatHeader host (some (splitHeaderAndBody content).header) ++ B)).header) =
            formatHeader host (some (splitHeaderAndBody content).header) ↔
          endsWith (splitHeaderAndBody content).header "\n\n\n" = false)) := by
  refine ⟨by decide, by decide, by decide, ?_⟩
  intro host content B hne hB
  obtain ⟨hstable, hshrink⟩ := header_cycle host (splitHeaderAndBody content).header B hne
    (header_lines content hne) hB
  constructor
  · intro heq
    cases hv : endsWith (splitHeaderAndBody content).header "\n\n\n" with
    | false => rfl
    | true =>
      exfalso
      obtain ⟨hH, hback⟩ := hshrink hv
      rw [heq, hH] at hback
      have hlen := congrArg (fun s : String => s.data.length) hback
      simp [String.data_append] at hlen
  · exact hstable

/-! ## Claims about the idempotence of sanitization -/

theorem numeralValue_snoc (ds : List Char) (c : Char) :
    numeralValue (ds ++ [c]) = numeralValue ds * 10 + (c.toNat - 48) := by
  unfold numeralValue
  rw [List.foldl_append]
  rfl

theorem digit_bounds (c : Char) (h : c.isDigit = true) : 48 ≤ c.toNat ∧ c.toNat ≤ 57 := by
  simp only [Char.isDigit, Bool.and_eq_true, decide_eq_true_eq] at h
  exact h

theorem digit_eq_of_value (c d : Char) (hc : c.isDigit = true) (hd : d.isDigit = true)
    (h : c.toNat - 48 = d.toNat - 48) : c = d := by
  have h1 := digit_bounds c hc
  have h2 := digit_bounds d hd
  have h3 : c.toNat = d.toNat := by omega
  rw [← Char.ofNat_toNat c, ← Char.ofNat_toNat d, h3]

theorem numeralValue_pos (ds : List Char) (hne : ds ≠ [])
    (hdig : ∀ c ∈ ds, c.isDigit = true) (hhead : ds.head? ≠ some '0') :
    1 ≤ numeralValue ds := by
  induction ds using List.reverseRecOn with
  | nil => exact absurd rfl hne
  | append_singleton init c ih =>
    rw [numeralValue_snoc]
    by_cases hi : init = []
    · subst hi
      have hc0 : c ≠ '0' := by
        intro h0
        apply hhead
        rw [h0]
        rfl
      have hb := digit_bounds c (hdig c (by simp))
      have : c.toNat ≠ 48 := by
        intro h48
        apply hc0
        rw [← Char.ofNat_toNat c, h48]
      omega
    · have := ih hi (fun x hx => hdig x (List.mem_append_left _ hx))
        (by rw [← List.head?_append_of_ne_nil init hi]; exact hhead)
      omega

theorem canonicalNumeral_injective (ds1 : List Char) :
    ∀ ds2 : List Char, CanonicalNumeral ds1 → CanonicalNumeral ds2 →
      numeralValue ds1 = numeralValue ds2 → ds1 = ds2 := by
  induction ds1 using List.reverseRecOn with
  | nil => intro ds2 h1 _ _; exact absurd rfl h1.1
  | append_singleton init1 c1 ih =>
    intro ds2 h1 h2 hv
    obtain ⟨hne2, hdig2, hcan2⟩ := h2
    obtain ⟨_, hdig1, hcan1⟩ := h1
    rcases List.eq_nil_or_concat ds2 with hnil | ⟨init2, c2, hds2⟩
    · exact absurd hnil hne2
    · rw [List.concat_eq_append] at hds2
      subst hds2
      rw [numeralValue_snoc, numeralValue_snoc] at hv
      have hb1 := digit_bounds c1 (hdig1 c1 (by simp))
      have hb2 := digit_bounds c2 (hdig2 c2 (by simp))
      have hlast : c1.toNat - 48 = c2.toNat - 48 := by omega
      have hinit : numeralValue init1 = numeralValue init2 := by omega
      have hc : c1 = c2 := digit_eq_of_value c1 c2 (hdig1 c1 (by simp)) (hdig2 c2 (by simp)) hlast
      have hcanon : ∀ (init : List Char) (c : Char), init ≠ [] →
          (∀ x ∈ init ++ [c], x.isDigit = true) →
          ((init ++ [c]).head? ≠ some '0' ∨ (init ++ [c]).length = 1) →
          CanonicalNumeral init ∧ 1 ≤ numeralValue init := by
        intro init c hi hd hcan
        have hhead : init.head? ≠ some '0' := by
          rcases hcan with h | h
          · rw [← List.head?_append_of_ne_nil init hi]
            exact h
          · exfalso
            have hpos : 0 < init.length := List.length_pos.2 hi
            have hl : (init ++ [c]).length = init.length + 1 := by simp
            omega
        exact ⟨⟨hi, fun x hx => hd x (List.mem_append_left _ hx), Or.inl hhead⟩,
          numeralValue_pos init hi (fun x hx => hd x (List.mem_append_left _ hx)) hhead⟩
      by_cases hi1 : init1 = []
      · by_cases hi2 : init2 = []
        · rw [hi1, hi2, hc]
        · exfalso
          have := (hcanon init2 c2 hi2 hdig2 hcan2).2
          rw [hi1] at hinit
          have h0 : numeralValue ([] : List Char) = 0 := rfl
          omega
      · by_cases hi2 : init2 = []
        · exfalso
          have := (hcanon init1 c1 hi1 hdig1 hcan1).2
          rw [hi2] at hinit
          have h0 : numeralValue ([] : List Char) = 0 := rfl
          omega
        · rw [ih init2 (hcanon init1 c1 hi1 hdig1 hcan1).1 (hcanon init2 c2 hi2 hdig2 hcan2).1
            hinit, hc]

theorem arrayIndex_some (key : String) (n : Nat) (h : arrayIndex key = some n) :
    CanonicalNumeral key.data ∧ numeralValue key.data = n := by
  unfold arrayIndex at h
  split at h
  · rename_i hcond
    split at h
    · simp only [Option.some.injEq] at h
      refine ⟨⟨hcond.1, ?_, hcond.2.2⟩, h⟩
      intro c hc
      exact List.all_eq_true.1 hcond.2.1 c hc
    · exact absurd h (by simp)
  · exact absurd h (by simp)

theorem arrayIndex_injective (a b : String) (n : Nat) (ha : arrayIndex a = some n)
    (hb : arrayIndex b = some n) : a = b := by
  obtain ⟨ca, va⟩ := arrayIndex_some a n ha
  obtain ⟨cb, vb⟩ := arrayIndex_some b n hb
  exact String.ext (canonicalNumeral_injective a.data b.data ca cb (va.trans vb.symm))

theorem keyBefore_ne (a b : String) (h : keyBefore a b) : a ≠ b := by
  intro hab
  subst hab
  unfold keyBefore at h
  cases ha : arrayIndex a with
  | none => simp [ha] at h
  | some i => simp [ha] at h

theorem keyBefore_index (a b : String) (i : Nat) (hb : arrayIndex b = some i)
    (h : keyBefore a b) : ∃ j, arrayIndex a = some j ∧ j < i := by
  unfold keyBefore at h
  cases ha : arrayIndex a with
  | none => simp [ha, hb] at h
  | some j =>
    simp only [ha, hb] at h
    exact ⟨j, rfl, h⟩

theorem keyBefore_of_lt (a b : String) (i j : Nat) (ha : arrayIndex a = some i)
    (hb : arrayIndex b = some j) (h : i < j) : keyBefore a b := by
  unfold keyBefore
  simp only [ha, hb]
  exact h

theorem keyBefore_index_other (a b : String) (i : Nat) (ha : arrayIndex a = some i)
    (hb : arrayIndex b = none) : keyBefore a b := by
  unfold keyBefore
  simp only [ha, hb]

theorem keyBefore_others (a b : String) (ha : arrayIndex a = none) (hb : arrayIndex b = none)
    (h : a ≠ b) : keyBefore a b := by
  unfold keyBefore
  simp only [ha, hb]
  exact h

theorem keyBefore_other_left (a b : String) (ha : arrayIndex a = none) (h : keyBefore a b) :
    arrayIndex b = none := by
  unfold keyBefore at h
  cases hb : arrayIndex b with
  | none => rfl
  | some j => simp [ha, hb] at h

theorem insertIndexed_of_all_lt {β : Type} (i : Nat) (k : String) (v : β)
    (acc : List (String × β))
    (h : ∀ e ∈ acc, ∃ j, arrayIndex e.1 = some j ∧ j < i) :
    insertIndexed i k v acc = acc ++ [(k, v)] := by
  induction acc with
  | nil => rfl
  | cons e m ih =>
    obtain ⟨j, hj, hlt⟩ := h e (List.mem_cons_self _ _)
    unfold insertIndexed
    simp only [hj, if_pos hlt]
    rw [ih (fun x hx => h x (List.mem_cons_of_mem _ hx))]
    rfl

theorem not_mem_keys_of_before {β : Type} (acc : List (String × β)) (k : String)
    (h : ∀ a ∈ objKeys acc, keyBefore a k) : k ∉ objKeys acc := by
  intro hk
  exact keyBefore_ne k k (h k hk) rfl

theorem objSet_append_of_before {β : Type} (acc : List (String × β)) (k : String) (v : β)
    (h : ∀ a ∈ objKeys acc, keyBefore a k) : objSet acc k v = acc ++ [(k, v)] := by
  unfold objSet
  rw [assocGet_eq_none_of_not_mem acc k (not_mem_keys_of_before acc k h)]
  simp only [Option.isSome_none, Bool.false_eq_true, if_false]
  cases hk : arrayIndex k with
  | none => rfl
  | some i =>
    simp only
    apply insertIndexed_of_all_lt
    intro e he
    exact keyBefore_index e.1 k i hk (h e.1 (List.mem_map.2 ⟨e, he, rfl⟩))

theorem foldl_objSet_of_ordered {β γ : Type} (g : β → γ) (o : List (String × β)) :
    ∀ acc : List (String × γ), List.Pairwise keyBefore (objKeys acc ++ objKeys o) →
      o.foldl (fun a e => objSet a e.1 (g e.2)) acc = acc ++ o.map (fun e => (e.1, g e.2)) := by
  induction o with
  | nil => intro acc _; simp
  | cons e rest ih =>
    intro acc h
    rw [List.foldl_cons]
    have hpw := List.pairwise_append.1 h
    have hstep : objSet acc e.1 (g e.2) = acc ++ [(e.1, g e.2)] :=
      objSet_append_of_before acc e.1 (g e.2)
        (fun a ha => hpw.2.2 a ha e.1 (by simp [objKeys]))
    rw [hstep, ih]
    · simp
    · have : objKeys (acc ++ [(e.1, g e.2)]) ++ objKeys rest = objKeys acc ++ objKeys (e :: rest) := by
        simp [objKeys]
      rw [this]
      exact h

theorem mem_keys_insertIndexed {β : Type} (i : Nat) (k : String) (v : β)
    (m : List (String × β)) (b : String) (hb : b ∈ objKeys (insertIndexed i k v m)) :
    b = k ∨ b ∈ objKeys m := by
  have hp := (insertIndexed_perm i k v m).map Prod.fst
  have : b ∈ ((k, v) :: m).map Prod.fst := hp.subset hb
  simpa [objKeys] using this

theorem keysOrdered_insertIndexed {β : Type} (i : Nat) (k : String) (v : β)
    (hk : arrayIndex k = some i) (m : List (String × β)) (hm : KeysOrdered m)
    (hnew : k ∉ objKeys m) : KeysOrdered (insertIndexed i k v m) := by
  induction m with
  | nil =>
    unfold insertIndexed KeysOrdered
    simp [objKeys]
  | cons e rest ih =>
    have hm2 : List.Pairwise keyBefore (e.1 :: objKeys rest) := hm
    rw [List.pairwise_cons] at hm2
    have hne : e.1 ≠ k := fun h => hnew (by rw [← h]; simp [objKeys])
    have hrest : k ∉ objKeys rest := fun h => hnew (by simp only [objKeys, List.map_cons, List.mem_cons]; exact Or.inr h)
    unfold insertIndexed
    cases he : arrayIndex e.1 with
    | none =>
      simp only
      show List.Pairwise keyBefore (k :: e.1 :: objKeys rest)
      rw [List.pairwise_cons]
      refine ⟨?_, hm⟩
      intro b hb
      rcases List.mem_cons.1 hb with rfl | hb2
      · exact keyBefore_index_other k _ i hk he
      · exact keyBefore_index_other k b i hk (keyBefore_other_left e.1 b he (hm2.1 b hb2))
    | some j =>
      simp only
      by_cases hlt : j < i
      · rw [if_pos hlt]
        show List.Pairwise keyBefore (e.1 :: objKeys (insertIndexed i k v rest))
        rw [List.pairwise_cons]
        refine ⟨?_, ih hm2.2 hrest⟩
        intro b hb
        rcases mem_keys_insertIndexed i k v rest b hb with rfl | hb2
        · exact keyBefore_of_lt e.1 b j i he hk hlt
        · exact hm2.1 b hb2
      · rw [if_neg hlt]
        show List.Pairwise keyBefore (k :: e.1 :: objKeys rest)
        rw [List.pairwise_cons]
        refine ⟨?_, hm⟩
        have hij : i < j := by
          rcases Nat.lt_or_ge i j with h | h
          · exact h
          · exfalso
            have hji : j = i := by omega
            exact hne (arrayIndex_injective e.1 k i (by rw [he, hji]) hk)
        intro b hb
        rcases List.mem_cons.1 hb with rfl | hb2
        · exact keyBefore_of_lt k _ i j hk he hij
        · have hb3 := hm2.1 b hb2
          cases hbi : arrayIndex b with
          | none => exact keyBefore_index_other k b i hk hbi
          | some j2 =>
            obtain ⟨j3, hj3, hlt3⟩ := keyBefore_index e.1 b j2 hbi hb3
            rw [he] at hj3
            simp only [Option.some.injEq] at hj3
            exact keyBefore_of_lt k b i j2 hk hbi (by omega)

theorem keysOrdered_objSet {β : Type} (o : List (String × β)) (k : String) (v : β)
    (h : KeysOrdered o) : KeysOrdered (objSet o k v) := by
  unfold objSet
  by_cases hs : (assocGet o k).isSome = true
  · rw [if_pos hs]
    unfold KeysOrdered
    rw [objKeys_assocSet o k v hs]
    exact h
  · rw [if_neg hs]
    have hnew : k ∉ objKeys o := by
      intro hk
      exact hs ((assocGet_isSome_iff o k).2 hk)
    cases hk : arrayIndex k with
    | some i => exact keysOrdered_insertIndexed i k v hk o h hnew
    | none =>
      simp only
      show List.Pairwise keyBefore (objKeys (o ++ [(k, v)]))
      have : objKeys (o ++ [(k, v)]) = objKeys o ++ [k] := by simp [objKeys]
      rw [this, List.pairwise_append]
      refine ⟨h, List.pairwise_singleton _ _, ?_⟩
      intro a ha b hb
      rw [List.mem_singleton] at hb
      subst hb
      cases hai : arrayIndex a with
      | some j => exact keyBefore_index_other a b j hai hk
      | none =>
        exact keyBefore_others a b hai hk (fun hab => hnew (hab ▸ ha))

theorem keysOrdered_foldl {β γ : Type} (g : β → γ) (o : List (String × β)) :
    ∀ acc : List (String × γ), KeysOrdered acc →
      KeysOrdered (o.foldl (fun a e => objSet a e.1 (g e.2)) acc) := by
  induction o with
  | nil => intro acc h; exact h
  | cons e rest ih =>
    intro acc h
    rw [List.foldl_cons]
    exact ih _ (keysOrdered_objSet acc e.1 (g e.2) h)

theorem keysOrdered_nil {β : Type} : KeysOrdered ([] : List (String × β)) :=
  List.Pairwise.nil

theorem spread_of_ordered (o : JsObject) (h : KeysOrdered o) : spread o = o := by
  unfold spread
  have := foldl_objSet_of_ordered (fun v : JsVal => v) o [] (by simpa [objKeys] using h)
  simpa using this

theorem keysOrdered_spread (o : JsObject) : KeysOrdered (spread o) :=
  keysOrdered_foldl (fun v : JsVal => v) o [] keysOrdered_nil

theorem keysOrdered_spreadVal (v : JsVal) : KeysOrdered (spreadVal v) := by
  cases v with
  | obj f => exact keysOrdered_spread f
  | _ => exact keysOrdered_nil

theorem keysOrdered_sanitizeSection (v : JsVal) : KeysOrdered (sanitizeSection v) := by
  cases v with
  | obj f =>
    rw [sanitizeSection_obj]
    exact keysOrdered_foldl (fun w : JsVal => JsVal.bool (toBoolean w)) _ [] keysOrdered_nil
  | _ => exact keysOrdered_nil

theorem sanitizeSection_idem (v : JsVal) :
    sanitizeSection (JsVal.obj (sanitizeSection v)) = sanitizeSection v := by
  have hord := keysOrdered_sanitizeSection v
  have hbool := sanitizeSection_boolean v
  have hproto : "__proto__" ∉ objKeys (sanitizeSection v) := by
    intro hm
    have := (mem_objKeys_iff _ _).1 hm
    rw [sanitizeSection_noProto v] at this
    exact absurd this (by simp)
  generalize sanitizeSection v = F at hord hbool hproto
  rw [sanitizeSection_obj, filter_proto_of_noProto F hproto]
  rw [foldl_objSet_of_ordered (fun w : JsVal => JsVal.bool (toBoolean w)) F []
    (by simpa [objKeys] using hord)]
  rw [List.nil_append]
  conv_rhs => rw [← List.map_id F]
  apply List.map_congr_left
  intro e he
  obtain ⟨b, hb⟩ := hbool e he
  show (e.1, JsVal.bool (toBoolean e.2)) = e
  rw [hb]
  cases e with
  | mk k w =>
    simp only at hb
    subst hb
    rfl

theorem objSet_same {β : Type} (o : List (String × β)) (k : String) (v : β)
    (h : assocGet o k = some v) : objSet o k v = o := by
  unfold objSet
  rw [h]
  simp only [Option.isSome_some, if_true]
  induction o with
  | nil => simp [assocGet] at h
  | cons e m ih =>
    unfold assocGet at h
    unfold assocSet
    by_cases hek : e.1 = k
    · rw [if_pos hek] at h
      rw [if_pos hek]
      simp only [Option.some.injEq] at h
      rw [← hek, ← h]
    · rw [if_neg hek] at h
      rw [if_neg hek, ih h]

theorem assocGet_of_objGet_obj (o : JsObject) (k : String) (f : JsObject)
    (h : objGet o k = JsVal.obj f) : assocGet o k = some (JsVal.obj f) := by
  unfold objGet at h
  cases ha : assocGet o k with
  | none => rw [ha] at h; exact absurd h (by simp)
  | some v =>
    rw [ha] at h
    simp only [Option.getD_some] at h
    rw [h]

theorem keysOrdered_ensureVersion (config : JsVal) : KeysOrdered (ensureVersion config) := by
  unfold ensureVersion
  split
  · exact keysOrdered_spreadVal config
  · exact keysOrdered_objSet _ _ _ (keysOrdered_spreadVal config)

theorem keysOrdered_ensureProject (v : JsVal) : KeysOrdered (ensureProject v) := by
  unfold ensureProject
  split
  · exact keysOrdered_objSet _ _ _ (keysOrdered_spreadVal v)
  · exact keysOrdered_spreadVal v

theorem keysOrdered_ensure (config : JsVal) : KeysOrdered (ensureConfigStructure config) := by
  simp only [ensureConfigStructure, CONFIG_SECTIONS, List.foldl_cons, List.foldl_nil,
    sanitizeStep]
  exact keysOrdered_objSet _ _ _ (keysOrdered_objSet _ _ _ (keysOrdered_objSet _ _ _
    (keysOrdered_objSet _ _ _ (keysOrdered_objSet _ _ _ (keysOrdered_ensureVersion config)))))

theorem sanitizeStep_fixed (config : JsVal) (s : String) (hs : s ∈ CONFIG_SECTIONS) :
    sanitizeStep (ensureConfigStructure config) s = ensureConfigStructure config := by
  unfold sanitizeStep
  have hsec := objGet_ensure_section config s hs
  rw [hsec, sanitizeSection_idem]
  exact objSet_same _ _ _ (assocGet_of_objGet_obj _ _ _ hsec)

theorem foldl_sanitizeStep_fixed (config : JsVal) (sections : List String)
    (h : ∀ s ∈ sections, s ∈ CONFIG_SECTIONS) :
    sections.foldl sanitizeStep (ensureConfigStructure config) =
      ensureConfigStructure config := by
  induction sections with
  | nil => rfl
  | cons s rest ih =>
    rw [List.foldl_cons, sanitizeStep_fixed config s (h s (List.mem_cons_self _ _))]
    exact ih (fun t ht => h t (List.mem_cons_of_mem _ ht))

theorem ensureConfigStructure_idem (config : JsVal) :
    ensureConfigStructure (JsVal.obj (ensureConfigStructure config)) =
      ensureConfigStructure config := by
  have hord := keysOrdered_ensure config
  have hver := (sanitizedDoc_ensure config).version
  have hproj := objGet_ensure_project config
  have hfold := foldl_sanitizeStep_fixed config CONFIG_SECTIONS (fun s hs => hs)
  have hV : ensureVersion (JsVal.obj (ensureConfigStructure config)) =
      ensureConfigStructure config := by
    unfold ensureVersion
    have hsp : spreadVal (JsVal.obj (ensureConfigStructure config)) =
        ensureConfigStructure config := spread_of_ordered _ hord
    rw [hsp, if_pos hver]
  have hP : ensureProject (JsVal.obj (ensureProject (objGet (spreadVal config) "project"))) =
      ensureProject (objGet (spreadVal config) "project") := by
    rw [ensureProject_of_defined _ (objKeys_nodup_ensureProject _) (ensureProject_defined _)]
    exact spread_of_ordered _ (keysOrdered_ensureProject _)
  have hstart : objSet (ensureVersion (JsVal.obj (ensureConfigStructure config))) "project"
      (JsVal.obj (ensureProject
        (objGet (ensureVersion (JsVal.obj (ensureConfigStructure config))) "project"))) =
      ensureConfigStructure config := by
    rw [hV, hproj, hP]
    exact objSet_same _ _ _ (assocGet_of_objGet_obj _ _ _ hproj)
  have hunfold : ensureConfigStructure (JsVal.obj (ensureConfigStructure config)) =
      CONFIG_SECTIONS.foldl sanitizeStep
        (objSet (ensureVersion (JsVal.obj (ensureConfigStructure config))) "project"
          (JsVal.obj (ensureProject
            (objGet (ensureVersion (JsVal.obj (ensureConfigStructure config))) "project")))) :=
    rfl
  rw [hunfold, hstart]
  exact hfold

/-! ## Sanitization on objects with identity -/

theorem assocGet_mapVals {β γ : Type} (g : β → γ) (o : List (String × β)) (k : String) :
    assocGet (mapVals g o) k = (assocGet o k).map g := by
  induction o with
  | nil => rfl
  | cons e m ih =>
    show assocGet ((e.1, g e.2) :: mapVals g m) k = _
    unfold assocGet
    by_cases h : e.1 = k
    · simp [h]
    · simp only [if_neg h]
      exact ih

theorem mapVals_assocSet {β γ : Type} (g : β → γ) (o : List (String × β)) (k : String)
    (v : β) : mapVals g (assocSet o k v) = assocSet (mapVals g o) k (g v) := by
  induction o with
  | nil => rfl
  | cons e m ih =>
    show mapVals g (assocSet (e :: m) k v) = assocSet ((e.1, g e.2) :: mapVals g m) k (g v)
    unfold assocSet
    by_cases h : e.1 = k
    · simp only [if_pos h]
      rfl
    · simp only [if_neg h]
      show (e.1, g e.2) :: mapVals g (assocSet m k v) = _
      rw [ih]

theorem mapVals_insertIndexed {β γ : Type} (g : β → γ) (i : Nat) (k : String) (v : β)
    (o : List (String × β)) :
    mapVals g (insertIndexed i k v o) = insertIndexed i k (g v) (mapVals g o) := by
  induction o with
  | nil => rfl
  | cons e m ih =>
    show mapVals g (insertIndexed i k v (e :: m)) =
      insertIndexed i k (g v) ((e.1, g e.2) :: mapVals g m)
    unfold insertIndexed
    cases he : arrayIndex e.1 with
    | none => rfl
    | some j =>
      simp only
      by_cases hlt : j < i
      · simp only [if_pos hlt]
        show (e.1, g e.2) :: mapVals g (insertIndexed i k v m) = _
        rw [ih]
      · simp only [if_neg hlt]
        rfl

theorem mapVals_append {β γ : Type} (g : β → γ) (a b : List (String × β)) :
    mapVals g (a ++ b) = mapVals g a ++ mapVals g b := by
  unfold mapVals
  exact List.map_append _ _ _

theorem mapVals_objSet {β γ : Type} (g : β → γ) (o : List (String × β)) (k : String) (v : β) :
    mapVals g (objSet o k v) = objSet (mapVals g o) k (g v) := by
  unfold objSet
  rw [assocGet_mapVals, Option.isSome_map']
  by_cases hs : (assocGet o k).isSome = true
  · rw [if_pos hs, if_pos hs, mapVals_assocSet]
  · rw [if_neg hs, if_neg hs]
    cases arrayIndex k with
    | none =>
      simp only
      rw [mapVals_append]
      rfl
    | some i => exact mapVals_insertIndexed g i k v o

theorem mapVals_foldl_objSet {α β γ : Type} (g : β → γ) (f1 : α → β)
    (es : List (String × α)) :
    ∀ acc : List (String × β),
      mapVals g (es.foldl (fun a e => objSet a e.1 (f1 e.2)) acc) =
        es.foldl (fun a e => objSet a e.1 (g (f1 e.2))) (mapVals g acc) := by
  induction es with
  | nil => intro acc; rfl
  | cons e rest ih =>
    intro acc
    rw [List.foldl_cons, List.foldl_cons, ih, mapVals_objSet]

theorem foldl_objSet_mapVals {α β γ : Type} (g : α → β) (f1 : β → γ)
    (es : List (String × α)) (acc : List (String × γ)) :
    (mapVals g es).foldl (fun a e => objSet a e.1 (f1 e.2)) acc =
      es.foldl (fun a e => objSet a e.1 (f1 (g e.2))) acc := by
  unfold mapVals
  rw [List.foldl_map]

theorem store_read_new (store new : ObjectStore) (i : Nat) :
    ObjectStore.read (store ++ new) (store.length + i) = new.getD i [] := by
  unfold ObjectStore.read
  rw [List.getD_eq_getElem?_getD, List.getD_eq_getElem?_getD,
    List.getElem?_append_right (Nat.le_add_right _ _)]
  simp

theorem store_read_old (store new : ObjectStore) (i : Nat) (h : i < store.length) :
    ObjectStore.read (store ++ new) i = ObjectStore.read store i := by
  unfold ObjectStore.read
  rw [List.getD_eq_getElem?_getD, List.getD_eq_getElem?_getD, List.getElem?_append_left h]

theorem store_setProp_new (store new : ObjectStore) (i : Nat) (k : String) (v : HeapVal) :
    ObjectStore.setProp (store ++ new) (store.length + i) k v =
      store ++ new.set i (objAssign (new.getD i []) k v) := by
  unfold ObjectStore.setProp
  rw [store_read_new, List.set_append_right _ _ (Nat.le_add_right _ _)]
  simp

theorem sanitize_loop_eq (store : ObjectStore) (es : HeapObject) :
    ∀ acc : HeapObject,
      es.foldl (fun st e => ObjectStore.setProp st store.length e.1
          (HeapVal.bool (toBooleanRef e.2))) (store ++ [acc]) =
        store ++ [es.foldl (fun a e => objAssign a e.1 (HeapVal.bool (toBooleanRef e.2))) acc] := by
  induction es with
  | nil => intro acc; rfl
  | cons e rest ih =>
    intro acc
    rw [List.foldl_cons, List.foldl_cons]
    have := store_setProp_new store [acc] 0 e.1 (HeapVal.bool (toBooleanRef e.2))
    rw [Nat.add_zero] at this
    rw [this]
    exact ih _

theorem sanitizeSectionRef_eq (store : ObjectStore) (v : HeapVal) :
    sanitizeSectionRef store v =
      (store ++ [sanitizeEntries (refEntries store v)], store.length) := by
  unfold sanitizeSectionRef ObjectStore.alloc sanitizeEntries
  rw [sanitize_loop_eq]

theorem sanitizeEntries_eq (es : HeapObject) :
    sanitizeEntries es =
      (es.filter (fun e => decide (e.1 ≠ "__proto__"))).foldl
        (fun a e => objSet a e.1 (HeapVal.bool (toBooleanRef e.2))) [] :=
  foldl_objAssign_filter (fun e : String × HeapVal => e.1)
    (fun e => HeapVal.bool (toBooleanRef e.2)) es [] rfl

theorem mapVals_filter_proto {β γ : Type} (g : β → γ) (es : List (String × β)) :
    (mapVals g es).filter (fun e => decide (e.1 ≠ "__proto__")) =
      mapVals g (es.filter (fun e => decide (e.1 ≠ "__proto__"))) := by
  unfold mapVals
  rw [List.filter_map]
  rfl

theorem sanitizeStepRef_eq (store : ObjectStore) (S : HeapObject) (rest : List HeapObject)
    (s : String) (hs : s ≠ "__proto__") :
    sanitizeStepRef store.length (store ++ S :: rest) s =
      store ++ (objSet S s (HeapVal.ref (store ++ S :: rest).length) ::
        (rest ++ [sanitizeEntries (refEntries (store ++ S :: rest)
          ((assocGet S s).getD HeapVal.undefined))])) := by
  unfold sanitizeStepRef
  have hget : ObjectStore.getProp (store ++ S :: rest) store.length s =
      (assocGet S s).getD HeapVal.undefined := by
    unfold ObjectStore.getProp
    have := store_read_new store (S :: rest) 0
    rw [Nat.add_zero] at this
    rw [this]
    rfl
  rw [hget, sanitizeSectionRef_eq]
  simp only
  have := store_setProp_new store (S :: rest ++ [sanitizeEntries (refEntries (store ++ S :: rest)
    ((assocGet S s).getD HeapVal.undefined))]) 0 s (HeapVal.ref (store ++ S :: rest).length)
  rw [Nat.add_zero] at this
  rw [List.append_assoc store (S :: rest), this]
  show store ++ (objAssign S s (HeapVal.ref (store ++ S :: rest).length) ::
    (rest ++ [sanitizeEntries (refEntries (store ++ S :: rest)
      ((assocGet S s).getD HeapVal.undefined))])) = _
  rw [objAssign_of_ne _ _ _ hs]

theorem decode_truthy (store : ObjectStore) (d : Nat) (v : HeapVal) :
    (decode store d v).truthy = v.truthy := by
  cases v <;> cases d <;> rfl

theorem decode_isUndefined (store : ObjectStore) (d : Nat) (v : HeapVal) :
    (decode store d v).isUndefined = v.isUndefined := by
  cases v <;> cases d <;> rfl

theorem toBoolean_decode (store : ObjectStore) (d : Nat) (v : HeapVal) :
    toBoolean (decode store d v) = toBooleanRef v := by
  cases v <;> cases d <;> rfl

theorem decode_bool (store : ObjectStore) (d : Nat) (b : Bool) :
    decode store d (HeapVal.bool b) = JsVal.bool b := by
  cases d <;> rfl

theorem decode_str (store : ObjectStore) (d : Nat) (s : String) :
    decode store d (HeapVal.str s) = JsVal.str s := by
  cases d <;> rfl

theorem decode_undefined (store : ObjectStore) (d : Nat) :
    decode store d HeapVal.undefined = JsVal.undefined := by
  cases d <;> rfl

theorem decode_ref (store : ObjectStore) (d r : Nat) :
    decode store (d + 1) (HeapVal.ref r) =
      JsVal.obj (mapVals (decode store d) (store.read r)) := rfl

theorem objGet_mapVals_decode (store : ObjectStore) (d : Nat) (o : HeapObject) (k : String) :
    objGet (mapVals (decode store d) o) k =
      decode store d ((assocGet o k).getD HeapVal.undefined) := by
  unfold objGet
  rw [assocGet_mapVals]
  cases assocGet o k with
  | none => exact (decode_undefined store d).symm
  | some v => rfl

theorem store_read_mem (store : ObjectStore) (r : Nat) (h : r < store.length) :
    ObjectStore.read store r ∈ store := by
  unfold ObjectStore.read
  rw [List.getD_eq_getElem?_getD, List.getElem?_eq_getElem h]
  exact List.getElem_mem _

theorem mapVals_congr {β γ : Type} (g1 g2 : β → γ) (o : List (String × β))
    (h : ∀ e ∈ o, g1 e.2 = g2 e.2) : mapVals g1 o = mapVals g2 o := by
  unfold mapVals
  apply List.map_congr_left
  intro e he
  rw [h e he]

theorem decode_old (store new : ObjectStore) (hclosed : store.Closed) (d : Nat) :
    ∀ v : HeapVal, v.Within store.length → decode (store ++ new) d v = decode store d v := by
  induction d with
  | zero => intro v _; cases v <;> rfl
  | succ d ih =>
    intro v hv
    cases v with
    | ref r =>
      have hr : r < store.length := hv
      rw [decode_ref, decode_ref, store_read_old store new r hr]
      congr 1
      apply mapVals_congr
      intro e he
      exact ih e.2 (hclosed _ (store_read_mem store r hr) e he)
    | _ => rfl

theorem decode_settled (store : ObjectStore) (S S2 : HeapObject) (rest more : List HeapObject)
    (hclosed : store.Closed) (hrest : ∀ o ∈ rest, ∀ e ∈ o, e.2.Within store.length)
    (d : Nat) (v : HeapVal) (hv : v.Settled store.length (store ++ S :: rest).length) :
    decode (store ++ S2 :: (rest ++ more)) d v = decode (store ++ S :: rest) d v := by
  cases v with
  | ref r =>
    cases d with
    | zero => rfl
    | succ d =>
      obtain ⟨hne, hlt⟩ := hv
      rw [decode_ref, decode_ref]
      congr 1
      by_cases hr : r < store.length
      · rw [store_read_old _ _ r hr, store_read_old _ _ r hr]
        apply mapVals_congr
        intro e he
        rw [decode_old store _ hclosed d e.2 (hclosed _ (store_read_mem store r hr) e he),
          decode_old store _ hclosed d e.2 (hclosed _ (store_read_mem store r hr) e he)]
      · have hlen : (store ++ S :: rest).length = store.length + (rest.length + 1) := by simp
        rw [hlen] at hlt
        obtain ⟨i, hi⟩ : ∃ i, r = store.length + (i + 1) := ⟨r - store.length - 1, by omega⟩
        have hi2 : i < rest.length := by omega
        subst hi
        rw [store_read_new, store_read_new]
        have h1 : (S2 :: (rest ++ more)).getD (i + 1) [] = rest.getD i [] := by
          rw [List.getD_cons_succ, List.getD_eq_getElem?_getD, List.getD_eq_getElem?_getD,
            List.getElem?_append_left hi2]
        have h2 : (S :: rest).getD (i + 1) [] = rest.getD i [] := List.getD_cons_succ
        rw [h1, h2]
        have hmem : rest.getD i [] ∈ rest := by
          rw [List.getD_eq_getElem?_getD, List.getElem?_eq_getElem hi2]
          exact List.getElem_mem _
        apply mapVals_congr
        intro e he
        rw [decode_old store _ hclosed d e.2 (hrest _ hmem e he),
          decode_old store _ hclosed d e.2 (hrest _ hmem e he)]
  | _ => cases d <;> rfl

theorem sanitize_commute (store store2 : ObjectStore) (d d2 : Nat) (es : HeapObject) :
    mapVals (decode store2 d2) (sanitizeEntries es) =
      sanitizeSection (JsVal.obj (mapVals (decode store d) es)) := by
  rw [sanitizeEntries_eq, sanitizeSection_obj, mapVals_filter_proto]
  rw [mapVals_foldl_objSet (decode store2 d2) (fun v : HeapVal => HeapVal.bool (toBooleanRef v))
    (es.filter (fun e => decide (e.1 ≠ "__proto__"))) []]
  rw [foldl_objSet_mapVals (decode store d) (fun w => JsVal.bool (toBoolean w))]
  congr 1
  funext a e
  rw [decode_bool, toBoolean_decode]

theorem spread_commute (store : ObjectStore) (d : Nat) (es : HeapObject) :
    mapVals (decode store d) (spreadEntries es) = spread (mapVals (decode store d) es) := by
  unfold spreadEntries spread
  rw [mapVals_foldl_objSet (decode store d) (fun v : HeapVal => v)]
  exact (foldl_objSet_mapVals (decode store d) (fun v : JsVal => v) es []).symm

theorem spreadVal_decode (store : ObjectStore) (d : Nat) (v : HeapVal) :
    spreadVal (decode store (d + 1) v) =
      mapVals (decode store d) (spreadEntries (refEntries store v)) := by
  cases v with
  | ref r =>
    rw [decode_ref]
    exact (spread_commute store d (store.read r)).symm
  | _ => rfl

theorem mem_foldl_objSet_values {α β : Type} (f1 : α → β) (es : List (String × α)) :
    ∀ (acc : List (String × β)) (x : String × β),
      x ∈ es.foldl (fun a e => objSet a e.1 (f1 e.2)) acc →
      x ∈ acc ∨ ∃ e ∈ es, x.2 = f1 e.2 := by
  induction es with
  | nil => intro acc x hx; exact Or.inl hx
  | cons e rest ih =>
    intro acc x hx
    rw [List.foldl_cons] at hx
    rcases ih _ x hx with h | ⟨e2, he2, hx2⟩
    · rcases mem_objSet acc e.1 (f1 e.2) x h with h2 | h2
      · exact Or.inr ⟨e, List.mem_cons_self _ _, by rw [h2]⟩
      · exact Or.inl h2
    · exact Or.inr ⟨e2, List.mem_cons_of_mem _ he2, hx2⟩

theorem sanitizeSection_decode (store : ObjectStore) (d : Nat) (v : HeapVal) :
    sanitizeSection (decode store (d + 1) v) =
      sanitizeSection (JsVal.obj (mapVals (decode store d) (refEntries store v))) := by
  cases v <;> rfl

theorem settled_mono (n m m2 : Nat) (v : HeapVal) (h : v.Settled n m) (hm : m ≤ m2) :
    v.Settled n m2 := by
  cases v with
  | ref r => exact ⟨h.1, Nat.lt_of_lt_of_le h.2 hm⟩
  | _ => trivial

theorem settled_of_within (n m : Nat) (v : HeapVal) (h : v.Within n) (hm : n ≤ m) :
    v.Settled n m := by
  cases v with
  | ref r =>
    have hr : r < n := h
    exact ⟨Nat.ne_of_lt hr, Nat.lt_of_lt_of_le hr hm⟩
  | _ => trivial

theorem sanitizeEntries_within (n : Nat) (es : HeapObject) :
    ∀ e ∈ sanitizeEntries es, e.2.Within n := by
  intro e he
  rw [sanitizeEntries_eq] at he
  rcases mem_foldl_objSet_values (fun v : HeapVal => HeapVal.bool (toBooleanRef v)) _ [] e he
    with h | ⟨e0, _, h0⟩
  · exact absurd h (List.not_mem_nil _)
  · rw [h0]
    trivial

theorem read_last (store : ObjectStore) (S S2 : HeapObject) (rest : List HeapObject)
    (F : HeapObject) :
    ObjectStore.read (store ++ S2 :: (rest ++ [F])) (store ++ S :: rest).length = F := by
  have hlen : (store ++ S :: rest).length = store.length + (rest.length + 1) := by simp
  rw [hlen, store_read_new, List.getD_cons_succ, List.getD_eq_getElem?_getD,
    List.getElem?_append_right (Nat.le_refl _)]
  simp

theorem sections_fold_link (store : ObjectStore) (hclosed : store.Closed) (f : Nat)
    (sections : List String) (hsections : ∀ s ∈ sections, s ≠ "__proto__") :
    ∀ (S : HeapObject) (rest : List HeapObject) (X : JsObject),
      (∀ e ∈ S, e.2.Settled store.length (store ++ S :: rest).length) →
      (∀ o ∈ rest, ∀ e ∈ o, e.2.Within store.length) →
      mapVals (decode (store ++ S :: rest) (f + 1)) S = X →
      ∃ S2 rest2,
        sections.foldl (sanitizeStepRef store.length) (store ++ S :: rest) =
            store ++ S2 :: rest2 ∧
          mapVals (decode (store ++ S2 :: rest2) (f + 1)) S2 =
            sections.foldl sanitizeStep X := by
  induction sections with
  | nil => intro S rest X _ _ ha; exact ⟨S, rest, rfl, ha⟩
  | cons s more ih =>
    intro S rest X hb hc ha
    rw [List.foldl_cons, List.foldl_cons,
      sanitizeStepRef_eq store S rest s (hsections s (List.mem_cons_self _ _))]
    have hlen : (store ++ S :: rest).length = store.length + (rest.length + 1) := by simp
    apply ih (fun t ht => hsections t (List.mem_cons_of_mem _ ht))
    · intro e he
      rcases mem_objSet S s _ e he with h | h
      · rw [h]
        refine ⟨by rw [hlen]; omega, by simp⟩
      · exact settled_mono _ _ _ _ (hb e h) (by simp)
    · intro o ho
      rcases List.mem_append.1 ho with h | h
      · exact hc o h
      · rw [List.mem_singleton] at h
        rw [h]
        exact sanitizeEntries_within _ _
    · rw [mapVals_objSet]
      have hS : mapVals (decode (store ++ objSet S s (HeapVal.ref (store ++ S :: rest).length) ::
          (rest ++ [sanitizeEntries (refEntries (store ++ S :: rest)
            ((assocGet S s).getD HeapVal.undefined))])) (f + 1)) S = X := by
        rw [← ha]
        apply mapVals_congr
        intro e he
        exact decode_settled store S _ rest _ hclosed hc (f + 1) e.2 (hb e he)
      rw [hS, decode_ref, read_last]
      unfold sanitizeStep
      congr 2
      rw [sanitize_commute (store ++ S :: rest) _ f f, ← ha, objGet_mapVals_decode,
        sanitizeSection_decode]

theorem getProp_new (store : ObjectStore) (S : HeapObject) (rest : List HeapObject)
    (k : String) :
    ObjectStore.getProp (store ++ S :: rest) store.length k =
      (assocGet S k).getD HeapVal.undefined := by
  unfold ObjectStore.getProp
  have := store_read_new store (S :: rest) 0
  rw [Nat.add_zero] at this
  rw [this]
  rfl

theorem setProp_head (store : ObjectStore) (S : HeapObject) (rest : List HeapObject)
    (k : String) (v : HeapVal) (hk : k ≠ "__proto__") :
    ObjectStore.setProp (store ++ S :: rest) store.length k v =
      store ++ objSet S k v :: rest := by
  have := store_setProp_new store (S :: rest) 0 k v
  rw [Nat.add_zero] at this
  rw [this]
  show store ++ objAssign S k v :: rest = _
  rw [objAssign_of_ne _ _ _ hk]

theorem getProp_second (store : ObjectStore) (S P : HeapObject) (k : String) :
    ObjectStore.getProp (store ++ [S] ++ [P]) (store ++ [S]).length k =
      (assocGet P k).getD HeapVal.undefined := by
  have := getProp_new (store ++ [S]) P [] k
  exact this

theorem setProp_second (store : ObjectStore) (S P : HeapObject) (k : String) (v : HeapVal)
    (hk : k ≠ "__proto__") :
    ObjectStore.setProp (store ++ [S] ++ [P]) (store ++ [S]).length k v =
      store ++ [S] ++ [objSet P k v] := by
  have := setProp_head (store ++ [S]) P [] k v hk
  exact this

theorem ensureConfigStructureRef_prelude (store : ObjectStore) (config : HeapVal) :
    ensureConfigStructureRef store config =
      (CONFIG_SECTIONS.foldl (sanitizeStepRef store.length)
        (store ++
          [objSet (ensureVersionEntries (spreadEntries (refEntries store config))) "project"
              (HeapVal.ref (store.length + 1)),
            ensureProjectEntries (spreadEntries (refEntries
              (store ++ [ensureVersionEntries (spreadEntries (refEntries store config))])
              ((assocGet (ensureVersionEntries (spreadEntries (refEntries store config)))
                "project").getD HeapVal.undefined)))]),
        store.length) := by
  unfold ensureConfigStructureRef spreadRef ObjectStore.alloc
  simp only
  have hv : (if (ObjectStore.getProp (store ++ [spreadEntries (refEntries store config)])
        store.length "version").truthy = true then
        store ++ [spreadEntries (refEntries store config)]
      else ObjectStore.setProp (store ++ [spreadEntries (refEntries store config)])
        store.length "version" (HeapVal.str "1.0")) =
      store ++ [ensureVersionEntries (spreadEntries (refEntries store config))] := by
    rw [getProp_new, setProp_head _ _ _ _ _ (by decide)]
    unfold ensureVersionEntries
    split <;> rfl
  rw [hv]
  generalize ensureVersionEntries (spreadEntries (refEntries store config)) = Sv
  rw [getProp_new store Sv [] "project"]
  generalize spreadEntries (refEntries (store ++ [Sv]) ((assocGet Sv "project").getD
    HeapVal.undefined)) = P0
  rw [getProp_second, setProp_second _ _ _ _ _ (by decide)]
  have hp : (if ((assocGet P0 "output_directory").getD HeapVal.undefined).isUndefined = true then
        store ++ [Sv] ++ [objSet P0 "output_directory" (HeapVal.str ".awesome-copilot")]
      else store ++ [Sv] ++ [P0]) = store ++ [Sv] ++ [ensureProjectEntries P0] := by
    unfold ensureProjectEntries
    split <;> rfl
  rw [hp]
  have hlen : (store ++ [Sv]).length = store.length + 1 := by simp
  rw [hlen]
  have hset : ObjectStore.setProp (store ++ [Sv] ++ [ensureProjectEntries P0]) store.length
      "project" (HeapVal.ref (store.length + 1)) =
      store ++ [objSet Sv "project" (HeapVal.ref (store.length + 1)),
        ensureProjectEntries P0] := by
    rw [List.append_assoc]
    exact setProp_head store Sv [ensureProjectEntries P0] "project" _ (by decide)
  rw [hset]

theorem sections_fold_shape (store : ObjectStore) (sections : List String)
    (hsections : ∀ s ∈ sections, s ≠ "__proto__") :
    ∀ (S : HeapObject) (rest : List HeapObject),
      ∃ S2 rest2,
        sections.foldl (sanitizeStepRef store.length) (store ++ S :: rest) =
          store ++ S2 :: rest2 := by
  induction sections with
  | nil => intro S rest; exact ⟨S, rest, rfl⟩
  | cons s more ih =>
    intro S rest
    rw [List.foldl_cons,
      sanitizeStepRef_eq store S rest s (hsections s (List.mem_cons_self _ _))]
    exact ih (fun t ht => hsections t (List.mem_cons_of_mem _ ht)) _ _

theorem refEntries_within (store : ObjectStore) (hclosed : store.Closed) (v : HeapVal)
    (hv : v.Within store.length) : ∀ e ∈ refEntries store v, e.2.Within store.length := by
  cases v with
  | ref r => exact hclosed _ (store_read_mem store r hv)
  | _ => intro e he; exact absurd he (List.not_mem_nil _)

theorem refEntries_old (store new : ObjectStore) (v : HeapVal) (hv : v.Within store.length) :
    refEntries (store ++ new) v = refEntries store v := by
  cases v with
  | ref r => exact store_read_old store new r hv
  | _ => rfl

theorem spreadEntries_within (n : Nat) (es : HeapObject) (h : ∀ e ∈ es, e.2.Within n) :
    ∀ e ∈ spreadEntries es, e.2.Within n := by
  intro e he
  rcases mem_foldl_objSet_values (fun v : HeapVal => v) es [] e he with h1 | ⟨e0, he0, h0⟩
  · exact absurd h1 (List.not_mem_nil _)
  · rw [h0]
    exact h e0 he0

theorem ensureVersionEntries_within (n : Nat) (es : HeapObject) (h : ∀ e ∈ es, e.2.Within n) :
    ∀ e ∈ ensureVersionEntries es, e.2.Within n := by
  unfold ensureVersionEntries
  split
  · exact h
  · intro e he
    rcases mem_objSet es _ _ e he with h1 | h1
    · rw [h1]
      trivial
    · exact h e h1

theorem ensureProjectEntries_within (n : Nat) (es : HeapObject) (h : ∀ e ∈ es, e.2.Within n) :
    ∀ e ∈ ensureProjectEntries es, e.2.Within n := by
  unfold ensureProjectEntries
  split
  · intro e he
    rcases mem_objSet es _ _ e he with h1 | h1
    · rw [h1]
      trivial
    · exact h e h1
  · exact h

theorem assocGet_getD_within (n : Nat) (es : HeapObject) (k : String)
    (h : ∀ e ∈ es, e.2.Within n) : ((assocGet es k).getD HeapVal.undefined).Within n := by
  cases hk : assocGet es k with
  | none => trivial
  | some v => exact h (k, v) (mem_of_assocGet es k v hk)

theorem version_link (store : ObjectStore) (d : Nat) (config : HeapVal) :
    mapVals (decode store d) (ensureVersionEntries (spreadEntries (refEntries store config))) =
      ensureVersion (decode store (d + 1) config) := by
  unfold ensureVersion ensureVersionEntries
  rw [spreadVal_decode, objGet_mapVals_decode, decode_truthy]
  split
  · rfl
  · rw [mapVals_objSet, decode_str]

theorem project_link (store : ObjectStore) (d : Nat) (v : HeapVal) :
    mapVals (decode store d) (ensureProjectEntries (spreadEntries (refEntries store v))) =
      ensureProject (decode store (d + 1) v) := by
  unfold ensureProject ensureProjectEntries
  rw [spreadVal_decode, objGet_mapVals_decode, decode_isUndefined]
  split
  · rw [mapVals_objSet, decode_str]
  · rfl

theorem ensure_link (store : ObjectStore) (hclosed : store.Closed) (config : HeapVal)
    (hconfig : config.Within store.length) (f : Nat) :
    ∃ S rest,
      ensureConfigStructureRef store config = (store ++ S :: rest, store.length) ∧
        mapVals (decode (store ++ S :: rest) (f + 1)) S =
          ensureConfigStructure (decode store (f + 2) config) := by
  rw [ensureConfigStructureRef_prelude]
  have hSv : ∀ e ∈ ensureVersionEntries (spreadEntries (refEntries store config)),
      e.2.Within store.length :=
    ensureVersionEntries_within _ _ (spreadEntries_within _ _
      (refEntries_within store hclosed config hconfig))
  have hvlink := version_link store (f + 1) config
  generalize ensureVersionEntries (spreadEntries (refEntries store config)) = Sv at hSv hvlink ⊢
  have hpv : ((assocGet Sv "project").getD HeapVal.undefined).Within store.length :=
    assocGet_getD_within _ Sv "project" hSv
  rw [refEntries_old store [Sv] _ hpv]
  have hPe : ∀ e ∈ ensureProjectEntries (spreadEntries (refEntries store
      ((assocGet Sv "project").getD HeapVal.undefined))), e.2.Within store.length :=
    ensureProjectEntries_within _ _ (spreadEntries_within _ _
      (refEntries_within store hclosed _ hpv))
  have hplink := project_link store f ((assocGet Sv "project").getD HeapVal.undefined)
  generalize ensureProjectEntries (spreadEntries (refEntries store
    ((assocGet Sv "project").getD HeapVal.undefined))) = Pe at hPe hplink ⊢
  obtain ⟨S2, rest2, hfold, hmap⟩ := sections_fold_link store hclosed f CONFIG_SECTIONS (by decide)
    (objSet Sv "project" (HeapVal.ref (store.length + 1))) [Pe]
    (objSet (ensureVersion (decode store (f + 2) config)) "project"
      (JsVal.obj (ensureProject (objGet (ensureVersion (decode store (f + 2) config))
        "project"))))
    (by
      intro e he
      rcases mem_objSet Sv _ _ e he with h | h
      · rw [h]
        exact ⟨by omega, by simp⟩
      · exact settled_of_within _ _ _ (hSv e h) (by simp))
    (by
      intro o ho
      rw [List.mem_singleton] at ho
      rw [ho]
      exact hPe)
    (by
      rw [mapVals_objSet]
      have h1 : mapVals (decode (store ++ [objSet Sv "project" (HeapVal.ref (store.length + 1)),
          Pe]) (f + 1)) Sv = ensureVersion (decode store (f + 2) config) := by
        rw [← hvlink]
        apply mapVals_congr
        intro e he
        exact decode_old store _ hclosed (f + 1) e.2 (hSv e he)
      have h2 : ObjectStore.read (store ++ [objSet Sv "project"
          (HeapVal.ref (store.length + 1)), Pe]) (store.length + 1) = Pe := by
        rw [store_read_new]
        rfl
      have h3 : mapVals (decode (store ++ [objSet Sv "project"
          (HeapVal.ref (store.length + 1)), Pe]) f) Pe =
          ensureProject (objGet (ensureVersion (decode store (f + 2) config)) "project") := by
        rw [← hvlink, objGet_mapVals_decode, ← hplink]
        apply mapVals_congr
        intro e he
        exact decode_old store _ hclosed f e.2 (hPe e he)
      rw [h1, decode_ref, h2, h3])
  exact ⟨S2, rest2, by rw [hfold], hmap⟩

/-- Claim C32. Sanitization is idempotent and pure: `ensureConfigStructure` applied to its
own result gives that result again; and run on a store of objects, where it assigns in
place, it returns a new object and leaves every object that existed before the call, the
argument and its project and section maps among them, as it was. The object it returns
there stands for the value that `ensureConfigStructure` gives for the value of the
argument. -/
theorem sanitization_is_idempotent_and_pure :
    (∀ config : JsVal,
        ensureConfigStructure (JsVal.obj (ensureConfigStructure config)) =
          ensureConfigStructure config) ∧
      (∀ (store : ObjectStore) (config : HeapVal),
        (ensureConfigStructureRef store config).2 = store.length ∧
          (∃ created, (ensureConfigStructureRef store config).1 = store ++ created) ∧
          ∀ r, r < store.length →
            (ensureConfigStructureRef store config).1.read r = store.read r) ∧
      (∀ (store : ObjectStore) (config : HeapVal) (depth : Nat),
        store.Closed → config.Within store.length →
        decode (ensureConfigStructureRef store config).1 (depth + 2)
            (HeapVal.ref (ensureConfigStructureRef store config).2) =
          JsVal.obj (ensureConfigStructure (decode store (depth + 2) config))) := by
  refine ⟨ensureConfigStructure_idem, ?_, ?_⟩
  · intro store config
    rw [ensureConfigStructureRef_prelude]
    obtain ⟨S2, rest2, h⟩ := sections_fold_shape store CONFIG_SECTIONS (by decide)
      (objSet (ensureVersionEntries (spreadEntries (refEntries store config))) "project"
        (HeapVal.ref (store.length + 1)))
      [ensureProjectEntries (spreadEntries (refEntries
        (store ++ [ensureVersionEntries (spreadEntries (refEntries store config))])
        ((assocGet (ensureVersionEntries (spreadEntries (refEntries store config)))
          "project").getD HeapVal.undefined)))]
    simp only
    rw [h]
    exact ⟨trivial, ⟨_, rfl⟩, fun r hr => store_read_old store _ r hr⟩
  · intro store config depth hclosed hconfig
    obtain ⟨S, rest, heq, hmap⟩ := ensure_link store hclosed config hconfig depth
    rw [heq]
    simp only
    rw [decode_ref]
    have hread : ObjectStore.read (store ++ S :: rest) store.length = S := by
      have := store_read_new store (S :: rest) 0
      rw [Nat.add_zero] at this
      rw [this]
      rfl
    rw [hread, hmap]

theorem demoStore_closed : demoStore.Closed := by
  intro o ho e he
  simp only [demoStore, List.mem_cons, List.mem_singleton, List.not_mem_nil, or_false] at ho
  rcases ho with rfl | rfl | rfl
  · simp only [List.mem_cons, List.mem_singleton, List.not_mem_nil, or_false] at he
    rcases he with rfl | rfl | rfl | rfl
    · trivial
    · trivial
    · show 1 < 3
      decide
    · show 2 < 3
      decide
  · simp only [List.mem_cons, List.mem_singleton, List.not_mem_nil, or_false] at he
    rcases he with rfl
    trivial
  · simp only [List.mem_cons, List.mem_singleton, List.not_mem_nil, or_false] at he
    rcases he with rfl | rfl
    · trivial
    · trivial

theorem sanitization_is_idempotent_and_pure_witness :
    decode (ensureConfigStructureRef demoStore (HeapVal.ref 0)).1 2
        (HeapVal.ref (ensureConfigStructureRef demoStore (HeapVal.ref 0)).2) =
      JsVal.obj (ensureConfigStructure (decode demoStore 2 (HeapVal.ref 0))) :=
  sanitization_is_idempotent_and_pure.2.2 demoStore (HeapVal.ref 0) 0 demoStore_closed
    (show 0 < 3 by decide)

end AwesomeCopilot
